import Mathlib

/-!
# Mython: runtime values, operator dispatch and the statement evaluator

A shallow embedding of `runtime.cpp`, `statement.h` and `statement.cpp`.

* A C++ `ObjectHolder` is an `Option Object`; the empty holder is `none`.
* `Number`, `String`, `Bool` and `Class` objects are immutable and are embedded by value.
  A `ClassInstance` is mutable and shared, so it lives in a heap and a holder of it carries
  its address.
* `Execute(closure, context)` becomes a function of the closure and of the `World` (heap and
  output stream) that returns the new closure and world together with either a holder or the
  way evaluation was cut short (`Exn`).
* Recursion through user method calls is bounded by a fuel argument.
-/

namespace Mython

/-! ## Generic association lists (the `std::unordered_map` of the source) -/

/-- The entry stored under key `k`, as `map.find(k)`. -/
def assocFind {κ α : Type} [DecidableEq κ] (k : κ) : List (κ × α) → Option α
  | [] => none
  | (k1, v1) :: t => if k1 = k then some v1 else assocFind k t

/-- Insert or replace, as `map[k] = v`. -/
def assocSet {κ α : Type} [DecidableEq κ] (k : κ) (v : α) : List (κ × α) → List (κ × α)
  | [] => [(k, v)]
  | (k1, v1) :: t => if k1 = k then (k, v) :: t else (k1, v1) :: assocSet k v t

/-! ## Data model -/

/-- The comparators of `runtime.cpp`; a `Comparison` node holds one of them. -/
inductive Comparator where
  | Equal
  | NotEqual
  | Less
  | Greater
  | LessOrEqual
  | GreaterOrEqual

mutual
/-- A runtime object: `Number`, `String`, `Bool`, `Class`, or a `ClassInstance` given by the
address of the instance in the heap. The characters of a `String` payload stand for the bytes of
the `std::string`, which the source compares as unsigned values. -/
inductive Object where
  | number (value : Int)
  | string (value : String)
  | bool (value : Bool)
  | cls (c : Class)
  | classInstance (addr : Nat)
/-- The arguments of the constructor `Class::Class(name, methods, parent)`. -/
inductive Class where
  | mk (name_ : String) (methods_ : List Method) (parent_ : Option Class)
/-- A method record `runtime::Method`. -/
inductive Method where
  | mk (name : String) (formal_params : List String) (body : Statement)
/-- The nodes of `statement.h`. A `std::unique_ptr<Statement>` that the code tests against null
is an `Option Statement`; the other children are taken to be non-null. The `NewInstance` node
owns one `ClassInstance` (its member `class_inst_`), given here by its heap address. -/
inductive Statement where
  | NumericConst (value_ : Int)
  | StringConst (value_ : String)
  | BoolConst (value_ : Bool)
  | None
  | VariableValue (dotted_ids_ : List String)
  | Assignment (var_ : String) (rv_ : Statement)
  | FieldAssignment (object_ : List String) (field_name_ : String) (rv_ : Statement)
  | NewInstance (class_inst_ : Nat) (class_ : Class) (args_ : List Statement)
  | MethodCall (object_ : Statement) (method_name_ : String) (args_ : List Statement)
  | Compound (statements_ : List Statement)
  | Return (statement_ : Statement)
  | MethodBody (body_ : Statement)
  | ClassDefinition (cls_ : Option Object)
  | Print (args_ : List Statement)
  | Stringify (argument_ : Option Statement)
  | Add (lhs_ rhs_ : Option Statement)
  | Sub (lhs_ rhs_ : Option Statement)
  | Mult (lhs_ rhs_ : Option Statement)
  | Div (lhs_ rhs_ : Option Statement)
  | Or (lhs_ rhs_ : Option Statement)
  | And (lhs_ rhs_ : Option Statement)
  | Not (argument_ : Option Statement)
  | Comparison (cmp_ : Comparator) (lhs_ rhs_ : Option Statement)
  | IfElse (condition_ if_body_ : Statement) (else_body_ : Option Statement)
end

/-- An `ObjectHolder`; `none` is the empty holder (`ObjectHolder::None()`). -/
abbrev ObjectHolder := Option Object

/-- A `Closure`: a map from names to holders. -/
abbrev Closure := List (String × ObjectHolder)

/-- A `ClassInstance`: its class and its field closure. -/
structure ClassInstance where
  cls_ : Class
  fields_ : Closure

/-- The heap: the live class instances by address. -/
abbrev Heap := List (Nat × ClassInstance)

/-- What a statement can change besides its closure: the heap and the text written so far to
the output stream of the `Context`. -/
structure World where
  heap : Heap
  output : String

/-- The ways an evaluation is cut short. `runtime_error` and `RuntimeReturnExeption` are the two
C++ exceptions thrown by the code; `undefinedBehaviour` stands for a dereference of a null pointer
or of an empty holder; `outOfFuel` belongs to the embedding only. -/
inductive Exn where
  | runtime_error (what : String)
  | RuntimeReturnExeption (obj_ : ObjectHolder)
  | undefinedBehaviour
  | outOfFuel

/-- What `Execute` yields: a holder or an exception, with the closure and the world it leaves. -/
abbrev Outcome := Except Exn ObjectHolder × Closure × World

/-- The interface `runtime::Executable`. -/
abbrev Executable := Statement → Closure → World → Outcome

def Class.GetName : Class → String
  | .mk name_ _ _ => name_

def Class.methods_ : Class → List Method
  | .mk _ methods_ _ => methods_

def Class.GetParent : Class → Option Class
  | .mk _ _ parent_ => parent_

def Method.name : Method → String
  | .mk name _ _ => name

def Method.formal_params : Method → List String
  | .mk _ formal_params _ => formal_params

def Method.body : Method → Statement
  | .mk _ _ body => body

/-- Append text to the output stream. -/
def World.write (w : World) (s : String) : World :=
  World.mk w.heap (w.output ++ s)

/-! ## `ObjectHolder::TryAs<T>` -/

def TryAsNumber : ObjectHolder → Option Int
  | some (.number v) => some v
  | _ => none

def TryAsString : ObjectHolder → Option String
  | some (.string v) => some v
  | _ => none

def TryAsBool : ObjectHolder → Option Bool
  | some (.bool v) => some v
  | _ => none

def TryAsClass : ObjectHolder → Option Class
  | some (.cls c) => some c
  | _ => none

def TryAsClassInstance : ObjectHolder → Option Nat
  | some (.classInstance a) => some a
  | _ => none

/-! ## Machine integers -/

/-- Modelled from the spec: `runtime.h`, which declares the payload type of `Number`, is absent;
the spec gives a signed integer with 32-bit two's-complement semantics. `wrapInt` reduces an
integer to that range; it is the identity on the representable integers. (In C++ a signed result
out of range is undefined; the embedding follows the two's-complement reading of the spec.) -/
def wrapInt (x : Int) : Int :=
  (x + 2147483648) % 4294967296 - 2147483648

/-! ## `runtime.cpp` -/

def SELF_OBJECT : String := "self"
def STR_METHOD : String := "__str__"
def EQ_METHOD : String := "__eq__"
def LT_METHOD : String := "__lt__"

/-- The function `IsTrue`. The last test of the source, `TryAs<ValueObject<bool>>`, can only
succeed on a `Bool`, which the first test has already handled. -/
def IsTrue (object : ObjectHolder) : Bool :=
  if object.isNone then false
  else match TryAsBool object with
    | some b => b
    | none =>
      match TryAsNumber object with
      | some n => n != 0
      | none =>
        match TryAsString object with
        | some s => if s = "" then false else true
        | none =>
          match TryAsBool object with
          | some b => b
          | none => false

/-- The map `name_to_method_` as the constructor `Class::Class` fills it: the methods of the
parent's own list `parent_->methods_`, then the class's own methods, later entries replacing
earlier ones of the same name. -/
def Class.name_to_method_ (c : Class) : List (String × Method) :=
  let fromParent : List (String × Method) :=
    match c.GetParent with
    | some parent => parent.methods_.foldl (fun m method => assocSet method.name method m) []
    | none => []
  c.methods_.foldl (fun m method => assocSet method.name method m) fromParent

/-- The method `Class::GetMethod`. -/
def Class.GetMethod (c : Class) (name : String) : Option Method :=
  assocFind name c.name_to_method_

/-- The method `ClassInstance::HasMethod`. -/
def ClassInstance.HasMethod (self : ClassInstance) (method : String) (argument_count : Nat) : Bool :=
  match self.cls_.GetMethod method with
  | some ptr => if ptr.formal_params.length = argument_count then true else false
  | none => false

/-- The loop of `ClassInstance::Call` that binds `formal_params[i]` to `actual_args[i]`, from
index `i` on; `none` when it reads `actual_args` past its end. -/
def ClassInstance.bindArgs (actual_args : List ObjectHolder) : List String → Nat → Closure → Option Closure
  | [], _, cl => some cl
  | arg :: rest, i, cl =>
    match actual_args.get? i with
    | some a => ClassInstance.bindArgs actual_args rest (i + 1) (assocSet arg a cl)
    | none => none

/-- The method `ClassInstance::Call`, on the instance at address `self`. -/
def ClassInstance.Call (exec : Executable) (self : Nat) (method : String)
    (actual_args : List ObjectHolder) (w : World) : Except Exn ObjectHolder × World :=
  match assocFind self w.heap with
  | none => (.error .undefinedBehaviour, w)
  | some inst =>
    if !inst.HasMethod method actual_args.length then
      (.error (.runtime_error "No method found"), w)
    else
      match inst.cls_.GetMethod method with
      | none => (.error .undefinedBehaviour, w)
      | some method_ptr =>
        match ClassInstance.bindArgs actual_args method_ptr.formal_params 0
            (assocSet SELF_OBJECT (some (.classInstance self)) []) with
        | none => (.error .undefinedBehaviour, w)
        | some cl =>
          match exec method_ptr.body cl w with
          | (r, _, w1) => (r, w1)

/-- The identity token that `os << this` writes for the instance at `addr`. -/
def addressToken (addr : Nat) : String :=
  "0x" ++ String.mk (Nat.toDigits 16 addr)

/-- The virtual method `Object::Print(os, context)`, where `os` is the output stream of
`context`. Printing an instance calls `__str__` and prints what it returns. -/
def Object.Print (exec : Executable) : Nat → Object → World → Except Exn Unit × World
  | 0, _, w => (.error .outOfFuel, w)
  | _ + 1, .number v, w => (.ok (), w.write (toString v))
  | _ + 1, .string v, w => (.ok (), w.write v)
  | _ + 1, .bool v, w => (.ok (), w.write (if v then "True" else "False"))
  | _ + 1, .cls c, w => (.ok (), (w.write "Class ").write c.GetName)
  | fuel + 1, .classInstance self, w =>
    match assocFind self w.heap with
    | none => (.error .undefinedBehaviour, w)
    | some inst =>
      match inst.cls_.GetMethod STR_METHOD with
      | some method_ptr =>
        match ClassInstance.Call exec self method_ptr.name [] w with
        | (.ok (some res), w1) => Object.Print exec fuel res w1
        | (.ok none, w1) => (.error .undefinedBehaviour, w1)
        | (.error e, w1) => (.error e, w1)
      | none => (.ok (), w.write (addressToken self))

/-- The expression `res.TryAs<Bool>()->GetValue()` on the result `res` of a method call: the
payload of a `Bool`; for any other result, the empty holder included, `TryAs<Bool>` is a null
pointer and `GetValue` dereferences it. An exception of the call passes through. -/
def GetBoolValue : Except Exn ObjectHolder × World → Except Exn Bool × World
  | (.ok res, w1) =>
    match TryAsBool res with
    | some b => (.ok b, w1)
    | none => (.error .undefinedBehaviour, w1)
  | (.error e, w1) => (.error e, w1)

/-- Both holders hold a `Number`, or both a `String`, or both a `Bool`: one of the three tests
`l_ptr != nullptr && r_ptr != nullptr` of `Equal` and `Less` succeeds. -/
def SamePrimitive (lhs rhs : ObjectHolder) : Bool :=
  ((TryAsNumber lhs).isSome && (TryAsNumber rhs).isSome)
    || ((TryAsString lhs).isSome && (TryAsString rhs).isSome)
    || ((TryAsBool lhs).isSome && (TryAsBool rhs).isSome)

/-- The function `Equal`. -/
def Equal (exec : Executable) (lhs rhs : ObjectHolder) (w : World) : Except Exn Bool × World :=
  if lhs.isNone && rhs.isNone then (.ok true, w)
  else if lhs.isNone then (.error (.runtime_error "Cannot compare objects for equality"), w)
  else
    match TryAsNumber lhs, TryAsNumber rhs with
    | some l, some r => (.ok (decide (l = r)), w)
    | _, _ =>
      match TryAsString lhs, TryAsString rhs with
      | some l, some r => (.ok (decide (l = r)), w)
      | _, _ =>
        match TryAsBool lhs, TryAsBool rhs with
        | some l, some r => (.ok (decide (l = r)), w)
        | _, _ =>
          match TryAsClassInstance lhs with
          | some self =>
            match assocFind self w.heap with
            | none => (.error .undefinedBehaviour, w)
            | some inst =>
              if inst.HasMethod EQ_METHOD 1 then
                GetBoolValue (ClassInstance.Call exec self EQ_METHOD [rhs] w)
              else (.error (.runtime_error "Cannot compare objects for equality"), w)
          | none => (.error (.runtime_error "Cannot compare objects for equality"), w)

/-- The function `Less`. -/
def Less (exec : Executable) (lhs rhs : ObjectHolder) (w : World) : Except Exn Bool × World :=
  if lhs.isNone then (.error (.runtime_error "Cannot compare objects for equality"), w)
  else
    match TryAsNumber lhs, TryAsNumber rhs with
    | some l, some r => (.ok (decide (l < r)), w)
    | _, _ =>
      match TryAsString lhs, TryAsString rhs with
      | some l, some r => (.ok (decide (l < r)), w)
      | _, _ =>
        match TryAsBool lhs, TryAsBool rhs with
        | some l, some r => (.ok (decide (l < r)), w)
        | _, _ =>
          match TryAsClassInstance lhs with
          | some self =>
            match assocFind self w.heap with
            | none => (.error .undefinedBehaviour, w)
            | some inst =>
              if inst.HasMethod LT_METHOD 1 then
                GetBoolValue (ClassInstance.Call exec self LT_METHOD [rhs] w)
              else (.error (.runtime_error "Cannot compare objects for less"), w)
          | none => (.error (.runtime_error "Cannot compare objects for less"), w)

/-- The function `NotEqual`. -/
def NotEqual (exec : Executable) (lhs rhs : ObjectHolder) (w : World) : Except Exn Bool × World :=
  match Equal exec lhs rhs w with
  | (.ok e, w1) => (.ok (!e), w1)
  | (.error x, w1) => (.error x, w1)

/-- The function `Greater`: `!Less(lhs, rhs) && !Equal(lhs, rhs)`. -/
def Greater (exec : Executable) (lhs rhs : ObjectHolder) (w : World) : Except Exn Bool × World :=
  match Less exec lhs rhs w with
  | (.ok l, w1) =>
    if !l then
      match Equal exec lhs rhs w1 with
      | (.ok e, w2) => (.ok (!e), w2)
      | (.error x, w2) => (.error x, w2)
    else (.ok false, w1)
  | (.error x, w1) => (.error x, w1)

/-- The function `LessOrEqual`: `Less(lhs, rhs) || Equal(lhs, rhs)`. -/
def LessOrEqual (exec : Executable) (lhs rhs : ObjectHolder) (w : World) : Except Exn Bool × World :=
  match Less exec lhs rhs w with
  | (.ok l, w1) =>
    if l then (.ok true, w1)
    else
      match Equal exec lhs rhs w1 with
      | (.ok e, w2) => (.ok e, w2)
      | (.error x, w2) => (.error x, w2)
  | (.error x, w1) => (.error x, w1)

/-- The function `GreaterOrEqual`: `!Less(lhs, rhs)`. -/
def GreaterOrEqual (exec : Executable) (lhs rhs : ObjectHolder) (w : World) : Except Exn Bool × World :=
  match Less exec lhs rhs w with
  | (.ok l, w1) => (.ok (!l), w1)
  | (.error x, w1) => (.error x, w1)

/-- Calling the `std::function` held by a `Comparison` node. -/
def callComparator (exec : Executable) : Comparator → ObjectHolder → ObjectHolder → World → Except Exn Bool × World
  | .Equal => Equal exec
  | .NotEqual => NotEqual exec
  | .Less => Less exec
  | .Greater => Greater exec
  | .LessOrEqual => LessOrEqual exec
  | .GreaterOrEqual => GreaterOrEqual exec

/-! ## `statement.cpp` -/

def ADD_METHOD : String := "__add__"
def INIT_METHOD : String := "__init__"

/-- Evaluate argument expressions left to right, as the loops over `args_` do; the first
exception ends the evaluation. -/
def ExecuteArgs (exec : Executable) : List Statement → Closure → World →
    Except Exn (List ObjectHolder) × Closure × World
  | [], cl, w => (.ok [], cl, w)
  | arg :: rest, cl, w =>
    match exec arg cl w with
    | (.ok v, cl1, w1) =>
      match ExecuteArgs exec rest cl1 w1 with
      | (.ok vs, cl2, w2) => (.ok (v :: vs), cl2, w2)
      | (.error e, cl2, w2) => (.error e, cl2, w2)
    | (.error e, cl1, w1) => (.error e, cl1, w1)

/-- The loop of `VariableValue::Execute` over the remaining identifiers: `closure_ptr` points to
`cl`, and `current` is the holder `current_obj_it->second` of the previous round, if any. -/
def VariableValue.walk (heap : Heap) : List String → Closure → Option ObjectHolder → Except Exn ObjectHolder
  | [], _, some current => .ok current
  | [], _, none => .error .undefinedBehaviour
  | var :: rest, cl, _ =>
    match assocFind var cl with
    | none => .error (.runtime_error "var is not found")
    | some current =>
      match TryAsClassInstance current with
      | none => .ok current
      | some a =>
        match assocFind a heap with
        | none => .error .undefinedBehaviour
        | some inst => VariableValue.walk heap rest inst.fields_ (some current)

/-- The method `VariableValue::Execute`. -/
def VariableValue.Execute (dotted_ids_ : List String) (closure : Closure) (w : World) : Outcome :=
  (VariableValue.walk w.heap dotted_ids_ closure none, closure, w)

/-- The method `Assignment::Execute`. The right-hand side is evaluated before `closure[var_]`
(the sequencing of C++17). -/
def Assignment.Execute (exec : Executable) (var_ : String) (rv_ : Statement)
    (closure : Closure) (w : World) : Outcome :=
  match exec rv_ closure w with
  | (.ok v, cl1, w1) => (.ok v, assocSet var_ v cl1, w1)
  | (.error e, cl1, w1) => (.error e, cl1, w1)

/-- The method `FieldAssignment::Execute`. The right-hand side is evaluated before the null
pointer `clacc_inst_ptr` of a non-instance target is dereferenced. -/
def FieldAssignment.Execute (exec : Executable) (object_ : List String) (field_name_ : String)
    (rv_ : Statement) (closure : Closure) (w : World) : Outcome :=
  match VariableValue.Execute object_ closure w with
  | (.error e, cl0, w0) => (.error e, cl0, w0)
  | (.ok obj, cl0, w0) =>
    match exec rv_ cl0 w0 with
    | (.error e, cl1, w1) => (.error e, cl1, w1)
    | (.ok v, cl1, w1) =>
      match TryAsClassInstance obj with
      | none => (.error .undefinedBehaviour, cl1, w1)
      | some a =>
        match assocFind a w1.heap with
        | none => (.error .undefinedBehaviour, cl1, w1)
        | some inst =>
          (.ok v, cl1,
            World.mk (assocSet a (ClassInstance.mk inst.cls_ (assocSet field_name_ v inst.fields_)) w1.heap)
              w1.output)

/-- The member `class_inst_` of a `NewInstance` node exists, with no fields, from the
construction of the node on; the heap holds it from its first use. -/
def NewInstance.materialize (class_inst_ : Nat) (class_ : Class) (w : World) : World :=
  match assocFind class_inst_ w.heap with
  | some _ => w
  | none => World.mk (assocSet class_inst_ (ClassInstance.mk class_ []) w.heap) w.output

/-- The method `NewInstance::Execute`. -/
def NewInstance.Execute (exec : Executable) (class_inst_ : Nat) (class_ : Class)
    (args_ : List Statement) (closure : Closure) (w : World) : Outcome :=
  match ExecuteArgs exec args_ closure (NewInstance.materialize class_inst_ class_ w) with
  | (.error e, cl1, w1) => (.error e, cl1, w1)
  | (.ok actual_args, cl1, w1) =>
    match assocFind class_inst_ w1.heap with
    | none => (.error .undefinedBehaviour, cl1, w1)
    | some inst =>
      if inst.HasMethod INIT_METHOD args_.length then
        match ClassInstance.Call exec class_inst_ INIT_METHOD actual_args w1 with
        | (.ok _, w2) => (.ok (some (.classInstance class_inst_)), cl1, w2)
        | (.error e, w2) => (.error e, cl1, w2)
      else (.ok (some (.classInstance class_inst_)), cl1, w1)

/-- The method `MethodCall::Execute`. The arguments are evaluated before the null pointer
`class_ptr` of a non-instance receiver is dereferenced. -/
def MethodCall.Execute (exec : Executable) (object_ : Statement) (method_name_ : String)
    (args_ : List Statement) (closure : Closure) (w : World) : Outcome :=
  match exec object_ closure w with
  | (.error e, cl0, w0) => (.error e, cl0, w0)
  | (.ok obj, cl0, w0) =>
    match ExecuteArgs exec args_ cl0 w0 with
    | (.error e, cl1, w1) => (.error e, cl1, w1)
    | (.ok actual_args, cl1, w1) =>
      match TryAsClassInstance obj with
      | none => (.error .undefinedBehaviour, cl1, w1)
      | some a =>
        match ClassInstance.Call exec a method_name_ actual_args w1 with
        | (r, w2) => (r, cl1, w2)

/-- The method `Compound::Execute`. -/
def Compound.Execute (exec : Executable) : List Statement → Closure → World → Outcome
  | [], cl, w => (.ok none, cl, w)
  | statement :: rest, cl, w =>
    match exec statement cl w with
    | (.ok _, cl1, w1) => Compound.Execute exec rest cl1 w1
    | (.error e, cl1, w1) => (.error e, cl1, w1)

/-- The method `Return::Execute`. -/
def Return.Execute (exec : Executable) (statement_ : Statement) (closure : Closure) (w : World) : Outcome :=
  match exec statement_ closure w with
  | (.ok obj, cl1, w1) => (.error (.RuntimeReturnExeption obj), cl1, w1)
  | (.error e, cl1, w1) => (.error e, cl1, w1)

/-- The method `MethodBody::Execute`. -/
def MethodBody.Execute (exec : Executable) (body_ : Statement) (closure : Closure) (w : World) : Outcome :=
  match exec body_ closure w with
  | (.ok _, cl1, w1) => (.ok none, cl1, w1)
  | (.error (.RuntimeReturnExeption obj), cl1, w1) => (.ok obj, cl1, w1)
  | (.error e, cl1, w1) => (.error e, cl1, w1)

/-- The method `ClassDefinition::Execute`, at the first execution of the node (the node gives
its holder away with `std::move`). -/
def ClassDefinition.Execute (cls_ : ObjectHolder) (closure : Closure) (w : World) : Outcome :=
  match TryAsClass cls_ with
  | some obj => (.ok none, assocSet obj.GetName cls_ closure, w)
  | none => (.error .undefinedBehaviour, closure, w)

/-- The loop of `Print::Execute`; `first` tells whether `arg` is `args_.front()` and `obj` is the
local holder of the source. -/
def Print.loop (exec : Executable) (fuel : Nat) : List Statement → Bool → ObjectHolder → Closure → World → Outcome
  | [], _, obj, cl, w => (.ok obj, cl, w)
  | arg :: rest, first, _, cl, w =>
    match exec arg cl (if first then w else w.write " ") with
    | (.error e, cl1, w1) => (.error e, cl1, w1)
    | (.ok (some o), cl1, w1) =>
      match Object.Print exec fuel o w1 with
      | (.ok _, w2) => Print.loop exec fuel rest false (some o) cl1 w2
      | (.error e, w2) => (.error e, cl1, w2)
    | (.ok none, cl1, w1) => Print.loop exec fuel rest false none cl1 (w1.write "None")

/-- The method `Print::Execute`. -/
def Print.Execute (exec : Executable) (fuel : Nat) (args_ : List Statement) (closure : Closure) (w : World) : Outcome :=
  match Print.loop exec fuel args_ true none closure w with
  | (.ok obj, cl1, w1) => (.ok obj, cl1, w1.write "\n")
  | (.error e, cl1, w1) => (.error e, cl1, w1)

/-- The method `Stringify::Execute`. The object is printed into the stream of a `DummyContext`,
which starts empty; the stream of the caller is left as the argument left it. -/
def Stringify.Execute (exec : Executable) (fuel : Nat) (argument_ : Option Statement)
    (closure : Closure) (w : World) : Outcome :=
  match argument_ with
  | none => (.error .undefinedBehaviour, closure, w)
  | some argument =>
    match exec argument closure w with
    | (.error e, cl1, w1) => (.error e, cl1, w1)
    | (.ok none, cl1, w1) => (.ok (some (.string "None")), cl1, w1)
    | (.ok (some o), cl1, w1) =>
      match Object.Print exec fuel o (World.mk w1.heap "") with
      | (.ok _, dummy) => (.ok (some (.string dummy.output)), cl1, World.mk dummy.heap w1.output)
      | (.error e, dummy) => (.error e, cl1, World.mk dummy.heap w1.output)

/-- The common start of the binary operations: the null test of `lhs_` and `rhs_`, then the
evaluation of the left and of the right operand. -/
def BinaryOperation.operands (exec : Executable) (lhs_ rhs_ : Option Statement)
    (closure : Closure) (w : World) : Except Exn (ObjectHolder × ObjectHolder) × Closure × World :=
  match lhs_, rhs_ with
  | some lhs, some rhs =>
    match exec lhs closure w with
    | (.error e, cl1, w1) => (.error e, cl1, w1)
    | (.ok obj_lhs, cl1, w1) =>
      match exec rhs cl1 w1 with
      | (.error e, cl2, w2) => (.error e, cl2, w2)
      | (.ok obj_rhs, cl2, w2) => (.ok (obj_lhs, obj_rhs), cl2, w2)
  | _, _ => (.error (.runtime_error "null operands are not supported"), closure, w)

/-- The part of `Add::Execute` after the operands are evaluated. -/
def Add.apply (exec : Executable) (obj_lhs obj_rhs : ObjectHolder) (w : World) : Except Exn ObjectHolder × World :=
  match TryAsNumber obj_lhs, TryAsNumber obj_rhs with
  | some l_num, some r_num => (.ok (some (.number (wrapInt (l_num + r_num)))), w)
  | _, _ =>
    match TryAsString obj_lhs, TryAsString obj_rhs with
    | some l_str, some r_str => (.ok (some (.string (l_str ++ r_str))), w)
    | _, _ =>
      match TryAsClassInstance obj_lhs with
      | some self =>
        match assocFind self w.heap with
        | none => (.error .undefinedBehaviour, w)
        | some inst =>
          if inst.HasMethod ADD_METHOD 1 then ClassInstance.Call exec self ADD_METHOD [obj_rhs] w
          else (.error (.runtime_error "incorrect add operands"), w)
      | none => (.error (.runtime_error "incorrect add operands"), w)

/-- The method `Add::Execute`. -/
def Add.Execute (exec : Executable) (lhs_ rhs_ : Option Statement) (closure : Closure) (w : World) : Outcome :=
  match BinaryOperation.operands exec lhs_ rhs_ closure w with
  | (.error e, cl, w1) => (.error e, cl, w1)
  | (.ok (obj_lhs, obj_rhs), cl, w1) =>
    match Add.apply exec obj_lhs obj_rhs w1 with
    | (r, w2) => (r, cl, w2)

/-- The method `Sub::Execute`. -/
def Sub.Execute (exec : Executable) (lhs_ rhs_ : Option Statement) (closure : Closure) (w : World) : Outcome :=
  match BinaryOperation.operands exec lhs_ rhs_ closure w with
  | (.error e, cl, w1) => (.error e, cl, w1)
  | (.ok (obj_lhs, obj_rhs), cl, w1) =>
    match TryAsNumber obj_lhs, TryAsNumber obj_rhs with
    | some l_num, some r_num => (.ok (some (.number (wrapInt (l_num - r_num)))), cl, w1)
    | _, _ => (.error (.runtime_error "incorrect sub operands"), cl, w1)

/-- The method `Mult::Execute`. -/
def Mult.Execute (exec : Executable) (lhs_ rhs_ : Option Statement) (closure : Closure) (w : World) : Outcome :=
  match BinaryOperation.operands exec lhs_ rhs_ closure w with
  | (.error e, cl, w1) => (.error e, cl, w1)
  | (.ok (obj_lhs, obj_rhs), cl, w1) =>
    match TryAsNumber obj_lhs, TryAsNumber obj_rhs with
    | some l_num, some r_num => (.ok (some (.number (wrapInt (l_num * r_num)))), cl, w1)
    | _, _ => (.error (.runtime_error "incorrect mult operands"), cl, w1)

/-- The method `Div::Execute`; the division of C++ truncates toward zero. -/
def Div.Execute (exec : Executable) (lhs_ rhs_ : Option Statement) (closure : Closure) (w : World) : Outcome :=
  match BinaryOperation.operands exec lhs_ rhs_ closure w with
  | (.error e, cl, w1) => (.error e, cl, w1)
  | (.ok (obj_lhs, obj_rhs), cl, w1) =>
    match TryAsNumber obj_lhs, TryAsNumber obj_rhs with
    | some l_num, some r_num =>
      if r_num = 0 then (.error (.runtime_error "division by zero"), cl, w1)
      else (.ok (some (.number (wrapInt (Int.tdiv l_num r_num)))), cl, w1)
    | _, _ => (.error (.runtime_error "incorrect div operands"), cl, w1)

/-- The method `Or::Execute`. -/
def Or.Execute (exec : Executable) (lhs_ rhs_ : Option Statement) (closure : Closure) (w : World) : Outcome :=
  match BinaryOperation.operands exec lhs_ rhs_ closure w with
  | (.error e, cl, w1) => (.error e, cl, w1)
  | (.ok (l_obj, r_obj), cl, w1) =>
    if IsTrue l_obj then (.ok (some (.bool true)), cl, w1)
    else if IsTrue r_obj then (.ok (some (.bool true)), cl, w1)
    else (.ok (some (.bool false)), cl, w1)

/-- The method `And::Execute`. -/
def And.Execute (exec : Executable) (lhs_ rhs_ : Option Statement) (closure : Closure) (w : World) : Outcome :=
  match BinaryOperation.operands exec lhs_ rhs_ closure w with
  | (.error e, cl, w1) => (.error e, cl, w1)
  | (.ok (l_obj, r_obj), cl, w1) =>
    if IsTrue l_obj && IsTrue r_obj then (.ok (some (.bool true)), cl, w1)
    else (.ok (some (.bool false)), cl, w1)

/-- The method `Not::Execute`. -/
def Not.Execute (exec : Executable) (argument_ : Option Statement) (closure : Closure) (w : World) : Outcome :=
  match argument_ with
  | none => (.error (.runtime_error "null operands are not supported"), closure, w)
  | some argument =>
    match exec argument closure w with
    | (.error e, cl1, w1) => (.error e, cl1, w1)
    | (.ok obj, cl1, w1) => (.ok (some (.bool (!IsTrue obj))), cl1, w1)

/-- The method `Comparison::Execute`. -/
def Comparison.Execute (exec : Executable) (cmp_ : Comparator) (lhs_ rhs_ : Option Statement)
    (closure : Closure) (w : World) : Outcome :=
  match BinaryOperation.operands exec lhs_ rhs_ closure w with
  | (.error e, cl, w1) => (.error e, cl, w1)
  | (.ok (l_obj, r_obj), cl, w1) =>
    match callComparator exec cmp_ l_obj r_obj w1 with
    | (.ok res, w2) => (.ok (some (.bool res)), cl, w2)
    | (.error e, w2) => (.error e, cl, w2)

/-- The method `IfElse::Execute`. -/
def IfElse.Execute (exec : Executable) (condition_ if_body_ : Statement) (else_body_ : Option Statement)
    (closure : Closure) (w : World) : Outcome :=
  match exec condition_ closure w with
  | (.error e, cl1, w1) => (.error e, cl1, w1)
  | (.ok bool_condition, cl1, w1) =>
    if IsTrue bool_condition then exec if_body_ cl1 w1
    else
      match else_body_ with
      | some else_body => exec else_body cl1 w1
      | none => (.ok none, cl1, w1)

/-- The virtual method `Statement::Execute`: the dispatch on the node, with `fuel` bounding the
depth of nested evaluations. -/
def Execute : Nat → Executable
  | 0, _, closure, w => (.error .outOfFuel, closure, w)
  | fuel + 1, stmt, closure, w =>
    match stmt with
    | .NumericConst v => (.ok (some (.number v)), closure, w)
    | .StringConst v => (.ok (some (.string v)), closure, w)
    | .BoolConst v => (.ok (some (.bool v)), closure, w)
    | .None => (.ok none, closure, w)
    | .VariableValue dotted_ids_ => VariableValue.Execute dotted_ids_ closure w
    | .Assignment var_ rv_ => Assignment.Execute (Execute fuel) var_ rv_ closure w
    | .FieldAssignment object_ field_name_ rv_ =>
      FieldAssignment.Execute (Execute fuel) object_ field_name_ rv_ closure w
    | .NewInstance class_inst_ class_ args_ =>
      NewInstance.Execute (Execute fuel) class_inst_ class_ args_ closure w
    | .MethodCall object_ method_name_ args_ =>
      MethodCall.Execute (Execute fuel) object_ method_name_ args_ closure w
    | .Compound statements_ => Compound.Execute (Execute fuel) statements_ closure w
    | .Return statement_ => Return.Execute (Execute fuel) statement_ closure w
    | .MethodBody body_ => MethodBody.Execute (Execute fuel) body_ closure w
    | .ClassDefinition cls_ => ClassDefinition.Execute cls_ closure w
    | .Print args_ => Print.Execute (Execute fuel) (fuel + 1) args_ closure w
    | .Stringify argument_ => Stringify.Execute (Execute fuel) (fuel + 1) argument_ closure w
    | .Add lhs_ rhs_ => Add.Execute (Execute fuel) lhs_ rhs_ closure w
    | .Sub lhs_ rhs_ => Sub.Execute (Execute fuel) lhs_ rhs_ closure w
    | .Mult lhs_ rhs_ => Mult.Execute (Execute fuel) lhs_ rhs_ closure w
    | .Div lhs_ rhs_ => Div.Execute (Execute fuel) lhs_ rhs_ closure w
    | .Or lhs_ rhs_ => Or.Execute (Execute fuel) lhs_ rhs_ closure w
    | .And lhs_ rhs_ => And.Execute (Execute fuel) lhs_ rhs_ closure w
    | .Not argument_ => Not.Execute (Execute fuel) argument_ closure w
    | .Comparison cmp_ lhs_ rhs_ => Comparison.Execute (Execute fuel) cmp_ lhs_ rhs_ closure w
    | .IfElse condition_ if_body_ else_body_ =>
      IfElse.Execute (Execute fuel) condition_ if_body_ else_body_ closure w

/-- Exactly one of three truth values is `true`. -/
def ExactlyOne (a b c : Bool) : Prop :=
  (a = true ∧ b = false ∧ c = false) ∨ (a = false ∧ b = true ∧ c = false)
    ∨ (a = false ∧ b = false ∧ c = true)


/-- The executable `e2` refines `e1`: wherever `e1` does not run out of fuel, `e2` gives the same
outcome. -/
def Refines (e1 e2 : Executable) : Prop :=
  ∀ (s : Statement) (cl : Closure) (w : World), (e1 s cl w).1 ≠ .error .outOfFuel → e2 s cl w = e1 s cl w

/-! ## Sample objects for the concrete instances of the theorems -/

/-- The class `V` whose `__add__`, `__eq__` and `__lt__` take one parameter: `__add__` returns
its argument, `__eq__` returns `True` and `__lt__` returns the number 0. -/
def sampleClass : Class :=
  Class.mk "V"
    [ Method.mk "__add__" ["other"] (.MethodBody (.Return (.VariableValue ["other"]))),
      Method.mk "__eq__" ["other"] (.MethodBody (.Return (.BoolConst true))),
      Method.mk "__lt__" ["other"] (.MethodBody (.Return (.NumericConst 0))) ]
    none

/-- A world whose heap holds one instance of `sampleClass`, at address 0. -/
def sampleWorld : World :=
  World.mk [(0, ClassInstance.mk sampleClass [])] ""

/-- A closure that binds `v` to the instance at address 0. -/
def sampleClosure : Closure :=
  [("v", some (.classInstance 0))]

/-- The classes of `TestMethodInvocation`: `Base` with `test(arg1, arg2)` and `test_2(arg1)`,
here returning 123 and `self`. -/
def sampleBase : Class :=
  Class.mk "Base"
    [ Method.mk "test" ["arg1", "arg2"] (.MethodBody (.Return (.NumericConst 123))),
      Method.mk "test_2" ["arg1"] (.MethodBody (.Return (.VariableValue ["self"]))) ]
    none

/-- The class `Child` of `TestMethodInvocation`, with parent `Base` and its own
`test(arg1_child, arg2_child)`, here returning the string `child`. -/
def sampleChild : Class :=
  Class.mk "Child"
    [ Method.mk "test" ["arg1_child", "arg2_child"] (.MethodBody (.Return (.StringConst "child"))) ]
    (some sampleBase)

/-- A class without methods of its own whose parent is `Child`. -/
def sampleGrandchild : Class :=
  Class.mk "Grandchild" [] (some sampleChild)

/-- A world with an instance of `Base` (with a field `base_field`) at address 1, of `Child` at
address 2 and of `Grandchild` at address 3. -/
def familyWorld : World :=
  World.mk
    [ (1, ClassInstance.mk sampleBase [("base_field", some (.string "hello"))]),
      (2, ClassInstance.mk sampleChild []),
      (3, ClassInstance.mk sampleGrandchild []) ]
    ""

/-- A world for dotted paths: the instance at 10 has the field `inner`, the instance at 11, which
has the field `value`, the number 42. -/
def pathWorld : World :=
  World.mk
    [ (10, ClassInstance.mk sampleBase [("inner", some (.classInstance 11))]),
      (11, ClassInstance.mk sampleBase [("value", some (.number 42))]) ]
    ""

/-- A closure that binds `x` to the instance at 10 and `n` to the number 5. -/
def pathClosure : Closure :=
  [("x", some (.classInstance 10)), ("n", some (.number 5))]

/-- A method body whose `return 5` sits in a `Compound` inside an `IfElse` inside a `Compound`,
with a statement after it at each level. -/
def sampleBody : Statement :=
  .Compound
    [ .Print [.NumericConst 1],
      .IfElse (.BoolConst true)
        (.Compound [.Return (.NumericConst 5), .Print [.NumericConst 2]])
        none,
      .Assignment "x" (.NumericConst 3) ]

/-- The class `Holder` whose method `reset` stores a new instance in the field `a` of `self` and
returns 1:
`class Holder:` / `  def reset(self):` / `    self.a = Base()` / `    return 1`. -/
def sampleHolder : Class :=
  Class.mk "Holder"
    [ Method.mk "reset" []
        (.MethodBody (.Compound
          [ .FieldAssignment ["self"] "a" (.NewInstance 22 sampleBase []),
            .Return (.NumericConst 1) ])) ]
    none

/-- A world with a `Holder` at address 20 whose field `a` is the instance of `Base` at 21. -/
def holderWorld : World :=
  World.mk
    [ (20, ClassInstance.mk sampleHolder [("a", some (.classInstance 21))]),
      (21, ClassInstance.mk sampleBase []) ]
    ""

/-- A closure that binds `h` to the `Holder` at address 20. -/
def holderClosure : Closure :=
  [("h", some (.classInstance 20))]

/-- The class `Point` whose `__init__` takes one argument and stores it in the field `x`:
`class Point:` / `  def __init__(self, x):` / `    self.x = x`. -/
def samplePoint : Class :=
  Class.mk "Point"
    [Method.mk "__init__" ["x"] (.MethodBody (.FieldAssignment ["self"] "x" (.VariableValue ["x"])))]
    none

/-- The class `Printable` whose `__str__` returns the string `printable`. -/
def samplePrintable : Class :=
  Class.mk "Printable" [Method.mk "__str__" [] (.MethodBody (.Return (.StringConst "printable")))] none

/-- A world with an instance of `Printable` at address 50 and an instance of `Point`, whose class
has no `__str__`, at address 51. -/
def printableWorld : World :=
  World.mk [(50, ClassInstance.mk samplePrintable []), (51, ClassInstance.mk samplePoint [])] ""

/-- The class `Factory` whose method `make` returns a new `Base`; the construction expression is
one `NewInstance` node, whose member `class_inst_` is at address 30:
`class Factory:` / `  def make(self):` / `    return Base()`. -/
def sampleFactory : Class :=
  Class.mk "Factory"
    [Method.mk "make" [] (.MethodBody (.Return (.NewInstance 30 sampleBase [])))] none

/-- A world with a `Factory` at address 31. -/
def factoryWorld : World :=
  World.mk [(31, ClassInstance.mk sampleFactory [])] ""

/-- A closure that binds `f` to the `Factory` at address 31. -/
def factoryClosure : Closure :=
  [("f", some (.classInstance 31))]

/-- The program `a = f.make()` / `a.v = 1` / `b = f.make()` / `print b.v`. -/
def factoryProgram : Statement :=
  .Compound
    [ .Assignment "a" (.MethodCall (.VariableValue ["f"]) "make" []),
      .FieldAssignment ["a"] "v" (.NumericConst 1),
      .Assignment "b" (.MethodCall (.VariableValue ["f"]) "make" []),
      .Print [.VariableValue ["b", "v"]] ]

/-- The class `BadStr` whose `__str__` takes a formal parameter besides `self`. -/
def sampleBadStr : Class :=
  Class.mk "BadStr" [Method.mk "__str__" ["x"] (.MethodBody (.Return (.StringConst "never")))] none

/-- A world with an instance of `BadStr` at address 60. -/
def badStrWorld : World :=
  World.mk [(60, ClassInstance.mk sampleBadStr [])] ""

/-- The class `LtOnly` that has `__lt__` and no `__eq__`; its `__lt__` returns its argument. -/
def sampleLtOnly : Class :=
  Class.mk "LtOnly"
    [Method.mk "__lt__" ["other"] (.MethodBody (.Return (.VariableValue ["other"])))] none

/-- A world with an instance of `LtOnly` at address 70. -/
def ltOnlyWorld : World :=
  World.mk [(70, ClassInstance.mk sampleLtOnly [])] ""

/-- The program `x = 1 + 2` / `if x < 5: print x, "a"`. -/
def callFreeProgram : Statement :=
  .Compound
    [ .Assignment "x" (.Add (some (.NumericConst 1)) (some (.NumericConst 2))),
      .IfElse (.Comparison .Less (some (.VariableValue ["x"])) (some (.NumericConst 5)))
        (.Print [.VariableValue ["x"], .StringConst "a"]) none ]

/-! ## Notions used to state the properties -/

/-- The last method named `name` in a method list: the record that the assignments
`name_to_method_[method.name] = &method`, made in the order of the list, leave under `name`. -/
def lastNamed (name : String) : List Method → Option Method
  | [] => none
  | method :: rest =>
    match lastNamed name rest with
    | some later => some later
    | none => if method.name = name then some method else none

/-- The judgement `Resolves heap cl ids v` on a dotted path `ids`: the first identifier is bound
in `cl`, every identifier but the last is bound to a live class instance, each later identifier is
looked up in the fields of the instance before it, and the last identifier is bound to `v`. -/
inductive Resolves (heap : Heap) : Closure → List String → ObjectHolder → Prop where
  | last (cl : Closure) (id : String) (v : ObjectHolder) :
      assocFind id cl = some v → Resolves heap cl [id] v
  | field (cl : Closure) (id : String) (a : Nat) (inst : ClassInstance) (rest : List String)
      (v : ObjectHolder) :
      assocFind id cl = some (some (.classInstance a)) → assocFind a heap = some inst →
      Resolves heap inst.fields_ rest v → Resolves heap cl (id :: rest) v

/-- The judgement `Unbound heap cl ids` on a dotted path `ids`: the first identifier is not bound
in `cl`, or the identifiers before some later one are bound to live class instances and that one
is not a field of the instance reached so far. -/
inductive Unbound (heap : Heap) : Closure → List String → Prop where
  | first (cl : Closure) (id : String) (rest : List String) :
      assocFind id cl = none → Unbound heap cl (id :: rest)
  | later (cl : Closure) (id : String) (a : Nat) (inst : ClassInstance) (rest : List String) :
      assocFind id cl = some (some (.classInstance a)) → assocFind a heap = some inst →
      Unbound heap inst.fields_ rest → Unbound heap cl (id :: rest)

/-- The judgement `ReturnReached fuel s cl w v cl1 w1`: the evaluation of `s` with `fuel`, from
the closure `cl` and the world `w`, reaches a `Return` node through `Compound` and `IfElse` nodes
only, after the statements before it in each `Compound` and the conditions of each `IfElse` have
completed normally; the expression of the `Return` evaluates to `v` and leaves `cl1` and `w1`. The
statements `after` the one that holds the `Return` are arbitrary. -/
inductive ReturnReached : Nat → Statement → Closure → World → ObjectHolder → Closure → World → Prop where
  | here (fuel : Nat) (e : Statement) (cl : Closure) (w : World) (v : ObjectHolder)
      (cl1 : Closure) (w1 : World) :
      Execute fuel e cl w = (.ok v, cl1, w1) →
      ReturnReached (fuel + 1) (.Return e) cl w v cl1 w1
  | compound (fuel : Nat) (before : List Statement) (s : Statement) (after : List Statement)
      (cl : Closure) (w : World) (u : ObjectHolder) (cl0 : Closure) (w0 : World)
      (v : ObjectHolder) (cl1 : Closure) (w1 : World) :
      Compound.Execute (Execute fuel) before cl w = (.ok u, cl0, w0) →
      ReturnReached fuel s cl0 w0 v cl1 w1 →
      ReturnReached (fuel + 1) (.Compound (before ++ s :: after)) cl w v cl1 w1
  | ifBody (fuel : Nat) (condition if_body : Statement) (else_body : Option Statement)
      (cl : Closure) (w : World) (c : ObjectHolder) (cl0 : Closure) (w0 : World)
      (v : ObjectHolder) (cl1 : Closure) (w1 : World) :
      Execute fuel condition cl w = (.ok c, cl0, w0) → IsTrue c = true →
      ReturnReached fuel if_body cl0 w0 v cl1 w1 →
      ReturnReached (fuel + 1) (.IfElse condition if_body else_body) cl w v cl1 w1
  | elseBody (fuel : Nat) (condition if_body else_body : Statement)
      (cl : Closure) (w : World) (c : ObjectHolder) (cl0 : Closure) (w0 : World)
      (v : ObjectHolder) (cl1 : Closure) (w1 : World) :
      Execute fuel condition cl w = (.ok c, cl0, w0) → IsTrue c = false →
      ReturnReached fuel else_body cl0 w0 v cl1 w1 →
      ReturnReached (fuel + 1) (.IfElse condition if_body (some else_body)) cl w v cl1 w1

/-- The world `w` with the text `p` put before its output. -/
def World.prepend (p : String) (w : World) : World :=
  World.mk w.heap (p ++ w.output)

/-- An executable is oblivious of the output when text that stands in the output stream before an
evaluation changes nothing but the front of the output stream after it: the program cannot read
what it has written. -/
def Oblivious (exec : Executable) : Prop :=
  ∀ (p : String) (s : Statement) (cl : Closure) (w : World),
    exec s cl (World.prepend p w)
      = ((exec s cl w).1, (exec s cl w).2.1, World.prepend p (exec s cl w).2.2)

/-- The texts that follow a first one in a line: each is preceded by one space. -/
def spaced : List String → String
  | [] => ""
  | t :: ts => " " ++ t ++ spaced ts

/-- Stated from the claim: the values and the texts of the arguments of a `Print`, in their order.
Each argument is evaluated, left to right, in the closure and heap that its predecessors left; its
text is what its evaluation and the printing of its value write to a stream that starts empty,
where the empty holder prints as `None`. -/
def Print.texts (exec : Executable) (fuel : Nat) : List Statement → Closure → Heap →
    Except Exn (List (ObjectHolder × String)) × Closure × Heap
  | [], cl, heap => (.ok [], cl, heap)
  | arg :: rest, cl, heap =>
    match exec arg cl (World.mk heap "") with
    | (.error e, cl1, w1) => (.error e, cl1, w1.heap)
    | (.ok v, cl1, w1) =>
      match ((match v with
        | none => (.ok (), w1.write "None")
        | some o => Object.Print exec fuel o w1) : Except Exn Unit × World) with
      | (.error e, w2) => (.error e, cl1, w2.heap)
      | (.ok _, w2) =>
        match Print.texts exec fuel rest cl1 w2.heap with
        | (.error e, cl2, heap2) => (.error e, cl2, heap2)
        | (.ok pairs, cl2, heap2) => (.ok ((v, w2.output) :: pairs), cl2, heap2)

/-- Every instance that is live in `h` is live in `h1`, with the same class. -/
def ClassesKept (h h1 : Heap) : Prop :=
  ∀ (a : Nat) (inst : ClassInstance), assocFind a h = some inst →
    ∃ inst1 : ClassInstance, assocFind a h1 = some inst1 ∧ inst1.cls_ = inst.cls_

/-- An executable keeps the classes when no evaluation removes an instance from the heap or
changes the class of one: `cls_` is a reference member that is set at construction. -/
def KeepsClasses (exec : Executable) : Prop :=
  ∀ (s : Statement) (cl : Closure) (w : World), ClassesKept w.heap (exec s cl w).2.2.heap

mutual
/-- The depth of a statement tree: the longest chain of nodes from the node down to a leaf. -/
def Statement.depth : Statement → Nat
  | .Assignment _ rv_ => rv_.depth + 1
  | .FieldAssignment _ _ rv_ => rv_.depth + 1
  | .NewInstance _ _ args_ => depthList args_ + 1
  | .MethodCall object_ _ args_ => max object_.depth (depthList args_) + 1
  | .Compound statements_ => depthList statements_ + 1
  | .Return statement_ => statement_.depth + 1
  | .MethodBody body_ => body_.depth + 1
  | .Print args_ => depthList args_ + 1
  | .Stringify argument_ => depthOption argument_ + 1
  | .Add lhs_ rhs_ => max (depthOption lhs_) (depthOption rhs_) + 1
  | .Sub lhs_ rhs_ => max (depthOption lhs_) (depthOption rhs_) + 1
  | .Mult lhs_ rhs_ => max (depthOption lhs_) (depthOption rhs_) + 1
  | .Div lhs_ rhs_ => max (depthOption lhs_) (depthOption rhs_) + 1
  | .Or lhs_ rhs_ => max (depthOption lhs_) (depthOption rhs_) + 1
  | .And lhs_ rhs_ => max (depthOption lhs_) (depthOption rhs_) + 1
  | .Not argument_ => depthOption argument_ + 1
  | .Comparison _ lhs_ rhs_ => max (depthOption lhs_) (depthOption rhs_) + 1
  | .IfElse condition_ if_body_ else_body_ =>
    max condition_.depth (max if_body_.depth (depthOption else_body_)) + 1
  | _ => 1
/-- The greatest depth of the statements of a list. -/
def depthList : List Statement → Nat
  | [] => 0
  | s :: rest => max s.depth (depthList rest)
/-- The depth of a child that may be absent. -/
def depthOption : Option Statement → Nat
  | none => 0
  | some s => s.depth
end

mutual
/-- The number of nodes of a statement tree. -/
def Statement.nodes : Statement → Nat
  | .Assignment _ rv_ => rv_.nodes + 1
  | .FieldAssignment _ _ rv_ => rv_.nodes + 1
  | .NewInstance _ _ args_ => nodesList args_ + 1
  | .MethodCall object_ _ args_ => object_.nodes + nodesList args_ + 1
  | .Compound statements_ => nodesList statements_ + 1
  | .Return statement_ => statement_.nodes + 1
  | .MethodBody body_ => body_.nodes + 1
  | .Print args_ => nodesList args_ + 1
  | .Stringify argument_ => nodesOption argument_ + 1
  | .Add lhs_ rhs_ => nodesOption lhs_ + nodesOption rhs_ + 1
  | .Sub lhs_ rhs_ => nodesOption lhs_ + nodesOption rhs_ + 1
  | .Mult lhs_ rhs_ => nodesOption lhs_ + nodesOption rhs_ + 1
  | .Div lhs_ rhs_ => nodesOption lhs_ + nodesOption rhs_ + 1
  | .Or lhs_ rhs_ => nodesOption lhs_ + nodesOption rhs_ + 1
  | .And lhs_ rhs_ => nodesOption lhs_ + nodesOption rhs_ + 1
  | .Not argument_ => nodesOption argument_ + 1
  | .Comparison _ lhs_ rhs_ => nodesOption lhs_ + nodesOption rhs_ + 1
  | .IfElse condition_ if_body_ else_body_ =>
    condition_.nodes + if_body_.nodes + nodesOption else_body_ + 1
  | _ => 1
/-- The number of nodes of the statements of a list. -/
def nodesList : List Statement → Nat
  | [] => 0
  | s :: rest => s.nodes + nodesList rest
/-- The number of nodes of a child that may be absent. -/
def nodesOption : Option Statement → Nat
  | none => 0
  | some s => s.nodes
end

mutual
/-- A call-free tree: built only from constants, `None`, `VariableValue`, `Assignment`,
`Compound`, `IfElse`, `Return`, `Print`, `Stringify`, `Add`, `Sub`, `Mult`, `Div`, `And`, `Or`,
`Not` and `Comparison`. A `VariableValue` has at least one identifier and a `Stringify` has its
argument, which the code takes for granted. -/
def Statement.CallFree : Statement → Bool
  | .NumericConst _ => true
  | .StringConst _ => true
  | .BoolConst _ => true
  | .None => true
  | .VariableValue dotted_ids_ => !dotted_ids_.isEmpty
  | .Assignment _ rv_ => rv_.CallFree
  | .Compound statements_ => callFreeList statements_
  | .Return statement_ => statement_.CallFree
  | .Print args_ => callFreeList args_
  | .Stringify argument_ => argument_.isSome && callFreeOption argument_
  | .Add lhs_ rhs_ => callFreeOption lhs_ && callFreeOption rhs_
  | .Sub lhs_ rhs_ => callFreeOption lhs_ && callFreeOption rhs_
  | .Mult lhs_ rhs_ => callFreeOption lhs_ && callFreeOption rhs_
  | .Div lhs_ rhs_ => callFreeOption lhs_ && callFreeOption rhs_
  | .Or lhs_ rhs_ => callFreeOption lhs_ && callFreeOption rhs_
  | .And lhs_ rhs_ => callFreeOption lhs_ && callFreeOption rhs_
  | .Not argument_ => callFreeOption argument_
  | .Comparison _ lhs_ rhs_ => callFreeOption lhs_ && callFreeOption rhs_
  | .IfElse condition_ if_body_ else_body_ =>
    condition_.CallFree && if_body_.CallFree && callFreeOption else_body_
  | _ => false
/-- All statements of the list are call-free. -/
def callFreeList : List Statement → Bool
  | [] => true
  | s :: rest => s.CallFree && callFreeList rest
/-- The child, if present, is call-free. -/
def callFreeOption : Option Statement → Bool
  | none => true
  | some s => s.CallFree
end

/-- No name of the closure is bound to a class instance. -/
def NoInstance (cl : Closure) : Bool :=
  cl.all (fun p => (TryAsClassInstance p.2).isNone)

/-- The ways an evaluation ends in the source: with a value (here: one that is not a class
instance), with a `runtime_error` or with the exception of a `return`. -/
def EndsProperly : Except Exn ObjectHolder → Bool
  | .ok v => (TryAsClassInstance v).isNone
  | .error (.runtime_error _) => true
  | .error (.RuntimeReturnExeption _) => true
  | .error _ => false

/-- The body of `Execute` at positive fuel, with the evaluator `exec` of the children as a
parameter; `fuel` is the fuel of the children. -/
def dispatch (exec : Executable) (fuel : Nat) : Executable := fun stmt closure w =>
  match stmt with
  | .NumericConst v => (.ok (some (.number v)), closure, w)
  | .StringConst v => (.ok (some (.string v)), closure, w)
  | .BoolConst v => (.ok (some (.bool v)), closure, w)
  | .None => (.ok none, closure, w)
  | .VariableValue dotted_ids_ => VariableValue.Execute dotted_ids_ closure w
  | .Assignment var_ rv_ => Assignment.Execute exec var_ rv_ closure w
  | .FieldAssignment object_ field_name_ rv_ =>
    FieldAssignment.Execute exec object_ field_name_ rv_ closure w
  | .NewInstance class_inst_ class_ args_ =>
    NewInstance.Execute exec class_inst_ class_ args_ closure w
  | .MethodCall object_ method_name_ args_ =>
    MethodCall.Execute exec object_ method_name_ args_ closure w
  | .Compound statements_ => Compound.Execute exec statements_ closure w
  | .Return statement_ => Return.Execute exec statement_ closure w
  | .MethodBody body_ => MethodBody.Execute exec body_ closure w
  | .ClassDefinition cls_ => ClassDefinition.Execute cls_ closure w
  | .Print args_ => Print.Execute exec (fuel + 1) args_ closure w
  | .Stringify argument_ => Stringify.Execute exec (fuel + 1) argument_ closure w
  | .Add lhs_ rhs_ => Add.Execute exec lhs_ rhs_ closure w
  | .Sub lhs_ rhs_ => Sub.Execute exec lhs_ rhs_ closure w
  | .Mult lhs_ rhs_ => Mult.Execute exec lhs_ rhs_ closure w
  | .Div lhs_ rhs_ => Div.Execute exec lhs_ rhs_ closure w
  | .Or lhs_ rhs_ => Or.Execute exec lhs_ rhs_ closure w
  | .And lhs_ rhs_ => And.Execute exec lhs_ rhs_ closure w
  | .Not argument_ => Not.Execute exec argument_ closure w
  | .Comparison cmp_ lhs_ rhs_ => Comparison.Execute exec cmp_ lhs_ rhs_ closure w
  | .IfElse condition_ if_body_ else_body_ =>
    IfElse.Execute exec condition_ if_body_ else_body_ closure w

/-- The evaluator with a visit counter: it is `Execute`, except that it writes one mark to the
output whenever it enters a node. The marks count the visits of nodes. -/
def ExecuteTicked : Nat → Executable
  | 0, _, closure, w => (.error .outOfFuel, closure, w)
  | fuel + 1, stmt, closure, w => dispatch (ExecuteTicked fuel) fuel stmt closure (w.write "#")

/-- The outcome `rT` of a run with marks, started in `wT`, agrees with the outcome `rP` of the run
without marks, started in `wP`: the run without marks ends properly, in a closure without
instances; the run with marks has the same result, closure and heap, and has written at most `k`
characters more. -/
def GoodRun (k : Nat) (rT rP : Outcome) (wT wP : World) : Prop :=
  EndsProperly rP.1 = true ∧ NoInstance rP.2.1 = true ∧
    rT.1 = rP.1 ∧ rT.2.1 = rP.2.1 ∧ rT.2.2.heap = rP.2.2.heap ∧
    rT.2.2.output.length + wP.output.length ≤ rP.2.2.output.length + wT.output.length + k

/-- The evaluators `eT` (with marks) and `eP` (without) agree on the statement `s`, started in a
closure without instances and in worlds with the same heap, up to at most `s.nodes` marks. -/
def TickedWithin (eT eP : Executable) (s : Statement) : Prop :=
  ∀ (cl : Closure) (wT wP : World), NoInstance cl = true → wT.heap = wP.heap →
    GoodRun s.nodes (eT s cl wT) (eP s cl wP) wT wP

/-- An executable that evaluates nothing. -/
def noExecutable : Executable := fun _ cl w => (.error .outOfFuel, cl, w)

/-! ## Helper lemmas: primitives -/

theorem wrapInt_of_inRange (x : Int) (h1 : -2147483648 ≤ x) (h2 : x < 2147483648) : wrapInt x = x := by
  unfold wrapInt
  omega

theorem Equal_number (exec : Executable) (w : World) (x y : Int) :
    Equal exec (some (.number x)) (some (.number y)) w = (.ok (decide (x = y)), w) := by
  simp [Equal, TryAsNumber]

theorem Equal_string (exec : Executable) (w : World) (s t : String) :
    Equal exec (some (.string s)) (some (.string t)) w = (.ok (decide (s = t)), w) := by
  simp [Equal, TryAsNumber, TryAsString]

theorem Equal_bool (exec : Executable) (w : World) (p q : Bool) :
    Equal exec (some (.bool p)) (some (.bool q)) w = (.ok (decide (p = q)), w) := by
  simp [Equal, TryAsNumber, TryAsString, TryAsBool]

theorem Less_number (exec : Executable) (w : World) (x y : Int) :
    Less exec (some (.number x)) (some (.number y)) w = (.ok (decide (x < y)), w) := by
  simp [Less, TryAsNumber]

theorem Less_string (exec : Executable) (w : World) (s t : String) :
    Less exec (some (.string s)) (some (.string t)) w = (.ok (decide (s < t)), w) := by
  simp [Less, TryAsNumber, TryAsString]

theorem Less_bool (exec : Executable) (w : World) (p q : Bool) :
    Less exec (some (.bool p)) (some (.bool q)) w = (.ok (!p && q), w) := by
  cases p <;> cases q <;> simp [Less, TryAsNumber, TryAsString, TryAsBool]

theorem exactlyOne_int (x y : Int) : ExactlyOne (decide (x < y)) (decide (x = y)) (decide (y < x)) := by
  unfold ExactlyOne
  rcases lt_trichotomy x y with h | h | h
  · simp [h, h.ne, lt_asymm h]
  · simp [h]
  · simp [h, h.ne', lt_asymm h]

theorem exactlyOne_string (x y : String) : ExactlyOne (decide (x < y)) (decide (x = y)) (decide (y < x)) := by
  unfold ExactlyOne
  rcases lt_trichotomy x y with h | h | h
  · simp [h, h.ne, lt_asymm h]
  · simp [h]
  · simp [h, h.ne', lt_asymm h]

theorem exactlyOne_bool (p q : Bool) : ExactlyOne (!p && q) (decide (p = q)) (!q && p) := by
  cases p <;> cases q <;> simp [ExactlyOne]

/-- A pair of primitives of the same variant is a pair of numbers, of strings or of booleans. -/
theorem SamePrimitive_cases (a b : ObjectHolder) (h : SamePrimitive a b = true) :
    (∃ x y : Int, a = some (.number x) ∧ b = some (.number y))
      ∨ (∃ s t : String, a = some (.string s) ∧ b = some (.string t))
      ∨ (∃ p q : Bool, a = some (.bool p) ∧ b = some (.bool q)) := by
  rcases a with _ | (x | s | p | c | i) <;> rcases b with _ | (y | t | q | d | j) <;>
    simp [SamePrimitive, TryAsNumber, TryAsString, TryAsBool] at h ⊢

/-! ## Equality and ordering of primitives -/

/-- Claim C3. `Equal` on two holders that are both `Number`, both `String` or both `Bool` returns
whether the payloads are equal; it does so for every executable and leaves the heap and the output
as they were, so no user method is called. Hence `Equal(x, x)` is true for every primitive `x`,
and `Equal` of two empty holders is true. -/
theorem Equal_on_primitives (exec : Executable) (w : World) :
    (∀ x y : Int, Equal exec (some (.number x)) (some (.number y)) w = (.ok (decide (x = y)), w))
      ∧ (∀ s t : String, Equal exec (some (.string s)) (some (.string t)) w = (.ok (decide (s = t)), w))
      ∧ (∀ p q : Bool, Equal exec (some (.bool p)) (some (.bool q)) w = (.ok (decide (p = q)), w))
      ∧ (∀ x : Int, Equal exec (some (.number x)) (some (.number x)) w = (.ok true, w))
      ∧ (∀ s : String, Equal exec (some (.string s)) (some (.string s)) w = (.ok true, w))
      ∧ (∀ p : Bool, Equal exec (some (.bool p)) (some (.bool p)) w = (.ok true, w))
      ∧ Equal exec none none w = (.ok true, w) := by
  refine ⟨Equal_number exec w, Equal_string exec w, Equal_bool exec w, ?_, ?_, ?_, rfl⟩
  · intro x
    simp [Equal_number]
  · intro s
    simp [Equal_string]
  · intro p
    simp [Equal_bool]

/-- Claim C4. `Less` on two holders that are both `Number`, both `String` or both `Bool` is the
order of the payloads: the order of the integers, the lexicographic order of the strings (the
order of their character lists), and `false < true` for `Bool`; and exactly one of `Less(a, b)`,
`Equal(a, b)` and `Less(b, a)` is true. -/
theorem Less_on_primitives (exec : Executable) (w : World) :
    (∀ x y : Int, Less exec (some (.number x)) (some (.number y)) w = (.ok (decide (x < y)), w))
      ∧ (∀ s t : String, ∃ l : Bool, Less exec (some (.string s)) (some (.string t)) w = (.ok l, w)
          ∧ (l = true ↔ List.Lex (fun c d : Char => c < d) s.toList t.toList))
      ∧ (∀ p q : Bool, Less exec (some (.bool p)) (some (.bool q)) w
          = (.ok (decide (p = false ∧ q = true)), w))
      ∧ (∀ a b : ObjectHolder, SamePrimitive a b = true →
          ∃ l e g : Bool, Less exec a b w = (.ok l, w) ∧ Equal exec a b w = (.ok e, w)
            ∧ Less exec b a w = (.ok g, w) ∧ ExactlyOne l e g) := by
  refine ⟨Less_number exec w, ?_, ?_, ?_⟩
  · intro s t
    refine ⟨_, Less_string exec w s t, ?_⟩
    rw [decide_eq_true_iff]
    exact String.lt_iff_toList_lt
  · intro p q
    rw [Less_bool]
    cases p <;> cases q <;> rfl
  · intro a b h
    rcases SamePrimitive_cases a b h with ⟨x, y, rfl, rfl⟩ | ⟨s, t, rfl, rfl⟩ | ⟨p, q, rfl, rfl⟩
    · exact ⟨_, _, _, Less_number exec w x y, Equal_number exec w x y, Less_number exec w y x,
        exactlyOne_int x y⟩
    · exact ⟨_, _, _, Less_string exec w s t, Equal_string exec w s t, Less_string exec w t s,
        exactlyOne_string s t⟩
    · exact ⟨_, _, _, Less_bool exec w p q, Equal_bool exec w p q, Less_bool exec w q p,
        exactlyOne_bool p q⟩

/-- Witness for C4: the three assertions of `TestLess` on primitives, `"caa" < "bbb"` and `7 < 3`
are false and `False < True` is true; and on the numbers 3 and 7 exactly one of the three
comparisons holds. -/
theorem Less_on_primitives_witness :
    Less (Execute 0) (some (.string "caa")) (some (.string "bbb")) (World.mk [] "")
        = (.ok false, World.mk [] "")
      ∧ Less (Execute 0) (some (.number 7)) (some (.number 3)) (World.mk [] "")
        = (.ok false, World.mk [] "")
      ∧ Less (Execute 0) (some (.bool false)) (some (.bool true)) (World.mk [] "")
        = (.ok true, World.mk [] "")
      ∧ SamePrimitive (some (.number 3)) (some (.number 7)) = true
      ∧ ∃ l e g : Bool, Less (Execute 0) (some (.number 3)) (some (.number 7)) (World.mk [] "") = (.ok l, World.mk [] "")
          ∧ Equal (Execute 0) (some (.number 3)) (some (.number 7)) (World.mk [] "") = (.ok e, World.mk [] "")
          ∧ Less (Execute 0) (some (.number 7)) (some (.number 3)) (World.mk [] "") = (.ok g, World.mk [] "")
          ∧ ExactlyOne l e g := by
  refine ⟨?_, (Less_on_primitives (Execute 0) (World.mk [] "")).1 7 3,
    (Less_on_primitives (Execute 0) (World.mk [] "")).2.2.1 false true, rfl,
    (Less_on_primitives (Execute 0) (World.mk [] "")).2.2.2 _ _ rfl⟩
  obtain ⟨l, hless, hiff⟩ := (Less_on_primitives (Execute 0) (World.mk [] "")).2.1 "caa" "bbb"
  have hl : l = false := by
    cases l
    · rfl
    · exact absurd (hiff.mp rfl) (by decide)
  rw [hless, hl]

/-! ## Derived comparisons -/

/-- Claim C5. For primitives `a`, `b` of the same variant, with `l = Less(a, b)` and
`e = Equal(a, b)`: `NotEqual(a, b) = not e`, `LessOrEqual(a, b) = l or e`,
`Greater(a, b) = not l and not e`, `GreaterOrEqual(a, b) = not l`; and `Greater(a, b)` is
`Less(b, a)`, `GreaterOrEqual(a, b)` is `LessOrEqual(b, a)`. -/
theorem derived_comparisons (exec : Executable) (w : World) (a b : ObjectHolder)
    (h : SamePrimitive a b = true) :
    ∃ l e : Bool, Less exec a b w = (.ok l, w) ∧ Equal exec a b w = (.ok e, w)
      ∧ NotEqual exec a b w = (.ok (!e), w)
      ∧ LessOrEqual exec a b w = (.ok (l || e), w)
      ∧ Greater exec a b w = (.ok (!l && !e), w)
      ∧ GreaterOrEqual exec a b w = (.ok (!l), w)
      ∧ Greater exec a b w = Less exec b a w
      ∧ GreaterOrEqual exec a b w = LessOrEqual exec b a w := by
  rcases SamePrimitive_cases a b h with ⟨x, y, rfl, rfl⟩ | ⟨s, t, rfl, rfl⟩ | ⟨p, q, rfl, rfl⟩
  · refine ⟨_, _, Less_number exec w x y, Equal_number exec w x y, ?_⟩
    simp only [NotEqual, LessOrEqual, Greater, GreaterOrEqual, Less_number, Equal_number]
    rcases lt_trichotomy x y with h1 | h1 | h1
    · simp [h1, h1.ne, h1.ne', lt_asymm h1]
    · simp [h1]
    · simp [h1, h1.ne, h1.ne', lt_asymm h1]
  · refine ⟨_, _, Less_string exec w s t, Equal_string exec w s t, ?_⟩
    simp only [NotEqual, LessOrEqual, Greater, GreaterOrEqual, Less_string, Equal_string]
    rcases lt_trichotomy s t with h1 | h1 | h1
    · simp [h1, h1.ne, h1.ne', lt_asymm h1]
    · simp [h1]
    · simp [h1, h1.ne, h1.ne', lt_asymm h1]
  · refine ⟨_, _, Less_bool exec w p q, Equal_bool exec w p q, ?_⟩
    simp only [NotEqual, LessOrEqual, Greater, GreaterOrEqual, Less_bool, Equal_bool]
    cases p <;> cases q <;> simp

/-- Witness for C5 on the strings "ab" and "b". -/
theorem derived_comparisons_witness :
    SamePrimitive (some (.string "ab")) (some (.string "b")) = true
      ∧ ∃ l e : Bool, Less (Execute 0) (some (.string "ab")) (some (.string "b")) (World.mk [] "") = (.ok l, World.mk [] "")
          ∧ Equal (Execute 0) (some (.string "ab")) (some (.string "b")) (World.mk [] "") = (.ok e, World.mk [] "")
          ∧ NotEqual (Execute 0) (some (.string "ab")) (some (.string "b")) (World.mk [] "") = (.ok (!e), World.mk [] "")
          ∧ LessOrEqual (Execute 0) (some (.string "ab")) (some (.string "b")) (World.mk [] "") = (.ok (l || e), World.mk [] "")
          ∧ Greater (Execute 0) (some (.string "ab")) (some (.string "b")) (World.mk [] "") = (.ok (!l && !e), World.mk [] "")
          ∧ GreaterOrEqual (Execute 0) (some (.string "ab")) (some (.string "b")) (World.mk [] "") = (.ok (!l), World.mk [] "")
          ∧ Greater (Execute 0) (some (.string "ab")) (some (.string "b")) (World.mk [] "")
              = Less (Execute 0) (some (.string "b")) (some (.string "ab")) (World.mk [] "")
          ∧ GreaterOrEqual (Execute 0) (some (.string "ab")) (some (.string "b")) (World.mk [] "")
              = LessOrEqual (Execute 0) (some (.string "b")) (some (.string "ab")) (World.mk [] "") :=
  ⟨rfl, derived_comparisons (Execute 0) (World.mk [] "") _ _ rfl⟩

/-! ## Truthiness -/

/-- Claim C9. `IsTrue` is false on the empty holder, `b` on `Bool(b)`, `n ≠ 0` on `Number(n)`
(negative numbers included) and `s ≠ ""` on `String(s)`. -/
theorem IsTrue_primitives :
    IsTrue none = false
      ∧ (∀ b : Bool, IsTrue (some (.bool b)) = b)
      ∧ (∀ n : Int, IsTrue (some (.number n)) = decide (n ≠ 0))
      ∧ (∀ s : String, IsTrue (some (.string s)) = decide (s ≠ ""))
      ∧ IsTrue (some (.number (-1))) = true := by
  refine ⟨rfl, fun b => rfl, fun n => ?_, fun s => ?_, rfl⟩
  · by_cases h : n = 0 <;> simp [IsTrue, TryAsBool, TryAsNumber, h]
  · by_cases h : s = "" <;> simp [IsTrue, TryAsBool, TryAsNumber, TryAsString, h]

/-- Counterexample to C10 as stated: `IsTrue` is false on a holder of the instance at address 0
and on a holder of the class `A`. -/
theorem IsTrue_object_counterexample :
    IsTrue (some (.classInstance 0)) = false ∧ IsTrue (some (.cls (Class.mk "A" [] none))) = false :=
  ⟨rfl, rfl⟩

/-- Claim C10, amended. For every holder `obj` of a `ClassInstance` or of a `Class`, `IsTrue`
returns false; so an `IfElse` whose condition evaluates to `obj` runs its else-branch (or, without
one, returns the empty holder) and `Not` of it is `Bool(true)`. -/
theorem IsTrue_object (exec : Executable) (condition_ if_body_ : Statement)
    (else_body_ : Option Statement) (cl cl1 : Closure) (w w1 : World) (obj : ObjectHolder)
    (hobj : (∃ self, obj = some (.classInstance self)) ∨ (∃ c, obj = some (.cls c)))
    (hcond : exec condition_ cl w = (.ok obj, cl1, w1)) :
    IsTrue obj = false
      ∧ IfElse.Execute exec condition_ if_body_ else_body_ cl w
          = (match else_body_ with
            | some else_body => exec else_body cl1 w1
            | none => (.ok none, cl1, w1))
      ∧ Not.Execute exec (some condition_) cl w = (.ok (some (.bool true)), cl1, w1) := by
  have hfalse : IsTrue obj = false := by
    rcases hobj with ⟨self, rfl⟩ | ⟨c, rfl⟩ <;> rfl
  refine ⟨hfalse, ?_, ?_⟩
  · simp [IfElse.Execute, hcond, hfalse]
  · simp [Not.Execute, hcond, hfalse]

/-- Witness for C10: `if A: 1 else: 2` yields 2 and `not A` yields `True` when `A` is a class. -/
theorem IsTrue_object_witness :
    Execute 1 (.VariableValue ["A"]) [("A", some (.cls (Class.mk "A" [] none)))] (World.mk [] "")
        = (.ok (some (.cls (Class.mk "A" [] none))), [("A", some (.cls (Class.mk "A" [] none)))], World.mk [] "")
      ∧ IsTrue (some (.cls (Class.mk "A" [] none))) = false
      ∧ IfElse.Execute (Execute 1) (.VariableValue ["A"]) (.NumericConst 1) (some (.NumericConst 2))
          [("A", some (.cls (Class.mk "A" [] none)))] (World.mk [] "")
          = (.ok (some (.number 2)), [("A", some (.cls (Class.mk "A" [] none)))], World.mk [] "")
      ∧ Not.Execute (Execute 1) (some (.VariableValue ["A"]))
          [("A", some (.cls (Class.mk "A" [] none)))] (World.mk [] "")
          = (.ok (some (.bool true)), [("A", some (.cls (Class.mk "A" [] none)))], World.mk [] "") :=
  ⟨rfl, IsTrue_object (Execute 1) (.VariableValue ["A"]) (.NumericConst 1) (some (.NumericConst 2))
    [("A", some (.cls (Class.mk "A" [] none)))] [("A", some (.cls (Class.mk "A" [] none)))]
    (World.mk [] "") (World.mk [] "") (some (.cls (Class.mk "A" [] none)))
    (Or.inr ⟨_, rfl⟩) rfl⟩

/-! ## Arithmetic -/

/-- When both operand expressions evaluate, `BinaryOperation.operands` yields the two values. -/
theorem operands_ok (exec : Executable) (lhs rhs : Statement) (cl cl1 cl2 : Closure)
    (w w1 w2 : World) (a b : ObjectHolder)
    (hl : exec lhs cl w = (.ok a, cl1, w1)) (hr : exec rhs cl1 w1 = (.ok b, cl2, w2)) :
    BinaryOperation.operands exec (some lhs) (some rhs) cl w = (.ok (a, b), cl2, w2) := by
  simp [BinaryOperation.operands, hl, hr]

/-- Claim C1. `Add.Execute` on operand expressions that evaluate to `a` and `b`: two Numbers give
the Number holding their sum (in 32-bit two's complement, which is the sum itself whenever it is
representable); two Strings give the left text followed by the right text; a left `ClassInstance`
whose class has `__add__` with one formal parameter gives the result of calling `__add__` on it
with `b` as the only argument; every other pair raises `incorrect add operands`. -/
theorem Add_Execute_spec (exec : Executable) (lhs rhs : Statement) (cl cl1 cl2 : Closure)
    (w w1 w2 : World) (a b : ObjectHolder)
    (hl : exec lhs cl w = (.ok a, cl1, w1)) (hr : exec rhs cl1 w1 = (.ok b, cl2, w2)) :
    (∀ x y : Int, a = some (.number x) → b = some (.number y) →
        Add.Execute exec (some lhs) (some rhs) cl w
            = (.ok (some (.number (wrapInt (x + y)))), cl2, w2)
          ∧ (-2147483648 ≤ x + y → x + y < 2147483648 →
              Add.Execute exec (some lhs) (some rhs) cl w = (.ok (some (.number (x + y))), cl2, w2)))
      ∧ (∀ s t : String, a = some (.string s) → b = some (.string t) →
          Add.Execute exec (some lhs) (some rhs) cl w = (.ok (some (.string (s ++ t))), cl2, w2))
      ∧ (∀ (self : Nat) (inst : ClassInstance), a = some (.classInstance self) →
          assocFind self w2.heap = some inst → inst.HasMethod ADD_METHOD 1 = true →
          Add.Execute exec (some lhs) (some rhs) cl w
            = ((ClassInstance.Call exec self ADD_METHOD [b] w2).1, cl2,
                (ClassInstance.Call exec self ADD_METHOD [b] w2).2))
      ∧ (((TryAsNumber a).isSome && (TryAsNumber b).isSome) = false →
          ((TryAsString a).isSome && (TryAsString b).isSome) = false →
          (∀ self : Nat, a = some (.classInstance self) →
            ∃ inst, assocFind self w2.heap = some inst ∧ inst.HasMethod ADD_METHOD 1 = false) →
          Add.Execute exec (some lhs) (some rhs) cl w
            = (.error (.runtime_error "incorrect add operands"), cl2, w2)) := by
  have hops := operands_ok exec lhs rhs cl cl1 cl2 w w1 w2 a b hl hr
  refine ⟨?_, ?_, ?_, ?_⟩
  · intro x y ha hb
    subst ha hb
    have h1 : Add.Execute exec (some lhs) (some rhs) cl w
        = (.ok (some (.number (wrapInt (x + y)))), cl2, w2) := by
      simp [Add.Execute, hops, Add.apply, TryAsNumber]
    refine ⟨h1, fun hlo hhi => ?_⟩
    rw [h1, wrapInt_of_inRange (x + y) hlo hhi]
  · intro s t ha hb
    subst ha hb
    simp [Add.Execute, hops, Add.apply, TryAsNumber, TryAsString]
  · intro self inst ha hlive hhas
    subst ha
    simp [Add.Execute, hops, Add.apply, TryAsNumber, TryAsString, TryAsClassInstance, hlive, hhas]
  · intro hnum hstr hinst
    rcases a with _ | (x | s | p | c | self)
    case some.classInstance =>
      obtain ⟨inst, hlive, hhas⟩ := hinst self rfl
      simp [Add.Execute, hops, Add.apply, TryAsNumber, TryAsString, TryAsClassInstance, hlive, hhas]
    all_goals
      rcases b with _ | (y | t | q | d | j) <;>
        simp [TryAsNumber, TryAsString] at hnum hstr <;>
        simp [Add.Execute, hops, Add.apply, TryAsNumber, TryAsString, TryAsClassInstance]

/-- Witness for C1: `1 + 2`, `"a" + "b"`, `v + 4` for an instance `v` whose `__add__` returns its
argument, and `True + 1`. -/
theorem Add_Execute_spec_witness :
    Add.Execute (Execute 1) (some (.NumericConst 1)) (some (.NumericConst 2)) [] (World.mk [] "")
        = (.ok (some (.number 3)), [], World.mk [] "")
      ∧ Add.Execute (Execute 1) (some (.StringConst "a")) (some (.StringConst "b")) [] (World.mk [] "")
        = (.ok (some (.string "ab")), [], World.mk [] "")
      ∧ Add.Execute (Execute 3) (some (.VariableValue ["v"])) (some (.NumericConst 4))
          sampleClosure sampleWorld
        = (.ok (some (.number 4)), sampleClosure, sampleWorld)
      ∧ Add.Execute (Execute 1) (some (.BoolConst true)) (some (.NumericConst 1)) [] (World.mk [] "")
        = (.error (.runtime_error "incorrect add operands"), [], World.mk [] "") :=
  ⟨((Add_Execute_spec (Execute 1) (.NumericConst 1) (.NumericConst 2) [] [] [] (World.mk [] "")
      (World.mk [] "") (World.mk [] "") (some (.number 1)) (some (.number 2)) rfl rfl).1
      1 2 rfl rfl).1,
    (Add_Execute_spec (Execute 1) (.StringConst "a") (.StringConst "b") [] [] [] (World.mk [] "")
      (World.mk [] "") (World.mk [] "") (some (.string "a")) (some (.string "b")) rfl rfl).2.1
      "a" "b" rfl rfl,
    (Add_Execute_spec (Execute 3) (.VariableValue ["v"]) (.NumericConst 4) sampleClosure
      sampleClosure sampleClosure sampleWorld sampleWorld sampleWorld
      (some (.classInstance 0)) (some (.number 4)) rfl rfl).2.2.1
      0 (ClassInstance.mk sampleClass []) rfl rfl rfl,
    (Add_Execute_spec (Execute 1) (.BoolConst true) (.NumericConst 1) [] [] [] (World.mk [] "")
      (World.mk [] "") (World.mk [] "") (some (.bool true)) (some (.number 1)) rfl rfl).2.2.2
      rfl rfl (fun self h => by simp at h)⟩

/-- Claim C2. `Sub.Execute`, `Mult.Execute` and `Div.Execute` on operand expressions that
evaluate to `a` and `b`: two Numbers give the Number holding the difference, the product or, for
a right value other than 0, the quotient truncated toward zero (in 32-bit two's complement, which
is the exact result whenever that is representable); `Div` raises `division by zero` exactly when
both are Numbers and the right one is 0; and when one of the values is not a Number each of the
three raises its `incorrect ... operands` runtime error. -/
theorem arithmetic_Execute_spec (exec : Executable) (lhs rhs : Statement) (cl cl1 cl2 : Closure)
    (w w1 w2 : World) (a b : ObjectHolder)
    (hl : exec lhs cl w = (.ok a, cl1, w1)) (hr : exec rhs cl1 w1 = (.ok b, cl2, w2)) :
    (∀ x y : Int, a = some (.number x) → b = some (.number y) →
        Sub.Execute exec (some lhs) (some rhs) cl w
            = (.ok (some (.number (wrapInt (x - y)))), cl2, w2)
          ∧ Mult.Execute exec (some lhs) (some rhs) cl w
            = (.ok (some (.number (wrapInt (x * y)))), cl2, w2)
          ∧ (y ≠ 0 → Div.Execute exec (some lhs) (some rhs) cl w
            = (.ok (some (.number (wrapInt (Int.tdiv x y)))), cl2, w2)))
      ∧ (∀ z : Int, -2147483648 ≤ z → z < 2147483648 → wrapInt z = z)
      ∧ (Div.Execute exec (some lhs) (some rhs) cl w
            = (.error (.runtime_error "division by zero"), cl2, w2)
          ↔ ∃ x : Int, a = some (.number x) ∧ b = some (.number 0))
      ∧ (((TryAsNumber a).isSome && (TryAsNumber b).isSome) = false →
          Sub.Execute exec (some lhs) (some rhs) cl w
            = (.error (.runtime_error "incorrect sub operands"), cl2, w2)
          ∧ Mult.Execute exec (some lhs) (some rhs) cl w
            = (.error (.runtime_error "incorrect mult operands"), cl2, w2)
          ∧ Div.Execute exec (some lhs) (some rhs) cl w
            = (.error (.runtime_error "incorrect div operands"), cl2, w2)) := by
  have hops := operands_ok exec lhs rhs cl cl1 cl2 w w1 w2 a b hl hr
  refine ⟨?_, wrapInt_of_inRange, ?_, ?_⟩
  · intro x y ha hb
    subst ha hb
    refine ⟨?_, ?_, fun hy => ?_⟩
    · simp [Sub.Execute, hops, TryAsNumber]
    · simp [Mult.Execute, hops, TryAsNumber]
    · simp [Div.Execute, hops, TryAsNumber, hy]
  · constructor
    · intro hdiv
      rcases a with _ | (x | s | p | c | self) <;> rcases b with _ | (y | t | q | d | j) <;>
        simp [Div.Execute, hops, TryAsNumber] at hdiv
      by_cases hy : y = 0
      · simp [hy]
      · simp [hy] at hdiv
    · rintro ⟨x, rfl, rfl⟩
      simp [Div.Execute, hops, TryAsNumber]
  · intro hnum
    rcases a with _ | (x | s | p | c | self) <;> rcases b with _ | (y | t | q | d | j) <;>
      simp [TryAsNumber] at hnum <;>
      simp [Sub.Execute, Mult.Execute, Div.Execute, hops, TryAsNumber]

/-- Witness for C2: `(-7) - 2`, `(-7) * 2`, `(-7) / 2`, `7 / 0`, and `"a"` against `1`. -/
theorem arithmetic_Execute_spec_witness :
    (Sub.Execute (Execute 1) (some (.NumericConst (-7))) (some (.NumericConst 2)) [] (World.mk [] "")
        = (.ok (some (.number (-9))), [], World.mk [] "")
      ∧ Mult.Execute (Execute 1) (some (.NumericConst (-7))) (some (.NumericConst 2)) [] (World.mk [] "")
        = (.ok (some (.number (-14))), [], World.mk [] "")
      ∧ ((2 : Int) ≠ 0 → Div.Execute (Execute 1) (some (.NumericConst (-7))) (some (.NumericConst 2)) []
          (World.mk [] "") = (.ok (some (.number (-3))), [], World.mk [] "")))
      ∧ Div.Execute (Execute 1) (some (.NumericConst 7)) (some (.NumericConst 0)) [] (World.mk [] "")
        = (.error (.runtime_error "division by zero"), [], World.mk [] "")
      ∧ (Sub.Execute (Execute 1) (some (.StringConst "a")) (some (.NumericConst 1)) [] (World.mk [] "")
          = (.error (.runtime_error "incorrect sub operands"), [], World.mk [] "")
        ∧ Mult.Execute (Execute 1) (some (.StringConst "a")) (some (.NumericConst 1)) [] (World.mk [] "")
          = (.error (.runtime_error "incorrect mult operands"), [], World.mk [] "")
        ∧ Div.Execute (Execute 1) (some (.StringConst "a")) (some (.NumericConst 1)) [] (World.mk [] "")
          = (.error (.runtime_error "incorrect div operands"), [], World.mk [] "")) :=
  ⟨(arithmetic_Execute_spec (Execute 1) (.NumericConst (-7)) (.NumericConst 2) [] [] [] (World.mk [] "")
      (World.mk [] "") (World.mk [] "") (some (.number (-7))) (some (.number 2)) rfl rfl).1 (-7) 2 rfl rfl,
    (arithmetic_Execute_spec (Execute 1) (.NumericConst 7) (.NumericConst 0) [] [] [] (World.mk [] "")
      (World.mk [] "") (World.mk [] "") (some (.number 7)) (some (.number 0)) rfl rfl).2.2.1.mpr
      ⟨7, rfl, rfl⟩,
    (arithmetic_Execute_spec (Execute 1) (.StringConst "a") (.NumericConst 1) [] [] [] (World.mk [] "")
      (World.mk [] "") (World.mk [] "") (some (.string "a")) (some (.number 1)) rfl rfl).2.2.2 rfl⟩

/-! ## Comparison errors and overloads -/

/-- On a live instance with a one-parameter method `method`, `ClassInstance::Call` with one
argument runs the body of that method in the frame that binds `self` and the parameter. -/
theorem Call_one_argument (exec : Executable) (self : Nat) (inst : ClassInstance) (method : String)
    (arg : ObjectHolder) (w : World) (hlive : assocFind self w.heap = some inst)
    (hhas : inst.HasMethod method 1 = true) :
    ∃ (m : Method) (p : String), inst.cls_.GetMethod method = some m ∧ m.formal_params = [p]
      ∧ ClassInstance.Call exec self method [arg] w
        = ((exec m.body (assocSet p arg (assocSet SELF_OBJECT (some (.classInstance self)) [])) w).1,
            (exec m.body (assocSet p arg (assocSet SELF_OBJECT (some (.classInstance self)) [])) w).2.2) := by
  unfold ClassInstance.HasMethod at hhas
  cases hget : inst.cls_.GetMethod method with
  | none => simp [hget] at hhas
  | some m =>
    simp only [hget] at hhas
    have hlen : m.formal_params.length = 1 := by
      by_contra hne
      simp [hne] at hhas
    obtain ⟨p, hp⟩ := List.length_eq_one.mp hlen
    refine ⟨m, p, rfl, hp, ?_⟩
    simp [ClassInstance.Call, hlive, ClassInstance.HasMethod, hget, hp, ClassInstance.bindArgs]

/-- `Equal` on a live instance with `__eq__/1` is the Bool of the call of `__eq__`. -/
theorem Equal_instance (exec : Executable) (self : Nat) (inst : ClassInstance) (rhs : ObjectHolder)
    (w : World) (hlive : assocFind self w.heap = some inst)
    (hhas : inst.HasMethod EQ_METHOD 1 = true) :
    Equal exec (some (.classInstance self)) rhs w
      = GetBoolValue (ClassInstance.Call exec self EQ_METHOD [rhs] w) := by
  simp [Equal, TryAsNumber, TryAsString, TryAsBool, TryAsClassInstance, hlive, hhas]

/-- `Less` on a live instance with `__lt__/1` is the Bool of the call of `__lt__`. -/
theorem Less_instance (exec : Executable) (self : Nat) (inst : ClassInstance) (rhs : ObjectHolder)
    (w : World) (hlive : assocFind self w.heap = some inst)
    (hhas : inst.HasMethod LT_METHOD 1 = true) :
    Less exec (some (.classInstance self)) rhs w
      = GetBoolValue (ClassInstance.Call exec self LT_METHOD [rhs] w) := by
  simp [Less, TryAsNumber, TryAsString, TryAsBool, TryAsClassInstance, hlive, hhas]

/-- `Equal` raises its own error on a non-empty left value that is neither of the variant of the
right value nor an instance with `__eq__/1`. -/
theorem Equal_uncomparable (exec : Executable) (lhs rhs : ObjectHolder) (w : World)
    (hsome : lhs ≠ none) (hprim : SamePrimitive lhs rhs = false)
    (hinst : ∀ self : Nat, lhs = some (.classInstance self) →
      ∃ inst, assocFind self w.heap = some inst ∧ inst.HasMethod EQ_METHOD 1 = false) :
    Equal exec lhs rhs w = (.error (.runtime_error "Cannot compare objects for equality"), w) := by
  rcases lhs with _ | (x | s | p | c | self)
  case none => exact absurd rfl hsome
  case some.classInstance =>
    obtain ⟨inst, hlive, hhas⟩ := hinst self rfl
    simp [Equal, TryAsNumber, TryAsString, TryAsBool, TryAsClassInstance, hlive, hhas]
  all_goals
    rcases rhs with _ | (y | t | q | d | j) <;>
      simp [SamePrimitive, TryAsNumber, TryAsString, TryAsBool] at hprim <;>
      simp [Equal, TryAsNumber, TryAsString, TryAsBool, TryAsClassInstance]

/-- `Less` raises its own error on a non-empty left value that is neither of the variant of the
right value nor an instance with `__lt__/1`. -/
theorem Less_uncomparable (exec : Executable) (lhs rhs : ObjectHolder) (w : World)
    (hsome : lhs ≠ none) (hprim : SamePrimitive lhs rhs = false)
    (hinst : ∀ self : Nat, lhs = some (.classInstance self) →
      ∃ inst, assocFind self w.heap = some inst ∧ inst.HasMethod LT_METHOD 1 = false) :
    Less exec lhs rhs w = (.error (.runtime_error "Cannot compare objects for less"), w) := by
  rcases lhs with _ | (x | s | p | c | self)
  case none => exact absurd rfl hsome
  case some.classInstance =>
    obtain ⟨inst, hlive, hhas⟩ := hinst self rfl
    simp [Less, TryAsNumber, TryAsString, TryAsBool, TryAsClassInstance, hlive, hhas]
  all_goals
    rcases rhs with _ | (y | t | q | d | j) <;>
      simp [SamePrimitive, TryAsNumber, TryAsString, TryAsBool] at hprim <;>
      simp [Less, TryAsNumber, TryAsString, TryAsBool, TryAsClassInstance]

/-- The error of a call passes through `GetBoolValue`; no other error of `GetBoolValue` is a
`runtime_error`. -/
theorem GetBoolValue_runtime_error (r : Except Exn ObjectHolder × World) (what : String)
    (h : (GetBoolValue r).1 = .error (.runtime_error what)) : r.1 = .error (.runtime_error what) := by
  rcases r with ⟨_ | res, w1⟩
  · simpa [GetBoolValue] using h
  · cases hb : TryAsBool res <;> simp [GetBoolValue, hb] at h

/-- Claim C6. With every instance on the left live in the heap, `Equal` raises its
`Cannot compare objects for equality` error when the left holder is empty and the right one is
not, and when the left holder is not empty, the two values are not both `Number`, both `String`
or both `Bool`, and the left value is not an instance whose class has `__eq__` with one formal
parameter. In every other case `Equal` raises nothing itself: it returns true on two empty
holders, a Bool on primitives of one variant, and otherwise the Bool of the call of `__eq__`, so
that a `runtime_error` it ends with was raised inside that call. Hence, when the call of `__eq__`
does not raise that error, `Equal` raises it if and only if the condition holds. -/
theorem Equal_raises_iff (exec : Executable) (lhs rhs : ObjectHolder) (w : World)
    (hlive : ∀ self : Nat, lhs = some (.classInstance self) → ∃ inst, assocFind self w.heap = some inst) :
    (((lhs = none ∧ rhs ≠ none)
        ∨ (lhs ≠ none ∧ SamePrimitive lhs rhs = false
            ∧ ¬ ∃ (self : Nat) (inst : ClassInstance), lhs = some (.classInstance self)
                ∧ assocFind self w.heap = some inst ∧ inst.HasMethod EQ_METHOD 1 = true)) →
        Equal exec lhs rhs w = (.error (.runtime_error "Cannot compare objects for equality"), w))
      ∧ (¬ ((lhs = none ∧ rhs ≠ none)
          ∨ (lhs ≠ none ∧ SamePrimitive lhs rhs = false
              ∧ ¬ ∃ (self : Nat) (inst : ClassInstance), lhs = some (.classInstance self)
                  ∧ assocFind self w.heap = some inst ∧ inst.HasMethod EQ_METHOD 1 = true)) →
        (lhs = none ∧ rhs = none ∧ Equal exec lhs rhs w = (.ok true, w))
          ∨ (SamePrimitive lhs rhs = true ∧ ∃ e : Bool, Equal exec lhs rhs w = (.ok e, w))
          ∨ (∃ (self : Nat) (inst : ClassInstance), lhs = some (.classInstance self)
              ∧ assocFind self w.heap = some inst ∧ inst.HasMethod EQ_METHOD 1 = true
              ∧ Equal exec lhs rhs w = GetBoolValue (ClassInstance.Call exec self EQ_METHOD [rhs] w)
              ∧ ∀ what : String, (Equal exec lhs rhs w).1 = .error (.runtime_error what) →
                  (ClassInstance.Call exec self EQ_METHOD [rhs] w).1 = .error (.runtime_error what)))
      ∧ ((∀ self : Nat, (ClassInstance.Call exec self EQ_METHOD [rhs] w).1
            ≠ .error (.runtime_error "Cannot compare objects for equality")) →
        ((Equal exec lhs rhs w).1 = .error (.runtime_error "Cannot compare objects for equality")
          ↔ ((lhs = none ∧ rhs ≠ none)
              ∨ (lhs ≠ none ∧ SamePrimitive lhs rhs = false
                  ∧ ¬ ∃ (self : Nat) (inst : ClassInstance), lhs = some (.classInstance self)
                      ∧ assocFind self w.heap = some inst ∧ inst.HasMethod EQ_METHOD 1 = true)))) := by
  have part1 : ((lhs = none ∧ rhs ≠ none)
        ∨ (lhs ≠ none ∧ SamePrimitive lhs rhs = false
            ∧ ¬ ∃ (self : Nat) (inst : ClassInstance), lhs = some (.classInstance self)
                ∧ assocFind self w.heap = some inst ∧ inst.HasMethod EQ_METHOD 1 = true)) →
        Equal exec lhs rhs w = (.error (.runtime_error "Cannot compare objects for equality"), w) := by
    rintro (⟨hl, hr⟩ | ⟨hsome, hprim, hno⟩)
    · subst hl
      cases rhs with
      | none => exact absurd rfl hr
      | some o => simp [Equal]
    · refine Equal_uncomparable exec lhs rhs w hsome hprim (fun self hself => ?_)
      obtain ⟨inst, hinst⟩ := hlive self hself
      refine ⟨inst, hinst, ?_⟩
      cases hhas : inst.HasMethod EQ_METHOD 1
      · rfl
      · exact absurd ⟨self, inst, hself, hinst, hhas⟩ hno
  have part2 : ¬ ((lhs = none ∧ rhs ≠ none)
          ∨ (lhs ≠ none ∧ SamePrimitive lhs rhs = false
              ∧ ¬ ∃ (self : Nat) (inst : ClassInstance), lhs = some (.classInstance self)
                  ∧ assocFind self w.heap = some inst ∧ inst.HasMethod EQ_METHOD 1 = true)) →
        (lhs = none ∧ rhs = none ∧ Equal exec lhs rhs w = (.ok true, w))
          ∨ (SamePrimitive lhs rhs = true ∧ ∃ e : Bool, Equal exec lhs rhs w = (.ok e, w))
          ∨ (∃ (self : Nat) (inst : ClassInstance), lhs = some (.classInstance self)
              ∧ assocFind self w.heap = some inst ∧ inst.HasMethod EQ_METHOD 1 = true
              ∧ Equal exec lhs rhs w = GetBoolValue (ClassInstance.Call exec self EQ_METHOD [rhs] w)
              ∧ ∀ what : String, (Equal exec lhs rhs w).1 = .error (.runtime_error what) →
                  (ClassInstance.Call exec self EQ_METHOD [rhs] w).1 = .error (.runtime_error what)) := by
    intro hncond
    rw [not_or] at hncond
    obtain ⟨h1, h2⟩ := hncond
    by_cases hl : lhs = none
    · have hr : rhs = none := by
        by_contra hr
        exact h1 ⟨hl, hr⟩
      subst hl hr
      exact Or.inl ⟨rfl, rfl, rfl⟩
    · cases hprim : SamePrimitive lhs rhs
      · right
        right
        have hex : ∃ (self : Nat) (inst : ClassInstance), lhs = some (.classInstance self)
            ∧ assocFind self w.heap = some inst ∧ inst.HasMethod EQ_METHOD 1 = true := by
          by_contra hno
          exact h2 ⟨hl, hprim, hno⟩
        obtain ⟨self, inst, hself, hinst, hhas⟩ := hex
        subst hself
        have heq := Equal_instance exec self inst rhs w hinst hhas
        refine ⟨self, inst, rfl, hinst, hhas, heq, fun what hwhat => ?_⟩
        rw [heq] at hwhat
        exact GetBoolValue_runtime_error _ what hwhat
      · right
        left
        refine ⟨rfl, ?_⟩
        rcases SamePrimitive_cases lhs rhs hprim with
          ⟨x, y, rfl, rfl⟩ | ⟨s, t, rfl, rfl⟩ | ⟨p, q, rfl, rfl⟩
        · exact ⟨_, Equal_number exec w x y⟩
        · exact ⟨_, Equal_string exec w s t⟩
        · exact ⟨_, Equal_bool exec w p q⟩
  refine ⟨part1, part2, fun hcall => ⟨fun herr => ?_, fun hcond => ?_⟩⟩
  · by_contra hncond
    rcases part2 hncond with ⟨_, _, hok⟩ | ⟨_, e, hok⟩ | ⟨self, inst, _, _, _, _, hfrom⟩
    · rw [hok] at herr
      simp at herr
    · rw [hok] at herr
      simp at herr
    · exact hcall self (hfrom _ herr)
  · rw [part1 hcond]

/-- Witness for C6: `None == 1`, `1 == "a"` and `1 == None` raise; `v == 1` for the instance `v`
of `sampleClass` is in the remaining case. -/
theorem Equal_raises_iff_witness :
    Equal (Execute 0) none (some (.number 1)) sampleWorld
        = (.error (.runtime_error "Cannot compare objects for equality"), sampleWorld)
      ∧ Equal (Execute 0) (some (.number 1)) (some (.string "a")) sampleWorld
        = (.error (.runtime_error "Cannot compare objects for equality"), sampleWorld)
      ∧ Equal (Execute 0) (some (.number 1)) none sampleWorld
        = (.error (.runtime_error "Cannot compare objects for equality"), sampleWorld)
      ∧ Equal (Execute 3) (some (.classInstance 0)) (some (.number 1)) sampleWorld
        = (.ok true, sampleWorld) :=
  ⟨(Equal_raises_iff (Execute 0) none (some (.number 1)) sampleWorld
      (fun self h => by simp at h)).1 (Or.inl ⟨rfl, by simp⟩),
    (Equal_raises_iff (Execute 0) (some (.number 1)) (some (.string "a")) sampleWorld
      (fun self h => by simp at h)).1 (Or.inr ⟨by simp, rfl, by simp⟩),
    (Equal_raises_iff (Execute 0) (some (.number 1)) none sampleWorld
      (fun self h => by simp at h)).1 (Or.inr ⟨by simp, rfl, by simp⟩),
    rfl⟩

/-- Claim C7. `Less` raises a runtime error whenever the left holder is empty, whatever the right
one is, so `Less`, `LessOrEqual` and `GreaterOrEqual` of two empty holders raise although `Equal`
of them is true; and `Less` raises whenever the left holder is not empty, the two values are not
both `Number`, both `String` or both `Bool`, and the left value is not an instance whose class has
`__lt__` with one formal parameter, in particular for a primitive against the empty holder. -/
theorem Less_raises (exec : Executable) (lhs rhs : ObjectHolder) (w : World)
    (hcond : lhs = none
      ∨ (SamePrimitive lhs rhs = false
          ∧ ∀ self : Nat, lhs = some (.classInstance self) →
              ∃ inst, assocFind self w.heap = some inst ∧ inst.HasMethod LT_METHOD 1 = false)) :
    Less exec lhs rhs w
        = (.error (.runtime_error
            (if lhs.isNone then "Cannot compare objects for equality"
              else "Cannot compare objects for less")), w)
      ∧ Less exec none none w = (.error (.runtime_error "Cannot compare objects for equality"), w)
      ∧ LessOrEqual exec none none w
          = (.error (.runtime_error "Cannot compare objects for equality"), w)
      ∧ GreaterOrEqual exec none none w
          = (.error (.runtime_error "Cannot compare objects for equality"), w)
      ∧ Equal exec none none w = (.ok true, w)
      ∧ (∀ x : Int, Less exec (some (.number x)) none w
          = (.error (.runtime_error "Cannot compare objects for less"), w))
      ∧ (∀ s : String, Less exec (some (.string s)) none w
          = (.error (.runtime_error "Cannot compare objects for less"), w))
      ∧ (∀ p : Bool, Less exec (some (.bool p)) none w
          = (.error (.runtime_error "Cannot compare objects for less"), w)) := by
  refine ⟨?_, rfl, rfl, rfl, rfl, fun x => ?_, fun s => ?_, fun p => ?_⟩
  · by_cases hl : lhs = none
    · subst hl
      simp [Less]
    · have hcond2 := hcond.resolve_left hl
      have hnone : lhs.isNone = false := by
        cases lhs with
        | none => exact absurd rfl hl
        | some o => rfl
      rw [hnone]
      exact Less_uncomparable exec lhs rhs w hl hcond2.1 hcond2.2
  · exact Less_uncomparable exec _ _ w (by simp) rfl (fun self h => by simp at h)
  · exact Less_uncomparable exec _ _ w (by simp) rfl (fun self h => by simp at h)
  · exact Less_uncomparable exec _ _ w (by simp) rfl (fun self h => by simp at h)

/-- Witness for C7: `None < 1` raises; so do `1 < "a"`, `1 < None`, and `u < 1` for an instance
`u` of a class without methods. -/
theorem Less_raises_witness :
    Less (Execute 0) none (some (.number 1)) (World.mk [] "")
        = (.error (.runtime_error "Cannot compare objects for equality"), World.mk [] "")
      ∧ Less (Execute 0) (some (.number 1)) (some (.string "a")) (World.mk [] "")
        = (.error (.runtime_error "Cannot compare objects for less"), World.mk [] "")
      ∧ Less (Execute 0) (some (.number 1)) none (World.mk [] "")
        = (.error (.runtime_error "Cannot compare objects for less"), World.mk [] "")
      ∧ Less (Execute 0) (some (.classInstance 5)) (some (.number 1))
          (World.mk [(5, ClassInstance.mk (Class.mk "U" [] none) [])] "")
        = (.error (.runtime_error "Cannot compare objects for less"),
            World.mk [(5, ClassInstance.mk (Class.mk "U" [] none) [])] "") :=
  ⟨(Less_raises (Execute 0) none (some (.number 1)) (World.mk [] "") (Or.inl rfl)).1,
    (Less_raises (Execute 0) (some (.number 1)) (some (.string "a")) (World.mk [] "")
      (Or.inr ⟨rfl, fun self h => by simp at h⟩)).1,
    (Less_raises (Execute 0) (some (.number 1)) none (World.mk [] "")
      (Or.inr ⟨rfl, fun self h => by simp at h⟩)).1,
    (Less_raises (Execute 0) (some (.classInstance 5)) (some (.number 1))
      (World.mk [(5, ClassInstance.mk (Class.mk "U" [] none) [])] "")
      (Or.inr ⟨rfl, fun self h => by
        have h5 : self = 5 := by
          simp only [Option.some.injEq, Object.classInstance.injEq] at h
          exact h.symm
        subst h5
        exact ⟨ClassInstance.mk (Class.mk "U" [] none) [], rfl, rfl⟩⟩)).1⟩

/-- Claim C8. For a left value that is a live instance whose class has `__eq__` (respectively
`__lt__`) with one formal parameter, and any right holder, the empty one included, `Equal`
(respectively `Less`) calls that method on the instance, in the frame that binds `self` to the
instance and the parameter to the right holder, and returns the payload of the Bool the method
returns; when the method returns anything else, or the empty holder, the comparison ends in an
error: the null pointer that `TryAs<Bool>` gives is dereferenced. -/
theorem comparison_overload (exec : Executable) (self : Nat) (inst : ClassInstance)
    (rhs : ObjectHolder) (w : World) (hlive : assocFind self w.heap = some inst) :
    (inst.HasMethod EQ_METHOD 1 = true →
        (∃ (m : Method) (p : String), inst.cls_.GetMethod EQ_METHOD = some m ∧ m.formal_params = [p]
          ∧ ClassInstance.Call exec self EQ_METHOD [rhs] w
            = ((exec m.body (assocSet p rhs (assocSet SELF_OBJECT (some (.classInstance self)) [])) w).1,
                (exec m.body (assocSet p rhs (assocSet SELF_OBJECT (some (.classInstance self)) [])) w).2.2))
        ∧ Equal exec (some (.classInstance self)) rhs w
            = GetBoolValue (ClassInstance.Call exec self EQ_METHOD [rhs] w)
        ∧ (∀ (b : Bool) (w1 : World),
            ClassInstance.Call exec self EQ_METHOD [rhs] w = (.ok (some (.bool b)), w1) →
            Equal exec (some (.classInstance self)) rhs w = (.ok b, w1))
        ∧ (∀ (res : ObjectHolder) (w1 : World),
            ClassInstance.Call exec self EQ_METHOD [rhs] w = (.ok res, w1) → TryAsBool res = none →
            Equal exec (some (.classInstance self)) rhs w = (.error .undefinedBehaviour, w1)))
      ∧ (inst.HasMethod LT_METHOD 1 = true →
        (∃ (m : Method) (p : String), inst.cls_.GetMethod LT_METHOD = some m ∧ m.formal_params = [p]
          ∧ ClassInstance.Call exec self LT_METHOD [rhs] w
            = ((exec m.body (assocSet p rhs (assocSet SELF_OBJECT (some (.classInstance self)) [])) w).1,
                (exec m.body (assocSet p rhs (assocSet SELF_OBJECT (some (.classInstance self)) [])) w).2.2))
        ∧ Less exec (some (.classInstance self)) rhs w
            = GetBoolValue (ClassInstance.Call exec self LT_METHOD [rhs] w)
        ∧ (∀ (b : Bool) (w1 : World),
            ClassInstance.Call exec self LT_METHOD [rhs] w = (.ok (some (.bool b)), w1) →
            Less exec (some (.classInstance self)) rhs w = (.ok b, w1))
        ∧ (∀ (res : ObjectHolder) (w1 : World),
            ClassInstance.Call exec self LT_METHOD [rhs] w = (.ok res, w1) → TryAsBool res = none →
            Less exec (some (.classInstance self)) rhs w = (.error .undefinedBehaviour, w1))) := by
  constructor
  · intro hhas
    have heq := Equal_instance exec self inst rhs w hlive hhas
    refine ⟨Call_one_argument exec self inst EQ_METHOD rhs w hlive hhas, heq, ?_, ?_⟩
    · intro b w1 hcall
      rw [heq, hcall]
      rfl
    · intro res w1 hcall hres
      rw [heq, hcall]
      simp [GetBoolValue, hres]
  · intro hhas
    have hlt := Less_instance exec self inst rhs w hlive hhas
    refine ⟨Call_one_argument exec self inst LT_METHOD rhs w hlive hhas, hlt, ?_, ?_⟩
    · intro b w1 hcall
      rw [hlt, hcall]
      rfl
    · intro res w1 hcall hres
      rw [hlt, hcall]
      simp [GetBoolValue, hres]

/-- Witness for C8 on the instance of `sampleClass`: its `__eq__` returns `True`, so `v == None`
is true; its `__lt__` returns the number 0, so `v < None` ends in the null dereference. -/
theorem comparison_overload_witness :
    assocFind 0 sampleWorld.heap = some (ClassInstance.mk sampleClass [])
      ∧ Equal (Execute 3) (some (.classInstance 0)) none sampleWorld = (.ok true, sampleWorld)
      ∧ Less (Execute 3) (some (.classInstance 0)) none sampleWorld
          = (.error .undefinedBehaviour, sampleWorld) :=
  ⟨rfl,
    ((comparison_overload (Execute 3) 0 (ClassInstance.mk sampleClass []) none sampleWorld rfl).1
      rfl).2.2.1 true sampleWorld rfl,
    ((comparison_overload (Execute 3) 0 (ClassInstance.mk sampleClass []) none sampleWorld rfl).2
      rfl).2.2.2 (some (.number 0)) sampleWorld rfl rfl⟩

/-! ## Fuel: more fuel does not change an outcome -/

theorem Refines_apply {e1 e2 : Executable} (h : Refines e1 e2) {s : Statement} {cl : Closure}
    {w : World} {r : Except Exn ObjectHolder} {cl1 : Closure} {w1 : World}
    (h1 : e1 s cl w = (r, cl1, w1)) (hr : r ≠ .error .outOfFuel) : e2 s cl w = (r, cl1, w1) := by
  have := h s cl w (by rw [h1]; exact hr)
  rw [this, h1]

theorem ClassInstance_Call_mono {e1 e2 : Executable} (h : Refines e1 e2) (self : Nat)
    (method : String) (actual_args : List ObjectHolder) (w : World)
    (hne : (ClassInstance.Call e1 self method actual_args w).1 ≠ .error .outOfFuel) :
    ClassInstance.Call e2 self method actual_args w = ClassInstance.Call e1 self method actual_args w := by
  unfold ClassInstance.Call at hne ⊢
  cases hlive : assocFind self w.heap with
  | none => rfl
  | some inst =>
    simp only [hlive] at hne ⊢
    split
    · rfl
    · rename_i hhas
      simp only [hhas] at hne
      cases hget : inst.cls_.GetMethod method with
      | none => rfl
      | some m =>
        simp only [hget] at hne ⊢
        cases hbind : ClassInstance.bindArgs actual_args m.formal_params 0
            (assocSet SELF_OBJECT (some (.classInstance self)) []) with
        | none => rfl
        | some cl =>
          simp only [hbind] at hne ⊢
          rcases h1 : e1 m.body cl w with ⟨r, cl1, w1⟩
          rw [h1] at hne
          rw [Refines_apply h h1 (by simpa using hne)]

theorem Object_Print_mono {e1 e2 : Executable} (h : Refines e1 e2) :
    ∀ (f1 f2 : Nat) (o : Object) (w : World), f1 ≤ f2 →
      (Object.Print e1 f1 o w).1 ≠ .error .outOfFuel →
      Object.Print e2 f2 o w = Object.Print e1 f1 o w := by
  intro f1
  induction f1 with
  | zero =>
    intro f2 o w _ hne
    simp [Object.Print] at hne
  | succ k ih =>
    intro f2 o w hle hne
    obtain ⟨j, rfl⟩ : ∃ j, f2 = j + 1 := ⟨f2 - 1, by omega⟩
    have hkj : k ≤ j := by omega
    cases o with
    | number v => rfl
    | string v => rfl
    | bool v => rfl
    | cls c => rfl
    | classInstance self =>
      unfold Object.Print at hne ⊢
      cases hlive : assocFind self w.heap with
      | none => rfl
      | some inst =>
        simp only [hlive] at hne ⊢
        cases hget : inst.cls_.GetMethod STR_METHOD with
        | none => rfl
        | some m =>
          simp only [hget] at hne ⊢
          rcases hcall : ClassInstance.Call e1 self m.name [] w with ⟨r, w1⟩
          rw [hcall] at hne
          have hcall2 : ClassInstance.Call e2 self m.name [] w = (r, w1) := by
            rw [ClassInstance_Call_mono h self m.name [] w, hcall]
            rw [hcall]
            intro hr
            simp only at hr
            subst hr
            simp at hne
          rw [hcall2]
          cases r with
          | error e => rfl
          | ok res =>
            cases res with
            | none => rfl
            | some o2 =>
              simp only at hne ⊢
              exact ih j o2 w1 hkj hne

theorem GetBoolValue_outOfFuel (r : Except Exn ObjectHolder × World)
    (hne : (GetBoolValue r).1 ≠ .error .outOfFuel) : r.1 ≠ .error .outOfFuel := by
  rcases r with ⟨_ | res, w1⟩
  · simpa [GetBoolValue] using hne
  · simp

theorem Equal_mono {e1 e2 : Executable} (h : Refines e1 e2) (lhs rhs : ObjectHolder) (w : World)
    (hne : (Equal e1 lhs rhs w).1 ≠ .error .outOfFuel) : Equal e2 lhs rhs w = Equal e1 lhs rhs w := by
  unfold Equal at hne ⊢
  repeat' split
  all_goals first
    | rfl
    | (rename_i hhas
       simp only [*] at hne
       rw [ClassInstance_Call_mono h _ _ _ _ (GetBoolValue_outOfFuel _ hne)])

theorem Less_mono {e1 e2 : Executable} (h : Refines e1 e2) (lhs rhs : ObjectHolder) (w : World)
    (hne : (Less e1 lhs rhs w).1 ≠ .error .outOfFuel) : Less e2 lhs rhs w = Less e1 lhs rhs w := by
  unfold Less at hne ⊢
  repeat' split
  all_goals first
    | rfl
    | (rename_i hhas
       simp only [*] at hne
       rw [ClassInstance_Call_mono h _ _ _ _ (GetBoolValue_outOfFuel _ hne)])

theorem NotEqual_mono {e1 e2 : Executable} (h : Refines e1 e2) (lhs rhs : ObjectHolder) (w : World)
    (hne : (NotEqual e1 lhs rhs w).1 ≠ .error .outOfFuel) :
    NotEqual e2 lhs rhs w = NotEqual e1 lhs rhs w := by
  unfold NotEqual at hne ⊢
  rcases heq : Equal e1 lhs rhs w with ⟨r, w1⟩
  rw [heq] at hne
  have heq2 : Equal e2 lhs rhs w = (r, w1) := by
    rw [Equal_mono h lhs rhs w, heq]
    rw [heq]
    cases r with
    | error e => simpa using hne
    | ok b => simp
  rw [heq2]

theorem GreaterOrEqual_mono {e1 e2 : Executable} (h : Refines e1 e2) (lhs rhs : ObjectHolder)
    (w : World) (hne : (GreaterOrEqual e1 lhs rhs w).1 ≠ .error .outOfFuel) :
    GreaterOrEqual e2 lhs rhs w = GreaterOrEqual e1 lhs rhs w := by
  unfold GreaterOrEqual at hne ⊢
  rcases hlt : Less e1 lhs rhs w with ⟨r, w1⟩
  rw [hlt] at hne
  have hlt2 : Less e2 lhs rhs w = (r, w1) := by
    rw [Less_mono h lhs rhs w, hlt]
    rw [hlt]
    cases r with
    | error e => simpa using hne
    | ok b => simp
  rw [hlt2]

theorem Greater_mono {e1 e2 : Executable} (h : Refines e1 e2) (lhs rhs : ObjectHolder)
    (w : World) (hne : (Greater e1 lhs rhs w).1 ≠ .error .outOfFuel) :
    Greater e2 lhs rhs w = Greater e1 lhs rhs w := by
  unfold Greater at hne ⊢
  rcases hlt : Less e1 lhs rhs w with ⟨r, w1⟩
  rw [hlt] at hne
  have hlt2 : Less e2 lhs rhs w = (r, w1) := by
    rw [Less_mono h lhs rhs w, hlt]
    rw [hlt]
    cases r with
    | error e => simpa using hne
    | ok b => simp
  rw [hlt2]
  cases r with
  | error e => rfl
  | ok l =>
    cases l with
    | true => rfl
    | false =>
      simp only [Bool.not_false, if_true] at hne ⊢
      rcases heq : Equal e1 lhs rhs w1 with ⟨r2, w2⟩
      rw [heq] at hne
      have heq2 : Equal e2 lhs rhs w1 = (r2, w2) := by
        rw [Equal_mono h lhs rhs w1, heq]
        rw [heq]
        cases r2 with
        | error e => simpa using hne
        | ok b => simp
      rw [heq2]

theorem LessOrEqual_mono {e1 e2 : Executable} (h : Refines e1 e2) (lhs rhs : ObjectHolder)
    (w : World) (hne : (LessOrEqual e1 lhs rhs w).1 ≠ .error .outOfFuel) :
    LessOrEqual e2 lhs rhs w = LessOrEqual e1 lhs rhs w := by
  unfold LessOrEqual at hne ⊢
  rcases hlt : Less e1 lhs rhs w with ⟨r, w1⟩
  rw [hlt] at hne
  have hlt2 : Less e2 lhs rhs w = (r, w1) := by
    rw [Less_mono h lhs rhs w, hlt]
    rw [hlt]
    cases r with
    | error e => simpa using hne
    | ok b => simp
  rw [hlt2]
  cases r with
  | error e => rfl
  | ok l =>
    cases l with
    | true => rfl
    | false =>
      simp only [Bool.false_eq_true, if_false] at hne ⊢
      rcases heq : Equal e1 lhs rhs w1 with ⟨r2, w2⟩
      rw [heq] at hne
      have heq2 : Equal e2 lhs rhs w1 = (r2, w2) := by
        rw [Equal_mono h lhs rhs w1, heq]
        rw [heq]
        cases r2 with
        | error e => simpa using hne
        | ok b => simp
      rw [heq2]

theorem callComparator_mono {e1 e2 : Executable} (h : Refines e1 e2) (cmp : Comparator)
    (lhs rhs : ObjectHolder) (w : World)
    (hne : (callComparator e1 cmp lhs rhs w).1 ≠ .error .outOfFuel) :
    callComparator e2 cmp lhs rhs w = callComparator e1 cmp lhs rhs w := by
  cases cmp
  · exact Equal_mono h lhs rhs w hne
  · exact NotEqual_mono h lhs rhs w hne
  · exact Less_mono h lhs rhs w hne
  · exact Greater_mono h lhs rhs w hne
  · exact LessOrEqual_mono h lhs rhs w hne
  · exact GreaterOrEqual_mono h lhs rhs w hne

theorem ExecuteArgs_mono {e1 e2 : Executable} (h : Refines e1 e2) :
    ∀ (args : List Statement) (cl : Closure) (w : World),
      (ExecuteArgs e1 args cl w).1 ≠ .error .outOfFuel →
      ExecuteArgs e2 args cl w = ExecuteArgs e1 args cl w := by
  intro args
  induction args with
  | nil => intro cl w _; rfl
  | cons arg rest ih =>
    intro cl w hne
    unfold ExecuteArgs at hne ⊢
    rcases h1 : e1 arg cl w with ⟨r, cl1, w1⟩
    rw [h1] at hne
    cases r with
    | error e =>
      rw [Refines_apply h h1 (by simpa using hne)]
    | ok v =>
      rw [Refines_apply h h1 (by simp)]
      simp only at hne ⊢
      rcases h2 : ExecuteArgs e1 rest cl1 w1 with ⟨r2, cl2, w2⟩
      rw [h2] at hne
      have h3 : ExecuteArgs e2 rest cl1 w1 = (r2, cl2, w2) := by
        rw [ih cl1 w1, h2]
        rw [h2]
        cases r2 with
        | error e => simpa using hne
        | ok vs => simp
      rw [h3]

theorem Compound_Execute_mono {e1 e2 : Executable} (h : Refines e1 e2) :
    ∀ (statements : List Statement) (cl : Closure) (w : World),
      (Compound.Execute e1 statements cl w).1 ≠ .error .outOfFuel →
      Compound.Execute e2 statements cl w = Compound.Execute e1 statements cl w := by
  intro statements
  induction statements with
  | nil => intro cl w _; rfl
  | cons statement rest ih =>
    intro cl w hne
    unfold Compound.Execute at hne ⊢
    rcases h1 : e1 statement cl w with ⟨r, cl1, w1⟩
    rw [h1] at hne
    cases r with
    | error e =>
      rw [Refines_apply h h1 (by simpa using hne)]
    | ok v =>
      rw [Refines_apply h h1 (by simp)]
      exact ih cl1 w1 hne

theorem Print_loop_mono {e1 e2 : Executable} (h : Refines e1 e2) (f1 f2 : Nat) (hf : f1 ≤ f2) :
    ∀ (args : List Statement) (first : Bool) (obj : ObjectHolder) (cl : Closure) (w : World),
      (Print.loop e1 f1 args first obj cl w).1 ≠ .error .outOfFuel →
      Print.loop e2 f2 args first obj cl w = Print.loop e1 f1 args first obj cl w := by
  intro args
  induction args with
  | nil => intro first obj cl w _; rfl
  | cons arg rest ih =>
    intro first obj cl w hne
    unfold Print.loop at hne ⊢
    rcases h1 : e1 arg cl (if first = true then w else w.write " ") with ⟨r, cl1, w1⟩
    rw [h1] at hne
    cases r with
    | error e =>
      rw [Refines_apply h h1 (by simpa using hne)]
    | ok v =>
      rw [Refines_apply h h1 (by simp)]
      cases v with
      | none => exact ih false none cl1 _ hne
      | some o =>
        simp only at hne ⊢
        rcases h2 : Object.Print e1 f1 o w1 with ⟨r2, w2⟩
        rw [h2] at hne
        have h3 : Object.Print e2 f2 o w1 = (r2, w2) := by
          rw [Object_Print_mono h f1 f2 o w1 hf, h2]
          rw [h2]
          cases r2 with
          | error e => simpa using hne
          | ok u => simp
        rw [h3]
        cases r2 with
        | error e => rfl
        | ok u => exact ih false (some o) cl1 w2 hne

theorem Assignment_Execute_mono {e1 e2 : Executable} (h : Refines e1 e2) (var_ : String)
    (rv_ : Statement) (cl : Closure) (w : World)
    (hne : (Assignment.Execute e1 var_ rv_ cl w).1 ≠ .error .outOfFuel) :
    Assignment.Execute e2 var_ rv_ cl w = Assignment.Execute e1 var_ rv_ cl w := by
  unfold Assignment.Execute at hne ⊢
  rcases h1 : e1 rv_ cl w with ⟨r, cl1, w1⟩
  rw [h1] at hne
  cases r with
  | error e => rw [Refines_apply h h1 (by simpa using hne)]
  | ok v => rw [Refines_apply h h1 (by simp)]

theorem FieldAssignment_Execute_mono {e1 e2 : Executable} (h : Refines e1 e2)
    (object_ : List String) (field_name_ : String) (rv_ : Statement) (cl : Closure) (w : World)
    (hne : (FieldAssignment.Execute e1 object_ field_name_ rv_ cl w).1 ≠ .error .outOfFuel) :
    FieldAssignment.Execute e2 object_ field_name_ rv_ cl w
      = FieldAssignment.Execute e1 object_ field_name_ rv_ cl w := by
  unfold FieldAssignment.Execute at hne ⊢
  rcases h0 : VariableValue.Execute object_ cl w with ⟨r0, cl0, w0⟩
  rw [h0] at hne
  cases r0 with
  | error e => rfl
  | ok obj =>
    simp only at hne ⊢
    rcases h1 : e1 rv_ cl0 w0 with ⟨r, cl1, w1⟩
    rw [h1] at hne
    cases r with
    | error e => rw [Refines_apply h h1 (by simpa using hne)]
    | ok v => rw [Refines_apply h h1 (by simp)]

theorem NewInstance_Execute_mono {e1 e2 : Executable} (h : Refines e1 e2) (class_inst_ : Nat)
    (class_ : Class) (args_ : List Statement) (cl : Closure) (w : World)
    (hne : (NewInstance.Execute e1 class_inst_ class_ args_ cl w).1 ≠ .error .outOfFuel) :
    NewInstance.Execute e2 class_inst_ class_ args_ cl w
      = NewInstance.Execute e1 class_inst_ class_ args_ cl w := by
  unfold NewInstance.Execute at hne ⊢
  rcases h1 : ExecuteArgs e1 args_ cl (NewInstance.materialize class_inst_ class_ w) with ⟨r, cl1, w1⟩
  rw [h1] at hne
  have h2 : ExecuteArgs e2 args_ cl (NewInstance.materialize class_inst_ class_ w) = (r, cl1, w1) := by
    rw [ExecuteArgs_mono h args_ cl _, h1]
    rw [h1]
    cases r with
    | error e => simpa using hne
    | ok vs => simp
  rw [h2]
  cases r with
  | error e => rfl
  | ok actual_args =>
    simp only at hne ⊢
    cases hlive : assocFind class_inst_ w1.heap with
    | none => rfl
    | some inst =>
      simp only [hlive] at hne ⊢
      split
      · rename_i hhas
        simp only [hhas, if_true] at hne
        rcases h3 : ClassInstance.Call e1 class_inst_ INIT_METHOD actual_args w1 with ⟨r3, w3⟩
        rw [h3] at hne
        have h4 : ClassInstance.Call e2 class_inst_ INIT_METHOD actual_args w1 = (r3, w3) := by
          rw [ClassInstance_Call_mono h class_inst_ INIT_METHOD actual_args w1, h3]
          rw [h3]
          cases r3 with
          | error e => simpa using hne
          | ok v => simp
        rw [h4]
      · rfl

theorem MethodCall_Execute_mono {e1 e2 : Executable} (h : Refines e1 e2) (object_ : Statement)
    (method_name_ : String) (args_ : List Statement) (cl : Closure) (w : World)
    (hne : (MethodCall.Execute e1 object_ method_name_ args_ cl w).1 ≠ .error .outOfFuel) :
    MethodCall.Execute e2 object_ method_name_ args_ cl w
      = MethodCall.Execute e1 object_ method_name_ args_ cl w := by
  unfold MethodCall.Execute at hne ⊢
  rcases h0 : e1 object_ cl w with ⟨r0, cl0, w0⟩
  rw [h0] at hne
  cases r0 with
  | error e => rw [Refines_apply h h0 (by simpa using hne)]
  | ok obj =>
    rw [Refines_apply h h0 (by simp)]
    simp only at hne ⊢
    rcases h1 : ExecuteArgs e1 args_ cl0 w0 with ⟨r, cl1, w1⟩
    rw [h1] at hne
    have h2 : ExecuteArgs e2 args_ cl0 w0 = (r, cl1, w1) := by
      rw [ExecuteArgs_mono h args_ cl0 w0, h1]
      rw [h1]
      cases r with
      | error e => simpa using hne
      | ok vs => simp
    rw [h2]
    cases r with
    | error e => rfl
    | ok actual_args =>
      simp only at hne ⊢
      cases hobj : TryAsClassInstance obj with
      | none => rfl
      | some a =>
        simp only [hobj] at hne ⊢
        rw [ClassInstance_Call_mono h a method_name_ actual_args w1 hne]

theorem Return_Execute_mono {e1 e2 : Executable} (h : Refines e1 e2) (statement_ : Statement)
    (cl : Closure) (w : World) (hne : (Return.Execute e1 statement_ cl w).1 ≠ .error .outOfFuel) :
    Return.Execute e2 statement_ cl w = Return.Execute e1 statement_ cl w := by
  unfold Return.Execute at hne ⊢
  rcases h1 : e1 statement_ cl w with ⟨r, cl1, w1⟩
  rw [h1] at hne
  cases r with
  | error e => rw [Refines_apply h h1 (by simpa using hne)]
  | ok v => rw [Refines_apply h h1 (by simp)]

theorem MethodBody_Execute_mono {e1 e2 : Executable} (h : Refines e1 e2) (body_ : Statement)
    (cl : Closure) (w : World) (hne : (MethodBody.Execute e1 body_ cl w).1 ≠ .error .outOfFuel) :
    MethodBody.Execute e2 body_ cl w = MethodBody.Execute e1 body_ cl w := by
  unfold MethodBody.Execute at hne ⊢
  rcases h1 : e1 body_ cl w with ⟨r, cl1, w1⟩
  rw [h1] at hne
  cases r with
  | error e =>
    cases e with
    | outOfFuel => simp at hne
    | runtime_error what => rw [Refines_apply h h1 (by simp)]
    | RuntimeReturnExeption obj => rw [Refines_apply h h1 (by simp)]
    | undefinedBehaviour => rw [Refines_apply h h1 (by simp)]
  | ok v => rw [Refines_apply h h1 (by simp)]

theorem Print_Execute_mono {e1 e2 : Executable} (h : Refines e1 e2) (f1 f2 : Nat) (hf : f1 ≤ f2)
    (args_ : List Statement) (cl : Closure) (w : World)
    (hne : (Print.Execute e1 f1 args_ cl w).1 ≠ .error .outOfFuel) :
    Print.Execute e2 f2 args_ cl w = Print.Execute e1 f1 args_ cl w := by
  unfold Print.Execute at hne ⊢
  rcases h1 : Print.loop e1 f1 args_ true none cl w with ⟨r, cl1, w1⟩
  rw [h1] at hne
  have h2 : Print.loop e2 f2 args_ true none cl w = (r, cl1, w1) := by
    rw [Print_loop_mono h f1 f2 hf args_ true none cl w, h1]
    rw [h1]
    cases r with
    | error e => simpa using hne
    | ok v => simp
  rw [h2]

theorem Stringify_Execute_mono {e1 e2 : Executable} (h : Refines e1 e2) (f1 f2 : Nat)
    (hf : f1 ≤ f2) (argument_ : Option Statement) (cl : Closure) (w : World)
    (hne : (Stringify.Execute e1 f1 argument_ cl w).1 ≠ .error .outOfFuel) :
    Stringify.Execute e2 f2 argument_ cl w = Stringify.Execute e1 f1 argument_ cl w := by
  unfold Stringify.Execute at hne ⊢
  cases argument_ with
  | none => rfl
  | some argument =>
    simp only at hne ⊢
    rcases h1 : e1 argument cl w with ⟨r, cl1, w1⟩
    rw [h1] at hne
    cases r with
    | error e => rw [Refines_apply h h1 (by simpa using hne)]
    | ok v =>
      rw [Refines_apply h h1 (by simp)]
      cases v with
      | none => rfl
      | some o =>
        simp only at hne ⊢
        rcases h2 : Object.Print e1 f1 o (World.mk w1.heap "") with ⟨r2, w2⟩
        rw [h2] at hne
        have h3 : Object.Print e2 f2 o (World.mk w1.heap "") = (r2, w2) := by
          rw [Object_Print_mono h f1 f2 o _ hf, h2]
          rw [h2]
          cases r2 with
          | error e => simpa using hne
          | ok u => simp
        rw [h3]

theorem BinaryOperation_operands_mono {e1 e2 : Executable} (h : Refines e1 e2)
    (lhs_ rhs_ : Option Statement) (cl : Closure) (w : World)
    (hne : (BinaryOperation.operands e1 lhs_ rhs_ cl w).1 ≠ .error .outOfFuel) :
    BinaryOperation.operands e2 lhs_ rhs_ cl w = BinaryOperation.operands e1 lhs_ rhs_ cl w := by
  unfold BinaryOperation.operands at hne ⊢
  cases lhs_ with
  | none => rfl
  | some lhs =>
    cases rhs_ with
    | none => rfl
    | some rhs =>
      simp only at hne ⊢
      rcases h1 : e1 lhs cl w with ⟨r, cl1, w1⟩
      rw [h1] at hne
      cases r with
      | error e => rw [Refines_apply h h1 (by simpa using hne)]
      | ok a =>
        rw [Refines_apply h h1 (by simp)]
        simp only at hne ⊢
        rcases h2 : e1 rhs cl1 w1 with ⟨r2, cl2, w2⟩
        rw [h2] at hne
        cases r2 with
        | error e => rw [Refines_apply h h2 (by simpa using hne)]
        | ok b => rw [Refines_apply h h2 (by simp)]

theorem Add_apply_mono {e1 e2 : Executable} (h : Refines e1 e2) (obj_lhs obj_rhs : ObjectHolder)
    (w : World) (hne : (Add.apply e1 obj_lhs obj_rhs w).1 ≠ .error .outOfFuel) :
    Add.apply e2 obj_lhs obj_rhs w = Add.apply e1 obj_lhs obj_rhs w := by
  unfold Add.apply at hne ⊢
  repeat' split
  all_goals first
    | rfl
    | (simp only [*] at hne
       rw [ClassInstance_Call_mono h _ _ _ _ (by simpa using hne)])

theorem Add_Execute_mono {e1 e2 : Executable} (h : Refines e1 e2) (lhs_ rhs_ : Option Statement)
    (cl : Closure) (w : World) (hne : (Add.Execute e1 lhs_ rhs_ cl w).1 ≠ .error .outOfFuel) :
    Add.Execute e2 lhs_ rhs_ cl w = Add.Execute e1 lhs_ rhs_ cl w := by
  unfold Add.Execute at hne ⊢
  rcases h1 : BinaryOperation.operands e1 lhs_ rhs_ cl w with ⟨r, cl1, w1⟩
  rw [h1] at hne
  have h2 : BinaryOperation.operands e2 lhs_ rhs_ cl w = (r, cl1, w1) := by
    rw [BinaryOperation_operands_mono h lhs_ rhs_ cl w, h1]
    rw [h1]
    cases r with
    | error e => simpa using hne
    | ok v => simp
  rw [h2]
  cases r with
  | error e => rfl
  | ok v =>
    obtain ⟨a, b⟩ := v
    simp only at hne ⊢
    rw [Add_apply_mono h a b w1 hne]

theorem Sub_Execute_mono {e1 e2 : Executable} (h : Refines e1 e2) (lhs_ rhs_ : Option Statement)
    (cl : Closure) (w : World) (hne : (Sub.Execute e1 lhs_ rhs_ cl w).1 ≠ .error .outOfFuel) :
    Sub.Execute e2 lhs_ rhs_ cl w = Sub.Execute e1 lhs_ rhs_ cl w := by
  unfold Sub.Execute at hne ⊢
  rcases h1 : BinaryOperation.operands e1 lhs_ rhs_ cl w with ⟨r, cl1, w1⟩
  rw [h1] at hne
  have h2 : BinaryOperation.operands e2 lhs_ rhs_ cl w = (r, cl1, w1) := by
    rw [BinaryOperation_operands_mono h lhs_ rhs_ cl w, h1]
    rw [h1]
    cases r with
    | error e => simpa using hne
    | ok v => simp
  rw [h2]

theorem Mult_Execute_mono {e1 e2 : Executable} (h : Refines e1 e2) (lhs_ rhs_ : Option Statement)
    (cl : Closure) (w : World) (hne : (Mult.Execute e1 lhs_ rhs_ cl w).1 ≠ .error .outOfFuel) :
    Mult.Execute e2 lhs_ rhs_ cl w = Mult.Execute e1 lhs_ rhs_ cl w := by
  unfold Mult.Execute at hne ⊢
  rcases h1 : BinaryOperation.operands e1 lhs_ rhs_ cl w with ⟨r, cl1, w1⟩
  rw [h1] at hne
  have h2 : BinaryOperation.operands e2 lhs_ rhs_ cl w = (r, cl1, w1) := by
    rw [BinaryOperation_operands_mono h lhs_ rhs_ cl w, h1]
    rw [h1]
    cases r with
    | error e => simpa using hne
    | ok v => simp
  rw [h2]

theorem Div_Execute_mono {e1 e2 : Executable} (h : Refines e1 e2) (lhs_ rhs_ : Option Statement)
    (cl : Closure) (w : World) (hne : (Div.Execute e1 lhs_ rhs_ cl w).1 ≠ .error .outOfFuel) :
    Div.Execute e2 lhs_ rhs_ cl w = Div.Execute e1 lhs_ rhs_ cl w := by
  unfold Div.Execute at hne ⊢
  rcases h1 : BinaryOperation.operands e1 lhs_ rhs_ cl w with ⟨r, cl1, w1⟩
  rw [h1] at hne
  have h2 : BinaryOperation.operands e2 lhs_ rhs_ cl w = (r, cl1, w1) := by
    rw [BinaryOperation_operands_mono h lhs_ rhs_ cl w, h1]
    rw [h1]
    cases r with
    | error e => simpa using hne
    | ok v => simp
  rw [h2]

theorem Or_Execute_mono {e1 e2 : Executable} (h : Refines e1 e2) (lhs_ rhs_ : Option Statement)
    (cl : Closure) (w : World) (hne : (Or.Execute e1 lhs_ rhs_ cl w).1 ≠ .error .outOfFuel) :
    Or.Execute e2 lhs_ rhs_ cl w = Or.Execute e1 lhs_ rhs_ cl w := by
  unfold Or.Execute at hne ⊢
  rcases h1 : BinaryOperation.operands e1 lhs_ rhs_ cl w with ⟨r, cl1, w1⟩
  rw [h1] at hne
  have h2 : BinaryOperation.operands e2 lhs_ rhs_ cl w = (r, cl1, w1) := by
    rw [BinaryOperation_operands_mono h lhs_ rhs_ cl w, h1]
    rw [h1]
    cases r with
    | error e => simpa using hne
    | ok v => simp
  rw [h2]

theorem And_Execute_mono {e1 e2 : Executable} (h : Refines e1 e2) (lhs_ rhs_ : Option Statement)
    (cl : Closure) (w : World) (hne : (And.Execute e1 lhs_ rhs_ cl w).1 ≠ .error .outOfFuel) :
    And.Execute e2 lhs_ rhs_ cl w = And.Execute e1 lhs_ rhs_ cl w := by
  unfold And.Execute at hne ⊢
  rcases h1 : BinaryOperation.operands e1 lhs_ rhs_ cl w with ⟨r, cl1, w1⟩
  rw [h1] at hne
  have h2 : BinaryOperation.operands e2 lhs_ rhs_ cl w = (r, cl1, w1) := by
    rw [BinaryOperation_operands_mono h lhs_ rhs_ cl w, h1]
    rw [h1]
    cases r with
    | error e => simpa using hne
    | ok v => simp
  rw [h2]

theorem Not_Execute_mono {e1 e2 : Executable} (h : Refines e1 e2) (argument_ : Option Statement)
    (cl : Closure) (w : World) (hne : (Not.Execute e1 argument_ cl w).1 ≠ .error .outOfFuel) :
    Not.Execute e2 argument_ cl w = Not.Execute e1 argument_ cl w := by
  unfold Not.Execute at hne ⊢
  cases argument_ with
  | none => rfl
  | some argument =>
    simp only at hne ⊢
    rcases h1 : e1 argument cl w with ⟨r, cl1, w1⟩
    rw [h1] at hne
    cases r with
    | error e => rw [Refines_apply h h1 (by simpa using hne)]
    | ok v => rw [Refines_apply h h1 (by simp)]

theorem Comparison_Execute_mono {e1 e2 : Executable} (h : Refines e1 e2) (cmp_ : Comparator)
    (lhs_ rhs_ : Option Statement) (cl : Closure) (w : World)
    (hne : (Comparison.Execute e1 cmp_ lhs_ rhs_ cl w).1 ≠ .error .outOfFuel) :
    Comparison.Execute e2 cmp_ lhs_ rhs_ cl w = Comparison.Execute e1 cmp_ lhs_ rhs_ cl w := by
  unfold Comparison.Execute at hne ⊢
  rcases h1 : BinaryOperation.operands e1 lhs_ rhs_ cl w with ⟨r, cl1, w1⟩
  rw [h1] at hne
  have h2 : BinaryOperation.operands e2 lhs_ rhs_ cl w = (r, cl1, w1) := by
    rw [BinaryOperation_operands_mono h lhs_ rhs_ cl w, h1]
    rw [h1]
    cases r with
    | error e => simpa using hne
    | ok v => simp
  rw [h2]
  cases r with
  | error e => rfl
  | ok v =>
    obtain ⟨a, b⟩ := v
    simp only at hne ⊢
    rcases h3 : callComparator e1 cmp_ a b w1 with ⟨r3, w3⟩
    rw [h3] at hne
    have h4 : callComparator e2 cmp_ a b w1 = (r3, w3) := by
      rw [callComparator_mono h cmp_ a b w1, h3]
      rw [h3]
      cases r3 with
      | error e => simpa using hne
      | ok v => simp
    rw [h4]

theorem IfElse_Execute_mono {e1 e2 : Executable} (h : Refines e1 e2) (condition_ if_body_ : Statement)
    (else_body_ : Option Statement) (cl : Closure) (w : World)
    (hne : (IfElse.Execute e1 condition_ if_body_ else_body_ cl w).1 ≠ .error .outOfFuel) :
    IfElse.Execute e2 condition_ if_body_ else_body_ cl w
      = IfElse.Execute e1 condition_ if_body_ else_body_ cl w := by
  unfold IfElse.Execute at hne ⊢
  rcases h1 : e1 condition_ cl w with ⟨r, cl1, w1⟩
  rw [h1] at hne
  cases r with
  | error e => rw [Refines_apply h h1 (by simpa using hne)]
  | ok v =>
    rw [Refines_apply h h1 (by simp)]
    simp only at hne ⊢
    cases hv : IsTrue v with
    | true =>
      simp only [hv, if_true] at hne ⊢
      exact h if_body_ cl1 w1 hne
    | false =>
      simp only [hv, Bool.false_eq_true, if_false] at hne ⊢
      cases else_body_ with
      | none => rfl
      | some else_body =>
        simp only at hne ⊢
        exact h else_body cl1 w1 hne

/-- One more unit of fuel refines the evaluator. -/
theorem Execute_refines_succ : ∀ fuel : Nat, Refines (Execute fuel) (Execute (fuel + 1)) := by
  intro fuel
  induction fuel with
  | zero =>
    intro s cl w hne
    simp [Execute] at hne
  | succ n ih =>
    intro s cl w hne
    cases s with
    | NumericConst v => rfl
    | StringConst v => rfl
    | BoolConst v => rfl
    | None => rfl
    | VariableValue ids => rfl
    | Assignment var_ rv_ => exact Assignment_Execute_mono ih var_ rv_ cl w hne
    | FieldAssignment object_ field_name_ rv_ =>
      exact FieldAssignment_Execute_mono ih object_ field_name_ rv_ cl w hne
    | NewInstance class_inst_ class_ args_ =>
      exact NewInstance_Execute_mono ih class_inst_ class_ args_ cl w hne
    | MethodCall object_ method_name_ args_ =>
      exact MethodCall_Execute_mono ih object_ method_name_ args_ cl w hne
    | Compound statements_ => exact Compound_Execute_mono ih statements_ cl w hne
    | Return statement_ => exact Return_Execute_mono ih statement_ cl w hne
    | MethodBody body_ => exact MethodBody_Execute_mono ih body_ cl w hne
    | ClassDefinition cls_ => rfl
    | Print args_ => exact Print_Execute_mono ih (n + 1) (n + 2) (by omega) args_ cl w hne
    | Stringify argument_ =>
      exact Stringify_Execute_mono ih (n + 1) (n + 2) (by omega) argument_ cl w hne
    | Add lhs_ rhs_ => exact Add_Execute_mono ih lhs_ rhs_ cl w hne
    | Sub lhs_ rhs_ => exact Sub_Execute_mono ih lhs_ rhs_ cl w hne
    | Mult lhs_ rhs_ => exact Mult_Execute_mono ih lhs_ rhs_ cl w hne
    | Div lhs_ rhs_ => exact Div_Execute_mono ih lhs_ rhs_ cl w hne
    | Or lhs_ rhs_ => exact Or_Execute_mono ih lhs_ rhs_ cl w hne
    | And lhs_ rhs_ => exact And_Execute_mono ih lhs_ rhs_ cl w hne
    | Not argument_ => exact Not_Execute_mono ih argument_ cl w hne
    | Comparison cmp_ lhs_ rhs_ => exact Comparison_Execute_mono ih cmp_ lhs_ rhs_ cl w hne
    | IfElse condition_ if_body_ else_body_ =>
      exact IfElse_Execute_mono ih condition_ if_body_ else_body_ cl w hne

/-- An evaluation that does not run out of fuel gives the same outcome with any larger fuel. -/
theorem Execute_mono (n m : Nat) (hnm : n ≤ m) (s : Statement) (cl : Closure) (w : World)
    (hne : (Execute n s cl w).1 ≠ .error .outOfFuel) : Execute m s cl w = Execute n s cl w := by
  induction m with
  | zero =>
    have hn : n = 0 := by omega
    subst hn
    rfl
  | succ k ih =>
    by_cases hk : n ≤ k
    · have hkn := ih hk
      rw [← hkn] at hne
      rw [Execute_refines_succ k s cl w hne, hkn]
    · have hn : n = k + 1 := by omega
      subst hn
      rfl

/-! ## Association lists -/

theorem assocFind_assocSet_self {κ α : Type} [DecidableEq κ] (k : κ) (v : α) (l : List (κ × α)) :
    assocFind k (assocSet k v l) = some v := by
  induction l with
  | nil => simp [assocSet, assocFind]
  | cons head tail ih =>
    obtain ⟨k1, v1⟩ := head
    by_cases h : k1 = k
    · simp [assocSet, assocFind, h]
    · simp [assocSet, assocFind, h, ih]

theorem assocFind_assocSet_ne {κ α : Type} [DecidableEq κ] (k j : κ) (v : α) (l : List (κ × α))
    (hne : j ≠ k) : assocFind j (assocSet k v l) = assocFind j l := by
  induction l with
  | nil =>
    have hkj : ¬ k = j := fun h => hne h.symm
    simp [assocSet, assocFind, hkj]
  | cons head tail ih =>
    obtain ⟨k1, v1⟩ := head
    by_cases h : k1 = k
    · have hkj : ¬ k = j := fun h2 => hne h2.symm
      have hk1j : ¬ k1 = j := fun h2 => hne (h2.symm.trans h)
      simp [assocSet, assocFind, h, hkj, hk1j]
    · by_cases h2 : k1 = j
      · subst h2
        simp [assocSet, assocFind, h]
      · simp [assocSet, assocFind, h, h2, ih]

theorem assocSet_of_assocFind_none {κ α : Type} [DecidableEq κ] (k : κ) (v : α) (l : List (κ × α))
    (h : assocFind k l = none) : assocSet k v l = l ++ [(k, v)] := by
  induction l with
  | nil => rfl
  | cons head tail ih =>
    obtain ⟨k1, v1⟩ := head
    by_cases h1 : k1 = k
    · simp [assocFind, h1] at h
    · simp only [assocFind, h1, if_false] at h
      simp [assocSet, h1, ih h]

theorem assocFind_append_singleton_ne {κ α : Type} [DecidableEq κ] (k j : κ) (v : α)
    (l : List (κ × α)) (hne : j ≠ k) : assocFind j (l ++ [(k, v)]) = assocFind j l := by
  induction l with
  | nil =>
    have hkj : ¬ k = j := fun h => hne h.symm
    simp [assocFind, hkj]
  | cons head tail ih =>
    obtain ⟨k1, v1⟩ := head
    by_cases h2 : k1 = j
    · simp [assocFind, h2]
    · simp [assocFind, h2, ih]

/-! ## Logical operators -/

/-- When the left operand evaluates and the right one raises, `BinaryOperation.operands` raises
what the right operand raised, in the state the right operand left. -/
theorem operands_error_right (exec : Executable) (lhs rhs : Statement) (cl cl1 cl2 : Closure)
    (w w1 w2 : World) (a : ObjectHolder) (e : Exn)
    (hl : exec lhs cl w = (.ok a, cl1, w1)) (hr : exec rhs cl1 w1 = (.error e, cl2, w2)) :
    BinaryOperation.operands exec (some lhs) (some rhs) cl w = (.error e, cl2, w2) := by
  simp [BinaryOperation.operands, hl, hr]

/-- Claim C11. For operand expressions of which the left evaluates to `l`: when the right one
evaluates to `r`, `And.Execute` returns `Bool(IsTrue(l) and IsTrue(r))` and `Or.Execute` returns
`Bool(IsTrue(l) or IsTrue(r))`, in the closure and world that the evaluation of the left and then
of the right operand leave, whatever `l` is; when the right one raises, both raise what it raised,
also when `l` alone decides the result (no short-circuit). `Not.Execute` returns
`Bool(not IsTrue(x))`. The result is a `Bool`. -/
theorem logical_Execute_spec (exec : Executable) (lhs rhs : Statement) (cl cl1 : Closure)
    (w w1 : World) (l : ObjectHolder) (hl : exec lhs cl w = (.ok l, cl1, w1)) :
    (∀ (r : ObjectHolder) (cl2 : Closure) (w2 : World), exec rhs cl1 w1 = (.ok r, cl2, w2) →
        And.Execute exec (some lhs) (some rhs) cl w
            = (.ok (some (.bool (IsTrue l && IsTrue r))), cl2, w2)
          ∧ Or.Execute exec (some lhs) (some rhs) cl w
            = (.ok (some (.bool (IsTrue l || IsTrue r))), cl2, w2))
      ∧ (∀ (e : Exn) (cl2 : Closure) (w2 : World), exec rhs cl1 w1 = (.error e, cl2, w2) →
        And.Execute exec (some lhs) (some rhs) cl w = (.error e, cl2, w2)
          ∧ Or.Execute exec (some lhs) (some rhs) cl w = (.error e, cl2, w2))
      ∧ Not.Execute exec (some lhs) cl w = (.ok (some (.bool (!IsTrue l))), cl1, w1) := by
  refine ⟨?_, ?_, ?_⟩
  · intro r cl2 w2 hr
    have hops := operands_ok exec lhs rhs cl cl1 cl2 w w1 w2 l r hl hr
    constructor
    · cases h1 : IsTrue l <;> cases h2 : IsTrue r <;> simp [And.Execute, hops, h1, h2]
    · cases h1 : IsTrue l <;> cases h2 : IsTrue r <;> simp [Or.Execute, hops, h1, h2]
  · intro e cl2 w2 hr
    have hops := operands_error_right exec lhs rhs cl cl1 cl2 w w1 w2 l e hl hr
    constructor
    · simp [And.Execute, hops]
    · simp [Or.Execute, hops]
  · simp [Not.Execute, hl]

/-- Witness for C11: `False and print 7` and `True or print 7` write `7` before they yield
`False` and `True`; `False and (1 / 0)` and `True or (1 / 0)` raise; `not 0` is `True`. -/
theorem logical_Execute_spec_witness :
    (And.Execute (Execute 3) (some (.BoolConst false)) (some (.Print [.NumericConst 7])) []
          (World.mk [] "")
        = (.ok (some (.bool false)), [], World.mk [] "7\n")
      ∧ Or.Execute (Execute 3) (some (.BoolConst false)) (some (.Print [.NumericConst 7])) []
          (World.mk [] "")
        = (.ok (some (.bool true)), [], World.mk [] "7\n"))
      ∧ (And.Execute (Execute 3) (some (.BoolConst true)) (some (.Print [.NumericConst 7])) []
          (World.mk [] "")
        = (.ok (some (.bool true)), [], World.mk [] "7\n")
      ∧ Or.Execute (Execute 3) (some (.BoolConst true)) (some (.Print [.NumericConst 7])) []
          (World.mk [] "")
        = (.ok (some (.bool true)), [], World.mk [] "7\n"))
      ∧ (And.Execute (Execute 3) (some (.BoolConst false))
          (some (.Div (some (.NumericConst 1)) (some (.NumericConst 0)))) [] (World.mk [] "")
        = (.error (.runtime_error "division by zero"), [], World.mk [] "")
      ∧ Or.Execute (Execute 3) (some (.BoolConst true))
          (some (.Div (some (.NumericConst 1)) (some (.NumericConst 0)))) [] (World.mk [] "")
        = (.error (.runtime_error "division by zero"), [], World.mk [] ""))
      ∧ Not.Execute (Execute 3) (some (.NumericConst 0)) [] (World.mk [] "")
        = (.ok (some (.bool true)), [], World.mk [] "") :=
  ⟨(logical_Execute_spec (Execute 3) (.BoolConst false) (.Print [.NumericConst 7]) [] []
      (World.mk [] "") (World.mk [] "") (some (.bool false)) rfl).1
      (some (.number 7)) [] (World.mk [] "7\n") rfl,
    (logical_Execute_spec (Execute 3) (.BoolConst true) (.Print [.NumericConst 7]) [] []
      (World.mk [] "") (World.mk [] "") (some (.bool true)) rfl).1
      (some (.number 7)) [] (World.mk [] "7\n") rfl,
    ⟨((logical_Execute_spec (Execute 3) (.BoolConst false)
        (.Div (some (.NumericConst 1)) (some (.NumericConst 0))) [] []
        (World.mk [] "") (World.mk [] "") (some (.bool false)) rfl).2.1
        (.runtime_error "division by zero") [] (World.mk [] "") rfl).1,
      ((logical_Execute_spec (Execute 3) (.BoolConst true)
        (.Div (some (.NumericConst 1)) (some (.NumericConst 0))) [] []
        (World.mk [] "") (World.mk [] "") (some (.bool true)) rfl).2.1
        (.runtime_error "division by zero") [] (World.mk [] "") rfl).2⟩,
    (logical_Execute_spec (Execute 3) (.NumericConst 0) (.None) [] []
      (World.mk [] "") (World.mk [] "") (some (.number 0)) rfl).2.2⟩

/-! ## Method calls -/

/-- The binding loop of `ClassInstance::Call` stays inside `actual_args` when there are at least
as many arguments left as formal parameters. -/
theorem bindArgs_isSome (actual_args : List ObjectHolder) :
    ∀ (params : List String) (i : Nat) (cl : Closure), i + params.length ≤ actual_args.length →
      ∃ frame, ClassInstance.bindArgs actual_args params i cl = some frame := by
  intro params
  induction params with
  | nil => intro i cl _; exact ⟨cl, rfl⟩
  | cons p ps ih =>
    intro i cl hlen
    have hi : i < actual_args.length := by
      simp only [List.length_cons] at hlen
      omega
    have hget : actual_args.get? i = some (actual_args.get ⟨i, hi⟩) := List.get?_eq_get hi
    simp only [ClassInstance.bindArgs, hget]
    apply ih
    simp only [List.length_cons] at hlen
    omega

/-- With pairwise distinct parameter names that are not yet bound, the binding loop appends the
parameters, each paired with the argument at its position. -/
theorem bindArgs_eq_zip (actual_args : List ObjectHolder) :
    ∀ (params : List String) (i : Nat) (cl : Closure), params.Nodup →
      (∀ p ∈ params, assocFind p cl = none) → i + params.length ≤ actual_args.length →
      ClassInstance.bindArgs actual_args params i cl
        = some (cl ++ List.zip params (actual_args.drop i)) := by
  intro params
  induction params with
  | nil => intro i cl _ _ _; simp [ClassInstance.bindArgs]
  | cons p ps ih =>
    intro i cl hnodup hfresh hlen
    have hi : i < actual_args.length := by
      simp only [List.length_cons] at hlen
      omega
    have hget : actual_args.get? i = some (actual_args.get ⟨i, hi⟩) := List.get?_eq_get hi
    have hdrop : actual_args.drop i = actual_args.get ⟨i, hi⟩ :: actual_args.drop (i + 1) := by
      simp
    have hp : assocFind p cl = none := hfresh p (List.mem_cons_self p ps)
    obtain ⟨hpps, hps⟩ := List.nodup_cons.mp hnodup
    simp only [ClassInstance.bindArgs, hget]
    rw [assocSet_of_assocFind_none p _ cl hp, ih (i + 1) _ hps, hdrop]
    · simp only [List.zip_cons_cons, List.append_assoc, List.singleton_append]
    · intro q hq
      have hqp : q ≠ p := fun h => hpps (h ▸ hq)
      rw [assocFind_append_singleton_ne p q _ cl hqp]
      exact hfresh q (List.mem_cons_of_mem p hq)
    · simp only [List.length_cons] at hlen
      omega

/-- `HasMethod(method, k)` holds exactly when the class resolves `method` to a record with `k`
formal parameters. -/
theorem HasMethod_iff (inst : ClassInstance) (method : String) (k : Nat) :
    inst.HasMethod method k = true
      ↔ ∃ r : Method, inst.cls_.GetMethod method = some r ∧ r.formal_params.length = k := by
  unfold ClassInstance.HasMethod
  cases hget : inst.cls_.GetMethod method with
  | none => simp
  | some r =>
    by_cases hlen : r.formal_params.length = k
    · simp [hlen]
    · simp [hlen]

/-- A call that passes the arity test runs the body of the resolved record in the frame that the
binding loop builds. -/
theorem Call_of_GetMethod (exec : Executable) (self : Nat) (inst : ClassInstance) (method : String)
    (actual_args : List ObjectHolder) (w : World) (r : Method) (frame : Closure)
    (hlive : assocFind self w.heap = some inst) (hget : inst.cls_.GetMethod method = some r)
    (hlen : r.formal_params.length = actual_args.length)
    (hbind : ClassInstance.bindArgs actual_args r.formal_params 0
      (assocSet SELF_OBJECT (some (.classInstance self)) []) = some frame) :
    ClassInstance.Call exec self method actual_args w
      = ((exec r.body frame w).1, (exec r.body frame w).2.2) := by
  simp [ClassInstance.Call, hlive, ClassInstance.HasMethod, hget, hlen, hbind]

/-- A call that fails the arity test raises `No method found` and leaves the world as it was. -/
theorem Call_of_not_HasMethod (exec : Executable) (self : Nat) (inst : ClassInstance)
    (method : String) (actual_args : List ObjectHolder) (w : World)
    (hlive : assocFind self w.heap = some inst)
    (hhas : inst.HasMethod method actual_args.length = false) :
    ClassInstance.Call exec self method actual_args w
      = (.error (.runtime_error "No method found"), w) := by
  simp [ClassInstance.Call, hlive, hhas]

theorem assocFind_zip_of_not_mem {α : Type} (name : String) :
    ∀ (keys : List String) (values : List α), name ∉ keys →
      assocFind name (List.zip keys values) = none := by
  intro keys
  induction keys with
  | nil => intro values _; simp [assocFind]
  | cons k ks ih =>
    intro values hmem
    cases values with
    | nil => simp [assocFind]
    | cons v vs =>
      have hk : ¬ k = name := fun h => hmem (h ▸ List.mem_cons_self k ks)
      have hks : name ∉ ks := fun h => hmem (List.mem_cons_of_mem k h)
      simp only [List.zip_cons_cons, assocFind, hk, if_false]
      exact ih vs hks

theorem assocFind_zip_get {α : Type} :
    ∀ (keys : List String) (values : List α), keys.Nodup →
      ∀ (i : Nat) (k : String) (v : α), keys.get? i = some k → values.get? i = some v →
        assocFind k (List.zip keys values) = some v := by
  intro keys
  induction keys with
  | nil => intro values _ i k v hk _; simp at hk
  | cons k0 ks ih =>
    intro values hnodup i k v hk hv
    obtain ⟨hk0, hks⟩ := List.nodup_cons.mp hnodup
    cases values with
    | nil => simp at hv
    | cons v0 vs =>
      cases i with
      | zero =>
        simp only [List.get?_cons_zero, Option.some.injEq] at hk hv
        subst hk hv
        simp [assocFind]
      | succ j =>
        simp only [List.get?_cons_succ] at hk hv
        have hmem : k ∈ ks := List.get?_mem hk
        have hne : ¬ k0 = k := fun h => hk0 (h ▸ hmem)
        simp only [List.zip_cons_cons, assocFind, hne, if_false]
        exact ih vs hks j k v hk hv

/-- Claim C12. For a live instance: `HasMethod(m, k)` is true exactly when the class of the
instance resolves `m` to a record with `k` formal parameters. When `HasMethod(m, len(args))` is
false, `Call(m, args)` raises `No method found`, whatever the executable is and without changing
the world, so no method body is run; otherwise it returns the outcome of executing the body of the
resolved record. Hence, when that body does not raise `No method found` itself, `Call` raises it
exactly when `HasMethod(m, len(args))` is false. -/
theorem Call_arity_check (exec : Executable) (self : Nat) (inst : ClassInstance) (method : String)
    (actual_args : List ObjectHolder) (w : World) (hlive : assocFind self w.heap = some inst) :
    (∀ k : Nat, inst.HasMethod method k = true
        ↔ ∃ r : Method, inst.cls_.GetMethod method = some r ∧ r.formal_params.length = k)
      ∧ (inst.HasMethod method actual_args.length = false →
          ∀ other : Executable, ClassInstance.Call other self method actual_args w
            = (.error (.runtime_error "No method found"), w))
      ∧ (inst.HasMethod method actual_args.length = true →
          ∃ (r : Method) (frame : Closure), inst.cls_.GetMethod method = some r
            ∧ ClassInstance.Call exec self method actual_args w
              = ((exec r.body frame w).1, (exec r.body frame w).2.2))
      ∧ ((∀ (r : Method) (frame : Closure), inst.cls_.GetMethod method = some r →
            (exec r.body frame w).1 ≠ .error (.runtime_error "No method found")) →
          ((ClassInstance.Call exec self method actual_args w).1
              = .error (.runtime_error "No method found")
            ↔ inst.HasMethod method actual_args.length = false)) := by
  have part3 : inst.HasMethod method actual_args.length = true →
      ∃ (r : Method) (frame : Closure), inst.cls_.GetMethod method = some r
        ∧ ClassInstance.Call exec self method actual_args w
          = ((exec r.body frame w).1, (exec r.body frame w).2.2) := by
    intro hhas
    obtain ⟨r, hget, hlen⟩ := (HasMethod_iff inst method actual_args.length).mp hhas
    obtain ⟨frame, hbind⟩ := bindArgs_isSome actual_args r.formal_params 0
      (assocSet SELF_OBJECT (some (.classInstance self)) []) (by omega)
    exact ⟨r, frame, hget,
      Call_of_GetMethod exec self inst method actual_args w r frame hlive hget hlen hbind⟩
  refine ⟨HasMethod_iff inst method, fun hhas other =>
    Call_of_not_HasMethod other self inst method actual_args w hlive hhas, part3, fun hbody => ?_⟩
  constructor
  · intro herr
    cases hhas : inst.HasMethod method actual_args.length with
    | false => rfl
    | true =>
      obtain ⟨r, frame, hget, hcall⟩ := part3 hhas
      rw [hcall] at herr
      exact absurd herr (hbody r frame hget)
  · intro hhas
    rw [Call_of_not_HasMethod exec self inst method actual_args w hlive hhas]

/-- Claim C13. For a call on a live instance that passes the arity test, of a method whose formal
parameter names are pairwise distinct and different from `self`: the body is executed in the frame
that consists of `self`, bound to the receiver itself, followed by the formal parameters, each
bound to the actual argument at its position. The frame has `k + 1` names for `k` arguments and
binds no other name: neither a field of the receiver nor a name of the caller's closure, which
`Call` never receives. -/
theorem Call_frame (exec : Executable) (self : Nat) (inst : ClassInstance) (method : String)
    (actual_args : List ObjectHolder) (w : World) (r : Method)
    (hlive : assocFind self w.heap = some inst) (hget : inst.cls_.GetMethod method = some r)
    (hlen : r.formal_params.length = actual_args.length) (hnodup : r.formal_params.Nodup)
    (hself : SELF_OBJECT ∉ r.formal_params) :
    ∃ frame : Closure,
      ClassInstance.Call exec self method actual_args w
          = ((exec r.body frame w).1, (exec r.body frame w).2.2)
        ∧ frame = (SELF_OBJECT, some (.classInstance self)) :: List.zip r.formal_params actual_args
        ∧ frame.length = actual_args.length + 1
        ∧ assocFind SELF_OBJECT frame = some (some (.classInstance self))
        ∧ (∀ (i : Nat) (p : String) (a : ObjectHolder), r.formal_params.get? i = some p →
            actual_args.get? i = some a → assocFind p frame = some a)
        ∧ (∀ name : String, name ≠ SELF_OBJECT → name ∉ r.formal_params →
            assocFind name frame = none) := by
  have hbind : ClassInstance.bindArgs actual_args r.formal_params 0
      (assocSet SELF_OBJECT (some (.classInstance self)) [])
      = some ((SELF_OBJECT, some (.classInstance self)) :: List.zip r.formal_params actual_args) := by
    rw [bindArgs_eq_zip actual_args r.formal_params 0 _ hnodup]
    · simp [assocSet]
    · intro p hp
      have hne : ¬ SELF_OBJECT = p := fun h => hself (h ▸ hp)
      simp [assocSet, assocFind, hne]
    · omega
  refine ⟨_, Call_of_GetMethod exec self inst method actual_args w r _ hlive hget hlen hbind,
    rfl, ?_, ?_, ?_, ?_⟩
  · simp [List.length_zip, hlen]
  · simp [assocFind]
  · intro i p a hp ha
    have hmem : p ∈ r.formal_params := List.get?_mem hp
    have hne : ¬ SELF_OBJECT = p := fun h => hself (h ▸ hmem)
    simp only [assocFind, hne, if_false]
    exact assocFind_zip_get r.formal_params actual_args hnodup i p a hp ha
  · intro name hname hmem
    have hne : ¬ SELF_OBJECT = name := fun h => hname h.symm
    simp only [assocFind, hne, if_false]
    exact assocFind_zip_of_not_mem name r.formal_params actual_args hmem

/-- Witness for C12, after `TestMethodInvocation`: the child has `test` with two parameters, not
with one, and `Call("test", {None})` raises; `Call("test", {"value1", "value2"})` returns what the
body returns. -/
theorem Call_arity_check_witness :
    assocFind 2 familyWorld.heap = some (ClassInstance.mk sampleChild [])
      ∧ ClassInstance.HasMethod (ClassInstance.mk sampleChild []) "test" 2 = true
      ∧ ClassInstance.HasMethod (ClassInstance.mk sampleChild []) "test" 1 = false
      ∧ ClassInstance.Call (Execute 3) 2 "test" [none] familyWorld
          = (.error (.runtime_error "No method found"), familyWorld)
      ∧ ∃ (r : Method) (frame : Closure),
          sampleChild.GetMethod "test" = some r
          ∧ ClassInstance.Call (Execute 3) 2 "test" [some (.string "value1"), some (.string "value2")]
              familyWorld
            = ((Execute 3 r.body frame familyWorld).1, (Execute 3 r.body frame familyWorld).2.2) :=
  ⟨rfl, rfl, rfl,
    (Call_arity_check (Execute 3) 2 (ClassInstance.mk sampleChild []) "test" [none] familyWorld
      rfl).2.1 rfl (Execute 3),
    (Call_arity_check (Execute 3) 2 (ClassInstance.mk sampleChild []) "test"
      [some (.string "value1"), some (.string "value2")] familyWorld rfl).2.2.1 rfl⟩

/-- Witness for C13, after `TestMethodInvocation`: `Call("test", {1, "abc"})` on the instance of
`Base` executes the body in the frame of `self`, `arg1` and `arg2`, without `base_field`. -/
theorem Call_frame_witness :
    ∃ frame : Closure,
      ClassInstance.Call (Execute 3) 1 "test" [some (.number 1), some (.string "abc")] familyWorld
          = ((Execute 3 (.MethodBody (.Return (.NumericConst 123))) frame familyWorld).1,
              (Execute 3 (.MethodBody (.Return (.NumericConst 123))) frame familyWorld).2.2)
        ∧ frame = [("self", some (.classInstance 1)), ("arg1", some (.number 1)),
            ("arg2", some (.string "abc"))]
        ∧ frame.length = 3
        ∧ assocFind "self" frame = some (some (.classInstance 1))
        ∧ (∀ (i : Nat) (p : String) (a : ObjectHolder),
            ["arg1", "arg2"].get? i = some p →
            [some (Object.number 1), some (Object.string "abc")].get? i = some a →
            assocFind p frame = some a)
        ∧ (∀ name : String, name ≠ "self" → name ∉ ["arg1", "arg2"] →
            assocFind name frame = none) :=
  Call_frame (Execute 3) 1 (ClassInstance.mk sampleBase [("base_field", some (.string "hello"))])
    "test" [some (.number 1), some (.string "abc")] familyWorld
    (Method.mk "test" ["arg1", "arg2"] (.MethodBody (.Return (.NumericConst 123))))
    rfl rfl rfl (by decide) (by decide)

/-! ## Method resolution -/

theorem lastNamed_cons (name : String) (x : Method) (rest : List Method) :
    lastNamed name (x :: rest)
      = (match lastNamed name rest with
        | some later => some later
        | none => if x.name = name then some x else none) := rfl

theorem lastNamed_mem (name : String) :
    ∀ (methods : List Method) (r : Method), lastNamed name methods = some r →
      r ∈ methods ∧ r.name = name := by
  intro methods
  induction methods with
  | nil => intro r h; simp [lastNamed] at h
  | cons x rest ih =>
    intro r h
    unfold lastNamed at h
    cases hrest : lastNamed name rest with
    | some later =>
      simp only [hrest, Option.some.injEq] at h
      subst h
      exact ⟨List.mem_cons_of_mem x (ih later hrest).1, (ih later hrest).2⟩
    | none =>
      simp only [hrest] at h
      by_cases hx : x.name = name
      · simp only [hx, if_true, Option.some.injEq] at h
        subst h
        exact ⟨List.mem_cons_self _ rest, hx⟩
      · simp [hx] at h

theorem lastNamed_eq_none_iff (name : String) :
    ∀ methods : List Method, lastNamed name methods = none ↔ ∀ x ∈ methods, x.name ≠ name := by
  intro methods
  induction methods with
  | nil => simp [lastNamed]
  | cons x rest ih =>
    unfold lastNamed
    cases hrest : lastNamed name rest with
    | some later =>
      have hlater := lastNamed_mem name rest later hrest
      simp only [false_iff, reduceCtorEq]
      intro hall
      exact hall later (List.mem_cons_of_mem x hlater.1) hlater.2
    | none =>
      have hall := ih.mp hrest
      by_cases hx : x.name = name
      · simp only [hx, if_true, reduceCtorEq, false_iff]
        intro h
        exact h x (List.mem_cons_self x rest) hx
      · simp only [hx, if_false, true_iff]
        intro y hy
        rcases List.mem_cons.mp hy with rfl | hmem
        · exact hx
        · exact hall y hmem

/-- What the loop `name_to_method_[method.name] = &method` leaves under `name`: the last method
of the list with that name, or else what the map held before. -/
theorem assocFind_foldl_assocSet (name : String) :
    ∀ (methods : List Method) (init : List (String × Method)),
      assocFind name (methods.foldl (fun m method => assocSet method.name method m) init)
        = (match lastNamed name methods with
          | some r => some r
          | none => assocFind name init) := by
  intro methods
  induction methods with
  | nil => intro init; simp [lastNamed]
  | cons x rest ih =>
    intro init
    simp only [List.foldl_cons]
    rw [ih, lastNamed_cons]
    cases hrest : lastNamed name rest with
    | some later => rfl
    | none =>
      by_cases hx : x.name = name
      · simp only [hx, if_true]
        rw [← hx, assocFind_assocSet_self]
      · simp only [hx, if_false]
        exact assocFind_assocSet_ne x.name name x init (fun h => hx h.symm)

/-- The method `GetMethod` finds the last method of that name among the own methods of the class
or else among the own methods of its parent. -/
theorem GetMethod_eq (name_ : String) (methods : List Method) (parent : Option Class)
    (name : String) :
    (Class.mk name_ methods parent).GetMethod name
      = (match lastNamed name methods with
        | some r => some r
        | none =>
          match parent with
          | some p => lastNamed name p.methods_
          | none => none) := by
  have hm : (Class.mk name_ methods parent).methods_ = methods := rfl
  have hp : (Class.mk name_ methods parent).GetParent = parent := rfl
  unfold Class.GetMethod Class.name_to_method_
  rw [hm, hp, assocFind_foldl_assocSet]
  cases hown : lastNamed name methods with
  | some r => rfl
  | none =>
    cases parent with
    | none => rfl
    | some p =>
      simp only
      rw [assocFind_foldl_assocSet]
      cases hpar : lastNamed name p.methods_ with
      | some r => rfl
      | none => rfl

/-- The binding loop leaves the binding of a name that is not a formal parameter. -/
theorem bindArgs_assocFind_of_not_mem (actual_args : List ObjectHolder) (name : String) :
    ∀ (params : List String) (i : Nat) (cl frame : Closure),
      ClassInstance.bindArgs actual_args params i cl = some frame → name ∉ params →
      assocFind name frame = assocFind name cl := by
  intro params
  induction params with
  | nil =>
    intro i cl frame h _
    simp only [ClassInstance.bindArgs, Option.some.injEq] at h
    rw [h]
  | cons p ps ih =>
    intro i cl frame h hmem
    rw [ClassInstance.bindArgs] at h
    cases hget : actual_args.get? i with
    | none =>
      rw [hget] at h
      exact absurd h (by simp)
    | some a =>
      rw [hget] at h
      simp only at h
      have hne : name ≠ p := fun hh => hmem (hh ▸ List.mem_cons_self p ps)
      rw [ih (i + 1) _ frame h (fun hh => hmem (List.mem_cons_of_mem p hh)),
        assocFind_assocSet_ne p name a cl hne]

/-- Claim C14. For a class `Child` constructed with the parent `Base` and a live instance of
`Child`: when `Child` has a method named `m` among its own methods, `GetMethod(m)` on `Child` is a
record of `Child` (the last one of that name), whatever `Base` is; the arity test of the instance
compares with the formal parameters of that record, and a call executes the body of that record.
When `Child` has no method named `m` and `Base` has one among its own methods, `GetMethod(m)` on
`Child` is the record that `Base` resolves `m` to, and a call on the instance of `Child` executes
its body in a frame in which `self` is the instance of `Child`. -/
theorem method_override (name_ : String) (methods : List Method) (base : Class) (m : String)
    (exec : Executable) (self : Nat) (fields : Closure) (actual_args : List ObjectHolder) (w : World)
    (hlive : assocFind self w.heap
      = some (ClassInstance.mk (Class.mk name_ methods (some base)) fields)) :
    ((∃ x ∈ methods, x.name = m) →
        ∃ r : Method, r ∈ methods ∧ r.name = m ∧ lastNamed m methods = some r
          ∧ (Class.mk name_ methods (some base)).GetMethod m = some r
          ∧ (∀ k : Nat, ClassInstance.HasMethod
                (ClassInstance.mk (Class.mk name_ methods (some base)) fields) m k
              = decide (r.formal_params.length = k))
          ∧ (r.formal_params.length = actual_args.length →
              ∃ frame : Closure, ClassInstance.Call exec self m actual_args w
                = ((exec r.body frame w).1, (exec r.body frame w).2.2)))
      ∧ ((∀ x ∈ methods, x.name ≠ m) → (∃ x ∈ base.methods_, x.name = m) →
        ∃ r : Method, r ∈ base.methods_ ∧ r.name = m
          ∧ (Class.mk name_ methods (some base)).GetMethod m = some r
          ∧ base.GetMethod m = some r
          ∧ (r.formal_params.length = actual_args.length →
              ∃ frame : Closure, ClassInstance.Call exec self m actual_args w
                  = ((exec r.body frame w).1, (exec r.body frame w).2.2)
                ∧ (SELF_OBJECT ∉ r.formal_params →
                    assocFind SELF_OBJECT frame = some (some (.classInstance self))))) := by
  have hcall : ∀ r : Method, (Class.mk name_ methods (some base)).GetMethod m = some r →
      r.formal_params.length = actual_args.length →
      ∃ frame : Closure, ClassInstance.Call exec self m actual_args w
          = ((exec r.body frame w).1, (exec r.body frame w).2.2)
        ∧ (SELF_OBJECT ∉ r.formal_params →
            assocFind SELF_OBJECT frame = some (some (.classInstance self))) := by
    intro r hget hlen
    obtain ⟨frame, hbind⟩ := bindArgs_isSome actual_args r.formal_params 0
      (assocSet SELF_OBJECT (some (.classInstance self)) []) (by omega)
    refine ⟨frame, Call_of_GetMethod exec self _ m actual_args w r frame hlive hget hlen hbind,
      fun hself => ?_⟩
    rw [bindArgs_assocFind_of_not_mem actual_args SELF_OBJECT r.formal_params 0 _ frame hbind hself]
    exact assocFind_assocSet_self SELF_OBJECT _ []
  constructor
  · rintro ⟨x, hx, hxm⟩
    cases hown : lastNamed m methods with
    | none => exact absurd hxm ((lastNamed_eq_none_iff m methods).mp hown x hx)
    | some r =>
      have hget : (Class.mk name_ methods (some base)).GetMethod m = some r := by
        rw [GetMethod_eq, hown]
      refine ⟨r, (lastNamed_mem m methods r hown).1, (lastNamed_mem m methods r hown).2, rfl,
        hget, fun k => ?_, fun hlen => ?_⟩
      · simp only [ClassInstance.HasMethod, hget]
        by_cases hk : r.formal_params.length = k <;> simp [hk]
      · obtain ⟨frame, hframe, _⟩ := hcall r hget hlen
        exact ⟨frame, hframe⟩
  · rintro hnone ⟨x, hx, hxm⟩
    have hown : lastNamed m methods = none := (lastNamed_eq_none_iff m methods).mpr hnone
    cases hbase : lastNamed m base.methods_ with
    | none => exact absurd hxm ((lastNamed_eq_none_iff m base.methods_).mp hbase x hx)
    | some r =>
      have hget : (Class.mk name_ methods (some base)).GetMethod m = some r := by
        rw [GetMethod_eq, hown]
        exact hbase
      have hgetBase : base.GetMethod m = some r := by
        obtain ⟨bname, bmethods, bparent⟩ := base
        have hb : lastNamed m bmethods = some r := hbase
        rw [GetMethod_eq, hb]
      exact ⟨r, (lastNamed_mem m base.methods_ r hbase).1, (lastNamed_mem m base.methods_ r hbase).2,
        hget, hgetBase, hcall r hget⟩

/-- Witness for C14, after `TestMethodInvocation`: on the instance of `Child`, `test` is the
method of `Child` and returns `child`; `test_2` is the method of `Base`, and the `self` that it
returns is the instance of `Child`. -/
theorem method_override_witness :
    sampleChild.GetMethod "test"
        = some (Method.mk "test" ["arg1_child", "arg2_child"]
            (.MethodBody (.Return (.StringConst "child"))))
      ∧ ClassInstance.Call (Execute 3) 2 "test" [some (.string "value1"), some (.string "value2")]
          familyWorld = (.ok (some (.string "child")), familyWorld)
      ∧ sampleChild.GetMethod "test_2" = sampleBase.GetMethod "test_2"
      ∧ ClassInstance.Call (Execute 3) 2 "test_2" [some (.string ":)")] familyWorld
          = (.ok (some (.classInstance 2)), familyWorld)
      ∧ (∃ r : Method, r ∈ sampleChild.methods_ ∧ r.name = "test"
          ∧ sampleChild.GetMethod "test" = some r)
      ∧ (∃ r : Method, r ∈ sampleBase.methods_ ∧ r.name = "test_2"
          ∧ sampleChild.GetMethod "test_2" = some r) := by
  have h := method_override "Child"
    [Method.mk "test" ["arg1_child", "arg2_child"] (.MethodBody (.Return (.StringConst "child")))]
    sampleBase "test" (Execute 3) 2 [] [some (.string "value1"), some (.string "value2")]
    familyWorld rfl
  have h2 := method_override "Child"
    [Method.mk "test" ["arg1_child", "arg2_child"] (.MethodBody (.Return (.StringConst "child")))]
    sampleBase "test_2" (Execute 3) 2 [] [some (.string ":)")] familyWorld rfl
  refine ⟨rfl, rfl, rfl, rfl, ?_, ?_⟩
  · obtain ⟨r, hmem, hname, _, hget, _⟩ := h.1 ⟨_, List.mem_cons_self _ _, rfl⟩
    exact ⟨r, hmem, hname, hget⟩
  · obtain ⟨r, hmem, hname, hget, _⟩ := h2.2 (by decide)
      ⟨Method.mk "test_2" ["arg1"] (.MethodBody (.Return (.VariableValue ["self"]))),
        by simp [sampleBase, Class.methods_], rfl⟩
    exact ⟨r, hmem, hname, hget⟩

/-- Claim C15 on the classes `Base`, `Child` (parent `Base`) and `Grandchild` (parent `Child`):
`test_2`, which only `Base` defines, is found on `Child` and is not found on `Grandchild`, and a
call of it on the instance of `Grandchild` raises `No method found`. The constructor copies the
own methods of the parent, not the map of the parent. -/
theorem GetMethod_grandparent :
    sampleBase.GetMethod "test_2"
        = some (Method.mk "test_2" ["arg1"] (.MethodBody (.Return (.VariableValue ["self"]))))
      ∧ sampleChild.GetMethod "test_2" = sampleBase.GetMethod "test_2"
      ∧ sampleGrandchild.GetMethod "test_2" = none
      ∧ sampleGrandchild.GetMethod "test"
        = some (Method.mk "test" ["arg1_child", "arg2_child"]
            (.MethodBody (.Return (.StringConst "child"))))
      ∧ ClassInstance.Call (Execute 3) 3 "test_2" [some (.string ":)")] familyWorld
        = (.error (.runtime_error "No method found"), familyWorld) :=
  ⟨rfl, rfl, rfl, rfl, rfl⟩

/-! ## Return -/

/-- An exception of a statement of a `Compound` ends the `Compound` there, whatever statements
follow. -/
theorem Compound_Execute_append_error (exec : Executable) (s : Statement) (after : List Statement)
    (x : Exn) (cl1 : Closure) (w1 : World) :
    ∀ (before : List Statement) (cl : Closure) (w : World) (u : ObjectHolder) (cl0 : Closure)
      (w0 : World), Compound.Execute exec before cl w = (.ok u, cl0, w0) →
      exec s cl0 w0 = (.error x, cl1, w1) →
      Compound.Execute exec (before ++ s :: after) cl w = (.error x, cl1, w1) := by
  intro before
  induction before with
  | nil =>
    intro cl w u cl0 w0 hbefore hs
    simp only [Compound.Execute, Prod.mk.injEq] at hbefore
    obtain ⟨_, hcl, hw⟩ := hbefore
    subst hcl hw
    simp [Compound.Execute, hs]
  | cons b bs ih =>
    intro cl w u cl0 w0 hbefore hs
    rw [List.cons_append, Compound.Execute]
    rw [Compound.Execute] at hbefore
    rcases hb : exec b cl w with ⟨r, clb, wb⟩
    rw [hb] at hbefore
    cases r with
    | error e => simp at hbefore
    | ok v =>
      simp only at hbefore ⊢
      exact ih clb wb u cl0 w0 hbefore hs

/-- A `Return` that is reached through `Compound` and `IfElse` nodes unwinds to the top of the
statement. -/
theorem Return_unwinds (fuel : Nat) (s : Statement) (cl : Closure) (w : World) (v : ObjectHolder)
    (cl1 : Closure) (w1 : World) (h : ReturnReached fuel s cl w v cl1 w1) :
    Execute fuel s cl w = (.error (.RuntimeReturnExeption v), cl1, w1) := by
  induction h with
  | here fuel e cl w v cl1 w1 he =>
    simp [Execute, Return.Execute, he]
  | compound fuel before s after cl w u cl0 w0 v cl1 w1 hbefore _ ih =>
    simp only [Execute]
    exact Compound_Execute_append_error (Execute fuel) s after _ cl1 w1 before cl w u cl0 w0
      hbefore ih
  | ifBody fuel condition if_body else_body cl w c cl0 w0 v cl1 w1 hc htrue _ ih =>
    simp [Execute, IfElse.Execute, hc, htrue, ih]
  | elseBody fuel condition if_body else_body cl w c cl0 w0 v cl1 w1 hc hfalse _ ih =>
    simp [Execute, IfElse.Execute, hc, hfalse, ih]

/-- Claim C16. When the evaluation of `inner` reaches a `Return(e)` through `Compound` and
`IfElse` nodes at any depth, with `e` evaluating to `v` in the closure `cl1` and the world `w1`:
`inner` ends with the return-unwind carrying `v`, `MethodBody(inner)` yields `v`, and so does a
call of a method whose body it is; the closure and the world are `cl1` and `w1`, those that the
evaluation of `e` left, so no statement after the `Return` has written or assigned anything. -/
theorem Return_semantics (fuel : Nat) (inner : Statement) (cl : Closure) (w : World)
    (v : ObjectHolder) (cl1 : Closure) (w1 : World)
    (h : ReturnReached fuel inner cl w v cl1 w1) :
    Execute fuel inner cl w = (.error (.RuntimeReturnExeption v), cl1, w1)
      ∧ (∀ more : Nat, Execute (fuel + 1 + more) (.MethodBody inner) cl w = (.ok v, cl1, w1))
      ∧ (∀ (more self : Nat) (inst : ClassInstance) (method : String)
          (actual_args : List ObjectHolder) (r : Method),
          assocFind self w.heap = some inst → inst.cls_.GetMethod method = some r →
          r.formal_params.length = actual_args.length → r.body = .MethodBody inner →
          ClassInstance.bindArgs actual_args r.formal_params 0
            (assocSet SELF_OBJECT (some (.classInstance self)) []) = some cl →
          ClassInstance.Call (Execute (fuel + 1 + more)) self method actual_args w = (.ok v, w1)) := by
  have hinner := Return_unwinds fuel inner cl w v cl1 w1 h
  have hbody : ∀ more : Nat,
      Execute (fuel + 1 + more) (.MethodBody inner) cl w = (.ok v, cl1, w1) := by
    intro more
    have h1 : Execute (fuel + 1) (.MethodBody inner) cl w = (.ok v, cl1, w1) := by
      simp [Execute, MethodBody.Execute, hinner]
    rw [Execute_mono (fuel + 1) (fuel + 1 + more) (by omega) _ cl w (by rw [h1]; simp), h1]
  refine ⟨hinner, hbody, ?_⟩
  intro more self inst method actual_args r hlive hget hlen hrbody hbind
  rw [Call_of_GetMethod _ self inst method actual_args w r cl hlive hget hlen hbind, hrbody,
    hbody more]

/-- Witness for C16: in `sampleBody` the `return 5` is reached after `print 1`; the body yields 5
and has written `1` only, and `x` is not assigned. -/
theorem Return_semantics_witness :
    ReturnReached 5 sampleBody [] (World.mk [] "") (some (.number 5)) [] (World.mk [] "1\n")
      ∧ Execute 5 sampleBody [] (World.mk [] "")
        = (.error (.RuntimeReturnExeption (some (.number 5))), [], World.mk [] "1\n")
      ∧ Execute 6 (.MethodBody sampleBody) [] (World.mk [] "")
        = (.ok (some (.number 5)), [], World.mk [] "1\n") := by
  have hreach : ReturnReached 5 sampleBody [] (World.mk [] "") (some (.number 5)) []
      (World.mk [] "1\n") :=
    ReturnReached.compound 4 [.Print [.NumericConst 1]]
      (.IfElse (.BoolConst true)
        (.Compound [.Return (.NumericConst 5), .Print [.NumericConst 2]]) none)
      [.Assignment "x" (.NumericConst 3)] [] (World.mk [] "") none [] (World.mk [] "1\n")
      (some (.number 5)) [] (World.mk [] "1\n") rfl
      (ReturnReached.ifBody 3 (.BoolConst true)
        (.Compound [.Return (.NumericConst 5), .Print [.NumericConst 2]]) none
        [] (World.mk [] "1\n") (some (.bool true)) [] (World.mk [] "1\n")
        (some (.number 5)) [] (World.mk [] "1\n") rfl rfl
        (ReturnReached.compound 2 [] (.Return (.NumericConst 5)) [.Print [.NumericConst 2]]
          [] (World.mk [] "1\n") none [] (World.mk [] "1\n")
          (some (.number 5)) [] (World.mk [] "1\n") rfl
          (ReturnReached.here 1 (.NumericConst 5) [] (World.mk [] "1\n") (some (.number 5)) []
            (World.mk [] "1\n") rfl)))
  exact ⟨hreach, (Return_semantics 5 sampleBody [] (World.mk [] "") (some (.number 5)) []
      (World.mk [] "1\n") hreach).1,
    (Return_semantics 5 sampleBody [] (World.mk [] "") (some (.number 5)) []
      (World.mk [] "1\n") hreach).2.1 0⟩

/-! ## Variables, assignments and fields -/

/-- The walk along a path that resolves yields the value of its last identifier. -/
theorem walk_of_Resolves (heap : Heap) (cl : Closure) (ids : List String) (v : ObjectHolder)
    (h : Resolves heap cl ids v)
    (hlive : ∀ a : Nat, v = some (.classInstance a) → ∃ inst, assocFind a heap = some inst) :
    ∀ current : Option ObjectHolder, VariableValue.walk heap ids cl current = .ok v := by
  induction h with
  | last cl id v hfind =>
    intro current
    rcases v with _ | (x | s | p | c | a)
    case some.classInstance =>
      obtain ⟨inst, hinst⟩ := hlive a rfl
      simp [VariableValue.walk, hfind, TryAsClassInstance, hinst]
    all_goals simp [VariableValue.walk, hfind, TryAsClassInstance]
  | field cl id a inst rest v hfind hinst _ ih =>
    intro current
    simp [VariableValue.walk, hfind, TryAsClassInstance, hinst, ih hlive]

/-- The walk along a path with an unbound identifier raises `var is not found`. -/
theorem walk_of_Unbound (heap : Heap) (cl : Closure) (ids : List String)
    (h : Unbound heap cl ids) :
    ∀ current : Option ObjectHolder,
      VariableValue.walk heap ids cl current = .error (.runtime_error "var is not found") := by
  induction h with
  | first cl id rest hfind =>
    intro current
    simp [VariableValue.walk, hfind]
  | later cl id a inst rest hfind hinst _ ih =>
    intro current
    simp [VariableValue.walk, hfind, TryAsClassInstance, hinst, ih]

/-- The walk stops at the first identifier whose value is not an instance and yields that
value, whatever identifiers follow. -/
theorem walk_of_Resolves_append (heap : Heap) (cl : Closure) (ids : List String)
    (v : ObjectHolder) (h : Resolves heap cl ids v) (hv : TryAsClassInstance v = none)
    (rest : List String) :
    ∀ current : Option ObjectHolder,
      VariableValue.walk heap (ids ++ rest) cl current = .ok v := by
  induction h with
  | last cl id v hfind =>
    intro current
    simp [VariableValue.walk, hfind, hv]
  | field cl id a inst more v hfind hinst _ ih =>
    intro current
    simp [VariableValue.walk, hfind, TryAsClassInstance, hinst, ih hv]

/-- Claim C17. For a dotted path whose first identifier is bound in the closure, whose identifiers
but the last are bound to live instances, each later one being a field of the instance before it,
`VariableValue.Execute` returns the holder bound to the last identifier (for one identifier, the
holder bound in the closure), of any variant; it raises `var is not found` when the first
identifier is not bound or a later one is not a field of the instance reached so far; and in every
case it leaves the closure and the world, hence every field, as they were. -/
theorem VariableValue_Execute_spec (dotted_ids : List String) (cl : Closure) (w : World) :
    (∀ v : ObjectHolder, Resolves w.heap cl dotted_ids v →
        (∀ a : Nat, v = some (.classInstance a) → ∃ inst, assocFind a w.heap = some inst) →
        VariableValue.Execute dotted_ids cl w = (.ok v, cl, w))
      ∧ (Unbound w.heap cl dotted_ids →
        VariableValue.Execute dotted_ids cl w = (.error (.runtime_error "var is not found"), cl, w))
      ∧ (VariableValue.Execute dotted_ids cl w).2 = (cl, w)
      ∧ (∀ fuel : Nat, Execute (fuel + 1) (.VariableValue dotted_ids) cl w
          = VariableValue.Execute dotted_ids cl w) := by
  refine ⟨fun v h hlive => ?_, fun h => ?_, rfl, fun fuel => rfl⟩
  · simp [VariableValue.Execute, walk_of_Resolves w.heap cl dotted_ids v h hlive]
  · simp [VariableValue.Execute, walk_of_Unbound w.heap cl dotted_ids h]

/-- Witness for C17: `x.inner.value` is 42 and `n` is 5; `y`, `x.missing` and `x.inner.missing`
are not found. -/
theorem VariableValue_Execute_spec_witness :
    VariableValue.Execute ["x", "inner", "value"] pathClosure pathWorld
        = (.ok (some (.number 42)), pathClosure, pathWorld)
      ∧ VariableValue.Execute ["n"] pathClosure pathWorld
        = (.ok (some (.number 5)), pathClosure, pathWorld)
      ∧ VariableValue.Execute ["y"] pathClosure pathWorld
        = (.error (.runtime_error "var is not found"), pathClosure, pathWorld)
      ∧ VariableValue.Execute ["x", "inner", "missing"] pathClosure pathWorld
        = (.error (.runtime_error "var is not found"), pathClosure, pathWorld) :=
  ⟨(VariableValue_Execute_spec ["x", "inner", "value"] pathClosure pathWorld).1 _
      (Resolves.field pathClosure "x" 10
        (ClassInstance.mk sampleBase [("inner", some (.classInstance 11))]) _ _ rfl rfl
        (Resolves.field _ "inner" 11
          (ClassInstance.mk sampleBase [("value", some (.number 42))]) _ _ rfl rfl
          (Resolves.last _ "value" _ rfl)))
      (fun a h => by simp at h),
    (VariableValue_Execute_spec ["n"] pathClosure pathWorld).1 _
      (Resolves.last pathClosure "n" _ rfl) (fun a h => by simp at h),
    (VariableValue_Execute_spec ["y"] pathClosure pathWorld).2.1
      (Unbound.first pathClosure "y" [] rfl),
    (VariableValue_Execute_spec ["x", "inner", "missing"] pathClosure pathWorld).2.1
      (Unbound.later pathClosure "x" 10
        (ClassInstance.mk sampleBase [("inner", some (.classInstance 11))]) _ rfl rfl
        (Unbound.later _ "inner" 11
          (ClassInstance.mk sampleBase [("value", some (.number 42))]) _ rfl rfl
          (Unbound.first _ "missing" [] rfl)))⟩

/-- Counterexample to C18 as stated: with `n` bound to the number 5, the paths `n.value` and
`x.inner.value.more` raise nothing; they return the number 5 and the number 42, the values of the
segments that are not instances. -/
theorem VariableValue_non_instance_counterexample :
    VariableValue.Execute ["n", "value"] pathClosure pathWorld
        = (.ok (some (.number 5)), pathClosure, pathWorld)
      ∧ VariableValue.Execute ["x", "inner", "value", "more"] pathClosure pathWorld
        = (.ok (some (.number 42)), pathClosure, pathWorld) :=
  ⟨rfl, rfl⟩

/-- Claim C18, amended. For a dotted path in which the segments `ids` resolve, through live
instances, to a value `v` that is not a `ClassInstance` (a Number, a String, a Bool, a Class or
the empty holder), and any segments `rest` after them: `VariableValue.Execute` raises no error; it
returns `v` as the result of the whole path and does not look up `rest`; the closure and the world
stay as they were. -/
theorem VariableValue_non_instance (ids rest : List String) (cl : Closure) (w : World)
    (v : ObjectHolder) (h : Resolves w.heap cl ids v) (hv : TryAsClassInstance v = none) :
    VariableValue.Execute (ids ++ rest) cl w = (.ok v, cl, w) := by
  simp [VariableValue.Execute, walk_of_Resolves_append w.heap cl ids v h hv rest]

/-- Witness for C18: `x.inner.value.more.less` returns 42, the value of `x.inner.value`. -/
theorem VariableValue_non_instance_witness :
    VariableValue.Execute (["x", "inner", "value"] ++ ["more", "less"]) pathClosure pathWorld
      = (.ok (some (.number 42)), pathClosure, pathWorld) :=
  VariableValue_non_instance ["x", "inner", "value"] ["more", "less"] pathClosure pathWorld _
    (Resolves.field pathClosure "x" 10
      (ClassInstance.mk sampleBase [("inner", some (.classInstance 11))]) _ _ rfl rfl
      (Resolves.field _ "inner" 11
        (ClassInstance.mk sampleBase [("value", some (.number 42))]) _ _ rfl rfl
        (Resolves.last _ "value" _ rfl)))
    rfl

theorem assocSet_length_of_found {κ α : Type} [DecidableEq κ] (k : κ) (v : α) (l : List (κ × α))
    (h : assocFind k l ≠ none) : (assocSet k v l).length = l.length := by
  induction l with
  | nil => simp [assocFind] at h
  | cons head tail ih =>
    obtain ⟨k1, v1⟩ := head
    by_cases h1 : k1 = k
    · simp [assocSet, h1]
    · simp only [assocFind, h1, if_false] at h
      simp [assocSet, h1, ih h]

/-- Looking up one identifier: the holder bound to it, when an instance among them is live. -/
theorem VariableValue_Execute_single (name : String) (cl : Closure) (w : World) (v : ObjectHolder)
    (hfind : assocFind name cl = some v)
    (hlive : ∀ a : Nat, v = some (.classInstance a) → ∃ inst, assocFind a w.heap = some inst) :
    VariableValue.Execute [name] cl w = (.ok v, cl, w) := by
  simp [VariableValue.Execute,
    walk_of_Resolves w.heap cl [name] v (Resolves.last cl name v hfind) hlive]

/-- Claim C19. When the right-hand side evaluates to `v`, leaving the closure `cl1` and the world
`w1`, `Assignment.Execute` returns `v` and leaves the world `w1` and a closure in which the name
is bound to `v`, a new binding when the name was unbound in `cl1` and the replaced one otherwise,
and every other name is bound as in `cl1`; a `VariableValue` of the name then returns `v`, also
when `v` is the empty holder. -/
theorem Assignment_Execute_spec (exec : Executable) (var_ : String) (rv_ : Statement)
    (cl cl1 : Closure) (w w1 : World) (v : ObjectHolder)
    (hrv : exec rv_ cl w = (.ok v, cl1, w1))
    (hlive : ∀ a : Nat, v = some (.classInstance a) → ∃ inst, assocFind a w1.heap = some inst) :
    ∃ cl2 : Closure,
      Assignment.Execute exec var_ rv_ cl w = (.ok v, cl2, w1)
        ∧ assocFind var_ cl2 = some v
        ∧ (∀ other : String, other ≠ var_ → assocFind other cl2 = assocFind other cl1)
        ∧ (assocFind var_ cl1 = none → cl2 = cl1 ++ [(var_, v)])
        ∧ (assocFind var_ cl1 ≠ none → cl2.length = cl1.length)
        ∧ VariableValue.Execute [var_] cl2 w1 = (.ok v, cl2, w1) := by
  refine ⟨assocSet var_ v cl1, ?_, assocFind_assocSet_self var_ v cl1,
    fun other hne => assocFind_assocSet_ne var_ other v cl1 hne,
    assocSet_of_assocFind_none var_ v cl1, assocSet_length_of_found var_ v cl1, ?_⟩
  · simp [Assignment.Execute, hrv]
  · exact VariableValue_Execute_single var_ _ w1 v (assocFind_assocSet_self var_ v cl1) hlive

/-- Witness for C19: `n = None` in `pathClosure` replaces the binding of `n`, keeps `x`, and
`n` is then the empty holder; `z = 1 + 2` adds a binding. -/
theorem Assignment_Execute_spec_witness :
    (∃ cl2 : Closure,
      Assignment.Execute (Execute 1) "n" .None pathClosure pathWorld = (.ok none, cl2, pathWorld)
        ∧ assocFind "n" cl2 = some none
        ∧ (∀ other : String, other ≠ "n" → assocFind other cl2 = assocFind other pathClosure)
        ∧ (assocFind "n" pathClosure = none → cl2 = pathClosure ++ [("n", none)])
        ∧ (assocFind "n" pathClosure ≠ none → cl2.length = pathClosure.length)
        ∧ VariableValue.Execute ["n"] cl2 pathWorld = (.ok none, cl2, pathWorld))
      ∧ Assignment.Execute (Execute 2) "z" (.Add (some (.NumericConst 1)) (some (.NumericConst 2)))
          pathClosure pathWorld
        = (.ok (some (.number 3)),
            [("x", some (.classInstance 10)), ("n", some (.number 5)), ("z", some (.number 3))],
            pathWorld) :=
  ⟨Assignment_Execute_spec (Execute 1) "n" .None pathClosure pathClosure pathWorld pathWorld none
      rfl (fun a h => by simp at h),
    rfl⟩

/-- A path that ends at an instance, with more identifiers appended, continues in the fields of
that instance. -/
theorem walk_append_of_instance (heap : Heap) (a : Nat) (inst : ClassInstance)
    (hinst : assocFind a heap = some inst) (rest : List String) :
    ∀ (ids : List String) (cl : Closure) (current : Option ObjectHolder), ids ≠ [] →
      VariableValue.walk heap ids cl current = .ok (some (.classInstance a)) →
      VariableValue.walk heap (ids ++ rest) cl current
        = VariableValue.walk heap rest inst.fields_ (some (some (.classInstance a))) := by
  intro ids
  induction ids with
  | nil => intro cl current hne _; exact absurd rfl hne
  | cons id more ih =>
    intro cl current _ hwalk
    rw [List.cons_append]
    rw [VariableValue.walk] at hwalk ⊢
    cases hfind : assocFind id cl with
    | none => simp [hfind] at hwalk
    | some found =>
      simp only [hfind] at hwalk ⊢
      cases hfound : TryAsClassInstance found with
      | none =>
        simp only [hfound, Except.ok.injEq] at hwalk
        rw [hwalk] at hfound
        simp [TryAsClassInstance] at hfound
      | some b =>
        simp only [hfound] at hwalk ⊢
        cases hb : assocFind b heap with
        | none => simp [hb] at hwalk
        | some instb =>
          simp only [hb] at hwalk ⊢
          cases more with
          | nil =>
            simp only [VariableValue.walk, Except.ok.injEq] at hwalk
            subst hwalk
            simp only [TryAsClassInstance, Option.some.injEq] at hfound
            subst hfound
            rw [hinst, Option.some.injEq] at hb
            subst hb
            rfl
          | cons id2 more2 => exact ih instb.fields_ _ (by simp) hwalk

/-- Counterexample to C20 as stated, for the program `h.a.f = h.reset()` where `reset` stores a
new instance in `h.a` and returns 1: the path `h.a` resolves to the instance at 21, the right-hand
side evaluates to 1 and the assignment returns 1 and stores it in the instance at 21; but `h.a` is
now the instance at 22, and `h.a.f` is not found. -/
theorem FieldAssignment_round_trip_counterexample :
    VariableValue.Execute ["h", "a"] holderClosure holderWorld
        = (.ok (some (.classInstance 21)), holderClosure, holderWorld)
      ∧ (Execute 8 (.MethodCall (.VariableValue ["h"]) "reset" []) holderClosure holderWorld).1
        = .ok (some (.number 1))
      ∧ (FieldAssignment.Execute (Execute 8) ["h", "a"] "f"
          (.MethodCall (.VariableValue ["h"]) "reset" []) holderClosure holderWorld).1
        = .ok (some (.number 1))
      ∧ assocFind 21 (FieldAssignment.Execute (Execute 8) ["h", "a"] "f"
          (.MethodCall (.VariableValue ["h"]) "reset" []) holderClosure holderWorld).2.2.heap
        = some (ClassInstance.mk sampleBase [("f", some (.number 1))])
      ∧ VariableValue.Execute ["h", "a"] holderClosure
          (FieldAssignment.Execute (Execute 8) ["h", "a"] "f"
            (.MethodCall (.VariableValue ["h"]) "reset" []) holderClosure holderWorld).2.2
        = (.ok (some (.classInstance 22)), holderClosure,
            (FieldAssignment.Execute (Execute 8) ["h", "a"] "f"
              (.MethodCall (.VariableValue ["h"]) "reset" []) holderClosure holderWorld).2.2)
      ∧ VariableValue.Execute ["h", "a", "f"] holderClosure
          (FieldAssignment.Execute (Execute 8) ["h", "a"] "f"
            (.MethodCall (.VariableValue ["h"]) "reset" []) holderClosure holderWorld).2.2
        = (.error (.runtime_error "var is not found"), holderClosure,
            (FieldAssignment.Execute (Execute 8) ["h", "a"] "f"
              (.MethodCall (.VariableValue ["h"]) "reset" []) holderClosure holderWorld).2.2) :=
  ⟨rfl, rfl, rfl, rfl, rfl, rfl⟩

/-- Claim C20, amended. For a path `p` that resolves to the instance at `a`, and a right-hand
side that evaluates to `v`, leaving the closure `cl1` and a world `w1` in which the instance is
live: `FieldAssignment.Execute` returns `v`; it leaves the closure `cl1`, so the current closure
gains no binding; in the world it leaves, the instance at `a` has `v` under `f` and its other
fields as in `w1`, and every other instance and the output are as in `w1`. When `p` still resolves
to the instance at `a` afterwards, `VariableValue(p.f)` returns `v`. -/
theorem FieldAssignment_round_trip (exec : Executable) (object_ : List String) (field_name_ : String)
    (rv_ : Statement) (cl cl1 : Closure) (w w1 : World) (a : Nat) (inst : ClassInstance)
    (v : ObjectHolder)
    (hpath : VariableValue.Execute object_ cl w = (.ok (some (.classInstance a)), cl, w))
    (hrv : exec rv_ cl w = (.ok v, cl1, w1))
    (hlive : assocFind a w1.heap = some inst) :
    ∃ w2 : World,
      FieldAssignment.Execute exec object_ field_name_ rv_ cl w = (.ok v, cl1, w2)
        ∧ w2.output = w1.output
        ∧ (∃ fields : Closure, assocFind a w2.heap = some (ClassInstance.mk inst.cls_ fields)
            ∧ assocFind field_name_ fields = some v
            ∧ ∀ other : String, other ≠ field_name_ →
                assocFind other fields = assocFind other inst.fields_)
        ∧ (∀ b : Nat, b ≠ a → assocFind b w2.heap = assocFind b w1.heap)
        ∧ (VariableValue.Execute object_ cl1 w2 = (.ok (some (.classInstance a)), cl1, w2) →
            (∀ b : Nat, v = some (.classInstance b) → ∃ i, assocFind b w2.heap = some i) →
            VariableValue.Execute (object_ ++ [field_name_]) cl1 w2 = (.ok v, cl1, w2)) := by
  refine ⟨World.mk (assocSet a (ClassInstance.mk inst.cls_ (assocSet field_name_ v inst.fields_))
    w1.heap) w1.output, ?_, rfl, ⟨assocSet field_name_ v inst.fields_, ?_, ?_, ?_⟩, ?_, ?_⟩
  · simp [FieldAssignment.Execute, hpath, hrv, TryAsClassInstance, hlive]
  · exact assocFind_assocSet_self a _ w1.heap
  · exact assocFind_assocSet_self field_name_ v inst.fields_
  · intro other hne
    exact assocFind_assocSet_ne field_name_ other v inst.fields_ hne
  · intro b hne
    exact assocFind_assocSet_ne a b _ w1.heap hne
  · intro hafter hvlive
    have hnil : object_ ≠ [] := by
      intro h
      subst h
      simp [VariableValue.Execute, VariableValue.walk] at hafter
    have hwalk : VariableValue.walk
        (assocSet a (ClassInstance.mk inst.cls_ (assocSet field_name_ v inst.fields_)) w1.heap)
        object_ cl1 none = .ok (some (.classInstance a)) := by
      simpa [VariableValue.Execute] using hafter
    have hnew := assocFind_assocSet_self a
      (ClassInstance.mk inst.cls_ (assocSet field_name_ v inst.fields_)) w1.heap
    simp only [VariableValue.Execute, Prod.mk.injEq, and_true]
    rw [walk_append_of_instance _ a _ hnew [field_name_] object_ cl1 none hnil hwalk]
    exact walk_of_Resolves _ _ [field_name_] v
      (Resolves.last _ field_name_ v (assocFind_assocSet_self field_name_ v inst.fields_))
      hvlive _

/-- Witness for C20: `x.inner.value = 7` stores 7 in the instance at 11, and `x.inner.value` is
then 7. -/
theorem FieldAssignment_round_trip_witness :
    ∃ w2 : World,
      FieldAssignment.Execute (Execute 1) ["x", "inner"] "value" (.NumericConst 7)
          pathClosure pathWorld = (.ok (some (.number 7)), pathClosure, w2)
        ∧ VariableValue.Execute ["x", "inner", "value"] pathClosure w2
          = (.ok (some (.number 7)), pathClosure, w2)
        ∧ assocFind "value" pathClosure = none := by
  obtain ⟨w2, hexec, _, ⟨fields, hheap, _, _⟩, hothers, hread⟩ :=
    FieldAssignment_round_trip (Execute 1) ["x", "inner"] "value" (.NumericConst 7)
      pathClosure pathClosure pathWorld pathWorld 11
      (ClassInstance.mk sampleBase [("value", some (.number 42))]) (some (.number 7)) rfl rfl rfl
  refine ⟨w2, hexec, hread ?_ (fun b h => by simp at h), rfl⟩
  have h10 : assocFind 10 w2.heap
      = some (ClassInstance.mk sampleBase [("inner", some (.classInstance 11))]) := by
    rw [hothers 10 (by decide)]
    rfl
  simp [VariableValue.Execute, VariableValue.walk, pathClosure, assocFind, TryAsClassInstance,
    h10, hheap]

/-! ## The output stream is write-only -/

theorem prepend_heap (p : String) (w : World) : (World.prepend p w).heap = w.heap := rfl

theorem prepend_write (p : String) (w : World) (s : String) :
    (World.prepend p w).write s = World.prepend p (w.write s) := by
  simp [World.prepend, World.write, String.append_assoc]

theorem prepend_mk_empty (h : Heap) (out : String) :
    World.prepend out (World.mk h "") = World.mk h out := by
  simp [World.prepend]

theorem Oblivious_apply {exec : Executable} (h : Oblivious exec) (p : String) {s : Statement}
    {cl cl1 : Closure} {w w1 : World} {r : Except Exn ObjectHolder}
    (hx : exec s cl w = (r, cl1, w1)) :
    exec s cl (World.prepend p w) = (r, cl1, World.prepend p w1) := by
  rw [h p s cl w, hx]

theorem ClassInstance_Call_oblivious {exec : Executable} (h : Oblivious exec) (p : String)
    (self : Nat) (method : String) (actual_args : List ObjectHolder) (w : World) :
    ClassInstance.Call exec self method actual_args (World.prepend p w)
      = ((ClassInstance.Call exec self method actual_args w).1,
          World.prepend p (ClassInstance.Call exec self method actual_args w).2) := by
  unfold ClassInstance.Call
  rw [prepend_heap]
  cases assocFind self w.heap with
  | none => rfl
  | some inst =>
    simp only
    by_cases hhas : inst.HasMethod method actual_args.length = true
    · simp only [hhas, Bool.not_true, Bool.false_eq_true, if_false]
      cases inst.cls_.GetMethod method with
      | none => rfl
      | some m =>
        simp only
        cases ClassInstance.bindArgs actual_args m.formal_params 0
            (assocSet SELF_OBJECT (some (.classInstance self)) []) with
        | none => rfl
        | some frame =>
          simp only
          rw [h p m.body frame w]
    · simp only [hhas]
      rfl

theorem Call_oblivious_apply {exec : Executable} (h : Oblivious exec) (p : String)
    {self : Nat} {method : String} {actual_args : List ObjectHolder} {w w1 : World}
    {r : Except Exn ObjectHolder}
    (hx : ClassInstance.Call exec self method actual_args w = (r, w1)) :
    ClassInstance.Call exec self method actual_args (World.prepend p w)
      = (r, World.prepend p w1) := by
  rw [ClassInstance_Call_oblivious h, hx]

theorem Object_Print_oblivious {exec : Executable} (h : Oblivious exec) (p : String) :
    ∀ (fuel : Nat) (o : Object) (w : World),
      Object.Print exec fuel o (World.prepend p w)
        = ((Object.Print exec fuel o w).1, World.prepend p (Object.Print exec fuel o w).2) := by
  intro fuel
  induction fuel with
  | zero => intro o w; rfl
  | succ k ih =>
    intro o w
    cases o with
    | number v => simp only [Object.Print, prepend_write]
    | string v => simp only [Object.Print, prepend_write]
    | bool v => simp only [Object.Print, prepend_write]
    | cls c => simp only [Object.Print, prepend_write]
    | classInstance self =>
      unfold Object.Print
      rw [prepend_heap]
      cases assocFind self w.heap with
      | none => rfl
      | some inst =>
        simp only
        cases inst.cls_.GetMethod STR_METHOD with
        | none => simp only [prepend_write]
        | some m =>
          simp only
          rcases hcall : ClassInstance.Call exec self m.name [] w with ⟨r, w1⟩
          rw [Call_oblivious_apply h p hcall]
          rcases r with e | (_ | res)
          · rfl
          · rfl
          · simp only
            exact ih res w1

theorem GetBoolValue_oblivious (p : String) (r : Except Exn ObjectHolder × World) :
    GetBoolValue (r.1, World.prepend p r.2)
      = ((GetBoolValue r).1, World.prepend p (GetBoolValue r).2) := by
  rcases r with ⟨e | res, w1⟩
  · rfl
  · simp only [GetBoolValue]
    cases TryAsBool res <;> rfl

theorem Equal_oblivious {exec : Executable} (h : Oblivious exec) (p : String)
    (lhs rhs : ObjectHolder) (w : World) :
    Equal exec lhs rhs (World.prepend p w)
      = ((Equal exec lhs rhs w).1, World.prepend p (Equal exec lhs rhs w).2) := by
  rcases lhs with _ | (x | s | b | c | self)
  case some.classInstance =>
    have hl : ∀ w0 : World, Equal exec (some (.classInstance self)) rhs w0
        = (match assocFind self w0.heap with
          | none => (.error .undefinedBehaviour, w0)
          | some inst =>
            if inst.HasMethod EQ_METHOD 1 then
              GetBoolValue (ClassInstance.Call exec self EQ_METHOD [rhs] w0)
            else (.error (.runtime_error "Cannot compare objects for equality"), w0)) := by
      intro w0
      rcases rhs with _ | (y | t | b2 | c2 | a2) <;> rfl
    rw [hl, hl, prepend_heap]
    cases assocFind self w.heap with
    | none => rfl
    | some inst =>
      simp only
      by_cases hhas : inst.HasMethod EQ_METHOD 1 = true
      · simp only [hhas, if_true]
        rw [ClassInstance_Call_oblivious h, GetBoolValue_oblivious]
      · simp only [hhas]
        rfl
  all_goals rcases rhs with _ | (y | t | b2 | c2 | a2) <;> rfl

theorem Less_oblivious {exec : Executable} (h : Oblivious exec) (p : String)
    (lhs rhs : ObjectHolder) (w : World) :
    Less exec lhs rhs (World.prepend p w)
      = ((Less exec lhs rhs w).1, World.prepend p (Less exec lhs rhs w).2) := by
  rcases lhs with _ | (x | s | b | c | self)
  case some.classInstance =>
    have hl : ∀ w0 : World, Less exec (some (.classInstance self)) rhs w0
        = (match assocFind self w0.heap with
          | none => (.error .undefinedBehaviour, w0)
          | some inst =>
            if inst.HasMethod LT_METHOD 1 then
              GetBoolValue (ClassInstance.Call exec self LT_METHOD [rhs] w0)
            else (.error (.runtime_error "Cannot compare objects for less"), w0)) := by
      intro w0
      rcases rhs with _ | (y | t | b2 | c2 | a2) <;> rfl
    rw [hl, hl, prepend_heap]
    cases assocFind self w.heap with
    | none => rfl
    | some inst =>
      simp only
      by_cases hhas : inst.HasMethod LT_METHOD 1 = true
      · simp only [hhas, if_true]
        rw [ClassInstance_Call_oblivious h, GetBoolValue_oblivious]
      · simp only [hhas]
        rfl
  all_goals rcases rhs with _ | (y | t | b2 | c2 | a2) <;> rfl

theorem Equal_oblivious_apply {exec : Executable} (h : Oblivious exec) (p : String)
    {lhs rhs : ObjectHolder} {w w1 : World} {r : Except Exn Bool}
    (hx : Equal exec lhs rhs w = (r, w1)) :
    Equal exec lhs rhs (World.prepend p w) = (r, World.prepend p w1) := by
  rw [Equal_oblivious h, hx]

theorem Less_oblivious_apply {exec : Executable} (h : Oblivious exec) (p : String)
    {lhs rhs : ObjectHolder} {w w1 : World} {r : Except Exn Bool}
    (hx : Less exec lhs rhs w = (r, w1)) :
    Less exec lhs rhs (World.prepend p w) = (r, World.prepend p w1) := by
  rw [Less_oblivious h, hx]

theorem callComparator_oblivious {exec : Executable} (h : Oblivious exec) (p : String)
    (cmp : Comparator) (lhs rhs : ObjectHolder) (w : World) :
    callComparator exec cmp lhs rhs (World.prepend p w)
      = ((callComparator exec cmp lhs rhs w).1,
          World.prepend p (callComparator exec cmp lhs rhs w).2) := by
  cases cmp with
  | Equal => exact Equal_oblivious h p lhs rhs w
  | Less => exact Less_oblivious h p lhs rhs w
  | NotEqual =>
    simp only [callComparator, NotEqual]
    rcases hx : Equal exec lhs rhs w with ⟨r, w1⟩
    rw [Equal_oblivious_apply h p hx]
    cases r <;> rfl
  | GreaterOrEqual =>
    simp only [callComparator, GreaterOrEqual]
    rcases hx : Less exec lhs rhs w with ⟨r, w1⟩
    rw [Less_oblivious_apply h p hx]
    cases r <;> rfl
  | Greater =>
    simp only [callComparator, Greater]
    rcases hx : Less exec lhs rhs w with ⟨r, w1⟩
    rw [Less_oblivious_apply h p hx]
    rcases r with e | l
    · rfl
    · cases l
      · simp only [Bool.not_false, if_true]
        rcases hy : Equal exec lhs rhs w1 with ⟨r2, w2⟩
        rw [Equal_oblivious_apply h p hy]
        cases r2 <;> rfl
      · rfl
  | LessOrEqual =>
    simp only [callComparator, LessOrEqual]
    rcases hx : Less exec lhs rhs w with ⟨r, w1⟩
    rw [Less_oblivious_apply h p hx]
    rcases r with e | l
    · rfl
    · cases l
      · simp only [Bool.false_eq_true, if_false]
        rcases hy : Equal exec lhs rhs w1 with ⟨r2, w2⟩
        rw [Equal_oblivious_apply h p hy]
        cases r2 <;> rfl
      · rfl

theorem ExecuteArgs_oblivious {exec : Executable} (h : Oblivious exec) (p : String) :
    ∀ (args : List Statement) (cl : Closure) (w : World),
      ExecuteArgs exec args cl (World.prepend p w)
        = ((ExecuteArgs exec args cl w).1, (ExecuteArgs exec args cl w).2.1,
            World.prepend p (ExecuteArgs exec args cl w).2.2) := by
  intro args
  induction args with
  | nil => intro cl w; rfl
  | cons arg rest ih =>
    intro cl w
    unfold ExecuteArgs
    rcases hx : exec arg cl w with ⟨r, cl1, w1⟩
    rw [Oblivious_apply h p hx]
    rcases r with e | v
    · rfl
    · simp only
      rw [ih cl1 w1]
      rcases ExecuteArgs exec rest cl1 w1 with ⟨r2, cl2, w2⟩
      cases r2 <;> rfl

theorem ExecuteArgs_oblivious_apply {exec : Executable} (h : Oblivious exec) (p : String)
    {args : List Statement} {cl cl1 : Closure} {w w1 : World}
    {r : Except Exn (List ObjectHolder)} (hx : ExecuteArgs exec args cl w = (r, cl1, w1)) :
    ExecuteArgs exec args cl (World.prepend p w) = (r, cl1, World.prepend p w1) := by
  rw [ExecuteArgs_oblivious h, hx]

theorem VariableValue_Execute_oblivious (p : String) (dotted_ids_ : List String) (cl : Closure)
    (w : World) :
    VariableValue.Execute dotted_ids_ cl (World.prepend p w)
      = ((VariableValue.Execute dotted_ids_ cl w).1, (VariableValue.Execute dotted_ids_ cl w).2.1,
          World.prepend p (VariableValue.Execute dotted_ids_ cl w).2.2) := rfl

theorem Assignment_Execute_oblivious {exec : Executable} (h : Oblivious exec) (p : String)
    (var_ : String) (rv_ : Statement) (cl : Closure) (w : World) :
    Assignment.Execute exec var_ rv_ cl (World.prepend p w)
      = ((Assignment.Execute exec var_ rv_ cl w).1, (Assignment.Execute exec var_ rv_ cl w).2.1,
          World.prepend p (Assignment.Execute exec var_ rv_ cl w).2.2) := by
  unfold Assignment.Execute
  rcases hx : exec rv_ cl w with ⟨r, cl1, w1⟩
  rw [Oblivious_apply h p hx]
  cases r <;> rfl

theorem FieldAssignment_Execute_oblivious {exec : Executable} (h : Oblivious exec) (p : String)
    (object_ : List String) (field_name_ : String) (rv_ : Statement) (cl : Closure) (w : World) :
    FieldAssignment.Execute exec object_ field_name_ rv_ cl (World.prepend p w)
      = ((FieldAssignment.Execute exec object_ field_name_ rv_ cl w).1,
          (FieldAssignment.Execute exec object_ field_name_ rv_ cl w).2.1,
          World.prepend p (FieldAssignment.Execute exec object_ field_name_ rv_ cl w).2.2) := by
  unfold FieldAssignment.Execute
  simp only [VariableValue.Execute, prepend_heap]
  cases VariableValue.walk w.heap object_ cl none with
  | error e => rfl
  | ok obj =>
    simp only
    rcases hx : exec rv_ cl w with ⟨r, cl1, w1⟩
    rw [Oblivious_apply h p hx]
    rcases r with e | v
    · rfl
    · simp only [prepend_heap]
      cases TryAsClassInstance obj with
      | none => rfl
      | some a =>
        simp only
        cases assocFind a w1.heap with
        | none => rfl
        | some inst => rfl

theorem materialize_oblivious (p : String) (class_inst_ : Nat) (class_ : Class) (w : World) :
    NewInstance.materialize class_inst_ class_ (World.prepend p w)
      = World.prepend p (NewInstance.materialize class_inst_ class_ w) := by
  unfold NewInstance.materialize
  rw [prepend_heap]
  cases assocFind class_inst_ w.heap <;> rfl

theorem NewInstance_Execute_oblivious {exec : Executable} (h : Oblivious exec) (p : String)
    (class_inst_ : Nat) (class_ : Class) (args_ : List Statement) (cl : Closure) (w : World) :
    NewInstance.Execute exec class_inst_ class_ args_ cl (World.prepend p w)
      = ((NewInstance.Execute exec class_inst_ class_ args_ cl w).1,
          (NewInstance.Execute exec class_inst_ class_ args_ cl w).2.1,
          World.prepend p (NewInstance.Execute exec class_inst_ class_ args_ cl w).2.2) := by
  unfold NewInstance.Execute
  rw [materialize_oblivious]
  rcases hx : ExecuteArgs exec args_ cl (NewInstance.materialize class_inst_ class_ w)
    with ⟨r, cl1, w1⟩
  rw [ExecuteArgs_oblivious_apply h p hx]
  rcases r with e | actual_args
  · rfl
  · simp only [prepend_heap]
    cases assocFind class_inst_ w1.heap with
    | none => rfl
    | some inst =>
      simp only
      by_cases hhas : inst.HasMethod INIT_METHOD args_.length = true
      · simp only [hhas, if_true]
        rcases hc : ClassInstance.Call exec class_inst_ INIT_METHOD actual_args w1 with ⟨rc, w2⟩
        rw [Call_oblivious_apply h p hc]
        cases rc <;> rfl
      · simp only [hhas]
        rfl

theorem MethodCall_Execute_oblivious {exec : Executable} (h : Oblivious exec) (p : String)
    (object_ : Statement) (method_name_ : String) (args_ : List Statement) (cl : Closure)
    (w : World) :
    MethodCall.Execute exec object_ method_name_ args_ cl (World.prepend p w)
      = ((MethodCall.Execute exec object_ method_name_ args_ cl w).1,
          (MethodCall.Execute exec object_ method_name_ args_ cl w).2.1,
          World.prepend p (MethodCall.Execute exec object_ method_name_ args_ cl w).2.2) := by
  unfold MethodCall.Execute
  rcases hx : exec object_ cl w with ⟨r, cl0, w0⟩
  rw [Oblivious_apply h p hx]
  rcases r with e | obj
  · rfl
  · simp only
    rcases hy : ExecuteArgs exec args_ cl0 w0 with ⟨r1, cl1, w1⟩
    rw [ExecuteArgs_oblivious_apply h p hy]
    rcases r1 with e | actual_args
    · rfl
    · simp only
      cases TryAsClassInstance obj with
      | none => rfl
      | some a =>
        simp only
        rw [ClassInstance_Call_oblivious h]

theorem Compound_Execute_oblivious {exec : Executable} (h : Oblivious exec) (p : String) :
    ∀ (statements_ : List Statement) (cl : Closure) (w : World),
      Compound.Execute exec statements_ cl (World.prepend p w)
        = ((Compound.Execute exec statements_ cl w).1, (Compound.Execute exec statements_ cl w).2.1,
            World.prepend p (Compound.Execute exec statements_ cl w).2.2) := by
  intro statements_
  induction statements_ with
  | nil => intro cl w; rfl
  | cons statement rest ih =>
    intro cl w
    unfold Compound.Execute
    rcases hx : exec statement cl w with ⟨r, cl1, w1⟩
    rw [Oblivious_apply h p hx]
    rcases r with e | v
    · rfl
    · simp only
      exact ih cl1 w1

theorem Return_Execute_oblivious {exec : Executable} (h : Oblivious exec) (p : String)
    (statement_ : Statement) (cl : Closure) (w : World) :
    Return.Execute exec statement_ cl (World.prepend p w)
      = ((Return.Execute exec statement_ cl w).1, (Return.Execute exec statement_ cl w).2.1,
          World.prepend p (Return.Execute exec statement_ cl w).2.2) := by
  unfold Return.Execute
  rcases hx : exec statement_ cl w with ⟨r, cl1, w1⟩
  rw [Oblivious_apply h p hx]
  cases r <;> rfl

theorem MethodBody_Execute_oblivious {exec : Executable} (h : Oblivious exec) (p : String)
    (body_ : Statement) (cl : Closure) (w : World) :
    MethodBody.Execute exec body_ cl (World.prepend p w)
      = ((MethodBody.Execute exec body_ cl w).1, (MethodBody.Execute exec body_ cl w).2.1,
          World.prepend p (MethodBody.Execute exec body_ cl w).2.2) := by
  unfold MethodBody.Execute
  rcases hx : exec body_ cl w with ⟨r, cl1, w1⟩
  rw [Oblivious_apply h p hx]
  rcases r with e | v
  · cases e <;> rfl
  · rfl

theorem ClassDefinition_Execute_oblivious (p : String) (cls_ : ObjectHolder) (cl : Closure)
    (w : World) :
    ClassDefinition.Execute cls_ cl (World.prepend p w)
      = ((ClassDefinition.Execute cls_ cl w).1, (ClassDefinition.Execute cls_ cl w).2.1,
          World.prepend p (ClassDefinition.Execute cls_ cl w).2.2) := by
  unfold ClassDefinition.Execute
  cases TryAsClass cls_ <;> rfl


theorem Object_Print_oblivious_apply {exec : Executable} (h : Oblivious exec) (p : String)
    {fuel : Nat} {o : Object} {w w1 : World} {r : Except Exn Unit}
    (hx : Object.Print exec fuel o w = (r, w1)) :
    Object.Print exec fuel o (World.prepend p w) = (r, World.prepend p w1) := by
  rw [Object_Print_oblivious h, hx]

theorem Print_loop_oblivious {exec : Executable} (h : Oblivious exec) (p : String) (fuel : Nat) :
    ∀ (args : List Statement) (first : Bool) (obj : ObjectHolder) (cl : Closure) (w : World),
      Print.loop exec fuel args first obj cl (World.prepend p w)
        = ((Print.loop exec fuel args first obj cl w).1, (Print.loop exec fuel args first obj cl w).2.1,
            World.prepend p (Print.loop exec fuel args first obj cl w).2.2) := by
  intro args
  induction args with
  | nil => intro first obj cl w; rfl
  | cons arg rest ih =>
    intro first obj cl w
    unfold Print.loop
    have hsep : (if first = true then World.prepend p w else (World.prepend p w).write " ")
        = World.prepend p (if first = true then w else w.write " ") := by
      cases first
      · simp only [Bool.false_eq_true, if_false, prepend_write]
      · rfl
    rw [hsep]
    rcases hx : exec arg cl (if first = true then w else w.write " ") with ⟨r, cl1, w1⟩
    rw [Oblivious_apply h p hx]
    rcases r with e | (_ | o)
    · rfl
    · simp only [prepend_write]
      exact ih false none cl1 _
    · simp only
      rcases hp : Object.Print exec fuel o w1 with ⟨r2, w2⟩
      rw [Object_Print_oblivious_apply h p hp]
      rcases r2 with e | u
      · rfl
      · simp only
        exact ih false (some o) cl1 w2

theorem Print_Execute_oblivious {exec : Executable} (h : Oblivious exec) (p : String) (fuel : Nat)
    (args_ : List Statement) (cl : Closure) (w : World) :
    Print.Execute exec fuel args_ cl (World.prepend p w)
      = ((Print.Execute exec fuel args_ cl w).1, (Print.Execute exec fuel args_ cl w).2.1,
          World.prepend p (Print.Execute exec fuel args_ cl w).2.2) := by
  unfold Print.Execute
  rw [Print_loop_oblivious h]
  rcases Print.loop exec fuel args_ true none cl w with ⟨r, cl1, w1⟩
  rcases r with e | v
  · rfl
  · simp only [prepend_write]

theorem Stringify_Execute_oblivious {exec : Executable} (h : Oblivious exec) (p : String)
    (fuel : Nat) (argument_ : Option Statement) (cl : Closure) (w : World) :
    Stringify.Execute exec fuel argument_ cl (World.prepend p w)
      = ((Stringify.Execute exec fuel argument_ cl w).1,
          (Stringify.Execute exec fuel argument_ cl w).2.1,
          World.prepend p (Stringify.Execute exec fuel argument_ cl w).2.2) := by
  unfold Stringify.Execute
  cases argument_ with
  | none => rfl
  | some argument =>
    simp only
    rcases hx : exec argument cl w with ⟨r, cl1, w1⟩
    rw [Oblivious_apply h p hx]
    rcases r with e | (_ | o)
    · rfl
    · rfl
    · simp only [prepend_heap]
      rcases Object.Print exec fuel o (World.mk w1.heap "") with ⟨r2, dummy⟩
      cases r2 <;> rfl

theorem BinaryOperation_operands_oblivious {exec : Executable} (h : Oblivious exec) (p : String)
    (lhs_ rhs_ : Option Statement) (cl : Closure) (w : World) :
    BinaryOperation.operands exec lhs_ rhs_ cl (World.prepend p w)
      = ((BinaryOperation.operands exec lhs_ rhs_ cl w).1,
          (BinaryOperation.operands exec lhs_ rhs_ cl w).2.1,
          World.prepend p (BinaryOperation.operands exec lhs_ rhs_ cl w).2.2) := by
  rcases lhs_ with _ | lhs <;> rcases rhs_ with _ | rhs
  case some.some =>
    simp only [BinaryOperation.operands]
    rcases hx : exec lhs cl w with ⟨r, cl1, w1⟩
    rw [Oblivious_apply h p hx]
    rcases r with e | a
    · rfl
    · simp only
      rcases hy : exec rhs cl1 w1 with ⟨r2, cl2, w2⟩
      rw [Oblivious_apply h p hy]
      cases r2 <;> rfl
  all_goals rfl

theorem operands_oblivious_apply {exec : Executable} (h : Oblivious exec) (p : String)
    {lhs_ rhs_ : Option Statement} {cl cl1 : Closure} {w w1 : World}
    {r : Except Exn (ObjectHolder × ObjectHolder)}
    (hx : BinaryOperation.operands exec lhs_ rhs_ cl w = (r, cl1, w1)) :
    BinaryOperation.operands exec lhs_ rhs_ cl (World.prepend p w)
      = (r, cl1, World.prepend p w1) := by
  rw [BinaryOperation_operands_oblivious h, hx]

theorem Add_apply_oblivious {exec : Executable} (h : Oblivious exec) (p : String)
    (obj_lhs obj_rhs : ObjectHolder) (w : World) :
    Add.apply exec obj_lhs obj_rhs (World.prepend p w)
      = ((Add.apply exec obj_lhs obj_rhs w).1,
          World.prepend p (Add.apply exec obj_lhs obj_rhs w).2) := by
  rcases obj_lhs with _ | (x | s | b | c | self)
  case some.classInstance =>
    have hl : ∀ w0 : World, Add.apply exec (some (.classInstance self)) obj_rhs w0
        = (match assocFind self w0.heap with
          | none => (.error .undefinedBehaviour, w0)
          | some inst =>
            if inst.HasMethod ADD_METHOD 1 then ClassInstance.Call exec self ADD_METHOD [obj_rhs] w0
            else (.error (.runtime_error "incorrect add operands"), w0)) := by
      intro w0
      rcases obj_rhs with _ | (y | t | b2 | c2 | a2) <;> rfl
    rw [hl, hl, prepend_heap]
    cases assocFind self w.heap with
    | none => rfl
    | some inst =>
      simp only
      by_cases hhas : inst.HasMethod ADD_METHOD 1 = true
      · simp only [hhas, if_true]
        rw [ClassInstance_Call_oblivious h]
      · simp only [hhas]
        rfl
  all_goals rcases obj_rhs with _ | (y | t | b2 | c2 | a2) <;> rfl

theorem Add_Execute_oblivious {exec : Executable} (h : Oblivious exec) (p : String)
    (lhs_ rhs_ : Option Statement) (cl : Closure) (w : World) :
    Add.Execute exec lhs_ rhs_ cl (World.prepend p w)
      = ((Add.Execute exec lhs_ rhs_ cl w).1, (Add.Execute exec lhs_ rhs_ cl w).2.1,
          World.prepend p (Add.Execute exec lhs_ rhs_ cl w).2.2) := by
  unfold Add.Execute
  rcases hx : BinaryOperation.operands exec lhs_ rhs_ cl w with ⟨r, cl1, w1⟩
  rw [operands_oblivious_apply h p hx]
  rcases r with e | ⟨a, b⟩
  · rfl
  · simp only
    rw [Add_apply_oblivious h]

theorem Sub_Execute_oblivious {exec : Executable} (h : Oblivious exec) (p : String)
    (lhs_ rhs_ : Option Statement) (cl : Closure) (w : World) :
    Sub.Execute exec lhs_ rhs_ cl (World.prepend p w)
      = ((Sub.Execute exec lhs_ rhs_ cl w).1, (Sub.Execute exec lhs_ rhs_ cl w).2.1,
          World.prepend p (Sub.Execute exec lhs_ rhs_ cl w).2.2) := by
  unfold Sub.Execute
  rcases hx : BinaryOperation.operands exec lhs_ rhs_ cl w with ⟨r, cl1, w1⟩
  rw [operands_oblivious_apply h p hx]
  rcases r with e | ⟨a, b⟩
  · rfl
  · simp only
    cases TryAsNumber a <;> cases TryAsNumber b <;> rfl

theorem Mult_Execute_oblivious {exec : Executable} (h : Oblivious exec) (p : String)
    (lhs_ rhs_ : Option Statement) (cl : Closure) (w : World) :
    Mult.Execute exec lhs_ rhs_ cl (World.prepend p w)
      = ((Mult.Execute exec lhs_ rhs_ cl w).1, (Mult.Execute exec lhs_ rhs_ cl w).2.1,
          World.prepend p (Mult.Execute exec lhs_ rhs_ cl w).2.2) := by
  unfold Mult.Execute
  rcases hx : BinaryOperation.operands exec lhs_ rhs_ cl w with ⟨r, cl1, w1⟩
  rw [operands_oblivious_apply h p hx]
  rcases r with e | ⟨a, b⟩
  · rfl
  · simp only
    cases TryAsNumber a <;> cases TryAsNumber b <;> rfl

theorem Div_Execute_oblivious {exec : Executable} (h : Oblivious exec) (p : String)
    (lhs_ rhs_ : Option Statement) (cl : Closure) (w : World) :
    Div.Execute exec lhs_ rhs_ cl (World.prepend p w)
      = ((Div.Execute exec lhs_ rhs_ cl w).1, (Div.Execute exec lhs_ rhs_ cl w).2.1,
          World.prepend p (Div.Execute exec lhs_ rhs_ cl w).2.2) := by
  unfold Div.Execute
  rcases hx : BinaryOperation.operands exec lhs_ rhs_ cl w with ⟨r, cl1, w1⟩
  rw [operands_oblivious_apply h p hx]
  rcases r with e | ⟨a, b⟩
  · rfl
  · simp only
    cases TryAsNumber a with
    | none => cases TryAsNumber b <;> rfl
    | some l_num =>
      cases TryAsNumber b with
      | none => rfl
      | some r_num =>
        simp only
        by_cases hz : r_num = 0
        · simp only [hz, if_true]
        · simp only [hz, if_false]

theorem Or_Execute_oblivious {exec : Executable} (h : Oblivious exec) (p : String)
    (lhs_ rhs_ : Option Statement) (cl : Closure) (w : World) :
    Or.Execute exec lhs_ rhs_ cl (World.prepend p w)
      = ((Or.Execute exec lhs_ rhs_ cl w).1, (Or.Execute exec lhs_ rhs_ cl w).2.1,
          World.prepend p (Or.Execute exec lhs_ rhs_ cl w).2.2) := by
  unfold Or.Execute
  rcases hx : BinaryOperation.operands exec lhs_ rhs_ cl w with ⟨r, cl1, w1⟩
  rw [operands_oblivious_apply h p hx]
  rcases r with e | ⟨a, b⟩
  · rfl
  · simp only
    cases IsTrue a <;> cases IsTrue b <;> rfl

theorem And_Execute_oblivious {exec : Executable} (h : Oblivious exec) (p : String)
    (lhs_ rhs_ : Option Statement) (cl : Closure) (w : World) :
    And.Execute exec lhs_ rhs_ cl (World.prepend p w)
      = ((And.Execute exec lhs_ rhs_ cl w).1, (And.Execute exec lhs_ rhs_ cl w).2.1,
          World.prepend p (And.Execute exec lhs_ rhs_ cl w).2.2) := by
  unfold And.Execute
  rcases hx : BinaryOperation.operands exec lhs_ rhs_ cl w with ⟨r, cl1, w1⟩
  rw [operands_oblivious_apply h p hx]
  rcases r with e | ⟨a, b⟩
  · rfl
  · simp only
    cases IsTrue a <;> cases IsTrue b <;> rfl

theorem Not_Execute_oblivious {exec : Executable} (h : Oblivious exec) (p : String)
    (argument_ : Option Statement) (cl : Closure) (w : World) :
    Not.Execute exec argument_ cl (World.prepend p w)
      = ((Not.Execute exec argument_ cl w).1, (Not.Execute exec argument_ cl w).2.1,
          World.prepend p (Not.Execute exec argument_ cl w).2.2) := by
  unfold Not.Execute
  cases argument_ with
  | none => rfl
  | some argument =>
    simp only
    rcases hx : exec argument cl w with ⟨r, cl1, w1⟩
    rw [Oblivious_apply h p hx]
    cases r <;> rfl

theorem Comparison_Execute_oblivious {exec : Executable} (h : Oblivious exec) (p : String)
    (cmp_ : Comparator) (lhs_ rhs_ : Option Statement) (cl : Closure) (w : World) :
    Comparison.Execute exec cmp_ lhs_ rhs_ cl (World.prepend p w)
      = ((Comparison.Execute exec cmp_ lhs_ rhs_ cl w).1,
          (Comparison.Execute exec cmp_ lhs_ rhs_ cl w).2.1,
          World.prepend p (Comparison.Execute exec cmp_ lhs_ rhs_ cl w).2.2) := by
  unfold Comparison.Execute
  rcases hx : BinaryOperation.operands exec lhs_ rhs_ cl w with ⟨r, cl1, w1⟩
  rw [operands_oblivious_apply h p hx]
  rcases r with e | ⟨a, b⟩
  · rfl
  · simp only
    rw [callComparator_oblivious h]
    rcases callComparator exec cmp_ a b w1 with ⟨r2, w2⟩
    cases r2 <;> rfl

theorem IfElse_Execute_oblivious {exec : Executable} (h : Oblivious exec) (p : String)
    (condition_ if_body_ : Statement) (else_body_ : Option Statement) (cl : Closure) (w : World) :
    IfElse.Execute exec condition_ if_body_ else_body_ cl (World.prepend p w)
      = ((IfElse.Execute exec condition_ if_body_ else_body_ cl w).1,
          (IfElse.Execute exec condition_ if_body_ else_body_ cl w).2.1,
          World.prepend p (IfElse.Execute exec condition_ if_body_ else_body_ cl w).2.2) := by
  unfold IfElse.Execute
  rcases hx : exec condition_ cl w with ⟨r, cl1, w1⟩
  rw [Oblivious_apply h p hx]
  rcases r with e | c
  · rfl
  · simp only
    cases IsTrue c
    · simp only [Bool.false_eq_true, if_false]
      cases else_body_ with
      | none => rfl
      | some else_body => exact h p else_body cl1 w1
    · simp only [if_true]
      exact h p if_body_ cl1 w1

/-- The evaluator is oblivious of the output at every fuel. -/
theorem Execute_oblivious : ∀ n : Nat, Oblivious (Execute n) := by
  intro n
  induction n with
  | zero => intro p s cl w; rfl
  | succ k ih =>
    intro p s cl w
    cases s with
    | NumericConst v => rfl
    | StringConst v => rfl
    | BoolConst v => rfl
    | None => rfl
    | VariableValue dotted_ids_ => rfl
    | Assignment var_ rv_ => exact Assignment_Execute_oblivious ih p var_ rv_ cl w
    | FieldAssignment object_ field_name_ rv_ =>
      exact FieldAssignment_Execute_oblivious ih p object_ field_name_ rv_ cl w
    | NewInstance class_inst_ class_ args_ =>
      exact NewInstance_Execute_oblivious ih p class_inst_ class_ args_ cl w
    | MethodCall object_ method_name_ args_ =>
      exact MethodCall_Execute_oblivious ih p object_ method_name_ args_ cl w
    | Compound statements_ => exact Compound_Execute_oblivious ih p statements_ cl w
    | Return statement_ => exact Return_Execute_oblivious ih p statement_ cl w
    | MethodBody body_ => exact MethodBody_Execute_oblivious ih p body_ cl w
    | ClassDefinition cls_ => exact ClassDefinition_Execute_oblivious p cls_ cl w
    | Print args_ => exact Print_Execute_oblivious ih p (k + 1) args_ cl w
    | Stringify argument_ => exact Stringify_Execute_oblivious ih p (k + 1) argument_ cl w
    | Add lhs_ rhs_ => exact Add_Execute_oblivious ih p lhs_ rhs_ cl w
    | Sub lhs_ rhs_ => exact Sub_Execute_oblivious ih p lhs_ rhs_ cl w
    | Mult lhs_ rhs_ => exact Mult_Execute_oblivious ih p lhs_ rhs_ cl w
    | Div lhs_ rhs_ => exact Div_Execute_oblivious ih p lhs_ rhs_ cl w
    | Or lhs_ rhs_ => exact Or_Execute_oblivious ih p lhs_ rhs_ cl w
    | And lhs_ rhs_ => exact And_Execute_oblivious ih p lhs_ rhs_ cl w
    | Not argument_ => exact Not_Execute_oblivious ih p argument_ cl w
    | Comparison cmp_ lhs_ rhs_ => exact Comparison_Execute_oblivious ih p cmp_ lhs_ rhs_ cl w
    | IfElse condition_ if_body_ else_body_ =>
      exact IfElse_Execute_oblivious ih p condition_ if_body_ else_body_ cl w

/-! ## Receivers that are not instances -/

/-- Claim C21, the code at its failing inputs. In a closure where `n` is the number 5, the call
`n.f()`, a call on the empty holder and the assignment `n.f = 1` end in the dereference of the null
pointer that `TryAs<ClassInstance>` returned, not in a runtime error. The arguments of the call,
or the right-hand side of the assignment, are evaluated before that: after `5.f(h.reset())` and
after `n.f = h.reset()` the field `a` of `h` is the instance at 22, which `reset` stored. -/
theorem non_instance_receiver_dereferences_null :
    MethodCall.Execute (Execute 8) (.VariableValue ["n"]) "f" [] pathClosure pathWorld
        = (.error .undefinedBehaviour, pathClosure, pathWorld)
      ∧ MethodCall.Execute (Execute 8) (.None) "f" [] pathClosure pathWorld
        = (.error .undefinedBehaviour, pathClosure, pathWorld)
      ∧ FieldAssignment.Execute (Execute 8) ["n"] "f" (.NumericConst 1) pathClosure pathWorld
        = (.error .undefinedBehaviour, pathClosure, pathWorld)
      ∧ (MethodCall.Execute (Execute 8) (.NumericConst 5) "f"
            [.MethodCall (.VariableValue ["h"]) "reset" []] holderClosure holderWorld).1
        = .error .undefinedBehaviour
      ∧ assocFind 20 (MethodCall.Execute (Execute 8) (.NumericConst 5) "f"
            [.MethodCall (.VariableValue ["h"]) "reset" []] holderClosure holderWorld).2.2.heap
        = some (ClassInstance.mk sampleHolder [("a", some (.classInstance 22))])
      ∧ (FieldAssignment.Execute (Execute 8) ["n"] "f"
            (.MethodCall (.VariableValue ["h"]) "reset" [])
            [("h", some (.classInstance 20)), ("n", some (.number 5))] holderWorld).1
        = .error .undefinedBehaviour
      ∧ assocFind 20 (FieldAssignment.Execute (Execute 8) ["n"] "f"
            (.MethodCall (.VariableValue ["h"]) "reset" [])
            [("h", some (.classInstance 20)), ("n", some (.number 5))] holderWorld).2.2.heap
        = some (ClassInstance.mk sampleHolder [("a", some (.classInstance 22))]) :=
  ⟨rfl, rfl, rfl, rfl, rfl, rfl, rfl⟩

/-! ## Construction -/

/-- Counterexample to C22 as stated, for the program `a = f.make()` / `a.v = 1` / `b = f.make()` /
`print b.v`, where `make` returns `Base()`: both calls evaluate the same `NewInstance` node, `a`
and `b` are bound to the same instance, at 30, and the program prints 1, the field that was written
through `a`. -/
theorem NewInstance_fresh_counterexample :
    (Execute 10 factoryProgram factoryClosure factoryWorld).1 = .ok none
      ∧ assocFind "a" (Execute 10 factoryProgram factoryClosure factoryWorld).2.1
        = some (some (.classInstance 30))
      ∧ assocFind "b" (Execute 10 factoryProgram factoryClosure factoryWorld).2.1
        = some (some (.classInstance 30))
      ∧ (Execute 10 factoryProgram factoryClosure factoryWorld).2.2.output = "1\n"
      ∧ assocFind 30 (Execute 10 factoryProgram factoryClosure factoryWorld).2.2.heap
        = some (ClassInstance.mk sampleBase [("v", some (.number 1))]) :=
  ⟨rfl, rfl, rfl, rfl, rfl⟩

/-- Claim C22, amended. Every evaluation of a `NewInstance` node that returns, returns a holder of
the one instance that the node owns, its member `class_inst_`: two evaluations of the same node
return the same instance. An evaluation that finds the instance in use leaves it as it is (with
no arguments and no matching `__init__` the whole world is unchanged), so a field written through
the first result is visible through the second; the instance has no fields only before the first
evaluation. -/
theorem NewInstance_same_instance (exec : Executable) (class_inst_ : Nat) (class_ : Class)
    (args_ : List Statement) (closure : Closure) (w : World) :
    (∀ r cl1 w1, NewInstance.Execute exec class_inst_ class_ args_ closure w = (.ok r, cl1, w1) →
        r = some (.classInstance class_inst_)) ∧
    (∀ inst : ClassInstance, assocFind class_inst_ w.heap = some inst →
        NewInstance.materialize class_inst_ class_ w = w ∧
        (inst.HasMethod INIT_METHOD 0 = false →
          NewInstance.Execute exec class_inst_ class_ [] closure w
            = (.ok (some (.classInstance class_inst_)), closure, w))) ∧
    (assocFind class_inst_ w.heap = none →
        assocFind class_inst_ (NewInstance.materialize class_inst_ class_ w).heap
          = some (ClassInstance.mk class_ [])) := by
  refine ⟨?_, ?_, ?_⟩
  · intro r cl1 w1 h
    unfold NewInstance.Execute at h
    rcases hargs : ExecuteArgs exec args_ closure (NewInstance.materialize class_inst_ class_ w)
      with ⟨ra, cl2, w2⟩
    rw [hargs] at h
    rcases ra with e | actual_args
    · simp at h
    · simp only at h
      cases hlive : assocFind class_inst_ w2.heap with
      | none => simp [hlive] at h
      | some inst =>
        simp only [hlive] at h
        by_cases hhas : inst.HasMethod INIT_METHOD args_.length = true
        · simp only [hhas, if_true] at h
          rcases hc : ClassInstance.Call exec class_inst_ INIT_METHOD actual_args w2 with ⟨rc, w3⟩
          rw [hc] at h
          rcases rc with e | v
          · simp at h
          · simp only [Prod.mk.injEq, Except.ok.injEq] at h
            exact h.1.symm
        · simp only [hhas] at h
          simp only [Bool.false_eq_true, if_false, Prod.mk.injEq, Except.ok.injEq] at h
          exact h.1.symm
  · intro inst hlive
    have hm : NewInstance.materialize class_inst_ class_ w = w := by
      simp [NewInstance.materialize, hlive]
    refine ⟨hm, ?_⟩
    intro hhas
    simp [NewInstance.Execute, hm, ExecuteArgs, hlive, hhas]
  · intro hnone
    simp only [NewInstance.materialize, hnone]
    exact assocFind_assocSet_self _ _ _

/-- Witness for C22, amended: the instance of the node at 30 has the field `v`; the next evaluation
of the node returns this instance and leaves the field. -/
theorem NewInstance_same_instance_witness :
    NewInstance.materialize 30 sampleBase
        (World.mk [(30, ClassInstance.mk sampleBase [("v", some (.number 1))])] "")
      = World.mk [(30, ClassInstance.mk sampleBase [("v", some (.number 1))])] ""
    ∧ NewInstance.Execute (Execute 3) 30 sampleBase [] []
        (World.mk [(30, ClassInstance.mk sampleBase [("v", some (.number 1))])] "")
      = (.ok (some (.classInstance 30)), [],
          World.mk [(30, ClassInstance.mk sampleBase [("v", some (.number 1))])] "") :=
  ⟨((NewInstance_same_instance (Execute 3) 30 sampleBase [] []
      (World.mk [(30, ClassInstance.mk sampleBase [("v", some (.number 1))])] "")).2.1
      (ClassInstance.mk sampleBase [("v", some (.number 1))]) rfl).1,
   ((NewInstance_same_instance (Execute 3) 30 sampleBase [] []
      (World.mk [(30, ClassInstance.mk sampleBase [("v", some (.number 1))])] "")).2.1
      (ClassInstance.mk sampleBase [("v", some (.number 1))]) rfl).2 rfl⟩

/-! ## Printing -/

theorem intercalate_go_spaced : ∀ (ts : List String) (acc : String),
    String.intercalate.go acc " " ts = acc ++ spaced ts := by
  intro ts
  induction ts with
  | nil => intro acc; simp [String.intercalate.go, spaced]
  | cons t ts ih =>
    intro acc
    simp only [String.intercalate.go, spaced, ih, String.append_assoc]

theorem intercalate_cons_spaced (t : String) (ts : List String) :
    " ".intercalate (t :: ts) = t ++ spaced ts := by
  simp only [String.intercalate, intercalate_go_spaced]

theorem getLast_fst_cons {α β : Type} (x : α × β) (ps : List (α × β)) (obj : α) :
    (((x :: ps).getLast?).map Prod.fst).getD obj = ((ps.getLast?).map Prod.fst).getD x.1 := by
  cases ps with
  | nil => rfl
  | cons y l =>
    rw [List.getLast?_cons_cons]
    cases hl : (y :: l).getLast? with
    | none => simp at hl
    | some z => rfl

/-- The loop of `Print.Execute` writes the texts of the arguments: after the first argument each
text is preceded by one space. -/
theorem Print_loop_texts {exec : Executable} (hobl : Oblivious exec) (fuel : Nat) :
    ∀ (args : List Statement) (first : Bool) (obj : ObjectHolder) (cl : Closure) (w : World)
      (pairs : List (ObjectHolder × String)) (cl1 : Closure) (heap1 : Heap),
      Print.texts exec fuel args cl w.heap = (.ok pairs, cl1, heap1) →
      Print.loop exec fuel args first obj cl w
        = (.ok ((pairs.getLast?.map Prod.fst).getD obj), cl1,
            World.mk heap1 (w.output ++
              (if first then " ".intercalate (pairs.map Prod.snd)
               else spaced (pairs.map Prod.snd)))) := by
  intro args
  induction args with
  | nil =>
    intro first obj cl w pairs cl1 heap1 h
    simp only [Print.texts, Prod.mk.injEq, Except.ok.injEq] at h
    obtain ⟨h1, h2, h3⟩ := h
    subst h1 h2 h3
    cases first <;> simp [Print.loop, spaced, String.intercalate]
  | cons arg rest ih =>
    intro first obj cl w pairs cl1 heap1 h
    unfold Print.texts at h
    rcases hx : exec arg cl (World.mk w.heap "") with ⟨r, cl2, w2⟩
    rw [hx] at h
    have hsep : (if first = true then w else w.write " ")
        = World.prepend (w.output ++ (if first = true then "" else " ")) (World.mk w.heap "") := by
      cases first <;> simp [World.prepend, World.write]
    have hx2 := Oblivious_apply hobl (w.output ++ (if first = true then "" else " ")) hx
    rw [← hsep] at hx2
    unfold Print.loop
    rw [hx2]
    rcases r with e | (_ | o)
    · simp at h
    · simp only at h ⊢
      rcases ht : Print.texts exec fuel rest cl2 (w2.write "None").heap with ⟨r3, cl3, heap3⟩
      rw [ht] at h
      rcases r3 with e | ps
      · simp at h
      · simp only [Prod.mk.injEq, Except.ok.injEq] at h
        obtain ⟨h1, h2, h3⟩ := h
        subst h1 h2 h3
        rw [ih false none cl2 ((World.prepend _ w2).write "None") ps cl3 heap3 ht,
          getLast_fst_cons]
        cases first <;>
          simp [World.prepend, World.write, spaced, intercalate_cons_spaced, String.append_assoc]
    · simp only at h ⊢
      rcases hp : Object.Print exec fuel o w2 with ⟨r2, w3⟩
      rw [hp] at h
      rw [Object_Print_oblivious_apply hobl _ hp]
      rcases r2 with e | u
      · simp at h
      · simp only at h ⊢
        rcases ht : Print.texts exec fuel rest cl2 w3.heap with ⟨r3, cl3, heap3⟩
        rw [ht] at h
        rcases r3 with e | ps
        · simp at h
        · simp only [Prod.mk.injEq, Except.ok.injEq] at h
          obtain ⟨h1, h2, h3⟩ := h
          subst h1 h2 h3
          rw [ih false (some o) cl2 (World.prepend _ w3) ps cl3 heap3 ht, getLast_fst_cons]
          cases first <;>
            simp [World.prepend, spaced, intercalate_cons_spaced, String.append_assoc]

theorem Print_texts_length (exec : Executable) (fuel : Nat) :
    ∀ (args : List Statement) (cl : Closure) (heap : Heap) (pairs : List (ObjectHolder × String))
      (cl1 : Closure) (heap1 : Heap),
      Print.texts exec fuel args cl heap = (.ok pairs, cl1, heap1) → pairs.length = args.length := by
  intro args
  induction args with
  | nil =>
    intro cl heap pairs cl1 heap1 h
    simp only [Print.texts, Prod.mk.injEq, Except.ok.injEq] at h
    rw [← h.1]
    rfl
  | cons arg rest ih =>
    intro cl heap pairs cl1 heap1 h
    unfold Print.texts at h
    rcases hx : exec arg cl (World.mk heap "") with ⟨r, cl2, w2⟩
    rw [hx] at h
    rcases r with e | (_ | o)
    · simp at h
    · simp only at h
      rcases ht : Print.texts exec fuel rest cl2 (w2.write "None").heap with ⟨r3, cl3, heap3⟩
      rw [ht] at h
      rcases r3 with e | ps
      · simp at h
      · simp only [Prod.mk.injEq, Except.ok.injEq] at h
        rw [← h.1, List.length_cons, List.length_cons, ih cl2 _ ps cl3 heap3 ht]
    · simp only at h
      rcases hp : Object.Print exec fuel o w2 with ⟨r2, w3⟩
      rw [hp] at h
      rcases r2 with e | u
      · simp at h
      · simp only at h
        rcases ht : Print.texts exec fuel rest cl2 w3.heap with ⟨r3, cl3, heap3⟩
        rw [ht] at h
        rcases r3 with e | ps
        · simp at h
        · simp only [Prod.mk.injEq, Except.ok.injEq] at h
          rw [← h.1, List.length_cons, List.length_cons, ih cl2 w3.heap ps cl3 heap3 ht]

/-- Claim C23. For an executable that is oblivious of the output: when the arguments of a `Print`
evaluate and print, one after the other from left to right, to the texts of `pairs` (one per
argument), `Print.Execute` returns the last value and appends to the output exactly these texts in
their order, with one space between consecutive texts and one newline at the end; with no
arguments it appends just the newline. The text of an argument is what its evaluation writes
followed by the printed form of its value: `None` for the empty holder, the decimal digits of a
Number, the text of a String without quotes, `True` or `False` for a Bool, `Class ` and the name
for a Class. -/
theorem Print_Execute_format (exec : Executable) (hobl : Oblivious exec) (fuel : Nat)
    (cl : Closure) (w : World) :
    (∀ (args : List Statement) (pairs : List (ObjectHolder × String)) (cl1 : Closure)
        (heap1 : Heap), Print.texts exec fuel args cl w.heap = (.ok pairs, cl1, heap1) →
        pairs.length = args.length ∧
        Print.Execute exec fuel args cl w
          = (.ok ((pairs.getLast?.map Prod.fst).getD none), cl1,
              World.mk heap1 (w.output ++ " ".intercalate (pairs.map Prod.snd) ++ "\n"))) ∧
    Print.Execute exec fuel [] cl w = (.ok none, cl, w.write "\n") ∧
    (∀ (arg : Statement) (cl1 : Closure) (w1 : World),
        exec arg cl (World.mk w.heap "") = (.ok none, cl1, w1) →
        Print.texts exec fuel [arg] cl w.heap = (.ok [(none, w1.output ++ "None")], cl1, w1.heap)) ∧
    (∀ (arg : Statement) (o : Object) (cl1 : Closure) (w1 w2 : World),
        exec arg cl (World.mk w.heap "") = (.ok (some o), cl1, w1) →
        Object.Print exec fuel o w1 = (.ok (), w2) →
        Print.texts exec fuel [arg] cl w.heap = (.ok [(some o, w2.output)], cl1, w2.heap)) ∧
    (∀ (w0 : World) (v : Int),
        Object.Print exec (fuel + 1) (.number v) w0 = (.ok (), w0.write (toString v))) ∧
    (∀ (w0 : World) (v : String),
        Object.Print exec (fuel + 1) (.string v) w0 = (.ok (), w0.write v)) ∧
    (∀ w0 : World, Object.Print exec (fuel + 1) (.bool true) w0 = (.ok (), w0.write "True")) ∧
    (∀ w0 : World, Object.Print exec (fuel + 1) (.bool false) w0 = (.ok (), w0.write "False")) ∧
    (∀ (w0 : World) (c : Class),
        Object.Print exec (fuel + 1) (.cls c) w0 = (.ok (), w0.write ("Class " ++ c.GetName))) := by
  refine ⟨?_, rfl, ?_, ?_, fun _ _ => rfl, fun _ _ => rfl, fun _ => rfl, fun _ => rfl, ?_⟩
  · intro args pairs cl1 heap1 h
    refine ⟨Print_texts_length exec fuel args cl w.heap pairs cl1 heap1 h, ?_⟩
    unfold Print.Execute
    rw [Print_loop_texts hobl fuel args true none cl w pairs cl1 heap1 h]
    simp [World.write]
  · intro arg cl1 w1 hx
    simp [Print.texts, hx, World.write]
  · intro arg o cl1 w1 w2 hx hp
    simp [Print.texts, hx, hp]
  · intro w0 c
    simp [Object.Print, World.write, String.append_assoc]

/-- Witness for C23: `print 1, "a", None, True, V` writes the line `1 a None True Class V`. -/
theorem Print_Execute_format_witness :
    Print.Execute (Execute 2) 2
        [.NumericConst 1, .StringConst "a", .None, .BoolConst true, .VariableValue ["V"]]
        [("V", some (.cls sampleClass))] (World.mk [] "")
      = (.ok (some (.cls sampleClass)), [("V", some (.cls sampleClass))],
          World.mk [] "1 a None True Class V\n") :=
  ((Print_Execute_format (Execute 2) (Execute_oblivious 2) 2 [("V", some (.cls sampleClass))]
      (World.mk [] "")).1
    [.NumericConst 1, .StringConst "a", .None, .BoolConst true, .VariableValue ["V"]]
    [(some (.number 1), "1"), (some (.string "a"), "a"), (none, "None"), (some (.bool true), "True"),
      (some (.cls sampleClass), "Class V")]
    [("V", some (.cls sampleClass))] [] rfl).2

theorem Print_Execute_single_none (exec : Executable) (fuel : Nat) (x : Statement)
    (cl cl1 : Closure) (w w1 : World) (hx : exec x cl w = (.ok none, cl1, w1)) :
    Print.Execute exec fuel [x] cl w = (.ok none, cl1, (w1.write "None").write "\n") := by
  simp [Print.Execute, Print.loop, hx]

theorem Print_Execute_single_some (exec : Executable) (fuel : Nat) (x : Statement) (o : Object)
    (cl cl1 : Closure) (w w1 w2 : World) (r : Except Exn Unit)
    (hx : exec x cl w = (.ok (some o), cl1, w1)) (hp : Object.Print exec fuel o w1 = (r, w2)) :
    Print.Execute exec fuel [x] cl w
      = (match r with
        | .ok _ => (.ok (some o), cl1, w2.write "\n")
        | .error e => (.error e, cl1, w2)) := by
  cases r <;> simp [Print.Execute, Print.loop, hx, hp]

/-- Printing to a stream that holds text already writes what printing to an empty stream writes,
after that text. -/
theorem Object_Print_from_empty {exec : Executable} (hobl : Oblivious exec) (fuel : Nat)
    (o : Object) (w1 : World) :
    Object.Print exec fuel o w1
      = ((Object.Print exec fuel o (World.mk w1.heap "")).1,
          World.mk (Object.Print exec fuel o (World.mk w1.heap "")).2.heap
            (w1.output ++ (Object.Print exec fuel o (World.mk w1.heap "")).2.output)) := by
  have h := Object_Print_oblivious hobl w1.output fuel o (World.mk w1.heap "")
  rw [prepend_mk_empty] at h
  exact h

/-- Claim C24. For an executable that is oblivious of the output and an argument `x` that evaluates
to `v`: if `v` is the empty holder, `Stringify` returns the String `None` and `Print` appends `None`
and a newline; if `v` is an object whose printing, to a stream that starts empty, writes `t`, then
`Stringify` returns the String `t` and leaves the output as the evaluation of `x` left it, and
`Print` appends `t` and a newline. For the evaluator: whenever `Print(x)` returns,
`Print(Stringify(x))`, with one more unit of fuel for the extra node, returns in the same closure
and the same world, so it has written the same text. -/
theorem Stringify_round_trip :
    (∀ (exec : Executable), Oblivious exec → ∀ (fuel : Nat) (x : Statement) (cl cl1 : Closure)
        (w w1 : World) (v : ObjectHolder), exec x cl w = (.ok v, cl1, w1) →
        (v = none →
          Stringify.Execute exec fuel (some x) cl w = (.ok (some (.string "None")), cl1, w1) ∧
          Print.Execute exec fuel [x] cl w
            = (.ok none, cl1, World.mk w1.heap (w1.output ++ "None" ++ "\n"))) ∧
        (∀ (o : Object) (heap2 : Heap) (t : String), v = some o →
          Object.Print exec fuel o (World.mk w1.heap "") = (.ok (), World.mk heap2 t) →
          Stringify.Execute exec fuel (some x) cl w
            = (.ok (some (.string t)), cl1, World.mk heap2 w1.output) ∧
          Print.Execute exec fuel [x] cl w
            = (.ok (some o), cl1, World.mk heap2 (w1.output ++ t ++ "\n")))) ∧
    (∀ (n : Nat) (x : Statement) (cl cl2 : Closure) (w w2 : World) (r : ObjectHolder),
        Execute (n + 1) (.Print [x]) cl w = (.ok r, cl2, w2) →
        ∃ t : String,
          Execute (n + 2) (.Print [.Stringify (some x)]) cl w
            = (.ok (some (.string t)), cl2, w2)) := by
  have part1 : ∀ (exec : Executable), Oblivious exec → ∀ (fuel : Nat) (x : Statement)
      (cl cl1 : Closure) (w w1 : World) (o : Object) (heap2 : Heap) (t : String),
      exec x cl w = (.ok (some o), cl1, w1) →
      Object.Print exec fuel o (World.mk w1.heap "") = (.ok (), World.mk heap2 t) →
      Stringify.Execute exec fuel (some x) cl w
        = (.ok (some (.string t)), cl1, World.mk heap2 w1.output) ∧
      Print.Execute exec fuel [x] cl w
        = (.ok (some o), cl1, World.mk heap2 (w1.output ++ t ++ "\n")) := by
    intro exec hobl fuel x cl cl1 w w1 o heap2 t hx hp
    constructor
    · simp [Stringify.Execute, hx, hp]
    · have hp2 := Object_Print_from_empty hobl fuel o w1
      rw [hp] at hp2
      rw [Print_Execute_single_some exec fuel x o cl cl1 w w1 _ _ hx hp2]
      simp [World.write]
  refine ⟨?_, ?_⟩
  · intro exec hobl fuel x cl cl1 w w1 v hx
    refine ⟨?_, ?_⟩
    · intro hv
      subst hv
      refine ⟨by simp [Stringify.Execute, hx], ?_⟩
      rw [Print_Execute_single_none exec fuel x cl cl1 w w1 hx]
      simp [World.write, String.append_assoc]
    · intro o heap2 t hv hp
      subst hv
      exact part1 exec hobl fuel x cl cl1 w w1 o heap2 t hx hp
  · intro n x cl cl2 w w2 r h
    have hP : Execute (n + 1) (.Print [x]) cl w = Print.Execute (Execute n) (n + 1) [x] cl w := rfl
    have hPS : Execute (n + 2) (.Print [.Stringify (some x)]) cl w
        = Print.Execute (Execute (n + 1)) (n + 2) [.Stringify (some x)] cl w := rfl
    have hS : Execute (n + 1) (.Stringify (some x)) cl w
        = Stringify.Execute (Execute n) (n + 1) (some x) cl w := rfl
    rw [hP] at h
    rw [hPS]
    rcases hx : Execute n x cl w with ⟨rx, cl1, w1⟩
    rcases rx with e | (_ | o)
    · simp [Print.Execute, Print.loop, hx] at h
    · rw [Print_Execute_single_none _ _ x cl cl1 w w1 hx] at h
      simp only [Prod.mk.injEq, Except.ok.injEq] at h
      obtain ⟨h1, h2, h3⟩ := h
      subst h1 h2 h3
      refine ⟨"None", ?_⟩
      have hs : Execute (n + 1) (.Stringify (some x)) cl w
          = (.ok (some (.string "None")), cl1, w1) := by
        rw [hS]
        simp [Stringify.Execute, hx]
      rw [Print_Execute_single_some (Execute (n + 1)) (n + 2) _ (.string "None") cl cl1 w w1
        (w1.write "None") (.ok ()) hs rfl]
    · rcases hp : Object.Print (Execute n) (n + 1) o (World.mk w1.heap "") with ⟨rp, ⟨heap2, t⟩⟩
      have hp2 := Object_Print_from_empty (Execute_oblivious n) (n + 1) o w1
      rw [hp] at hp2
      rw [Print_Execute_single_some _ _ x o cl cl1 w w1 _ _ hx hp2] at h
      rcases rp with e | u
      · simp at h
      · simp only [Prod.mk.injEq, Except.ok.injEq] at h
        obtain ⟨h1, h2, h3⟩ := h
        subst h1 h2 h3
        refine ⟨t, ?_⟩
        have hs : Execute (n + 1) (.Stringify (some x)) cl w
            = (.ok (some (.string t)), cl1, World.mk heap2 w1.output) := by
          rw [hS]
          simp [Stringify.Execute, hx, hp]
        rw [Print_Execute_single_some (Execute (n + 1)) (n + 2) _ (.string t) cl cl1 w _
          ((World.mk heap2 w1.output).write t) (.ok ()) hs rfl]
        simp [World.write]

/-- Witness for C24: for `p` bound to an instance whose `__str__` returns `printable`,
`Stringify(p)` returns the String `printable`, `Print(p)` writes `printable` and a newline, and
so does `Print(Stringify(p))`. -/
theorem Stringify_round_trip_witness :
    (Stringify.Execute (Execute 3) 3 (some (.VariableValue ["p"])) [("p", some (.classInstance 50))]
          printableWorld
        = (.ok (some (.string "printable")), [("p", some (.classInstance 50))], printableWorld) ∧
      Print.Execute (Execute 3) 3 [.VariableValue ["p"]] [("p", some (.classInstance 50))]
          printableWorld
        = (.ok (some (.classInstance 50)), [("p", some (.classInstance 50))],
            World.mk printableWorld.heap "printable\n")) ∧
    ∃ t : String,
      Execute 5 (.Print [.Stringify (some (.VariableValue ["p"]))]) [("p", some (.classInstance 50))]
          printableWorld
        = (.ok (some (.string t)), [("p", some (.classInstance 50))],
            World.mk printableWorld.heap "printable\n") :=
  ⟨(Stringify_round_trip.1 (Execute 3) (Execute_oblivious 3) 3 (.VariableValue ["p"])
      [("p", some (.classInstance 50))] [("p", some (.classInstance 50))] printableWorld
      printableWorld (some (.classInstance 50)) rfl).2 (.classInstance 50) printableWorld.heap
      "printable" rfl rfl,
   Stringify_round_trip.2 3 (.VariableValue ["p"]) [("p", some (.classInstance 50))]
      [("p", some (.classInstance 50))] printableWorld
      (World.mk printableWorld.heap "printable\n") (some (.classInstance 50)) rfl⟩

/-- The record that `GetMethod` finds under a name has that name. -/
theorem GetMethod_name (c : Class) (name : String) (r : Method)
    (h : c.GetMethod name = some r) : r.name = name := by
  cases c with
  | mk name_ methods parent =>
    rw [GetMethod_eq] at h
    cases hl : lastNamed name methods with
    | some r1 =>
      rw [hl] at h
      simp only [Option.some.injEq] at h
      subst h
      exact (lastNamed_mem name methods r1 hl).2
    | none =>
      rw [hl] at h
      cases parent with
      | none => simp at h
      | some p => exact (lastNamed_mem name p.methods_ r h).2

/-- Claim C25. Printing a live instance. If its class resolves `__str__` to a method without formal
parameters, `__str__` is called on the instance with no arguments (its body runs in the frame that
binds only `self`), and the printed form of the returned object, and nothing else, is written in
the world that the call left: a returned String `s` appends `s`. An exception of `__str__` passes
through, and an empty result is dereferenced. If the class does not resolve `__str__`, the
identity token of the instance is written and nothing is called. -/
theorem ClassInstance_Print_spec (exec : Executable) (fuel : Nat) (self : Nat)
    (inst : ClassInstance) (w : World) (hlive : assocFind self w.heap = some inst) :
    (∀ str : Method, inst.cls_.GetMethod STR_METHOD = some str → str.formal_params = [] →
        ClassInstance.Call exec self STR_METHOD [] w
            = ((exec str.body [(SELF_OBJECT, some (.classInstance self))] w).1,
                (exec str.body [(SELF_OBJECT, some (.classInstance self))] w).2.2)
        ∧ (∀ res w1, ClassInstance.Call exec self STR_METHOD [] w = (.ok (some res), w1) →
            Object.Print exec (fuel + 1) (.classInstance self) w = Object.Print exec fuel res w1)
        ∧ (∀ s w1, ClassInstance.Call exec self STR_METHOD [] w = (.ok (some (.string s)), w1) →
            Object.Print exec (fuel + 2) (.classInstance self) w = (.ok (), w1.write s))
        ∧ (∀ e w1, ClassInstance.Call exec self STR_METHOD [] w = (.error e, w1) →
            Object.Print exec (fuel + 1) (.classInstance self) w = (.error e, w1))
        ∧ (∀ w1, ClassInstance.Call exec self STR_METHOD [] w = (.ok none, w1) →
            Object.Print exec (fuel + 1) (.classInstance self) w = (.error .undefinedBehaviour, w1))) ∧
    (inst.cls_.GetMethod STR_METHOD = none →
        Object.Print exec (fuel + 1) (.classInstance self) w
          = (.ok (), w.write (addressToken self))) := by
  refine ⟨?_, ?_⟩
  · intro str hget hparams
    have hname : str.name = STR_METHOD := GetMethod_name inst.cls_ STR_METHOD str hget
    have hcall : ClassInstance.Call exec self STR_METHOD [] w
        = ((exec str.body [(SELF_OBJECT, some (.classInstance self))] w).1,
            (exec str.body [(SELF_OBJECT, some (.classInstance self))] w).2.2) :=
      Call_of_GetMethod exec self inst STR_METHOD [] w str _ hlive hget (by simp [hparams])
        (by simp [hparams, ClassInstance.bindArgs, assocSet])
    have hprint : ∀ f, Object.Print exec (f + 1) (.classInstance self) w
        = (match ClassInstance.Call exec self STR_METHOD [] w with
          | (.ok (some res), w1) => Object.Print exec f res w1
          | (.ok none, w1) => (.error .undefinedBehaviour, w1)
          | (.error e, w1) => (.error e, w1)) := by
      intro f
      rw [Object.Print]
      simp only [hlive, hget, hname]
    refine ⟨hcall, ?_, ?_, ?_, ?_⟩
    · intro res w1 hc
      rw [hprint, hc]
    · intro s w1 hc
      rw [hprint, hc]
      rfl
    · intro e w1 hc
      rw [hprint, hc]
    · intro w1 hc
      rw [hprint, hc]
  · intro hget
    rw [Object.Print]
    simp only [hlive, hget]

/-- Witness for C25: the instance of `Printable` prints as `printable`, the text its `__str__`
returns; the instance of `Point`, at address 51, prints as its identity token. -/
theorem ClassInstance_Print_spec_witness :
    Object.Print (Execute 3) 2 (.classInstance 50) printableWorld
        = (.ok (), printableWorld.write "printable") ∧
    Object.Print (Execute 3) 1 (.classInstance 51) printableWorld
        = (.ok (), printableWorld.write "0x33") :=
  ⟨((ClassInstance_Print_spec (Execute 3) 0 50 (ClassInstance.mk samplePrintable []) printableWorld
        rfl).1 (Method.mk "__str__" [] (.MethodBody (.Return (.StringConst "printable")))) rfl rfl).2.2.1
      "printable" printableWorld rfl,
   (ClassInstance_Print_spec (Execute 3) 0 51 (ClassInstance.mk samplePoint []) printableWorld
        rfl).2 rfl⟩

/-! ## Empty operands -/

/-- Counterexample to C26 as stated: `None + 5`, `5 - None`, `None * None` and `None / 5` raise
`incorrect add operands`, `incorrect sub operands`, `incorrect mult operands` and
`incorrect div operands`, not `null operands are not supported`. -/
theorem empty_operand_counterexample :
    Execute 2 (.Add (some .None) (some (.NumericConst 5))) [] (World.mk [] "")
        = (.error (.runtime_error "incorrect add operands"), [], World.mk [] "")
      ∧ Execute 2 (.Sub (some (.NumericConst 5)) (some .None)) [] (World.mk [] "")
        = (.error (.runtime_error "incorrect sub operands"), [], World.mk [] "")
      ∧ Execute 2 (.Mult (some .None) (some .None)) [] (World.mk [] "")
        = (.error (.runtime_error "incorrect mult operands"), [], World.mk [] "")
      ∧ Execute 2 (.Div (some .None) (some (.NumericConst 5))) [] (World.mk [] "")
        = (.error (.runtime_error "incorrect div operands"), [], World.mk [] "")
      ∧ "incorrect add operands" ≠ "null operands are not supported" :=
  ⟨rfl, rfl, rfl, rfl, by decide⟩

/-- Claim C26, amended. When both operand expressions are present and evaluate, and the left or
the right value is the empty holder, `Sub`, `Mult` and `Div` raise `incorrect sub operands`,
`incorrect mult operands` and `incorrect div operands`, and `Add` raises `incorrect add operands`
unless its left value is a class instance. The error `null operands are not supported` is raised
when an operand expression is missing from the node, before anything is evaluated. -/
theorem empty_operand_raises_incorrect_operands (exec : Executable) (lhs rhs : Statement)
    (cl cl1 cl2 : Closure) (w w1 w2 : World) (a b : ObjectHolder)
    (hl : exec lhs cl w = (.ok a, cl1, w1)) (hr : exec rhs cl1 w1 = (.ok b, cl2, w2))
    (hnone : a = none ∨ b = none) :
    Sub.Execute exec (some lhs) (some rhs) cl w
        = (.error (.runtime_error "incorrect sub operands"), cl2, w2) ∧
    Mult.Execute exec (some lhs) (some rhs) cl w
        = (.error (.runtime_error "incorrect mult operands"), cl2, w2) ∧
    Div.Execute exec (some lhs) (some rhs) cl w
        = (.error (.runtime_error "incorrect div operands"), cl2, w2) ∧
    (TryAsClassInstance a = none →
      Add.Execute exec (some lhs) (some rhs) cl w
        = (.error (.runtime_error "incorrect add operands"), cl2, w2)) ∧
    (∀ lhs_ rhs_ : Option Statement, lhs_ = none ∨ rhs_ = none →
      Add.Execute exec lhs_ rhs_ cl w
          = (.error (.runtime_error "null operands are not supported"), cl, w) ∧
      Sub.Execute exec lhs_ rhs_ cl w
          = (.error (.runtime_error "null operands are not supported"), cl, w) ∧
      Mult.Execute exec lhs_ rhs_ cl w
          = (.error (.runtime_error "null operands are not supported"), cl, w) ∧
      Div.Execute exec lhs_ rhs_ cl w
          = (.error (.runtime_error "null operands are not supported"), cl, w)) := by
  have hop := operands_ok exec lhs rhs cl cl1 cl2 w w1 w2 a b hl hr
  refine ⟨?_, ?_, ?_, ?_, ?_⟩
  · rcases hnone with h | h <;> subst h
    · simp [Sub.Execute, hop, TryAsNumber]
    · rcases a with _ | (x | s | p | c | self) <;> simp [Sub.Execute, hop, TryAsNumber]
  · rcases hnone with h | h <;> subst h
    · simp [Mult.Execute, hop, TryAsNumber]
    · rcases a with _ | (x | s | p | c | self) <;> simp [Mult.Execute, hop, TryAsNumber]
  · rcases hnone with h | h <;> subst h
    · simp [Div.Execute, hop, TryAsNumber]
    · rcases a with _ | (x | s | p | c | self) <;> simp [Div.Execute, hop, TryAsNumber]
  · intro hinst
    rcases hnone with h | h <;> subst h
    · simp [Add.Execute, hop, Add.apply, TryAsNumber, TryAsString, TryAsClassInstance]
    · rcases a with _ | (x | s | p | c | self)
      case some.classInstance => simp [TryAsClassInstance] at hinst
      all_goals simp [Add.Execute, hop, Add.apply, TryAsNumber, TryAsString, TryAsClassInstance]
  · intro lhs_ rhs_ h
    rcases h with h | h <;> subst h
    · refine ⟨?_, ?_, ?_, ?_⟩ <;>
        simp [Add.Execute, Sub.Execute, Mult.Execute, Div.Execute, BinaryOperation.operands]
    · refine ⟨?_, ?_, ?_, ?_⟩ <;> cases lhs_ <;>
        simp [Add.Execute, Sub.Execute, Mult.Execute, Div.Execute, BinaryOperation.operands]

/-- Witness for C26, amended: `5 - None` and `None + 5` raise the errors of incorrect operands; an
`Add` node without left operand raises `null operands are not supported`. -/
theorem empty_operand_raises_incorrect_operands_witness :
    Sub.Execute (Execute 1) (some (.NumericConst 5)) (some .None) [] (World.mk [] "")
        = (.error (.runtime_error "incorrect sub operands"), [], World.mk [] "") ∧
    Add.Execute (Execute 1) (some .None) (some (.NumericConst 5)) [] (World.mk [] "")
        = (.error (.runtime_error "incorrect add operands"), [], World.mk [] "") ∧
    Add.Execute (Execute 1) none (some (.NumericConst 5)) [] (World.mk [] "")
        = (.error (.runtime_error "null operands are not supported"), [], World.mk [] "") :=
  ⟨(empty_operand_raises_incorrect_operands (Execute 1) (.NumericConst 5) .None [] [] []
      (World.mk [] "") (World.mk [] "") (World.mk [] "") (some (.number 5)) none rfl rfl
      (Or.inr rfl)).1,
   (empty_operand_raises_incorrect_operands (Execute 1) .None (.NumericConst 5) [] [] []
      (World.mk [] "") (World.mk [] "") (World.mk [] "") none (some (.number 5)) rfl rfl
      (Or.inl rfl)).2.2.2.1 rfl,
   ((empty_operand_raises_incorrect_operands (Execute 1) .None (.NumericConst 5) [] [] []
      (World.mk [] "") (World.mk [] "") (World.mk [] "") none (some (.number 5)) rfl rfl
      (Or.inl rfl)).2.2.2.2 none (some (.NumericConst 5)) (Or.inl rfl)).1⟩

/-! ## Constructor invocation -/

theorem ExecuteArgs_length (exec : Executable) :
    ∀ (args : List Statement) (cl : Closure) (w : World) (vs : List ObjectHolder) (cl1 : Closure)
      (w1 : World), ExecuteArgs exec args cl w = (.ok vs, cl1, w1) → vs.length = args.length := by
  intro args
  induction args with
  | nil =>
    intro cl w vs cl1 w1 h
    simp only [ExecuteArgs, Prod.mk.injEq, Except.ok.injEq] at h
    rw [← h.1]
    rfl
  | cons arg rest ih =>
    intro cl w vs cl1 w1 h
    unfold ExecuteArgs at h
    rcases h1 : exec arg cl w with ⟨r, cl2, w2⟩
    rw [h1] at h
    rcases r with e | v
    · simp at h
    · simp only at h
      rcases h2 : ExecuteArgs exec rest cl2 w2 with ⟨r2, cl3, w3⟩
      rw [h2] at h
      rcases r2 with e | vs2
      · simp at h
      · simp only [Prod.mk.injEq, Except.ok.injEq] at h
        rw [← h.1, List.length_cons, List.length_cons, ih cl2 w2 vs2 cl3 w3 h2]

/-- Claim C27. For a `NewInstance` node whose argument expressions evaluate, left to right from the
closure of the caller, to `actual_args`: if the class resolves `__init__` to a method with as many
formal parameters as there are arguments, the body of that method is executed once, in the frame of
`self`, bound to the instance of the node, and the formal parameters, bound to the evaluated
arguments; its return value is dropped and its exception passes through. If the class has no
`__init__`, or one with another number of formal parameters, nothing is called and nothing is
raised. Whenever the node returns, the result is the holder of the instance, never the empty
holder. -/
theorem NewInstance_Execute_spec (exec : Executable) (class_inst_ : Nat) (class_ : Class)
    (args_ : List Statement) (closure : Closure) (w : World) (actual_args : List ObjectHolder)
    (cl1 : Closure) (w1 : World) (inst : ClassInstance)
    (hargs : ExecuteArgs exec args_ closure (NewInstance.materialize class_inst_ class_ w)
      = (.ok actual_args, cl1, w1))
    (hlive : assocFind class_inst_ w1.heap = some inst) (hcls : inst.cls_ = class_) :
    (∀ init : Method, class_.GetMethod INIT_METHOD = some init →
        init.formal_params.length = args_.length →
        ∃ frame : Closure,
          ClassInstance.bindArgs actual_args init.formal_params 0
              (assocSet SELF_OBJECT (some (.classInstance class_inst_)) []) = some frame
          ∧ (init.formal_params.Nodup → SELF_OBJECT ∉ init.formal_params →
              frame = (SELF_OBJECT, some (.classInstance class_inst_))
                :: List.zip init.formal_params actual_args)
          ∧ (∀ r cl2 w2, exec init.body frame w1 = (.ok r, cl2, w2) →
              NewInstance.Execute exec class_inst_ class_ args_ closure w
                = (.ok (some (.classInstance class_inst_)), cl1, w2))
          ∧ (∀ e cl2 w2, exec init.body frame w1 = (.error e, cl2, w2) →
              NewInstance.Execute exec class_inst_ class_ args_ closure w = (.error e, cl1, w2))) ∧
    (class_.GetMethod INIT_METHOD = none →
        NewInstance.Execute exec class_inst_ class_ args_ closure w
          = (.ok (some (.classInstance class_inst_)), cl1, w1)) ∧
    (∀ init : Method, class_.GetMethod INIT_METHOD = some init →
        init.formal_params.length ≠ args_.length →
        NewInstance.Execute exec class_inst_ class_ args_ closure w
          = (.ok (some (.classInstance class_inst_)), cl1, w1)) ∧
    (∀ r cl2 w2, NewInstance.Execute exec class_inst_ class_ args_ closure w = (.ok r, cl2, w2) →
        r = some (.classInstance class_inst_)) := by
  subst hcls
  have hlen : actual_args.length = args_.length := ExecuteArgs_length exec args_ _ _ _ _ _ hargs
  refine ⟨?_, ?_, ?_, ?_⟩
  · intro init hget hn
    have hn2 : init.formal_params.length = actual_args.length := by rw [hn, hlen]
    obtain ⟨frame, hbind⟩ := bindArgs_isSome actual_args init.formal_params 0
      (assocSet SELF_OBJECT (some (.classInstance class_inst_)) []) (by omega)
    have hhas : inst.HasMethod INIT_METHOD args_.length = true :=
      (HasMethod_iff inst INIT_METHOD args_.length).mpr ⟨init, hget, hn⟩
    have hcall := Call_of_GetMethod exec class_inst_ inst INIT_METHOD actual_args w1 init frame
      hlive hget hn2 hbind
    refine ⟨frame, hbind, ?_, ?_, ?_⟩
    · intro hnodup hself
      rw [bindArgs_eq_zip actual_args init.formal_params 0 _ hnodup] at hbind
      · simpa [assocSet] using hbind.symm
      · intro p hp
        have hne : ¬ SELF_OBJECT = p := fun h => hself (h ▸ hp)
        simp [assocSet, assocFind, hne]
      · omega
    · intro r cl2 w2 hbody
      simp [NewInstance.Execute, hargs, hlive, hhas, hcall, hbody]
    · intro e cl2 w2 hbody
      simp [NewInstance.Execute, hargs, hlive, hhas, hcall, hbody]
  · intro hget
    simp [NewInstance.Execute, hargs, hlive, ClassInstance.HasMethod, hget]
  · intro init hget hn
    simp [NewInstance.Execute, hargs, hlive, ClassInstance.HasMethod, hget, hn]
  · intro r cl2 w2 h
    unfold NewInstance.Execute at h
    simp only [hargs, hlive] at h
    by_cases hhas : inst.HasMethod INIT_METHOD args_.length = true
    · simp only [hhas, if_true] at h
      rcases hc : ClassInstance.Call exec class_inst_ INIT_METHOD actual_args w1 with ⟨rc, w2c⟩
      rw [hc] at h
      rcases rc with e | v
      · simp at h
      · simp only [Prod.mk.injEq, Except.ok.injEq] at h
        exact h.1.symm
    · simp only [hhas] at h
      simp only [Bool.false_eq_true, if_false, Prod.mk.injEq, Except.ok.injEq] at h
      exact h.1.symm

/-- Witness for C27: `Point(7)` calls `__init__`, which stores 7 in the field `x`; `Point()` calls
nothing and returns the instance without fields. -/
theorem NewInstance_Execute_spec_witness :
    NewInstance.Execute (Execute 5) 40 samplePoint [.NumericConst 7] [] (World.mk [] "")
        = (.ok (some (.classInstance 40)), [],
            World.mk [(40, ClassInstance.mk samplePoint [("x", some (.number 7))])] "") ∧
    NewInstance.Execute (Execute 5) 40 samplePoint [] [] (World.mk [] "")
        = (.ok (some (.classInstance 40)), [], World.mk [(40, ClassInstance.mk samplePoint [])] "") :=
  ⟨((NewInstance_Execute_spec (Execute 5) 40 samplePoint [.NumericConst 7] [] (World.mk [] "")
        [some (.number 7)] [] (World.mk [(40, ClassInstance.mk samplePoint [])] "")
        (ClassInstance.mk samplePoint []) rfl rfl rfl).1
      (Method.mk "__init__" ["x"] (.MethodBody (.FieldAssignment ["self"] "x" (.VariableValue ["x"]))))
      rfl rfl).elim (fun frame hf => hf.2.2.1 none frame
        (World.mk [(40, ClassInstance.mk samplePoint [("x", some (.number 7))])] "")
        (by
          have h := hf.2.1 (by decide) (by decide)
          subst h
          rfl)),
   (NewInstance_Execute_spec (Execute 5) 40 samplePoint [] [] (World.mk [] "")
        [] [] (World.mk [(40, ClassInstance.mk samplePoint [])] "")
        (ClassInstance.mk samplePoint []) rfl rfl rfl).2.2.1
      (Method.mk "__init__" ["x"] (.MethodBody (.FieldAssignment ["self"] "x" (.VariableValue ["x"]))))
      rfl (by decide)⟩

/-! ## Method bodies and conditionals -/

/-- Claim C28. When the inner node of a `MethodBody` completes normally, with whatever value,
`MethodBody.Execute` returns the empty holder. A result of a `MethodBody` that is not empty is
the payload of a `RuntimeReturnExeption` that left the inner node, and every such payload is
returned. -/
theorem MethodBody_falls_off_the_end (exec : Executable) (body_ : Statement) (closure : Closure) (w : World) :
    (∀ u cl1 w1, exec body_ closure w = (.ok u, cl1, w1) →
        MethodBody.Execute exec body_ closure w = (.ok none, cl1, w1)) ∧
    (∀ o cl1 w1, MethodBody.Execute exec body_ closure w = (.ok (some o), cl1, w1) →
        exec body_ closure w = (.error (.RuntimeReturnExeption (some o)), cl1, w1)) ∧
    (∀ obj cl1 w1, exec body_ closure w = (.error (.RuntimeReturnExeption obj), cl1, w1) →
        MethodBody.Execute exec body_ closure w = (.ok obj, cl1, w1)) := by
  refine ⟨?_, ?_, ?_⟩
  · intro u cl1 w1 h
    simp only [MethodBody.Execute, h]
  · intro o cl1 w1 h
    unfold MethodBody.Execute at h
    rcases hb : exec body_ closure w with ⟨r, cl2, w2⟩
    rw [hb] at h
    rcases r with e | u
    · cases e <;> simp at h
      obtain ⟨h1, h2, h3⟩ := h
      subst h1 h2 h3
      rfl
    · simp at h
  · intro obj cl1 w1 h
    simp only [MethodBody.Execute, h]

/-- Witness for C28: a body that is the expression 5, the assignment `x = 5` or `print 5` returns
the empty holder; the body `return 5` returns 5. -/
theorem MethodBody_falls_off_the_end_witness :
    MethodBody.Execute (Execute 2) (.NumericConst 5) [] (World.mk [] "")
        = (.ok none, [], World.mk [] "") ∧
    MethodBody.Execute (Execute 2) (.Assignment "x" (.NumericConst 5)) [] (World.mk [] "")
        = (.ok none, [("x", some (.number 5))], World.mk [] "") ∧
    MethodBody.Execute (Execute 3) (.Print [.NumericConst 5]) [] (World.mk [] "")
        = (.ok none, [], World.mk [] "5\n") ∧
    MethodBody.Execute (Execute 2) (.Return (.NumericConst 5)) [] (World.mk [] "")
        = (.ok (some (.number 5)), [], World.mk [] "") :=
  ⟨(MethodBody_falls_off_the_end (Execute 2) (.NumericConst 5) [] (World.mk [] "")).1
      (some (.number 5)) [] (World.mk [] "") rfl,
   (MethodBody_falls_off_the_end (Execute 2) (.Assignment "x" (.NumericConst 5)) []
      (World.mk [] "")).1 (some (.number 5)) [("x", some (.number 5))] (World.mk [] "") rfl,
   (MethodBody_falls_off_the_end (Execute 3) (.Print [.NumericConst 5]) [] (World.mk [] "")).1
      (some (.number 5)) [] (World.mk [] "5\n") rfl,
   (MethodBody_falls_off_the_end (Execute 2) (.Return (.NumericConst 5)) [] (World.mk [] "")).2.2
      (some (.number 5)) [] (World.mk [] "") rfl⟩

/-- Claim C29. When the condition of an `IfElse` evaluates to `c`, leaving the closure `cl1` and the
world `w1`: if `IsTrue c`, the outcome is that of the then-branch executed from `cl1` and `w1`,
whatever the else-branch is; otherwise, with an else-branch, the outcome is that of the else-branch
executed from `cl1` and `w1`, whatever the then-branch is; otherwise the result is the empty holder
and the state is `cl1` and `w1`. The condition is evaluated once and the other branch not at all. -/
theorem IfElse_Execute_spec (exec : Executable) (condition_ if_body_ : Statement)
    (closure : Closure) (w : World) (c : ObjectHolder) (cl1 : Closure) (w1 : World)
    (hc : exec condition_ closure w = (.ok c, cl1, w1)) :
    (IsTrue c = true → ∀ else_body_ : Option Statement,
        IfElse.Execute exec condition_ if_body_ else_body_ closure w = exec if_body_ cl1 w1) ∧
    (IsTrue c = false → ∀ else_body : Statement,
        IfElse.Execute exec condition_ if_body_ (some else_body) closure w = exec else_body cl1 w1) ∧
    (IsTrue c = false →
        IfElse.Execute exec condition_ if_body_ none closure w = (.ok none, cl1, w1)) := by
  refine ⟨?_, ?_, ?_⟩
  · intro h e
    simp [IfElse.Execute, hc, h]
  · intro h e
    simp [IfElse.Execute, hc, h]
  · intro h
    simp [IfElse.Execute, hc, h]

/-- Witness for C29: `if 1: x = 1 else: y = 2` binds only `x`, `if 0: x = 1 else: y = 2` binds only
`y`, and `if 0: x = 1` binds nothing and returns the empty holder. -/
theorem IfElse_Execute_spec_witness :
    IfElse.Execute (Execute 2) (.NumericConst 1) (.Assignment "x" (.NumericConst 1))
        (some (.Assignment "y" (.NumericConst 2))) [] (World.mk [] "")
        = (.ok (some (.number 1)), [("x", some (.number 1))], World.mk [] "") ∧
    IfElse.Execute (Execute 2) (.NumericConst 0) (.Assignment "x" (.NumericConst 1))
        (some (.Assignment "y" (.NumericConst 2))) [] (World.mk [] "")
        = (.ok (some (.number 2)), [("y", some (.number 2))], World.mk [] "") ∧
    IfElse.Execute (Execute 2) (.NumericConst 0) (.Assignment "x" (.NumericConst 1)) none []
        (World.mk [] "")
        = (.ok none, [], World.mk [] "") :=
  ⟨(IfElse_Execute_spec (Execute 2) (.NumericConst 1) (.Assignment "x" (.NumericConst 1)) []
      (World.mk [] "") (some (.number 1)) [] (World.mk [] "") rfl).1 rfl
      (some (.Assignment "y" (.NumericConst 2))),
   (IfElse_Execute_spec (Execute 2) (.NumericConst 0) (.Assignment "x" (.NumericConst 1)) []
      (World.mk [] "") (some (.number 0)) [] (World.mk [] "") rfl).2.1 rfl
      (.Assignment "y" (.NumericConst 2)),
   (IfElse_Execute_spec (Execute 2) (.NumericConst 0) (.Assignment "x" (.NumericConst 1)) []
      (World.mk [] "") (some (.number 0)) [] (World.mk [] "") rfl).2.2 rfl⟩

/-! ## Integer division -/

/-- The truncated quotient leaves a remainder that is smaller than the divisor in absolute value
and is zero or has the sign of the dividend. -/
theorem tdiv_truncates (a b : Int) (hb : b ≠ 0) :
    |a - Int.tdiv a b * b| < |b| ∧
    (a - Int.tdiv a b * b = 0 ∨ (0 < a - Int.tdiv a b * b ∧ 0 < a) ∨ (a - Int.tdiv a b * b < 0 ∧ a < 0)) := by
  have key : ∀ m n : Nat, 0 < n → ∃ q r : Nat, m / n = q ∧ r < n ∧ (m : Int) = (q : Int) * (n : Int) + (r : Int) := by
    intro m n hn
    refine ⟨m / n, m % n, rfl, Nat.mod_lt m hn, ?_⟩
    have h2 : m = (m / n) * n + m % n := by
      have := Nat.div_add_mod m n
      rw [Nat.mul_comm] at this
      exact this.symm
    exact_mod_cast h2
  obtain ⟨m, rfl | rfl⟩ := Int.eq_nat_or_neg a <;> obtain ⟨n, rfl | rfl⟩ := Int.eq_nat_or_neg b
  all_goals
    have hn : 0 < n := by
      rcases Nat.eq_zero_or_pos n with h | h
      · subst h; simp at hb
      · exact h
    obtain ⟨q, r, hq, hr, hm⟩ := key m n hn
    have hr0 : (0 : Int) ≤ (r : Int) := Int.ofNat_nonneg _
    have hrn : (r : Int) < (n : Int) := by exact_mod_cast hr
    have hn0 : (0 : Int) < (n : Int) := by exact_mod_cast hn
    have hq0 : (0 : Int) ≤ (q : Int) := Int.ofNat_nonneg _
    have hqn : (0 : Int) ≤ (q : Int) * (n : Int) := mul_nonneg hq0 (le_of_lt hn0)
    simp only [Int.neg_tdiv, Int.tdiv_neg, ← Int.ofNat_tdiv, neg_neg, abs_neg, hq]
    rw [abs_of_pos hn0]
  · have e : (m : Int) - (q : Int) * (n : Int) = (r : Int) := by linarith
    rw [e, abs_of_nonneg hr0]
    refine ⟨hrn, ?_⟩
    rcases Nat.eq_zero_or_pos r with h | h
    · left; exact_mod_cast h
    · right; left
      have : (0 : Int) < (r : Int) := by exact_mod_cast h
      exact ⟨this, by linarith⟩
  · have e : (m : Int) - -(q : Int) * -(n : Int) = (r : Int) := by linarith
    rw [e, abs_of_nonneg hr0]
    refine ⟨hrn, ?_⟩
    rcases Nat.eq_zero_or_pos r with h | h
    · left; exact_mod_cast h
    · right; left
      have : (0 : Int) < (r : Int) := by exact_mod_cast h
      exact ⟨this, by linarith⟩
  · have e : -(m : Int) - -(q : Int) * (n : Int) = -(r : Int) := by linarith
    rw [e, abs_neg, abs_of_nonneg hr0]
    refine ⟨hrn, ?_⟩
    rcases Nat.eq_zero_or_pos r with h | h
    · left; subst h; simp
    · right; right
      have : (0 : Int) < (r : Int) := by exact_mod_cast h
      exact ⟨by linarith, by linarith⟩
  · have e : -(m : Int) - (q : Int) * -(n : Int) = -(r : Int) := by linarith
    rw [e, abs_neg, abs_of_nonneg hr0]
    refine ⟨hrn, ?_⟩
    rcases Nat.eq_zero_or_pos r with h | h
    · left; subst h; simp
    · right; right
      have : (0 : Int) < (r : Int) := by exact_mod_cast h
      exact ⟨by linarith, by linarith⟩

/-- The quotient of a 32-bit dividend is representable, except for the least integer divided
by -1. -/
theorem tdiv_inRange (a b : Int) (ha1 : -2147483648 ≤ a) (ha2 : a < 2147483648)
    (hb : b ≠ 0) (hov : ¬ (a = -2147483648 ∧ b = -1)) :
    -2147483648 ≤ Int.tdiv a b ∧ Int.tdiv a b < 2147483648 := by
  have hq : (Int.tdiv a b).natAbs = a.natAbs / b.natAbs := Int.natAbs_tdiv a b
  have hbpos : 0 < b.natAbs := Int.natAbs_pos.mpr hb
  have hle : a.natAbs / b.natAbs ≤ a.natAbs := Nat.div_le_self _ _
  have ha : a.natAbs ≤ 2147483648 := by omega
  constructor
  · omega
  · by_contra hc
    have hq2 : (Int.tdiv a b).natAbs = 2147483648 := by omega
    have ha3 : a.natAbs = 2147483648 := by omega
    have ha4 : a = -2147483648 := by omega
    have hb1 : b.natAbs = 1 := by
      by_contra hne
      have h2 : 2 ≤ b.natAbs := by omega
      have : a.natAbs / b.natAbs ≤ a.natAbs / 2 := Nat.div_le_div_left h2 (by decide)
      omega
    have hb2 : b = 1 := by
      rcases Int.natAbs_eq b with h | h
      · rw [hb1] at h; exact h
      · rw [hb1] at h; exact absurd ⟨ha4, h⟩ hov
    subst hb2
    rw [Int.tdiv_one] at hc
    omega

theorem truncated_quotient_unique (a b q r q1 r1 : Int)
    (h : a = q * b + r) (hr : |r| < |b|) (hs : r = 0 ∨ (0 < r ∧ 0 < a) ∨ (r < 0 ∧ a < 0))
    (h1 : a = q1 * b + r1) (hr1 : |r1| < |b|)
    (hs1 : r1 = 0 ∨ (0 < r1 ∧ 0 < a) ∨ (r1 < 0 ∧ a < 0)) : q1 = q := by
  by_contra hne
  have hd : (q1 - q) * b = r - r1 := by linarith
  have habs : |b| ≤ |(q1 - q) * b| := by
    rw [abs_mul]
    have : 1 ≤ |q1 - q| := by
      have : q1 - q ≠ 0 := sub_ne_zero.mpr hne
      exact Int.one_le_abs this
    nlinarith [abs_nonneg b]
  rw [hd] at habs
  have hlt : |r - r1| < |b| := by
    rw [abs_lt] at hr hr1 ⊢
    rcases hs with h0 | ⟨h0, h0a⟩ | ⟨h0, h0a⟩ <;> rcases hs1 with h10 | ⟨h10, h10a⟩ | ⟨h10, h10a⟩ <;>
      constructor <;> omega
  omega

/-- Claim C30. For operands that evaluate to the Numbers `a` and `b`, with `a` a 32-bit integer,
`b` not zero and not the one quotient that is not representable (the least integer divided by -1):
`Div.Execute` returns the Number `q`, the quotient truncated toward zero, for which
`a = q * b + r` with `|r| < |b|` and `r` zero or of the sign of `a`; and `q` is the only integer
with such a remainder. -/
theorem Div_rounds_toward_zero (exec : Executable) (lhs rhs : Statement) (cl cl1 cl2 : Closure)
    (w w1 w2 : World) (a b : Int)
    (hl : exec lhs cl w = (.ok (some (.number a)), cl1, w1))
    (hr : exec rhs cl1 w1 = (.ok (some (.number b)), cl2, w2))
    (ha1 : -2147483648 ≤ a) (ha2 : a < 2147483648) (hb : b ≠ 0)
    (hov : ¬ (a = -2147483648 ∧ b = -1)) :
    Div.Execute exec (some lhs) (some rhs) cl w = (.ok (some (.number (Int.tdiv a b))), cl2, w2) ∧
    ∃ r : Int, a = Int.tdiv a b * b + r ∧ |r| < |b| ∧
      (r = 0 ∨ (0 < r ∧ 0 < a) ∨ (r < 0 ∧ a < 0)) ∧
      ∀ q1 r1 : Int, a = q1 * b + r1 → |r1| < |b| →
        (r1 = 0 ∨ (0 < r1 ∧ 0 < a) ∨ (r1 < 0 ∧ a < 0)) → q1 = Int.tdiv a b := by
  obtain ⟨hq1, hq2⟩ := tdiv_inRange a b ha1 ha2 hb hov
  obtain ⟨ht1, ht2⟩ := tdiv_truncates a b hb
  refine ⟨?_, a - Int.tdiv a b * b, by ring, ht1, ht2, ?_⟩
  · simp [Div.Execute, operands_ok exec lhs rhs cl cl1 cl2 w w1 w2 _ _ hl hr, TryAsNumber, hb,
      wrapInt_of_inRange _ hq1 hq2]
  · intro q1 r1 h1 hr1 hs1
    exact truncated_quotient_unique a b (Int.tdiv a b) (a - Int.tdiv a b * b) q1 r1 (by ring) ht1 ht2 h1 hr1 hs1

/-- Witness for C30: `(-7) / 2` is -3 and `7 / (-2)` is -3. -/
theorem Div_rounds_toward_zero_witness :
    Div.Execute (Execute 1) (some (.NumericConst (-7))) (some (.NumericConst 2)) [] (World.mk [] "")
        = (.ok (some (.number (-3))), [], World.mk [] "") ∧
    Div.Execute (Execute 1) (some (.NumericConst 7)) (some (.NumericConst (-2))) [] (World.mk [] "")
        = (.ok (some (.number (-3))), [], World.mk [] "") :=
  ⟨(Div_rounds_toward_zero (Execute 1) (.NumericConst (-7)) (.NumericConst 2) [] [] []
      (World.mk [] "") (World.mk [] "") (World.mk [] "") (-7) 2 rfl rfl (by decide) (by decide)
      (by decide) (by decide)).1,
   (Div_rounds_toward_zero (Execute 1) (.NumericConst 7) (.NumericConst (-2)) [] [] []
      (World.mk [] "") (World.mk [] "") (World.mk [] "") 7 (-2) rfl rfl (by decide) (by decide)
      (by decide) (by decide)).1⟩

/-! ## Instances keep their class -/

theorem ClassesKept_refl (h : Heap) : ClassesKept h h :=
  fun _ inst hl => ⟨inst, hl, rfl⟩

theorem ClassesKept_trans {h1 h2 h3 : Heap} (h12 : ClassesKept h1 h2) (h23 : ClassesKept h2 h3) :
    ClassesKept h1 h3 := by
  intro a inst hl
  obtain ⟨i2, hl2, hc2⟩ := h12 a inst hl
  obtain ⟨i3, hl3, hc3⟩ := h23 a i2 hl2
  exact ⟨i3, hl3, hc3.trans hc2⟩

theorem ClassesKept_assocSet (h : Heap) (a : Nat) (inst new : ClassInstance)
    (hl : assocFind a h = some inst) (hc : new.cls_ = inst.cls_) :
    ClassesKept h (assocSet a new h) := by
  intro b i hb
  by_cases hba : b = a
  · subst hba
    rw [hl] at hb
    simp only [Option.some.injEq] at hb
    subst hb
    exact ⟨new, assocFind_assocSet_self _ _ _, hc⟩
  · exact ⟨i, by rw [assocFind_assocSet_ne a b new h hba]; exact hb, rfl⟩

theorem ClassesKept_assocSet_fresh (h : Heap) (a : Nat) (new : ClassInstance)
    (hl : assocFind a h = none) : ClassesKept h (assocSet a new h) := by
  intro b i hb
  by_cases hba : b = a
  · subst hba
    rw [hl] at hb
    simp at hb
  · exact ⟨i, by rw [assocFind_assocSet_ne a b new h hba]; exact hb, rfl⟩

theorem KeepsClasses_apply {exec : Executable} (h : KeepsClasses exec) {s : Statement}
    {cl cl1 : Closure} {w w1 : World} {r : Except Exn ObjectHolder}
    (hx : exec s cl w = (r, cl1, w1)) : ClassesKept w.heap w1.heap := by
  have := h s cl w
  rw [hx] at this
  exact this

theorem ClassInstance_Call_keeps {exec : Executable} (h : KeepsClasses exec) (self : Nat)
    (method : String) (actual_args : List ObjectHolder) (w : World) :
    ClassesKept w.heap (ClassInstance.Call exec self method actual_args w).2.heap := by
  unfold ClassInstance.Call
  cases assocFind self w.heap with
  | none => exact ClassesKept_refl _
  | some inst =>
    simp only
    by_cases hhas : inst.HasMethod method actual_args.length = true
    · simp only [hhas, Bool.not_true, Bool.false_eq_true, if_false]
      cases inst.cls_.GetMethod method with
      | none => exact ClassesKept_refl _
      | some m =>
        simp only
        cases ClassInstance.bindArgs actual_args m.formal_params 0
            (assocSet SELF_OBJECT (some (.classInstance self)) []) with
        | none => exact ClassesKept_refl _
        | some frame => exact h m.body frame w
    · simp only [hhas]
      exact ClassesKept_refl _

theorem Call_keeps_apply {exec : Executable} (h : KeepsClasses exec) {self : Nat}
    {method : String} {actual_args : List ObjectHolder} {w w1 : World}
    {r : Except Exn ObjectHolder}
    (hx : ClassInstance.Call exec self method actual_args w = (r, w1)) :
    ClassesKept w.heap w1.heap := by
  have := ClassInstance_Call_keeps h self method actual_args w
  rw [hx] at this
  exact this

theorem Object_Print_keeps {exec : Executable} (h : KeepsClasses exec) :
    ∀ (fuel : Nat) (o : Object) (w : World),
      ClassesKept w.heap (Object.Print exec fuel o w).2.heap := by
  intro fuel
  induction fuel with
  | zero => intro o w; exact ClassesKept_refl _
  | succ k ih =>
    intro o w
    cases o with
    | number v => exact ClassesKept_refl _
    | string v => exact ClassesKept_refl _
    | bool v => exact ClassesKept_refl _
    | cls c => exact ClassesKept_refl _
    | classInstance self =>
      unfold Object.Print
      cases assocFind self w.heap with
      | none => exact ClassesKept_refl _
      | some inst =>
        simp only
        cases inst.cls_.GetMethod STR_METHOD with
        | none => exact ClassesKept_refl _
        | some m =>
          simp only
          rcases hcall : ClassInstance.Call exec self m.name [] w with ⟨r, w1⟩
          have hk := Call_keeps_apply h hcall
          rcases r with e | (_ | res)
          · exact hk
          · exact hk
          · exact ClassesKept_trans hk (ih res w1)

theorem GetBoolValue_heap (r : Except Exn ObjectHolder × World) :
    (GetBoolValue r).2 = r.2 := by
  rcases r with ⟨e | res, w1⟩
  · rfl
  · simp only [GetBoolValue]
    cases TryAsBool res <;> rfl

theorem Equal_keeps {exec : Executable} (h : KeepsClasses exec) (lhs rhs : ObjectHolder)
    (w : World) : ClassesKept w.heap (Equal exec lhs rhs w).2.heap := by
  rcases lhs with _ | (x | s | b | c | self)
  case some.classInstance =>
    have hl : Equal exec (some (.classInstance self)) rhs w
        = (match assocFind self w.heap with
          | none => (.error .undefinedBehaviour, w)
          | some inst =>
            if inst.HasMethod EQ_METHOD 1 then
              GetBoolValue (ClassInstance.Call exec self EQ_METHOD [rhs] w)
            else (.error (.runtime_error "Cannot compare objects for equality"), w)) := by
      rcases rhs with _ | (y | t | b2 | c2 | a2) <;> rfl
    rw [hl]
    cases assocFind self w.heap with
    | none => exact ClassesKept_refl _
    | some inst =>
      simp only
      by_cases hhas : inst.HasMethod EQ_METHOD 1 = true
      · simp only [hhas, if_true]
        rw [GetBoolValue_heap]
        exact ClassInstance_Call_keeps h self EQ_METHOD [rhs] w
      · simp only [hhas]
        exact ClassesKept_refl _
  all_goals rcases rhs with _ | (y | t | b2 | c2 | a2) <;> exact ClassesKept_refl _

theorem Less_keeps {exec : Executable} (h : KeepsClasses exec) (lhs rhs : ObjectHolder)
    (w : World) : ClassesKept w.heap (Less exec lhs rhs w).2.heap := by
  rcases lhs with _ | (x | s | b | c | self)
  case some.classInstance =>
    have hl : Less exec (some (.classInstance self)) rhs w
        = (match assocFind self w.heap with
          | none => (.error .undefinedBehaviour, w)
          | some inst =>
            if inst.HasMethod LT_METHOD 1 then
              GetBoolValue (ClassInstance.Call exec self LT_METHOD [rhs] w)
            else (.error (.runtime_error "Cannot compare objects for less"), w)) := by
      rcases rhs with _ | (y | t | b2 | c2 | a2) <;> rfl
    rw [hl]
    cases assocFind self w.heap with
    | none => exact ClassesKept_refl _
    | some inst =>
      simp only
      by_cases hhas : inst.HasMethod LT_METHOD 1 = true
      · simp only [hhas, if_true]
        rw [GetBoolValue_heap]
        exact ClassInstance_Call_keeps h self LT_METHOD [rhs] w
      · simp only [hhas]
        exact ClassesKept_refl _
  all_goals rcases rhs with _ | (y | t | b2 | c2 | a2) <;> exact ClassesKept_refl _


theorem Equal_keeps_apply {exec : Executable} (h : KeepsClasses exec) {lhs rhs : ObjectHolder}
    {w w1 : World} {r : Except Exn Bool} (hx : Equal exec lhs rhs w = (r, w1)) :
    ClassesKept w.heap w1.heap := by
  have := Equal_keeps h lhs rhs w
  rw [hx] at this
  exact this

theorem Less_keeps_apply {exec : Executable} (h : KeepsClasses exec) {lhs rhs : ObjectHolder}
    {w w1 : World} {r : Except Exn Bool} (hx : Less exec lhs rhs w = (r, w1)) :
    ClassesKept w.heap w1.heap := by
  have := Less_keeps h lhs rhs w
  rw [hx] at this
  exact this

theorem callComparator_keeps {exec : Executable} (h : KeepsClasses exec) (cmp : Comparator)
    (lhs rhs : ObjectHolder) (w : World) :
    ClassesKept w.heap (callComparator exec cmp lhs rhs w).2.heap := by
  cases cmp with
  | Equal => exact Equal_keeps h lhs rhs w
  | Less => exact Less_keeps h lhs rhs w
  | NotEqual =>
    simp only [callComparator, NotEqual]
    rcases hx : Equal exec lhs rhs w with ⟨r, w1⟩
    have hk := Equal_keeps_apply h hx
    cases r <;> exact hk
  | GreaterOrEqual =>
    simp only [callComparator, GreaterOrEqual]
    rcases hx : Less exec lhs rhs w with ⟨r, w1⟩
    have hk := Less_keeps_apply h hx
    cases r <;> exact hk
  | Greater =>
    simp only [callComparator, Greater]
    rcases hx : Less exec lhs rhs w with ⟨r, w1⟩
    have hk := Less_keeps_apply h hx
    rcases r with e | l
    · exact hk
    · cases l
      · simp only [Bool.not_false, if_true]
        rcases hy : Equal exec lhs rhs w1 with ⟨r2, w2⟩
        have hk2 := Equal_keeps_apply h hy
        cases r2 <;> exact ClassesKept_trans hk hk2
      · exact hk
  | LessOrEqual =>
    simp only [callComparator, LessOrEqual]
    rcases hx : Less exec lhs rhs w with ⟨r, w1⟩
    have hk := Less_keeps_apply h hx
    rcases r with e | l
    · exact hk
    · cases l
      · simp only [Bool.false_eq_true, if_false]
        rcases hy : Equal exec lhs rhs w1 with ⟨r2, w2⟩
        have hk2 := Equal_keeps_apply h hy
        cases r2 <;> exact ClassesKept_trans hk hk2
      · exact hk

theorem ExecuteArgs_keeps {exec : Executable} (h : KeepsClasses exec) :
    ∀ (args : List Statement) (cl : Closure) (w : World),
      ClassesKept w.heap (ExecuteArgs exec args cl w).2.2.heap := by
  intro args
  induction args with
  | nil => intro cl w; exact ClassesKept_refl _
  | cons arg rest ih =>
    intro cl w
    unfold ExecuteArgs
    rcases hx : exec arg cl w with ⟨r, cl1, w1⟩
    have hk := KeepsClasses_apply h hx
    rcases r with e | v
    · exact hk
    · simp only
      have hr := ih cl1 w1
      rcases hy : ExecuteArgs exec rest cl1 w1 with ⟨r2, cl2, w2⟩
      rw [hy] at hr
      cases r2 <;> exact ClassesKept_trans hk hr

theorem ExecuteArgs_keeps_apply {exec : Executable} (h : KeepsClasses exec)
    {args : List Statement} {cl cl1 : Closure} {w w1 : World}
    {r : Except Exn (List ObjectHolder)} (hx : ExecuteArgs exec args cl w = (r, cl1, w1)) :
    ClassesKept w.heap w1.heap := by
  have := ExecuteArgs_keeps h args cl w
  rw [hx] at this
  exact this

theorem Object_Print_keeps_apply {exec : Executable} (h : KeepsClasses exec) {fuel : Nat}
    {o : Object} {w w1 : World} {r : Except Exn Unit}
    (hx : Object.Print exec fuel o w = (r, w1)) : ClassesKept w.heap w1.heap := by
  have := Object_Print_keeps h fuel o w
  rw [hx] at this
  exact this

theorem Assignment_Execute_keeps {exec : Executable} (h : KeepsClasses exec) (var_ : String)
    (rv_ : Statement) (cl : Closure) (w : World) :
    ClassesKept w.heap (Assignment.Execute exec var_ rv_ cl w).2.2.heap := by
  unfold Assignment.Execute
  rcases hx : exec rv_ cl w with ⟨r, cl1, w1⟩
  have hk := KeepsClasses_apply h hx
  cases r <;> exact hk

theorem FieldAssignment_Execute_keeps {exec : Executable} (h : KeepsClasses exec)
    (object_ : List String) (field_name_ : String) (rv_ : Statement) (cl : Closure) (w : World) :
    ClassesKept w.heap (FieldAssignment.Execute exec object_ field_name_ rv_ cl w).2.2.heap := by
  unfold FieldAssignment.Execute
  simp only [VariableValue.Execute]
  cases VariableValue.walk w.heap object_ cl none with
  | error e => exact ClassesKept_refl _
  | ok obj =>
    simp only
    rcases hx : exec rv_ cl w with ⟨r, cl1, w1⟩
    have hk := KeepsClasses_apply h hx
    rcases r with e | v
    · exact hk
    · simp only
      cases TryAsClassInstance obj with
      | none => exact hk
      | some a =>
        simp only
        cases hl : assocFind a w1.heap with
        | none => exact hk
        | some inst =>
          exact ClassesKept_trans hk (ClassesKept_assocSet w1.heap a inst _ hl rfl)

theorem materialize_keeps (class_inst_ : Nat) (class_ : Class) (w : World) :
    ClassesKept w.heap (NewInstance.materialize class_inst_ class_ w).heap := by
  unfold NewInstance.materialize
  cases hl : assocFind class_inst_ w.heap with
  | some inst => exact ClassesKept_refl _
  | none => exact ClassesKept_assocSet_fresh w.heap class_inst_ _ hl

theorem NewInstance_Execute_keeps {exec : Executable} (h : KeepsClasses exec)
    (class_inst_ : Nat) (class_ : Class) (args_ : List Statement) (cl : Closure) (w : World) :
    ClassesKept w.heap (NewInstance.Execute exec class_inst_ class_ args_ cl w).2.2.heap := by
  unfold NewInstance.Execute
  have hm := materialize_keeps class_inst_ class_ w
  rcases hx : ExecuteArgs exec args_ cl (NewInstance.materialize class_inst_ class_ w)
    with ⟨r, cl1, w1⟩
  have hk := ClassesKept_trans hm (ExecuteArgs_keeps_apply h hx)
  rcases r with e | actual_args
  · exact hk
  · simp only
    cases assocFind class_inst_ w1.heap with
    | none => exact hk
    | some inst =>
      simp only
      by_cases hhas : inst.HasMethod INIT_METHOD args_.length = true
      · simp only [hhas, if_true]
        rcases hc : ClassInstance.Call exec class_inst_ INIT_METHOD actual_args w1 with ⟨rc, w2⟩
        have hk2 := Call_keeps_apply h hc
        cases rc <;> exact ClassesKept_trans hk hk2
      · simp only [hhas]
        exact hk

theorem MethodCall_Execute_keeps {exec : Executable} (h : KeepsClasses exec)
    (object_ : Statement) (method_name_ : String) (args_ : List Statement) (cl : Closure)
    (w : World) :
    ClassesKept w.heap (MethodCall.Execute exec object_ method_name_ args_ cl w).2.2.heap := by
  unfold MethodCall.Execute
  rcases hx : exec object_ cl w with ⟨r, cl0, w0⟩
  have hk := KeepsClasses_apply h hx
  rcases r with e | obj
  · exact hk
  · simp only
    rcases hy : ExecuteArgs exec args_ cl0 w0 with ⟨r1, cl1, w1⟩
    have hk1 := ClassesKept_trans hk (ExecuteArgs_keeps_apply h hy)
    rcases r1 with e | actual_args
    · exact hk1
    · simp only
      cases TryAsClassInstance obj with
      | none => exact hk1
      | some a =>
        simp only
        exact ClassesKept_trans hk1 (ClassInstance_Call_keeps h a method_name_ actual_args w1)

theorem Compound_Execute_keeps {exec : Executable} (h : KeepsClasses exec) :
    ∀ (statements_ : List Statement) (cl : Closure) (w : World),
      ClassesKept w.heap (Compound.Execute exec statements_ cl w).2.2.heap := by
  intro statements_
  induction statements_ with
  | nil => intro cl w; exact ClassesKept_refl _
  | cons statement rest ih =>
    intro cl w
    unfold Compound.Execute
    rcases hx : exec statement cl w with ⟨r, cl1, w1⟩
    have hk := KeepsClasses_apply h hx
    rcases r with e | v
    · exact hk
    · exact ClassesKept_trans hk (ih cl1 w1)

theorem Return_Execute_keeps {exec : Executable} (h : KeepsClasses exec) (statement_ : Statement)
    (cl : Closure) (w : World) :
    ClassesKept w.heap (Return.Execute exec statement_ cl w).2.2.heap := by
  unfold Return.Execute
  rcases hx : exec statement_ cl w with ⟨r, cl1, w1⟩
  have hk := KeepsClasses_apply h hx
  cases r <;> exact hk

theorem MethodBody_Execute_keeps {exec : Executable} (h : KeepsClasses exec) (body_ : Statement)
    (cl : Closure) (w : World) :
    ClassesKept w.heap (MethodBody.Execute exec body_ cl w).2.2.heap := by
  unfold MethodBody.Execute
  rcases hx : exec body_ cl w with ⟨r, cl1, w1⟩
  have hk := KeepsClasses_apply h hx
  rcases r with e | v
  · cases e <;> exact hk
  · exact hk

theorem ClassDefinition_Execute_keeps (cls_ : ObjectHolder) (cl : Closure) (w : World) :
    ClassesKept w.heap (ClassDefinition.Execute cls_ cl w).2.2.heap := by
  unfold ClassDefinition.Execute
  cases TryAsClass cls_ <;> exact ClassesKept_refl _

theorem Print_loop_keeps {exec : Executable} (h : KeepsClasses exec) (fuel : Nat) :
    ∀ (args : List Statement) (first : Bool) (obj : ObjectHolder) (cl : Closure) (w : World),
      ClassesKept w.heap (Print.loop exec fuel args first obj cl w).2.2.heap := by
  intro args
  induction args with
  | nil => intro first obj cl w; exact ClassesKept_refl _
  | cons arg rest ih =>
    intro first obj cl w
    unfold Print.loop
    have hsep : (if first = true then w else w.write " ").heap = w.heap := by
      cases first <;> rfl
    rcases hx : exec arg cl (if first = true then w else w.write " ") with ⟨r, cl1, w1⟩
    have hk := KeepsClasses_apply h hx
    rw [hsep] at hk
    rcases r with e | (_ | o)
    · exact hk
    · exact ClassesKept_trans hk (ih false none cl1 (w1.write "None"))
    · simp only
      rcases hp : Object.Print exec fuel o w1 with ⟨r2, w2⟩
      have hk2 := Object_Print_keeps_apply h hp
      rcases r2 with e | u
      · exact ClassesKept_trans hk hk2
      · exact ClassesKept_trans hk (ClassesKept_trans hk2 (ih false (some o) cl1 w2))

theorem Print_Execute_keeps {exec : Executable} (h : KeepsClasses exec) (fuel : Nat)
    (args_ : List Statement) (cl : Closure) (w : World) :
    ClassesKept w.heap (Print.Execute exec fuel args_ cl w).2.2.heap := by
  unfold Print.Execute
  have hl := Print_loop_keeps h fuel args_ true none cl w
  rcases hx : Print.loop exec fuel args_ true none cl w with ⟨r, cl1, w1⟩
  rw [hx] at hl
  cases r <;> exact hl

theorem Stringify_Execute_keeps {exec : Executable} (h : KeepsClasses exec) (fuel : Nat)
    (argument_ : Option Statement) (cl : Closure) (w : World) :
    ClassesKept w.heap (Stringify.Execute exec fuel argument_ cl w).2.2.heap := by
  unfold Stringify.Execute
  cases argument_ with
  | none => exact ClassesKept_refl _
  | some argument =>
    simp only
    rcases hx : exec argument cl w with ⟨r, cl1, w1⟩
    have hk := KeepsClasses_apply h hx
    rcases r with e | (_ | o)
    · exact hk
    · exact hk
    · simp only
      rcases hp : Object.Print exec fuel o (World.mk w1.heap "") with ⟨r2, dummy⟩
      have hk2 := Object_Print_keeps_apply h hp
      cases r2 <;> exact ClassesKept_trans hk hk2

theorem BinaryOperation_operands_keeps {exec : Executable} (h : KeepsClasses exec)
    (lhs_ rhs_ : Option Statement) (cl : Closure) (w : World) :
    ClassesKept w.heap (BinaryOperation.operands exec lhs_ rhs_ cl w).2.2.heap := by
  rcases lhs_ with _ | lhs <;> rcases rhs_ with _ | rhs
  case some.some =>
    simp only [BinaryOperation.operands]
    rcases hx : exec lhs cl w with ⟨r, cl1, w1⟩
    have hk := KeepsClasses_apply h hx
    rcases r with e | a
    · exact hk
    · simp only
      rcases hy : exec rhs cl1 w1 with ⟨r2, cl2, w2⟩
      have hk2 := KeepsClasses_apply h hy
      cases r2 <;> exact ClassesKept_trans hk hk2
  all_goals exact ClassesKept_refl _

theorem operands_keeps_apply {exec : Executable} (h : KeepsClasses exec)
    {lhs_ rhs_ : Option Statement} {cl cl1 : Closure} {w w1 : World}
    {r : Except Exn (ObjectHolder × ObjectHolder)}
    (hx : BinaryOperation.operands exec lhs_ rhs_ cl w = (r, cl1, w1)) :
    ClassesKept w.heap w1.heap := by
  have := BinaryOperation_operands_keeps h lhs_ rhs_ cl w
  rw [hx] at this
  exact this

theorem Add_apply_keeps {exec : Executable} (h : KeepsClasses exec)
    (obj_lhs obj_rhs : ObjectHolder) (w : World) :
    ClassesKept w.heap (Add.apply exec obj_lhs obj_rhs w).2.heap := by
  rcases obj_lhs with _ | (x | s | b | c | self)
  case some.classInstance =>
    have hl : Add.apply exec (some (.classInstance self)) obj_rhs w
        = (match assocFind self w.heap with
          | none => (.error .undefinedBehaviour, w)
          | some inst =>
            if inst.HasMethod ADD_METHOD 1 then ClassInstance.Call exec self ADD_METHOD [obj_rhs] w
            else (.error (.runtime_error "incorrect add operands"), w)) := by
      rcases obj_rhs with _ | (y | t | b2 | c2 | a2) <;> rfl
    rw [hl]
    cases assocFind self w.heap with
    | none => exact ClassesKept_refl _
    | some inst =>
      simp only
      by_cases hhas : inst.HasMethod ADD_METHOD 1 = true
      · simp only [hhas, if_true]
        exact ClassInstance_Call_keeps h self ADD_METHOD [obj_rhs] w
      · simp only [hhas]
        exact ClassesKept_refl _
  all_goals rcases obj_rhs with _ | (y | t | b2 | c2 | a2) <;> exact ClassesKept_refl _

theorem Add_Execute_keeps {exec : Executable} (h : KeepsClasses exec)
    (lhs_ rhs_ : Option Statement) (cl : Closure) (w : World) :
    ClassesKept w.heap (Add.Execute exec lhs_ rhs_ cl w).2.2.heap := by
  unfold Add.Execute
  rcases hx : BinaryOperation.operands exec lhs_ rhs_ cl w with ⟨r, cl1, w1⟩
  have hk := operands_keeps_apply h hx
  rcases r with e | ⟨a, b⟩
  · exact hk
  · exact ClassesKept_trans hk (Add_apply_keeps h a b w1)

theorem Sub_Execute_keeps {exec : Executable} (h : KeepsClasses exec)
    (lhs_ rhs_ : Option Statement) (cl : Closure) (w : World) :
    ClassesKept w.heap (Sub.Execute exec lhs_ rhs_ cl w).2.2.heap := by
  unfold Sub.Execute
  rcases hx : BinaryOperation.operands exec lhs_ rhs_ cl w with ⟨r, cl1, w1⟩
  have hk := operands_keeps_apply h hx
  rcases r with e | ⟨a, b⟩
  · exact hk
  · simp only
    split <;> exact hk

theorem Mult_Execute_keeps {exec : Executable} (h : KeepsClasses exec)
    (lhs_ rhs_ : Option Statement) (cl : Closure) (w : World) :
    ClassesKept w.heap (Mult.Execute exec lhs_ rhs_ cl w).2.2.heap := by
  unfold Mult.Execute
  rcases hx : BinaryOperation.operands exec lhs_ rhs_ cl w with ⟨r, cl1, w1⟩
  have hk := operands_keeps_apply h hx
  rcases r with e | ⟨a, b⟩
  · exact hk
  · simp only
    split <;> exact hk

theorem Div_Execute_keeps {exec : Executable} (h : KeepsClasses exec)
    (lhs_ rhs_ : Option Statement) (cl : Closure) (w : World) :
    ClassesKept w.heap (Div.Execute exec lhs_ rhs_ cl w).2.2.heap := by
  unfold Div.Execute
  rcases hx : BinaryOperation.operands exec lhs_ rhs_ cl w with ⟨r, cl1, w1⟩
  have hk := operands_keeps_apply h hx
  rcases r with e | ⟨a, b⟩
  · exact hk
  · simp only
    split <;> (try split) <;> exact hk

theorem Or_Execute_keeps {exec : Executable} (h : KeepsClasses exec)
    (lhs_ rhs_ : Option Statement) (cl : Closure) (w : World) :
    ClassesKept w.heap (Or.Execute exec lhs_ rhs_ cl w).2.2.heap := by
  unfold Or.Execute
  rcases hx : BinaryOperation.operands exec lhs_ rhs_ cl w with ⟨r, cl1, w1⟩
  have hk := operands_keeps_apply h hx
  rcases r with e | ⟨a, b⟩
  · exact hk
  · simp only
    split <;> (try split) <;> exact hk

theorem And_Execute_keeps {exec : Executable} (h : KeepsClasses exec)
    (lhs_ rhs_ : Option Statement) (cl : Closure) (w : World) :
    ClassesKept w.heap (And.Execute exec lhs_ rhs_ cl w).2.2.heap := by
  unfold And.Execute
  rcases hx : BinaryOperation.operands exec lhs_ rhs_ cl w with ⟨r, cl1, w1⟩
  have hk := operands_keeps_apply h hx
  rcases r with e | ⟨a, b⟩
  · exact hk
  · simp only
    split <;> exact hk

theorem Not_Execute_keeps {exec : Executable} (h : KeepsClasses exec)
    (argument_ : Option Statement) (cl : Closure) (w : World) :
    ClassesKept w.heap (Not.Execute exec argument_ cl w).2.2.heap := by
  unfold Not.Execute
  cases argument_ with
  | none => exact ClassesKept_refl _
  | some argument =>
    simp only
    rcases hx : exec argument cl w with ⟨r, cl1, w1⟩
    have hk := KeepsClasses_apply h hx
    cases r <;> exact hk

theorem Comparison_Execute_keeps {exec : Executable} (h : KeepsClasses exec)
    (cmp_ : Comparator) (lhs_ rhs_ : Option Statement) (cl : Closure) (w : World) :
    ClassesKept w.heap (Comparison.Execute exec cmp_ lhs_ rhs_ cl w).2.2.heap := by
  unfold Comparison.Execute
  rcases hx : BinaryOperation.operands exec lhs_ rhs_ cl w with ⟨r, cl1, w1⟩
  have hk := operands_keeps_apply h hx
  rcases r with e | ⟨a, b⟩
  · exact hk
  · simp only
    have hc := callComparator_keeps h cmp_ a b w1
    rcases hy : callComparator exec cmp_ a b w1 with ⟨r2, w2⟩
    rw [hy] at hc
    cases r2 <;> exact ClassesKept_trans hk hc

theorem IfElse_Execute_keeps {exec : Executable} (h : KeepsClasses exec)
    (condition_ if_body_ : Statement) (else_body_ : Option Statement) (cl : Closure) (w : World) :
    ClassesKept w.heap (IfElse.Execute exec condition_ if_body_ else_body_ cl w).2.2.heap := by
  unfold IfElse.Execute
  rcases hx : exec condition_ cl w with ⟨r, cl1, w1⟩
  have hk := KeepsClasses_apply h hx
  rcases r with e | c
  · exact hk
  · simp only
    cases IsTrue c
    · simp only [Bool.false_eq_true, if_false]
      cases else_body_ with
      | none => exact hk
      | some else_body => exact ClassesKept_trans hk (h else_body cl1 w1)
    · simp only [if_true]
      exact ClassesKept_trans hk (h if_body_ cl1 w1)

/-- The evaluator keeps the classes at every fuel. -/
theorem Execute_keeps_classes : ∀ n : Nat, KeepsClasses (Execute n) := by
  intro n
  induction n with
  | zero => intro s cl w; exact ClassesKept_refl _
  | succ k ih =>
    intro s cl w
    cases s with
    | NumericConst v => exact ClassesKept_refl _
    | StringConst v => exact ClassesKept_refl _
    | BoolConst v => exact ClassesKept_refl _
    | None => exact ClassesKept_refl _
    | VariableValue dotted_ids_ => exact ClassesKept_refl _
    | Assignment var_ rv_ => exact Assignment_Execute_keeps ih var_ rv_ cl w
    | FieldAssignment object_ field_name_ rv_ =>
      exact FieldAssignment_Execute_keeps ih object_ field_name_ rv_ cl w
    | NewInstance class_inst_ class_ args_ =>
      exact NewInstance_Execute_keeps ih class_inst_ class_ args_ cl w
    | MethodCall object_ method_name_ args_ =>
      exact MethodCall_Execute_keeps ih object_ method_name_ args_ cl w
    | Compound statements_ => exact Compound_Execute_keeps ih statements_ cl w
    | Return statement_ => exact Return_Execute_keeps ih statement_ cl w
    | MethodBody body_ => exact MethodBody_Execute_keeps ih body_ cl w
    | ClassDefinition cls_ => exact ClassDefinition_Execute_keeps cls_ cl w
    | Print args_ => exact Print_Execute_keeps ih (k + 1) args_ cl w
    | Stringify argument_ => exact Stringify_Execute_keeps ih (k + 1) argument_ cl w
    | Add lhs_ rhs_ => exact Add_Execute_keeps ih lhs_ rhs_ cl w
    | Sub lhs_ rhs_ => exact Sub_Execute_keeps ih lhs_ rhs_ cl w
    | Mult lhs_ rhs_ => exact Mult_Execute_keeps ih lhs_ rhs_ cl w
    | Div lhs_ rhs_ => exact Div_Execute_keeps ih lhs_ rhs_ cl w
    | Or lhs_ rhs_ => exact Or_Execute_keeps ih lhs_ rhs_ cl w
    | And lhs_ rhs_ => exact And_Execute_keeps ih lhs_ rhs_ cl w
    | Not argument_ => exact Not_Execute_keeps ih argument_ cl w
    | Comparison cmp_ lhs_ rhs_ => exact Comparison_Execute_keeps ih cmp_ lhs_ rhs_ cl w
    | IfElse condition_ if_body_ else_body_ =>
      exact IfElse_Execute_keeps ih condition_ if_body_ else_body_ cl w

/-! ## Assignment on error -/

/-- Claim C31. When the evaluation of the right-hand side raises `e` (a runtime error or the
exception of a `return`), leaving the closure `cl1`, `Assignment.Execute` raises `e` and leaves
`cl1` as it is: `var_` is bound in the result exactly as in `cl1`, unbound if it was unbound there
and to the same holder if it was bound, and no binding is added. (The right-hand side is
evaluated before `closure[var_]`, the order that C++17 prescribes for an assignment.) -/
theorem Assignment_atomic_on_error (exec : Executable) (var_ : String) (rv_ : Statement)
    (cl cl1 : Closure) (w w1 : World) (e : Exn) (h : exec rv_ cl w = (.error e, cl1, w1)) :
    Assignment.Execute exec var_ rv_ cl w = (.error e, cl1, w1) ∧
    (assocFind var_ cl1 = none →
      assocFind var_ (Assignment.Execute exec var_ rv_ cl w).2.1 = none) ∧
    (∀ v : ObjectHolder, assocFind var_ cl1 = some v →
      assocFind var_ (Assignment.Execute exec var_ rv_ cl w).2.1 = some v) ∧
    (Assignment.Execute exec var_ rv_ cl w).2.1.length = cl1.length := by
  have h1 : Assignment.Execute exec var_ rv_ cl w = (.error e, cl1, w1) := by
    simp [Assignment.Execute, h]
  rw [h1]
  exact ⟨rfl, fun hn => hn, fun v hv => hv, rfl⟩

/-- Witness for C31: `x = missing` raises `var is not found` and leaves `x` unbound;
`x = 1 / 0` raises `division by zero` and leaves `x` bound to 7; a `return` in the right-hand side
passes through and binds nothing. -/
theorem Assignment_atomic_on_error_witness :
    Assignment.Execute (Execute 2) "x" (.VariableValue ["missing"]) [] (World.mk [] "")
        = (.error (.runtime_error "var is not found"), [], World.mk [] "") ∧
    Assignment.Execute (Execute 2) "x"
        (.Div (some (.NumericConst 1)) (some (.NumericConst 0))) [("x", some (.number 7))]
        (World.mk [] "")
        = (.error (.runtime_error "division by zero"), [("x", some (.number 7))], World.mk [] "") ∧
    Assignment.Execute (Execute 2) "x" (.Return (.NumericConst 1)) [] (World.mk [] "")
        = (.error (.RuntimeReturnExeption (some (.number 1))), [], World.mk [] "") :=
  ⟨(Assignment_atomic_on_error (Execute 2) "x" (.VariableValue ["missing"]) [] []
      (World.mk [] "") (World.mk [] "") (.runtime_error "var is not found") rfl).1,
   (Assignment_atomic_on_error (Execute 2) "x"
      (.Div (some (.NumericConst 1)) (some (.NumericConst 0))) [("x", some (.number 7))]
      [("x", some (.number 7))] (World.mk [] "") (World.mk [] "")
      (.runtime_error "division by zero") rfl).1,
   (Assignment_atomic_on_error (Execute 2) "x" (.Return (.NumericConst 1)) [] []
      (World.mk [] "") (World.mk [] "") (.RuntimeReturnExeption (some (.number 1))) rfl).1⟩

/-! ## Comparisons of an instance that has only `__lt__` -/

/-- The answer of `HasMethod` depends on the class of the instance only. -/
theorem HasMethod_of_cls (inst inst1 : ClassInstance) (h : inst1.cls_ = inst.cls_)
    (method : String) (k : Nat) : inst1.HasMethod method k = inst.HasMethod method k := by
  unfold ClassInstance.HasMethod
  rw [h]

/-- Claim C32. For an executable that keeps the classes of the instances, a live instance whose
class has `__lt__` with one parameter, and a call of `__lt__` that returns the Bool `b`:
`GreaterOrEqual` returns the negation of `b`, whatever `__eq__` is; if `b` is true, `LessOrEqual`
returns true and `Greater` returns false, without raising; if `b` is false and the class has no
`__eq__` with one parameter, `LessOrEqual` and `Greater` raise
`Cannot compare objects for equality`. -/
theorem lt_only_comparisons (exec : Executable) (hkeep : KeepsClasses exec) (self : Nat)
    (inst : ClassInstance) (rhs : ObjectHolder) (w w1 : World) (b : Bool)
    (hlive : assocFind self w.heap = some inst) (hlt : inst.HasMethod LT_METHOD 1 = true)
    (hcall : ClassInstance.Call exec self LT_METHOD [rhs] w = (.ok (some (.bool b)), w1)) :
    GreaterOrEqual exec (some (.classInstance self)) rhs w = (.ok (!b), w1) ∧
    (b = true →
      LessOrEqual exec (some (.classInstance self)) rhs w = (.ok true, w1) ∧
      Greater exec (some (.classInstance self)) rhs w = (.ok false, w1)) ∧
    (b = false → inst.HasMethod EQ_METHOD 1 = false →
      LessOrEqual exec (some (.classInstance self)) rhs w
        = (.error (.runtime_error "Cannot compare objects for equality"), w1) ∧
      Greater exec (some (.classInstance self)) rhs w
        = (.error (.runtime_error "Cannot compare objects for equality"), w1)) := by
  have hless : Less exec (some (.classInstance self)) rhs w = (.ok b, w1) := by
    rw [Less_instance exec self inst rhs w hlive hlt, hcall]
    rfl
  refine ⟨?_, ?_, ?_⟩
  · simp [GreaterOrEqual, hless]
  · intro hb
    subst hb
    constructor
    · simp [LessOrEqual, hless]
    · simp [Greater, hless]
  · intro hb heq
    subst hb
    obtain ⟨inst1, hlive1, hcls⟩ := Call_keeps_apply hkeep hcall self inst hlive
    have heq1 : inst1.HasMethod EQ_METHOD 1 = false := by
      rw [HasMethod_of_cls inst inst1 hcls]
      exact heq
    have hequal : Equal exec (some (.classInstance self)) rhs w1
        = (.error (.runtime_error "Cannot compare objects for equality"), w1) := by
      apply Equal_uncomparable exec _ rhs w1 (by simp)
      · rcases rhs with _ | (y | t | q | d | j) <;> rfl
      · intro a ha
        simp only [Option.some.injEq, Object.classInstance.injEq] at ha
        subst ha
        exact ⟨inst1, hlive1, heq1⟩
    constructor
    · simp [LessOrEqual, hless, hequal]
    · simp [Greater, hless, hequal]

/-- Witness for C32, on the instance of `LtOnly`, whose `__lt__` returns its argument: with the
argument `True` the three comparisons return false, true and false; with `False`,
`GreaterOrEqual` returns true and the other two raise. -/
theorem lt_only_comparisons_witness :
    (GreaterOrEqual (Execute 4) (some (.classInstance 70)) (some (.bool true)) ltOnlyWorld
        = (.ok false, ltOnlyWorld) ∧
      LessOrEqual (Execute 4) (some (.classInstance 70)) (some (.bool true)) ltOnlyWorld
        = (.ok true, ltOnlyWorld) ∧
      Greater (Execute 4) (some (.classInstance 70)) (some (.bool true)) ltOnlyWorld
        = (.ok false, ltOnlyWorld)) ∧
    (GreaterOrEqual (Execute 4) (some (.classInstance 70)) (some (.bool false)) ltOnlyWorld
        = (.ok true, ltOnlyWorld) ∧
      LessOrEqual (Execute 4) (some (.classInstance 70)) (some (.bool false)) ltOnlyWorld
        = (.error (.runtime_error "Cannot compare objects for equality"), ltOnlyWorld) ∧
      Greater (Execute 4) (some (.classInstance 70)) (some (.bool false)) ltOnlyWorld
        = (.error (.runtime_error "Cannot compare objects for equality"), ltOnlyWorld)) :=
  ⟨⟨(lt_only_comparisons (Execute 4) (Execute_keeps_classes 4) 70
        (ClassInstance.mk sampleLtOnly []) (some (.bool true)) ltOnlyWorld ltOnlyWorld true
        rfl rfl rfl).1,
     (lt_only_comparisons (Execute 4) (Execute_keeps_classes 4) 70
        (ClassInstance.mk sampleLtOnly []) (some (.bool true)) ltOnlyWorld ltOnlyWorld true
        rfl rfl rfl).2.1 rfl⟩,
   ⟨(lt_only_comparisons (Execute 4) (Execute_keeps_classes 4) 70
        (ClassInstance.mk sampleLtOnly []) (some (.bool false)) ltOnlyWorld ltOnlyWorld false
        rfl rfl rfl).1,
     (lt_only_comparisons (Execute 4) (Execute_keeps_classes 4) 70
        (ClassInstance.mk sampleLtOnly []) (some (.bool false)) ltOnlyWorld ltOnlyWorld false
        rfl rfl rfl).2.2 rfl rfl⟩⟩

/-! ## `__str__` of the wrong arity -/

/-- Claim C33. For a live instance whose class resolves `__str__` to a method with at least one
formal parameter, printing the instance raises `No method found` and writes nothing, not even
the identity token; so do `Print` and `Stringify` of an argument that evaluates to the
instance. -/
theorem str_wrong_arity (exec : Executable) (fuel : Nat) (self : Nat) (inst : ClassInstance)
    (w : World) (str : Method) (hlive : assocFind self w.heap = some inst)
    (hget : inst.cls_.GetMethod STR_METHOD = some str) (hpar : str.formal_params ≠ []) :
    Object.Print exec (fuel + 1) (.classInstance self) w
        = (.error (.runtime_error "No method found"), w) ∧
    (∀ (x : Statement) (cl cl1 : Closure) (w0 : World),
        exec x cl w0 = (.ok (some (.classInstance self)), cl1, w) →
        Print.Execute exec (fuel + 1) [x] cl w0
            = (.error (.runtime_error "No method found"), cl1, w) ∧
        Stringify.Execute exec (fuel + 1) (some x) cl w0
            = (.error (.runtime_error "No method found"), cl1, w)) := by
  have hname : str.name = STR_METHOD := GetMethod_name inst.cls_ STR_METHOD str hget
  have hlen : str.formal_params.length ≠ 0 := by
    intro h0
    exact hpar (List.length_eq_zero.mp h0)
  have hhas : inst.HasMethod STR_METHOD ([] : List ObjectHolder).length = false := by
    simp [ClassInstance.HasMethod, hget, hlen]
  have hprint : ∀ w0 : World, assocFind self w0.heap = some inst →
      Object.Print exec (fuel + 1) (.classInstance self) w0
        = (.error (.runtime_error "No method found"), w0) := by
    intro w0 hl
    rw [Object.Print]
    simp only [hl, hget, hname]
    rw [Call_of_not_HasMethod exec self inst STR_METHOD [] w0 hl hhas]
  refine ⟨hprint w hlive, ?_⟩
  intro x cl cl1 w0 hx
  constructor
  · simp [Print.Execute, Print.loop, hx, hprint w hlive]
  · have hd := hprint (World.mk w.heap "") hlive
    simp [Stringify.Execute, hx, hd]

/-- Witness for C33, on the instance of `BadStr`, whose `__str__` takes a parameter `x`. -/
theorem str_wrong_arity_witness :
    Object.Print (Execute 3) 1 (.classInstance 60) badStrWorld
        = (.error (.runtime_error "No method found"), badStrWorld) ∧
    Print.Execute (Execute 3) 1 [.VariableValue ["b"]] [("b", some (.classInstance 60))]
        badStrWorld
        = (.error (.runtime_error "No method found"), [("b", some (.classInstance 60))],
            badStrWorld) ∧
    Stringify.Execute (Execute 3) 1 (some (.VariableValue ["b"]))
        [("b", some (.classInstance 60))] badStrWorld
        = (.error (.runtime_error "No method found"), [("b", some (.classInstance 60))],
            badStrWorld) :=
  ⟨(str_wrong_arity (Execute 3) 0 60 (ClassInstance.mk sampleBadStr []) badStrWorld
      (Method.mk "__str__" ["x"] (.MethodBody (.Return (.StringConst "never")))) rfl rfl
      (by simp [Method.formal_params])).1,
   ((str_wrong_arity (Execute 3) 0 60 (ClassInstance.mk sampleBadStr []) badStrWorld
      (Method.mk "__str__" ["x"] (.MethodBody (.Return (.StringConst "never")))) rfl rfl
      (by simp [Method.formal_params])).2 (.VariableValue ["b"])
      [("b", some (.classInstance 60))] [("b", some (.classInstance 60))] badStrWorld rfl).1,
   ((str_wrong_arity (Execute 3) 0 60 (ClassInstance.mk sampleBadStr []) badStrWorld
      (Method.mk "__str__" ["x"] (.MethodBody (.Return (.StringConst "never")))) rfl rfl
      (by simp [Method.formal_params])).2 (.VariableValue ["b"])
      [("b", some (.classInstance 60))] [("b", some (.classInstance 60))] badStrWorld rfl).2⟩

/-! ## The binding loop stays within the arguments -/

/-- Claim C34. When the test `HasMethod(method, actual_args.size())` of `Call` passes on a live
instance, `GetMethod` finds a record, with as many formal parameters as there are arguments:
every index that the binding loop reads is below `actual_args.size()`, the loop completes (it
never reads past the arguments) and the body runs in the frame it built. The argument at
position `i` belongs to the formal parameter at position `i`, which the frame binds to it when
the parameter names are distinct and different from `self`. -/
theorem Call_binding_in_bounds (exec : Executable) (self : Nat) (inst : ClassInstance)
    (method : String) (actual_args : List ObjectHolder) (w : World)
    (hlive : assocFind self w.heap = some inst)
    (hhas : inst.HasMethod method actual_args.length = true) :
    ∃ (r : Method) (frame : Closure),
      inst.cls_.GetMethod method = some r
      ∧ r.formal_params.length = actual_args.length
      ∧ (∀ i : Nat, i < r.formal_params.length → i < actual_args.length)
      ∧ ClassInstance.bindArgs actual_args r.formal_params 0
          (assocSet SELF_OBJECT (some (.classInstance self)) []) = some frame
      ∧ ClassInstance.Call exec self method actual_args w
          = ((exec r.body frame w).1, (exec r.body frame w).2.2)
      ∧ (∀ (i : Nat) (a : ObjectHolder), actual_args.get? i = some a →
          ∃ p : String, r.formal_params.get? i = some p
            ∧ (r.formal_params.Nodup → SELF_OBJECT ∉ r.formal_params →
                assocFind p frame = some a)) := by
  obtain ⟨r, hget, hlen⟩ := (HasMethod_iff inst method actual_args.length).mp hhas
  obtain ⟨frame, hbind⟩ := bindArgs_isSome actual_args r.formal_params 0
    (assocSet SELF_OBJECT (some (.classInstance self)) []) (by omega)
  refine ⟨r, frame, hget, hlen, fun i hi => by omega, hbind,
    Call_of_GetMethod exec self inst method actual_args w r frame hlive hget hlen hbind, ?_⟩
  intro i a ha
  have hi : i < actual_args.length := by
    rcases Nat.lt_or_ge i actual_args.length with h | h
    · exact h
    · rw [List.get?_eq_none.mpr h] at ha
      exact absurd ha (by simp)
  have hi2 : i < r.formal_params.length := by omega
  refine ⟨r.formal_params.get ⟨i, hi2⟩, List.get?_eq_get hi2, ?_⟩
  intro hnodup hself
  rw [bindArgs_eq_zip actual_args r.formal_params 0 _ hnodup] at hbind
  · have hf : frame = (SELF_OBJECT, some (.classInstance self))
        :: List.zip r.formal_params actual_args := by
      simpa [assocSet] using hbind.symm
    subst hf
    have hmem : r.formal_params.get ⟨i, hi2⟩ ∈ r.formal_params := List.get_mem _ _ _
    have hne : ¬ SELF_OBJECT = r.formal_params.get ⟨i, hi2⟩ := fun h => hself (h ▸ hmem)
    simp only [assocFind, hne, if_false]
    exact assocFind_zip_get r.formal_params actual_args hnodup i _ a (List.get?_eq_get hi2) ha
  · intro p hp
    have hne : ¬ SELF_OBJECT = p := fun h => hself (h ▸ hp)
    simp [assocSet, assocFind, hne]
  · omega

/-- Witness for C34: `Call("test", {1, "abc"})` on the instance of `Base` finds the record with
two formal parameters, binds both arguments and runs the body. -/
theorem Call_binding_in_bounds_witness :
    ∃ (r : Method) (frame : Closure),
      sampleBase.GetMethod "test" = some r
      ∧ r.formal_params.length = 2
      ∧ ClassInstance.bindArgs [some (.number 1), some (.string "abc")] r.formal_params 0
          (assocSet SELF_OBJECT (some (.classInstance 1)) []) = some frame
      ∧ ClassInstance.Call (Execute 3) 1 "test" [some (.number 1), some (.string "abc")]
          familyWorld
          = ((Execute 3 r.body frame familyWorld).1, (Execute 3 r.body frame familyWorld).2.2) :=
  (Call_binding_in_bounds (Execute 3) 1
    (ClassInstance.mk sampleBase [("base_field", some (.string "hello"))]) "test"
    [some (.number 1), some (.string "abc")] familyWorld rfl rfl).elim
    (fun r hr => hr.elim (fun frame hf => ⟨r, frame, hf.1, hf.2.1, hf.2.2.2.1, hf.2.2.2.2.1⟩))

/-! ## Call-free trees -/

theorem dispatch_Execute (n : Nat) (s : Statement) (cl : Closure) (w : World) :
    Execute (n + 1) s cl w = dispatch (Execute n) n s cl w := by
  cases s <;> rfl

theorem NoInstance_find (name : String) (v : ObjectHolder) :
    ∀ cl : Closure, NoInstance cl = true → assocFind name cl = some v →
      TryAsClassInstance v = none := by
  intro cl
  induction cl with
  | nil => intro _ h; simp [assocFind] at h
  | cons p rest ih =>
    intro hcl h
    obtain ⟨k1, v1⟩ := p
    simp only [NoInstance, List.all_cons, Bool.and_eq_true] at hcl
    simp only [assocFind] at h
    by_cases hk : k1 = name
    · simp only [hk, if_true, Option.some.injEq] at h
      subst h
      simpa using hcl.1
    · simp only [hk, if_false] at h
      exact ih hcl.2 h

theorem NoInstance_assocSet (k : String) (v : ObjectHolder) (hv : TryAsClassInstance v = none) :
    ∀ cl : Closure, NoInstance cl = true → NoInstance (assocSet k v cl) = true := by
  intro cl
  induction cl with
  | nil => intro _; simp [assocSet, NoInstance, hv]
  | cons p rest ih =>
    intro hcl
    obtain ⟨k1, v1⟩ := p
    simp only [NoInstance, List.all_cons, Bool.and_eq_true] at hcl
    simp only [assocSet]
    by_cases hk : k1 = k
    · simp only [hk, if_true, NoInstance, List.all_cons, Bool.and_eq_true]
      exact ⟨by simp [hv], hcl.2⟩
    · simp only [hk, if_false, NoInstance, List.all_cons, Bool.and_eq_true]
      exact ⟨hcl.1, ih hcl.2⟩

theorem write_length (w : World) (s : String) :
    (w.write s).output.length = w.output.length + s.length := by
  simp [World.write, String.length_append]

theorem EndsProperly_ok (v : ObjectHolder) (h : EndsProperly (.ok v) = true) :
    TryAsClassInstance v = none := by
  simpa [EndsProperly] using h

theorem TickedWithin_apply {eT eP : Executable} {s : Statement} (h : TickedWithin eT eP s)
    {cl cl1 : Closure} {wT wP wP1 : World} {r : Except Exn ObjectHolder}
    (hcl : NoInstance cl = true) (hh : wT.heap = wP.heap) (hP : eP s cl wP = (r, cl1, wP1)) :
    ∃ wT1 : World, eT s cl wT = (r, cl1, wT1) ∧ wT1.heap = wP1.heap ∧
      wT1.output.length + wP.output.length ≤ wP1.output.length + wT.output.length + s.nodes ∧
      EndsProperly r = true ∧ NoInstance cl1 = true := by
  obtain ⟨h1, h2, h3, h4, h5, h6⟩ := h cl wT wP hcl hh
  rw [hP] at h1 h2 h3 h4 h5 h6
  rcases hT : eT s cl wT with ⟨rT, clT, wT1⟩
  rw [hT] at h3 h4 h5 h6
  simp only at h1 h2 h3 h4 h5 h6
  subst h3 h4
  exact ⟨wT1, rfl, h5, h6, h1, h2⟩

theorem GoodRun_mk (k : Nat) (r : Except Exn ObjectHolder) (cl1 : Closure) (wT1 wP1 wT wP : World)
    (h1 : EndsProperly r = true) (h2 : NoInstance cl1 = true) (h3 : wT1.heap = wP1.heap)
    (h4 : wT1.output.length + wP.output.length ≤ wP1.output.length + wT.output.length + k) :
    GoodRun k (r, cl1, wT1) (r, cl1, wP1) wT wP :=
  ⟨h1, h2, rfl, rfl, h3, h4⟩

theorem Assignment_ticked {eT eP : Executable} (var_ : String) (rv_ : Statement)
    (h : TickedWithin eT eP rv_) (cl : Closure) (wT wP : World) (hcl : NoInstance cl = true)
    (hh : wT.heap = wP.heap) :
    GoodRun rv_.nodes (Assignment.Execute eT var_ rv_ cl wT) (Assignment.Execute eP var_ rv_ cl wP)
      wT wP := by
  rcases hP : eP rv_ cl wP with ⟨r, cl1, wP1⟩
  obtain ⟨wT1, hT, h3, h4, h1, h2⟩ := TickedWithin_apply h hcl hh hP
  simp only [Assignment.Execute, hP, hT]
  rcases r with e | v
  · exact GoodRun_mk _ _ _ _ _ _ _ h1 h2 h3 h4
  · exact GoodRun_mk _ _ _ _ _ _ _ h1 (NoInstance_assocSet var_ v (EndsProperly_ok v h1) cl1 h2) h3 h4

theorem Return_ticked {eT eP : Executable} (statement_ : Statement)
    (h : TickedWithin eT eP statement_) (cl : Closure) (wT wP : World)
    (hcl : NoInstance cl = true) (hh : wT.heap = wP.heap) :
    GoodRun statement_.nodes (Return.Execute eT statement_ cl wT)
      (Return.Execute eP statement_ cl wP) wT wP := by
  rcases hP : eP statement_ cl wP with ⟨r, cl1, wP1⟩
  obtain ⟨wT1, hT, h3, h4, h1, h2⟩ := TickedWithin_apply h hcl hh hP
  simp only [Return.Execute, hP, hT]
  rcases r with e | v
  · exact GoodRun_mk _ _ _ _ _ _ _ h1 h2 h3 h4
  · exact GoodRun_mk _ _ _ _ _ _ _ rfl h2 h3 h4

theorem Not_ticked {eT eP : Executable} (argument_ : Option Statement)
    (h : ∀ a, argument_ = some a → TickedWithin eT eP a) (cl : Closure) (wT wP : World)
    (hcl : NoInstance cl = true) (hh : wT.heap = wP.heap) :
    GoodRun (nodesOption argument_) (Not.Execute eT argument_ cl wT)
      (Not.Execute eP argument_ cl wP) wT wP := by
  cases argument_ with
  | none =>
    simp only [Not.Execute]
    exact GoodRun_mk _ _ _ _ _ _ _ rfl hcl hh (by omega)
  | some a =>
    rcases hP : eP a cl wP with ⟨r, cl1, wP1⟩
    obtain ⟨wT1, hT, h3, h4, h1, h2⟩ := TickedWithin_apply (h a rfl) hcl hh hP
    simp only [Not.Execute, hP, hT]
    rcases r with e | v
    · exact GoodRun_mk _ _ _ _ _ _ _ h1 h2 h3 h4
    · exact GoodRun_mk _ _ _ _ _ _ _ rfl h2 h3 h4

/-- The two operands of a binary operation, evaluated with and without marks. -/
theorem operands_ticked {eT eP : Executable} (lhs_ rhs_ : Option Statement)
    (hl : ∀ a, lhs_ = some a → TickedWithin eT eP a)
    (hr : ∀ a, rhs_ = some a → TickedWithin eT eP a) (cl : Closure) (wT wP : World)
    (hcl : NoInstance cl = true) (hh : wT.heap = wP.heap)
    {r : Except Exn (ObjectHolder × ObjectHolder)} {cl1 : Closure} {wP1 : World}
    (hP : BinaryOperation.operands eP lhs_ rhs_ cl wP = (r, cl1, wP1)) :
    ∃ wT1 : World, BinaryOperation.operands eT lhs_ rhs_ cl wT = (r, cl1, wT1) ∧
      wT1.heap = wP1.heap ∧
      wT1.output.length + wP.output.length
        ≤ wP1.output.length + wT.output.length + (nodesOption lhs_ + nodesOption rhs_) ∧
      (∀ a b, r = .ok (a, b) → TryAsClassInstance a = none ∧ TryAsClassInstance b = none) ∧
      (∀ e, r = .error e → EndsProperly (.error e) = true) ∧
      NoInstance cl1 = true := by
  rcases lhs_ with _ | lhs <;> rcases rhs_ with _ | rhs
  case some.some =>
    simp only [BinaryOperation.operands] at hP ⊢
    rcases hP1 : eP lhs cl wP with ⟨r1, cl2, wP2⟩
    obtain ⟨wT2, hT1, h3, h4, h1, h2⟩ := TickedWithin_apply (hl lhs rfl) hcl hh hP1
    rw [hP1] at hP
    rw [hT1]
    rcases r1 with e | a
    · simp only [Prod.mk.injEq] at hP
      obtain ⟨e1, e2, e3⟩ := hP
      subst e1 e2 e3
      refine ⟨wT2, rfl, h3, by simp only [nodesOption] at h4 ⊢; omega, ?_, ?_, h2⟩
      · intro a b hab
        simp at hab
      · intro e1 he1
        simp only [Except.error.injEq] at he1
        subst he1
        exact h1
    · simp only at hP ⊢
      rcases hP2 : eP rhs cl2 wP2 with ⟨r2, cl3, wP3⟩
      obtain ⟨wT3, hT2, g3, g4, g1, g2⟩ := TickedWithin_apply (hr rhs rfl) h2 h3 hP2
      rw [hP2] at hP
      rw [hT2]
      rcases r2 with e | b
      · simp only [Prod.mk.injEq] at hP
        obtain ⟨e1, e2, e3⟩ := hP
        subst e1 e2 e3
        refine ⟨wT3, rfl, g3, by simp only [nodesOption] at g4 h4 ⊢; omega, ?_, ?_, g2⟩
        · intro a1 b1 hab
          simp at hab
        · intro e1 he1
          simp only [Except.error.injEq] at he1
          subst he1
          exact g1
      · simp only [Prod.mk.injEq] at hP
        obtain ⟨e1, e2, e3⟩ := hP
        subst e1 e2 e3
        refine ⟨wT3, rfl, g3, by simp only [nodesOption] at g4 h4 ⊢; omega, ?_, ?_, g2⟩
        · intro a1 b1 hab
          simp only [Except.ok.injEq, Prod.mk.injEq] at hab
          obtain ⟨ha1, hb1⟩ := hab
          subst ha1 hb1
          exact ⟨EndsProperly_ok a h1, EndsProperly_ok b g1⟩
        · intro e1 he1
          simp at he1
  all_goals
    simp only [BinaryOperation.operands, Prod.mk.injEq] at hP ⊢
    obtain ⟨e1, e2, e3⟩ := hP
    subst e1 e2 e3
    refine ⟨wT, ⟨rfl, rfl, rfl⟩, hh, by omega, ?_, ?_, hcl⟩
    · intro a b hab
      simp at hab
    · intro e1 he1
      simp only [Except.error.injEq] at he1
      subst he1
      rfl

/-- On a left value that is not an instance `Add.apply` calls nothing. -/
theorem Add_apply_no_instance (a b : ObjectHolder) (ha : TryAsClassInstance a = none) :
    ∃ r : Except Exn ObjectHolder, EndsProperly r = true ∧
      ∀ (e : Executable) (w : World), Add.apply e a b w = (r, w) := by
  refine ⟨(Add.apply noExecutable a b (World.mk [] "")).1, ?_, ?_⟩
  · rcases a with _ | (x | s | p | c | self)
    case some.classInstance => simp [TryAsClassInstance] at ha
    all_goals rcases b with _ | (y | t | q | d | j) <;> rfl
  · intro e w
    rcases a with _ | (x | s | p | c | self)
    case some.classInstance => simp [TryAsClassInstance] at ha
    all_goals rcases b with _ | (y | t | q | d | j) <;> rfl

theorem Equal_no_instance (a b : ObjectHolder) (ha : TryAsClassInstance a = none) :
    ∃ r : Except Exn Bool, (∀ x, r = .error x → EndsProperly (.error x) = true) ∧
      ∀ (e : Executable) (w : World), Equal e a b w = (r, w) := by
  refine ⟨(Equal noExecutable a b (World.mk [] "")).1, ?_, ?_⟩
  · intro x hx
    rcases a with _ | (x | s | p | c | self)
    case some.classInstance => simp [TryAsClassInstance] at ha
    all_goals
      rcases b with _ | (y | t | q | d | j) <;>
        first
          | (simp [Equal, TryAsNumber, TryAsString, TryAsBool, TryAsClassInstance] at hx; done)
          | (simp [Equal, TryAsNumber, TryAsString, TryAsBool, TryAsClassInstance] at hx
             subst hx
             rfl)
  · intro e w
    rcases a with _ | (x | s | p | c | self)
    case some.classInstance => simp [TryAsClassInstance] at ha
    all_goals rcases b with _ | (y | t | q | d | j) <;> rfl

theorem Less_no_instance (a b : ObjectHolder) (ha : TryAsClassInstance a = none) :
    ∃ r : Except Exn Bool, (∀ x, r = .error x → EndsProperly (.error x) = true) ∧
      ∀ (e : Executable) (w : World), Less e a b w = (r, w) := by
  refine ⟨(Less noExecutable a b (World.mk [] "")).1, ?_, ?_⟩
  · intro x hx
    rcases a with _ | (x | s | p | c | self)
    case some.classInstance => simp [TryAsClassInstance] at ha
    all_goals
      rcases b with _ | (y | t | q | d | j) <;>
        first
          | (simp [Less, TryAsNumber, TryAsString, TryAsBool, TryAsClassInstance] at hx; done)
          | (simp [Less, TryAsNumber, TryAsString, TryAsBool, TryAsClassInstance] at hx
             subst hx
             rfl)
  · intro e w
    rcases a with _ | (x | s | p | c | self)
    case some.classInstance => simp [TryAsClassInstance] at ha
    all_goals rcases b with _ | (y | t | q | d | j) <;> rfl

/-- On a left value that is not an instance a comparator calls nothing. -/
theorem callComparator_no_instance (cmp : Comparator) (a b : ObjectHolder)
    (ha : TryAsClassInstance a = none) :
    ∃ r : Except Exn Bool, (∀ x, r = .error x → EndsProperly (.error x) = true) ∧
      ∀ (e : Executable) (w : World), callComparator e cmp a b w = (r, w) := by
  obtain ⟨rE, hE1, hE2⟩ := Equal_no_instance a b ha
  obtain ⟨rL, hL1, hL2⟩ := Less_no_instance a b ha
  have hok : ∀ v : Bool, ∀ x, (Except.ok v : Except Exn Bool) = .error x →
      EndsProperly (.error x) = true := by
    intro v x hx
    simp at hx
  cases cmp with
  | Equal => exact ⟨rE, hE1, hE2⟩
  | Less => exact ⟨rL, hL1, hL2⟩
  | NotEqual =>
    rcases rE with x | e
    · exact ⟨.error x, hE1, fun ex w => by simp [callComparator, NotEqual, hE2]⟩
    · exact ⟨.ok (!e), hok _, fun ex w => by simp [callComparator, NotEqual, hE2]⟩
  | GreaterOrEqual =>
    rcases rL with x | l
    · exact ⟨.error x, hL1, fun ex w => by simp [callComparator, GreaterOrEqual, hL2]⟩
    · exact ⟨.ok (!l), hok _, fun ex w => by simp [callComparator, GreaterOrEqual, hL2]⟩
  | Greater =>
    rcases rL with x | l
    · exact ⟨.error x, hL1, fun ex w => by simp [callComparator, Greater, hL2]⟩
    · cases l
      · rcases rE with x | e
        · exact ⟨.error x, hE1, fun ex w => by simp [callComparator, Greater, hL2, hE2]⟩
        · exact ⟨.ok (!e), hok _, fun ex w => by simp [callComparator, Greater, hL2, hE2]⟩
      · exact ⟨.ok false, hok _, fun ex w => by simp [callComparator, Greater, hL2]⟩
  | LessOrEqual =>
    rcases rL with x | l
    · exact ⟨.error x, hL1, fun ex w => by simp [callComparator, LessOrEqual, hL2]⟩
    · cases l
      · rcases rE with x | e
        · exact ⟨.error x, hE1, fun ex w => by simp [callComparator, LessOrEqual, hL2, hE2]⟩
        · exact ⟨.ok e, hok _, fun ex w => by simp [callComparator, LessOrEqual, hL2, hE2]⟩
      · exact ⟨.ok true, hok _, fun ex w => by simp [callComparator, LessOrEqual, hL2]⟩

theorem Add_ticked {eT eP : Executable} (lhs_ rhs_ : Option Statement)
    (hl : ∀ a, lhs_ = some a → TickedWithin eT eP a)
    (hr : ∀ a, rhs_ = some a → TickedWithin eT eP a) (cl : Closure) (wT wP : World)
    (hcl : NoInstance cl = true) (hh : wT.heap = wP.heap) :
    GoodRun (nodesOption lhs_ + nodesOption rhs_) (Add.Execute eT lhs_ rhs_ cl wT)
      (Add.Execute eP lhs_ rhs_ cl wP) wT wP := by
  rcases hP : BinaryOperation.operands eP lhs_ rhs_ cl wP with ⟨r, cl1, wP1⟩
  obtain ⟨wT1, hT, h3, h4, h1, h1e, h2⟩ := operands_ticked lhs_ rhs_ hl hr cl wT wP hcl hh hP
  simp only [Add.Execute, hP, hT]
  rcases r with e | ⟨a, b⟩
  · exact GoodRun_mk _ _ _ _ _ _ _ (h1e e rfl) h2 h3 h4
  · obtain ⟨ra, hra, hadd⟩ := Add_apply_no_instance a b (h1 a b rfl).1
    simp only [hadd]
    exact GoodRun_mk _ _ _ _ _ _ _ hra h2 h3 h4

theorem Sub_ticked {eT eP : Executable} (lhs_ rhs_ : Option Statement)
    (hl : ∀ a, lhs_ = some a → TickedWithin eT eP a)
    (hr : ∀ a, rhs_ = some a → TickedWithin eT eP a) (cl : Closure) (wT wP : World)
    (hcl : NoInstance cl = true) (hh : wT.heap = wP.heap) :
    GoodRun (nodesOption lhs_ + nodesOption rhs_) (Sub.Execute eT lhs_ rhs_ cl wT)
      (Sub.Execute eP lhs_ rhs_ cl wP) wT wP := by
  rcases hP : BinaryOperation.operands eP lhs_ rhs_ cl wP with ⟨r, cl1, wP1⟩
  obtain ⟨wT1, hT, h3, h4, h1, h1e, h2⟩ := operands_ticked lhs_ rhs_ hl hr cl wT wP hcl hh hP
  simp only [Sub.Execute, hP, hT]
  rcases r with e | ⟨a, b⟩
  · exact GoodRun_mk _ _ _ _ _ _ _ (h1e e rfl) h2 h3 h4
  · simp only
    cases TryAsNumber a with
    | none => cases TryAsNumber b <;> exact GoodRun_mk _ _ _ _ _ _ _ rfl h2 h3 h4
    | some x =>
      cases TryAsNumber b with
      | none => exact GoodRun_mk _ _ _ _ _ _ _ rfl h2 h3 h4
      | some y => exact GoodRun_mk _ _ _ _ _ _ _ rfl h2 h3 h4

theorem Mult_ticked {eT eP : Executable} (lhs_ rhs_ : Option Statement)
    (hl : ∀ a, lhs_ = some a → TickedWithin eT eP a)
    (hr : ∀ a, rhs_ = some a → TickedWithin eT eP a) (cl : Closure) (wT wP : World)
    (hcl : NoInstance cl = true) (hh : wT.heap = wP.heap) :
    GoodRun (nodesOption lhs_ + nodesOption rhs_) (Mult.Execute eT lhs_ rhs_ cl wT)
      (Mult.Execute eP lhs_ rhs_ cl wP) wT wP := by
  rcases hP : BinaryOperation.operands eP lhs_ rhs_ cl wP with ⟨r, cl1, wP1⟩
  obtain ⟨wT1, hT, h3, h4, h1, h1e, h2⟩ := operands_ticked lhs_ rhs_ hl hr cl wT wP hcl hh hP
  simp only [Mult.Execute, hP, hT]
  rcases r with e | ⟨a, b⟩
  · exact GoodRun_mk _ _ _ _ _ _ _ (h1e e rfl) h2 h3 h4
  · simp only
    cases TryAsNumber a with
    | none => cases TryAsNumber b <;> exact GoodRun_mk _ _ _ _ _ _ _ rfl h2 h3 h4
    | some x =>
      cases TryAsNumber b with
      | none => exact GoodRun_mk _ _ _ _ _ _ _ rfl h2 h3 h4
      | some y => exact GoodRun_mk _ _ _ _ _ _ _ rfl h2 h3 h4

theorem Div_ticked {eT eP : Executable} (lhs_ rhs_ : Option Statement)
    (hl : ∀ a, lhs_ = some a → TickedWithin eT eP a)
    (hr : ∀ a, rhs_ = some a → TickedWithin eT eP a) (cl : Closure) (wT wP : World)
    (hcl : NoInstance cl = true) (hh : wT.heap = wP.heap) :
    GoodRun (nodesOption lhs_ + nodesOption rhs_) (Div.Execute eT lhs_ rhs_ cl wT)
      (Div.Execute eP lhs_ rhs_ cl wP) wT wP := by
  rcases hP : BinaryOperation.operands eP lhs_ rhs_ cl wP with ⟨r, cl1, wP1⟩
  obtain ⟨wT1, hT, h3, h4, h1, h1e, h2⟩ := operands_ticked lhs_ rhs_ hl hr cl wT wP hcl hh hP
  simp only [Div.Execute, hP, hT]
  rcases r with e | ⟨a, b⟩
  · exact GoodRun_mk _ _ _ _ _ _ _ (h1e e rfl) h2 h3 h4
  · simp only
    cases TryAsNumber a with
    | none => cases TryAsNumber b <;> exact GoodRun_mk _ _ _ _ _ _ _ rfl h2 h3 h4
    | some x =>
      cases TryAsNumber b with
      | none => exact GoodRun_mk _ _ _ _ _ _ _ rfl h2 h3 h4
      | some y =>
        simp only
        by_cases hz : y = 0
        · simp only [hz, if_true]
          exact GoodRun_mk _ _ _ _ _ _ _ rfl h2 h3 h4
        · simp only [hz, if_false]
          exact GoodRun_mk _ _ _ _ _ _ _ rfl h2 h3 h4

theorem Or_ticked {eT eP : Executable} (lhs_ rhs_ : Option Statement)
    (hl : ∀ a, lhs_ = some a → TickedWithin eT eP a)
    (hr : ∀ a, rhs_ = some a → TickedWithin eT eP a) (cl : Closure) (wT wP : World)
    (hcl : NoInstance cl = true) (hh : wT.heap = wP.heap) :
    GoodRun (nodesOption lhs_ + nodesOption rhs_) (Or.Execute eT lhs_ rhs_ cl wT)
      (Or.Execute eP lhs_ rhs_ cl wP) wT wP := by
  rcases hP : BinaryOperation.operands eP lhs_ rhs_ cl wP with ⟨r, cl1, wP1⟩
  obtain ⟨wT1, hT, h3, h4, h1, h1e, h2⟩ := operands_ticked lhs_ rhs_ hl hr cl wT wP hcl hh hP
  simp only [Or.Execute, hP, hT]
  rcases r with e | ⟨a, b⟩
  · exact GoodRun_mk _ _ _ _ _ _ _ (h1e e rfl) h2 h3 h4
  · simp only
    cases IsTrue a <;> cases IsTrue b <;> exact GoodRun_mk _ _ _ _ _ _ _ rfl h2 h3 h4

theorem And_ticked {eT eP : Executable} (lhs_ rhs_ : Option Statement)
    (hl : ∀ a, lhs_ = some a → TickedWithin eT eP a)
    (hr : ∀ a, rhs_ = some a → TickedWithin eT eP a) (cl : Closure) (wT wP : World)
    (hcl : NoInstance cl = true) (hh : wT.heap = wP.heap) :
    GoodRun (nodesOption lhs_ + nodesOption rhs_) (And.Execute eT lhs_ rhs_ cl wT)
      (And.Execute eP lhs_ rhs_ cl wP) wT wP := by
  rcases hP : BinaryOperation.operands eP lhs_ rhs_ cl wP with ⟨r, cl1, wP1⟩
  obtain ⟨wT1, hT, h3, h4, h1, h1e, h2⟩ := operands_ticked lhs_ rhs_ hl hr cl wT wP hcl hh hP
  simp only [And.Execute, hP, hT]
  rcases r with e | ⟨a, b⟩
  · exact GoodRun_mk _ _ _ _ _ _ _ (h1e e rfl) h2 h3 h4
  · simp only
    cases IsTrue a <;> cases IsTrue b <;> exact GoodRun_mk _ _ _ _ _ _ _ rfl h2 h3 h4

theorem Comparison_ticked {eT eP : Executable} (cmp_ : Comparator) (lhs_ rhs_ : Option Statement)
    (hl : ∀ a, lhs_ = some a → TickedWithin eT eP a)
    (hr : ∀ a, rhs_ = some a → TickedWithin eT eP a) (cl : Closure) (wT wP : World)
    (hcl : NoInstance cl = true) (hh : wT.heap = wP.heap) :
    GoodRun (nodesOption lhs_ + nodesOption rhs_) (Comparison.Execute eT cmp_ lhs_ rhs_ cl wT)
      (Comparison.Execute eP cmp_ lhs_ rhs_ cl wP) wT wP := by
  rcases hP : BinaryOperation.operands eP lhs_ rhs_ cl wP with ⟨r, cl1, wP1⟩
  obtain ⟨wT1, hT, h3, h4, h1, h1e, h2⟩ := operands_ticked lhs_ rhs_ hl hr cl wT wP hcl hh hP
  simp only [Comparison.Execute, hP, hT]
  rcases r with e | ⟨a, b⟩
  · exact GoodRun_mk _ _ _ _ _ _ _ (h1e e rfl) h2 h3 h4
  · obtain ⟨rc, hrc, hcmp⟩ := callComparator_no_instance cmp_ a b (h1 a b rfl).1
    simp only [hcmp]
    rcases rc with x | res
    · exact GoodRun_mk _ _ _ _ _ _ _ (hrc x rfl) h2 h3 h4
    · exact GoodRun_mk _ _ _ _ _ _ _ rfl h2 h3 h4


theorem IfElse_ticked {eT eP : Executable} (condition_ if_body_ : Statement)
    (else_body_ : Option Statement) (hc : TickedWithin eT eP condition_)
    (ht : TickedWithin eT eP if_body_) (he : ∀ a, else_body_ = some a → TickedWithin eT eP a)
    (cl : Closure) (wT wP : World) (hcl : NoInstance cl = true) (hh : wT.heap = wP.heap) :
    GoodRun (condition_.nodes + if_body_.nodes + nodesOption else_body_)
      (IfElse.Execute eT condition_ if_body_ else_body_ cl wT)
      (IfElse.Execute eP condition_ if_body_ else_body_ cl wP) wT wP := by
  rcases hP : eP condition_ cl wP with ⟨r, cl1, wP1⟩
  obtain ⟨wT1, hT, h3, h4, h1, h2⟩ := TickedWithin_apply hc hcl hh hP
  simp only [IfElse.Execute, hP, hT]
  rcases r with e | c
  · exact GoodRun_mk _ _ _ _ _ _ _ h1 h2 h3 (by omega)
  · simp only
    cases IsTrue c
    · simp only [Bool.false_eq_true, if_false]
      cases else_body_ with
      | none => exact GoodRun_mk _ _ _ _ _ _ _ rfl h2 h3 (by omega)
      | some else_body =>
        simp only
        obtain ⟨g1, g2, g3, g4, g5, g6⟩ := he else_body rfl cl1 wT1 wP1 h2 h3
        refine ⟨g1, g2, g3, g4, g5, ?_⟩
        simp only [nodesOption]
        omega
    · simp only [if_true]
      obtain ⟨g1, g2, g3, g4, g5, g6⟩ := ht cl1 wT1 wP1 h2 h3
      exact ⟨g1, g2, g3, g4, g5, by omega⟩

theorem Compound_ticked {eT eP : Executable} :
    ∀ (statements_ : List Statement), (∀ a ∈ statements_, TickedWithin eT eP a) →
      ∀ (cl : Closure) (wT wP : World), NoInstance cl = true → wT.heap = wP.heap →
        GoodRun (nodesList statements_) (Compound.Execute eT statements_ cl wT)
          (Compound.Execute eP statements_ cl wP) wT wP := by
  intro statements_
  induction statements_ with
  | nil =>
    intro _ cl wT wP hcl hh
    exact GoodRun_mk _ _ _ _ _ _ _ rfl hcl hh (by omega)
  | cons statement rest ih =>
    intro hall cl wT wP hcl hh
    rcases hP : eP statement cl wP with ⟨r, cl1, wP1⟩
    obtain ⟨wT1, hT, h3, h4, h1, h2⟩ :=
      TickedWithin_apply (hall statement (List.mem_cons_self _ _)) hcl hh hP
    simp only [Compound.Execute, hP, hT, nodesList]
    rcases r with e | v
    · exact GoodRun_mk _ _ _ _ _ _ _ h1 h2 h3 (by omega)
    · simp only
      obtain ⟨g1, g2, g3, g4, g5, g6⟩ :=
        ih (fun a ha => hall a (List.mem_cons_of_mem _ ha)) cl1 wT1 wP1 h2 h3
      exact ⟨g1, g2, g3, g4, g5, by omega⟩

/-- Printing an object that is not an instance calls nothing and writes its text. -/
theorem Object_Print_no_instance (o : Object) (ho : TryAsClassInstance (some o) = none) :
    ∃ t : String, ∀ (e : Executable) (fuel : Nat) (w : World),
      Object.Print e (fuel + 1) o w = (.ok (), w.write t) := by
  cases o with
  | number v => exact ⟨toString v, fun _ _ _ => rfl⟩
  | string v => exact ⟨v, fun _ _ _ => rfl⟩
  | bool v => exact ⟨if v then "True" else "False", fun _ _ _ => rfl⟩
  | cls c =>
    exact ⟨"Class " ++ c.GetName, fun _ _ w => by
      simp [Object.Print, World.write, String.append_assoc]⟩
  | classInstance a => simp [TryAsClassInstance] at ho

theorem Print_loop_ticked {eT eP : Executable} (fuel : Nat) :
    ∀ (args : List Statement), (∀ a ∈ args, TickedWithin eT eP a) →
      ∀ (first : Bool) (obj : ObjectHolder) (cl : Closure) (wT wP : World),
        TryAsClassInstance obj = none → NoInstance cl = true → wT.heap = wP.heap →
        GoodRun (nodesList args) (Print.loop eT (fuel + 1) args first obj cl wT)
          (Print.loop eP (fuel + 1) args first obj cl wP) wT wP := by
  intro args
  induction args with
  | nil =>
    intro _ first obj cl wT wP hobj hcl hh
    exact GoodRun_mk _ _ _ _ _ _ _ (by simp [EndsProperly, hobj]) hcl hh (by omega)
  | cons arg rest ih =>
    intro hall first obj cl wT wP hobj hcl hh
    have hsepH : (if first = true then wT else wT.write " ").heap
        = (if first = true then wP else wP.write " ").heap := by
      cases first
      · exact hh
      · exact hh
    have hsepL : (if first = true then wT else wT.write " ").output.length + wP.output.length
        = (if first = true then wP else wP.write " ").output.length + wT.output.length := by
      cases first
      · simp only [Bool.false_eq_true, if_false, write_length]
        omega
      · simp only [if_true]
        omega
    rcases hP : eP arg cl (if first = true then wP else wP.write " ") with ⟨r, cl1, wP1⟩
    obtain ⟨wT1, hT, h3, h4, h1, h2⟩ :=
      TickedWithin_apply (hall arg (List.mem_cons_self _ _)) hcl hsepH hP
    simp only [Print.loop, hP, hT, nodesList]
    rcases r with e | (_ | o)
    · exact GoodRun_mk _ _ _ _ _ _ _ h1 h2 h3 (by omega)
    · simp only
      obtain ⟨g1, g2, g3, g4, g5, g6⟩ :=
        ih (fun a ha => hall a (List.mem_cons_of_mem _ ha)) false none cl1
          (wT1.write "None") (wP1.write "None") rfl h2 h3
      refine ⟨g1, g2, g3, g4, g5, ?_⟩
      simp only [write_length] at g6
      omega
    · have ho : TryAsClassInstance (some o) = none := EndsProperly_ok _ h1
      obtain ⟨t, ht⟩ := Object_Print_no_instance o ho
      simp only [ht]
      obtain ⟨g1, g2, g3, g4, g5, g6⟩ :=
        ih (fun a ha => hall a (List.mem_cons_of_mem _ ha)) false (some o) cl1
          (wT1.write t) (wP1.write t) ho h2 h3
      refine ⟨g1, g2, g3, g4, g5, ?_⟩
      simp only [write_length] at g6
      omega

theorem Print_ticked {eT eP : Executable} (fuel : Nat) (args_ : List Statement)
    (hall : ∀ a ∈ args_, TickedWithin eT eP a) (cl : Closure) (wT wP : World)
    (hcl : NoInstance cl = true) (hh : wT.heap = wP.heap) :
    GoodRun (nodesList args_) (Print.Execute eT (fuel + 1) args_ cl wT)
      (Print.Execute eP (fuel + 1) args_ cl wP) wT wP := by
  obtain ⟨g1, g2, g3, g4, g5, g6⟩ :=
    Print_loop_ticked fuel args_ hall true none cl wT wP rfl hcl hh
  rcases hP : Print.loop eP (fuel + 1) args_ true none cl wP with ⟨r, cl1, wP1⟩
  rcases hT : Print.loop eT (fuel + 1) args_ true none cl wT with ⟨rT, clT, wT1⟩
  rw [hP, hT] at g3 g4 g5 g6
  rw [hP] at g1 g2
  simp only at g1 g2 g3 g4 g5 g6
  subst g3 g4
  simp only [Print.Execute, hP, hT]
  rcases rT with e | v
  · exact GoodRun_mk _ _ _ _ _ _ _ g1 g2 g5 g6
  · refine GoodRun_mk _ _ _ _ _ _ _ g1 g2 g5 ?_
    simp only [write_length]
    omega

theorem Stringify_ticked {eT eP : Executable} (fuel : Nat) (argument : Statement)
    (h : TickedWithin eT eP argument) (cl : Closure) (wT wP : World)
    (hcl : NoInstance cl = true) (hh : wT.heap = wP.heap) :
    GoodRun argument.nodes (Stringify.Execute eT (fuel + 1) (some argument) cl wT)
      (Stringify.Execute eP (fuel + 1) (some argument) cl wP) wT wP := by
  rcases hP : eP argument cl wP with ⟨r, cl1, wP1⟩
  obtain ⟨wT1, hT, h3, h4, h1, h2⟩ := TickedWithin_apply h hcl hh hP
  simp only [Stringify.Execute, hP, hT]
  rcases r with e | (_ | o)
  · exact GoodRun_mk _ _ _ _ _ _ _ h1 h2 h3 h4
  · exact GoodRun_mk _ _ _ _ _ _ _ rfl h2 h3 h4
  · have ho : TryAsClassInstance (some o) = none := EndsProperly_ok _ h1
    obtain ⟨t, ht⟩ := Object_Print_no_instance o ho
    simp only [ht, h3]
    exact GoodRun_mk _ _ _ _ _ _ _ rfl h2 rfl h4

theorem VariableValue_ticked (dotted_ids_ : List String) (hne : dotted_ids_ ≠ [])
    (cl : Closure) (wT wP : World) (hcl : NoInstance cl = true) (hh : wT.heap = wP.heap) :
    GoodRun 0 (VariableValue.Execute dotted_ids_ cl wT) (VariableValue.Execute dotted_ids_ cl wP)
      wT wP := by
  cases dotted_ids_ with
  | nil => exact absurd rfl hne
  | cons id rest =>
    simp only [VariableValue.Execute, VariableValue.walk]
    cases hf : assocFind id cl with
    | none => exact GoodRun_mk _ _ _ _ _ _ _ rfl hcl hh (by omega)
    | some v =>
      have hv := NoInstance_find id v cl hcl hf
      simp only [hv]
      exact GoodRun_mk _ _ _ _ _ _ _ (by simp [EndsProperly, hv]) hcl hh (by omega)

theorem GoodRun_tick (k : Nat) (rT rP : Outcome) (wT wP : World)
    (h : GoodRun k rT rP (wT.write "#") wP) : GoodRun (k + 1) rT rP wT wP := by
  obtain ⟨g1, g2, g3, g4, g5, g6⟩ := h
  refine ⟨g1, g2, g3, g4, g5, ?_⟩
  simp only [write_length] at g6
  have : ("#" : String).length = 1 := rfl
  omega

theorem depth_pos (s : Statement) : 1 ≤ s.depth := by
  cases s <;> simp [Statement.depth]

theorem callFreeList_mem : ∀ (l : List Statement), callFreeList l = true →
    ∀ a ∈ l, a.CallFree = true := by
  intro l
  induction l with
  | nil => intro _ a ha; simp at ha
  | cons s rest ih =>
    intro h a ha
    simp only [callFreeList, Bool.and_eq_true] at h
    rcases List.mem_cons.mp ha with rfl | hmem
    · exact h.1
    · exact ih h.2 a hmem

theorem depthList_mem : ∀ (l : List Statement) (a : Statement), a ∈ l → a.depth ≤ depthList l := by
  intro l
  induction l with
  | nil => intro a ha; simp at ha
  | cons s rest ih =>
    intro a ha
    simp only [depthList]
    rcases List.mem_cons.mp ha with rfl | hmem
    · exact Nat.le_max_left _ _
    · exact Nat.le_trans (ih a hmem) (Nat.le_max_right _ _)

theorem option_child {eT eP : Executable} {n : Nat}
    (ih : ∀ s : Statement, s.CallFree = true → s.depth ≤ n → TickedWithin eT eP s)
    (o : Option Statement) (hf : callFreeOption o = true) (hd : depthOption o ≤ n) :
    ∀ a, o = some a → TickedWithin eT eP a := by
  intro a ha
  subst ha
  exact ih a hf hd

theorem list_child {eT eP : Executable} {n : Nat}
    (ih : ∀ s : Statement, s.CallFree = true → s.depth ≤ n → TickedWithin eT eP s)
    (l : List Statement) (hf : callFreeList l = true) (hd : depthList l ≤ n) :
    ∀ a ∈ l, TickedWithin eT eP a :=
  fun a ha => ih a (callFreeList_mem l hf a ha) (Nat.le_trans (depthList_mem l a ha) hd)

/-- On a call-free tree, with fuel for its depth and in a closure without instances, the
evaluator with marks and the evaluator agree, up to at most one mark per node. -/
theorem ExecuteTicked_within : ∀ (n : Nat) (s : Statement), s.CallFree = true → s.depth ≤ n →
    TickedWithin (ExecuteTicked n) (Execute n) s := by
  intro n
  induction n with
  | zero =>
    intro s _ hdepth
    have := depth_pos s
    omega
  | succ n ih =>
    intro s hfree hdepth cl wT wP hcl hh
    show GoodRun s.nodes (dispatch (ExecuteTicked n) n s cl (wT.write "#"))
      (Execute (n + 1) s cl wP) wT wP
    rw [dispatch_Execute]
    cases s with
    | NumericConst v =>
      exact GoodRun_tick _ _ _ _ _ (GoodRun_mk _ _ _ _ _ _ _ rfl hcl hh (by omega))
    | StringConst v =>
      exact GoodRun_tick _ _ _ _ _ (GoodRun_mk _ _ _ _ _ _ _ rfl hcl hh (by omega))
    | BoolConst v =>
      exact GoodRun_tick _ _ _ _ _ (GoodRun_mk _ _ _ _ _ _ _ rfl hcl hh (by omega))
    | None =>
      exact GoodRun_tick _ _ _ _ _ (GoodRun_mk _ _ _ _ _ _ _ rfl hcl hh (by omega))
    | VariableValue dotted_ids_ =>
      have hne : dotted_ids_ ≠ [] := by
        intro h0
        subst h0
        simp [Statement.CallFree] at hfree
      exact GoodRun_tick _ _ _ _ _ (VariableValue_ticked dotted_ids_ hne cl _ wP hcl hh)
    | Assignment var_ rv_ =>
      simp only [Statement.CallFree] at hfree
      simp only [Statement.depth] at hdepth
      exact GoodRun_tick _ _ _ _ _
        (Assignment_ticked var_ rv_ (ih rv_ hfree (by omega)) cl _ wP hcl hh)
    | FieldAssignment object_ field_name_ rv_ => simp [Statement.CallFree] at hfree
    | NewInstance class_inst_ class_ args_ => simp [Statement.CallFree] at hfree
    | MethodCall object_ method_name_ args_ => simp [Statement.CallFree] at hfree
    | Compound statements_ =>
      simp only [Statement.CallFree] at hfree
      simp only [Statement.depth] at hdepth
      exact GoodRun_tick _ _ _ _ _
        (Compound_ticked statements_ (list_child ih statements_ hfree (by omega)) cl _ wP hcl hh)
    | Return statement_ =>
      simp only [Statement.CallFree] at hfree
      simp only [Statement.depth] at hdepth
      exact GoodRun_tick _ _ _ _ _
        (Return_ticked statement_ (ih statement_ hfree (by omega)) cl _ wP hcl hh)
    | MethodBody body_ => simp [Statement.CallFree] at hfree
    | ClassDefinition cls_ => simp [Statement.CallFree] at hfree
    | Print args_ =>
      simp only [Statement.CallFree] at hfree
      simp only [Statement.depth] at hdepth
      exact GoodRun_tick _ _ _ _ _
        (Print_ticked n args_ (list_child ih args_ hfree (by omega)) cl _ wP hcl hh)
    | Stringify argument_ =>
      simp only [Statement.CallFree, Bool.and_eq_true] at hfree
      simp only [Statement.depth] at hdepth
      cases argument_ with
      | none => simp at hfree
      | some argument =>
        exact GoodRun_tick _ _ _ _ _
          (Stringify_ticked n argument (ih argument hfree.2 (by simpa [depthOption] using hdepth))
            cl _ wP hcl hh)
    | Add lhs_ rhs_ =>
      simp only [Statement.CallFree, Bool.and_eq_true] at hfree
      simp only [Statement.depth] at hdepth
      exact GoodRun_tick _ _ _ _ _ (Add_ticked lhs_ rhs_
        (option_child ih lhs_ hfree.1 (by omega)) (option_child ih rhs_ hfree.2 (by omega))
        cl _ wP hcl hh)
    | Sub lhs_ rhs_ =>
      simp only [Statement.CallFree, Bool.and_eq_true] at hfree
      simp only [Statement.depth] at hdepth
      exact GoodRun_tick _ _ _ _ _ (Sub_ticked lhs_ rhs_
        (option_child ih lhs_ hfree.1 (by omega)) (option_child ih rhs_ hfree.2 (by omega))
        cl _ wP hcl hh)
    | Mult lhs_ rhs_ =>
      simp only [Statement.CallFree, Bool.and_eq_true] at hfree
      simp only [Statement.depth] at hdepth
      exact GoodRun_tick _ _ _ _ _ (Mult_ticked lhs_ rhs_
        (option_child ih lhs_ hfree.1 (by omega)) (option_child ih rhs_ hfree.2 (by omega))
        cl _ wP hcl hh)
    | Div lhs_ rhs_ =>
      simp only [Statement.CallFree, Bool.and_eq_true] at hfree
      simp only [Statement.depth] at hdepth
      exact GoodRun_tick _ _ _ _ _ (Div_ticked lhs_ rhs_
        (option_child ih lhs_ hfree.1 (by omega)) (option_child ih rhs_ hfree.2 (by omega))
        cl _ wP hcl hh)
    | Or lhs_ rhs_ =>
      simp only [Statement.CallFree, Bool.and_eq_true] at hfree
      simp only [Statement.depth] at hdepth
      exact GoodRun_tick _ _ _ _ _ (Or_ticked lhs_ rhs_
        (option_child ih lhs_ hfree.1 (by omega)) (option_child ih rhs_ hfree.2 (by omega))
        cl _ wP hcl hh)
    | And lhs_ rhs_ =>
      simp only [Statement.CallFree, Bool.and_eq_true] at hfree
      simp only [Statement.depth] at hdepth
      exact GoodRun_tick _ _ _ _ _ (And_ticked lhs_ rhs_
        (option_child ih lhs_ hfree.1 (by omega)) (option_child ih rhs_ hfree.2 (by omega))
        cl _ wP hcl hh)
    | Not argument_ =>
      simp only [Statement.CallFree] at hfree
      simp only [Statement.depth] at hdepth
      exact GoodRun_tick _ _ _ _ _
        (Not_ticked argument_ (option_child ih argument_ hfree (by omega)) cl _ wP hcl hh)
    | Comparison cmp_ lhs_ rhs_ =>
      simp only [Statement.CallFree, Bool.and_eq_true] at hfree
      simp only [Statement.depth] at hdepth
      exact GoodRun_tick _ _ _ _ _ (Comparison_ticked cmp_ lhs_ rhs_
        (option_child ih lhs_ hfree.1 (by omega)) (option_child ih rhs_ hfree.2 (by omega))
        cl _ wP hcl hh)
    | IfElse condition_ if_body_ else_body_ =>
      simp only [Statement.CallFree, Bool.and_eq_true] at hfree
      simp only [Statement.depth] at hdepth
      exact GoodRun_tick _ _ _ _ _ (IfElse_ticked condition_ if_body_ else_body_
        (ih condition_ hfree.1.1 (by omega)) (ih if_body_ hfree.1.2 (by omega))
        (option_child ih else_body_ hfree.2 (by omega)) cl _ wP hcl hh)

/-- Claim C35. For a call-free tree `s`, a closure without class instances and fuel `n` of at
least the depth of `s`: the evaluation ends with a value, a `runtime_error` or the exception of a
`return` (it neither runs out of fuel nor dereferences a null pointer), with the same outcome for
every such fuel, and the closure still holds no instance. The evaluator that writes a mark
whenever it enters a node has the same result, closure and heap, and writes at most `s.nodes`
marks: no more visits than the tree has nodes. -/
theorem call_free_terminates (s : Statement) (cl : Closure) (w : World) (n : Nat)
    (hfree : s.CallFree = true) (hcl : NoInstance cl = true) (hn : s.depth ≤ n) :
    ((∃ v, (Execute n s cl w).1 = .ok v) ∨
      (∃ m, (Execute n s cl w).1 = .error (.runtime_error m)) ∨
      (∃ o, (Execute n s cl w).1 = .error (.RuntimeReturnExeption o))) ∧
    Execute n s cl w = Execute s.depth s cl w ∧
    NoInstance (Execute n s cl w).2.1 = true ∧
    (ExecuteTicked n s cl w).1 = (Execute n s cl w).1 ∧
    (ExecuteTicked n s cl w).2.1 = (Execute n s cl w).2.1 ∧
    (ExecuteTicked n s cl w).2.2.heap = (Execute n s cl w).2.2.heap ∧
    (ExecuteTicked n s cl w).2.2.output.length
      ≤ (Execute n s cl w).2.2.output.length + s.nodes := by
  have hproper : ∀ k, s.depth ≤ k → EndsProperly (Execute k s cl w).1 = true :=
    fun k hk => (ExecuteTicked_within k s hfree hk cl w w hcl rfl).1
  obtain ⟨g1, g2, g3, g4, g5, g6⟩ := ExecuteTicked_within n s hfree hn cl w w hcl rfl
  refine ⟨?_, ?_, g2, g3, g4, g5, by omega⟩
  · rcases hr : (Execute n s cl w).1 with e | v
    · rw [hr] at g1
      cases e with
      | runtime_error m => exact Or.inr (Or.inl ⟨m, rfl⟩)
      | RuntimeReturnExeption o => exact Or.inr (Or.inr ⟨o, rfl⟩)
      | undefinedBehaviour => simp [EndsProperly] at g1
      | outOfFuel => simp [EndsProperly] at g1
    · exact Or.inl ⟨v, rfl⟩
  · apply Execute_mono s.depth n hn s cl w
    intro hout
    have := hproper s.depth (Nat.le_refl _)
    rw [hout] at this
    simp [EndsProperly] at this

/-- Witness for C35: the program `x = 1 + 2` / `if x < 5: print x, "a"` has depth 4 and 12 nodes;
with fuel 4 it prints `3 a`, and the evaluator with marks writes 12 marks. -/
theorem call_free_terminates_witness :
    Execute 4 callFreeProgram [] (World.mk [] "")
        = (.ok none, [("x", some (.number 3))], World.mk [] "3 a\n") ∧
    callFreeProgram.depth = 4 ∧ callFreeProgram.nodes = 12 ∧
    (ExecuteTicked 4 callFreeProgram [] (World.mk [] "")).2.2.output = "###########3 #a\n" ∧
    (ExecuteTicked 4 callFreeProgram [] (World.mk [] "")).2.2.output.length
      ≤ (Execute 4 callFreeProgram [] (World.mk [] "")).2.2.output.length + callFreeProgram.nodes :=
  ⟨rfl, rfl, rfl, rfl,
    (call_free_terminates callFreeProgram [] (World.mk [] "") 4 rfl rfl (by decide)).2.2.2.2.2.2⟩

end Mython
